import Mathlib

/-! Ingest core of the SRS adapter layer.

Shallow embedding of

* `components/fec/fec_group_buffer.{hpp,cpp}` (FEC group buffer, GF(2^8) tables,
  XOR and Reed-Solomon repair, repair manager),
* `components/reorder/reorder_buffer.{hpp,cpp}` (reorder buffer and TS alignment),
* `adapters/myproto_adapter.{hpp,cpp}` (framed-protocol adapter),
* `components/frame/jitter_buffer.hpp` (jitter buffer),
* `common/std_frame.hpp` and `components/parameter/parameter_set_manager.hpp`
  (standard frame, parameter-set manager),
* `adapters/quic_fec_ts_adapter.{hpp,cpp}` (protocol detection of the QUIC adapter),
* `components/quic/quic_udp_handler.{hpp,cpp}` (UDP dispatcher and its sessions),

followed by the theorems about them.

Conventions: a byte is a `Nat` below 256, a byte buffer a `List Nat`; a
`std::map` is the list of its entries in ascending key order; unsigned machine
arithmetic is written with an explicit `% 2 ^ w`; `int64_t` values are `Int`
(signed overflow is undefined behaviour in the source and is not modelled);
an `srs_error_t` result is `Except SrsError _`.
-/

namespace SrsAdapter

/-! ## Errors and the ordered map -/

/-- The error sites of the embedded code, one constructor per `srs_error_new` message. -/
inductive SrsError where
  | parityIndexOutOfRange
  | dataIndexOutOfRange
  | notEnoughBlocks
  | blockSizeMismatch
  | noBlocksToRepair
  | xorCannotRepair
  | notEnoughParity
  | noMissingBlocks
  | notEnoughAvailable
  | matrixRhsSizeMismatch
  | singularMatrix
  | cannotRepair
  | reorderBufferFull
  | invalidMagic
  | payloadTooLarge
  | fecGroupBufferFull
  | createAdapterFailed
  | adapterFeedFailed
  deriving DecidableEq, Repr

deriving instance DecidableEq for Except

/-- Lookup `std::map::find`: the value stored under `key`, if any. -/
def mapFind {β : Type} (key : Nat) : List (Nat × β) → Option β
  | [] => none
  | (k, v) :: rest => if k = key then some v else mapFind key rest

/-- Insertion `m[key] = v` for a key that `find` did not locate: the entry goes to its
place in ascending key order (an equal key is overwritten). -/
def mapInsert {β : Type} (key : Nat) (v : β) : List (Nat × β) → List (Nat × β)
  | [] => [(key, v)]
  | (k, w) :: rest =>
    if key < k then (key, v) :: (k, w) :: rest
    else if key = k then (key, v) :: rest
    else (k, w) :: mapInsert key v rest

/-- Removal `std::map::erase(key)`. -/
def mapErase {β : Type} (key : Nat) (m : List (Nat × β)) : List (Nat × β) :=
  m.filter (fun e => decide (e.1 ≠ key))

/-- The keys of a map, in iteration order. -/
def mapKeys {β : Type} (m : List (Nat × β)) : List Nat := m.map Prod.fst

/-- Traversal with early exit: apply `f` to the elements in order and stop at the first
error (a loop whose body may `return` an error). -/
def mapExcept {α β ε : Type} (f : α → Except ε β) : List α → Except ε (List β)
  | [] => .ok []
  | x :: xs =>
    match f x with
    | .error e => .error e
    | .ok y =>
      match mapExcept f xs with
      | .error e => .error e
      | .ok ys => .ok (y :: ys)

/-- Unsigned 32-bit subtraction. -/
def sub32 (a b : Nat) : Nat := (a + 2 ^ 32 - b % 2 ^ 32) % 2 ^ 32

/-- Unsigned 64-bit subtraction (`size_t`). -/
def sub64 (a b : Nat) : Nat := (a + 2 ^ 64 - b % 2 ^ 64) % 2 ^ 64

/-! ## GF(2^8) tables (`init_gf_tables`, `gf_mul_fast`, `gf_inv`) -/

/-- The update `val = (val << 1) ^ ((val & 0x80) ? 0x1D : 0)` on a `uint8_t`. -/
def gf_step (val : Nat) : Nat :=
  ((val <<< 1) ^^^ (if val &&& 0x80 ≠ 0 then 0x1D else 0)) % 256

/-- The two file-static tables. -/
structure GfTables where
  gf_log_table : List Nat
  gf_exp_table : List Nat
  deriving DecidableEq, Repr

/-- The loop `for (i = 1; i < 255; i++)` of `init_gf_tables`; the first argument counts
the remaining iterations. -/
def init_exp_loop : Nat → Nat → Nat → GfTables → GfTables
  | 0, _, _, t => t
  | cnt + 1, i, val, t =>
    let val1 := gf_step val
    init_exp_loop cnt (i + 1) val1
      { gf_exp_table := t.gf_exp_table.set i val1
        gf_log_table := t.gf_log_table.set val1 i }

/-- The loop `for (i = 255; i < 512; i++) gf_exp_table[i] = gf_exp_table[i - 255]`. -/
def init_copy_loop : Nat → Nat → List Nat → List Nat
  | 0, _, e => e
  | cnt + 1, i, e => init_copy_loop cnt (i + 1) (e.set i (e.getD (i - 255) 0))

/-- Table construction `init_gf_tables`, from zero-initialised static storage. -/
def init_gf_tables : GfTables :=
  let t0 : GfTables :=
    { gf_log_table := List.replicate 256 0
      gf_exp_table := (List.replicate 512 0).set 0 1 }
  let t1 := init_exp_loop 254 1 1 t0
  let e1 := t1.gf_exp_table.set 255 (t1.gf_exp_table.getD 0 0)
  let e2 := init_copy_loop 257 255 e1
  { gf_exp_table := e2
    gf_log_table := t1.gf_log_table.set 0 255 }

/-- The table `gf_exp_table[512]` after initialisation. -/
def gf_exp_table : List Nat := init_gf_tables.gf_exp_table

/-- The table `gf_log_table[256]` after initialisation. -/
def gf_log_table : List Nat := init_gf_tables.gf_log_table

/-- Table multiplication `gf_mul_fast`. -/
def gf_mul_fast (a b : Nat) : Nat :=
  if a = 0 ∨ b = 0 then 0
  else if a = 1 then b
  else if b = 1 then a
  else
    let sum := gf_log_table.getD a 0 + gf_log_table.getD b 0
    let sum1 := if sum ≥ 255 then sum - 255 else sum
    gf_exp_table.getD sum1 0

/-- Table inverse `gf_inv`. -/
def gf_inv (a : Nat) : Nat :=
  if a = 0 then 0
  else if a = 1 then 1
  else gf_exp_table.getD (255 - gf_log_table.getD a 0) 0

/-- The static member `FecGroupBuffer::gf_mul`. -/
def gf_mul (a b : Nat) : Nat := gf_mul_fast a b

/-! ## FEC blocks and groups -/

/-- The struct `FecBlock`; `data` carries `data_size` as its length. -/
structure FecBlock where
  group_id : Nat
  block_index : Nat
  data : List Nat
  is_parity : Bool
  timestamp_ms : Int
  received : Bool
  seq_num : Nat
  is_keyframe : Bool
  deriving DecidableEq, Repr

/-- The struct `FecGroupConfig`. -/
structure FecGroupConfig where
  k : Nat
  n : Nat
  repair_deadline_ms : Int
  enable_keyframe_relax : Bool
  deriving DecidableEq, Repr

/-- The class `FecGroupBuffer`: `blocks_` is the `std::map` from normalised index to block. -/
structure FecGroupBuffer where
  group_id_ : Nat
  config_ : FecGroupConfig
  blocks_ : List (Nat × FecBlock)
  create_time_ms_ : Int
  deriving DecidableEq, Repr

namespace FecGroupBuffer

/-- The constructor; `now_ms` is the cached clock in milliseconds. -/
def new (group_id : Nat) (config : FecGroupConfig) (now_ms : Int) : FecGroupBuffer :=
  { group_id_ := group_id, config_ := config, blocks_ := [], create_time_ms_ := now_ms }

/-- The method `add_block`: an error leaves the group as it was, so only the success
case carries a state. -/
def add_block (g : FecGroupBuffer) (block_index : Nat) (data : List Nat) (is_parity : Bool)
    (timestamp_ms : Int) (seq_num : Nat) (is_keyframe : Bool) :
    Except SrsError FecGroupBuffer :=
  if is_parity ∧ block_index ≥ sub32 g.config_.n g.config_.k then
    .error .parityIndexOutOfRange
  else if ¬ is_parity ∧ block_index ≥ g.config_.k then
    .error .dataIndexOutOfRange
  else
    let idx := if is_parity then (g.config_.k + block_index) % 2 ^ 32 else block_index
    match mapFind idx g.blocks_ with
    | some _ => .ok g
    | none =>
      let block : FecBlock :=
        { group_id := g.group_id_, block_index := idx, data := data, is_parity := is_parity,
          timestamp_ms := timestamp_ms, received := true, seq_num := seq_num,
          is_keyframe := is_keyframe }
      .ok { g with blocks_ := mapInsert idx block g.blocks_ }

/-- The method `is_complete`. -/
def is_complete (g : FecGroupBuffer) : Bool :=
  decide ((g.blocks_.filter (fun e => !e.2.is_parity)).length ≥ g.config_.k)

/-- The method `has_enough_blocks_for_repair`. -/
def has_enough_blocks_for_repair (g : FecGroupBuffer) : Bool :=
  decide (g.blocks_.length ≥ g.config_.k)

/-- The method `can_repair`. -/
def can_repair (g : FecGroupBuffer) : Bool :=
  if g.is_complete then true else g.has_enough_blocks_for_repair

/-- The method `get_received_count`. -/
def get_received_count (g : FecGroupBuffer) : Nat := g.blocks_.length

/-- The method `is_expired`. -/
def is_expired (g : FecGroupBuffer) (current_time_ms : Int) : Bool :=
  decide (current_time_ms - g.create_time_ms_ > g.config_.repair_deadline_ms)

/-- The method `get_missing_blocks`: the indices below `k` that are absent or hold a
parity block. -/
def get_missing_blocks (g : FecGroupBuffer) : List Nat :=
  (List.range g.config_.k).filter fun i =>
    match mapFind i g.blocks_ with
    | none => true
    | some b => b.is_parity

/-- The size scan that opens `repair_xor` and `repair_rs`: `none` is the
"Block size mismatch" return, `some s` the final `block_size`. -/
def scan_block_size : Nat → List (Nat × FecBlock) → Option Nat
  | bs, [] => some bs
  | bs, e :: rest =>
    if bs = 0 then scan_block_size e.2.data.length rest
    else if e.2.data.length ≠ bs then none
    else scan_block_size bs rest

/-- The local vector `parity_blocks`. -/
def parity_blocks (g : FecGroupBuffer) : List FecBlock :=
  (g.blocks_.filter (fun e => e.2.is_parity)).map Prod.snd

/-- The local vector `data_blocks`. -/
def data_blocks (g : FecGroupBuffer) : List FecBlock :=
  (g.blocks_.filter (fun e => !e.2.is_parity)).map Prod.snd

/-- The local vector `available_indices`. -/
def available_indices (g : FecGroupBuffer) : List Nat :=
  g.data_blocks.map FecBlock.block_index

/-- The copy made of a received data block when it is handed out. -/
def copy_block (b : FecBlock) : FecBlock :=
  { group_id := b.group_id, block_index := b.block_index, data := b.data, is_parity := false,
    timestamp_ms := b.timestamp_ms, received := true, seq_num := b.seq_num,
    is_keyframe := b.is_keyframe }

/-- Metadata of a reconstructed block: the sequence number extrapolated from the first data
block (64-bit) and the sticky key-frame flag; a fresh `FecBlock` has `seq_num = 0` and
`is_keyframe = false`. -/
def restored_meta (data_blocks : List FecBlock) (missing_idx : Nat) : Nat × Bool :=
  match data_blocks with
  | [] => (0, false)
  | b0 :: _ =>
    ((b0.seq_num +
        (if missing_idx > b0.block_index then sub32 missing_idx b0.block_index else 0)) % 2 ^ 64,
      data_blocks.any (fun b => b.is_keyframe))

/-- Byte-wise XOR of `acc` with `blk` over the first `acc.length` positions
(`restored->data[i] ^= block->data[i]`; a position past the end of `blk` reads 0 here). -/
def xor_into (acc blk : List Nat) : List Nat :=
  (List.range acc.length).map fun i => (acc.getD i 0) ^^^ (blk.getD i 0)

/-- The method `repair_xor`. -/
def repair_xor (g : FecGroupBuffer) : Except SrsError (List FecBlock) :=
  match scan_block_size 0 g.blocks_ with
  | none => .error .blockSizeMismatch
  | some block_size =>
    if block_size = 0 then .error .noBlocksToRepair
    else
      let missing := g.get_missing_blocks
      let parity_blocks := g.parity_blocks
      let data_blocks := g.data_blocks
      match missing, parity_blocks with
      | [missing_idx], parity :: _ =>
        if data_blocks.length = sub32 g.config_.k 1 then
          let m := restored_meta data_blocks missing_idx
          let bytes := data_blocks.foldl (fun acc b => xor_into acc b.data)
            ((List.range block_size).map fun i => parity.data.getD i 0)
          let restored : FecBlock :=
            { group_id := g.group_id_, block_index := missing_idx, data := bytes,
              is_parity := false, timestamp_ms := parity.timestamp_ms, received := true,
              seq_num := m.1, is_keyframe := m.2 }
          .ok (restored :: data_blocks.map copy_block)
        else .error .xorCannotRepair
      | _, _ => .error .xorCannotRepair

/-- The method `build_vandermonde_matrix` (its parameter `block_size` is not used by the
source and is left out): row `i` belongs to the `i`-th stored data index, column `j` to the
`j`-th missing index. -/
def build_vandermonde_matrix (available_indices missing_indices : List Nat) :
    Except SrsError (List (List Nat)) :=
  let num_unknowns := missing_indices.length
  if num_unknowns = 0 then .error .noMissingBlocks
  else
    mapExcept (fun i =>
      if i ≥ available_indices.length then .error .notEnoughAvailable
      else
        let avail_idx := available_indices.getD i 0
        .ok (missing_indices.map fun miss_idx =>
          let power := ((avail_idx * miss_idx) % 2 ^ 32) % 255
          if power = 0 then 1 else gf_exp_table.getD power 0))
      (List.range num_unknowns)

/-- The pivot search of `solve_linear_system`: the first row below `col` whose entry in
column `col` is non-zero, else `col` itself. -/
def find_pivot (aug : List (List Nat)) (col : Nat) : Nat :=
  match ((List.range aug.length).filter fun row =>
      decide (col + 1 ≤ row) && decide ((aug.getD row []).getD col 0 ≠ 0)).head? with
  | some row => row
  | none => col

/-- Exchange `std::swap(aug[col], aug[pivot_row])`. -/
def swap_rows (aug : List (List Nat)) (i j : Nat) : List (List Nat) :=
  (aug.set i (aug.getD j [])).set j (aug.getD i [])

/-- The loop `for (c = col; c <= num_unknowns; c++) row[c] = gf_mul_fast(row[c], f)`. -/
def scale_row (row : List Nat) (col f : Nat) : List Nat :=
  (List.range row.length).map fun c =>
    if col ≤ c then gf_mul_fast (row.getD c 0) f else row.getD c 0

/-- The loop `for (c = col; c <= num_unknowns; c++) row[c] ^= gf_mul_fast(factor, piv[c])`. -/
def eliminate_row (row piv : List Nat) (col factor : Nat) : List Nat :=
  (List.range row.length).map fun c =>
    if col ≤ c then (row.getD c 0) ^^^ gf_mul_fast factor (piv.getD c 0) else row.getD c 0

/-- One pass of the column loop of `solve_linear_system`. -/
def eliminate_column (aug : List (List Nat)) (col : Nat) : Except SrsError (List (List Nat)) :=
  let pivot_row := find_pivot aug col
  let aug1 := if pivot_row ≠ col then swap_rows aug col pivot_row else aug
  let pivot_val := (aug1.getD col []).getD col 0
  if pivot_val = 0 then .error .singularMatrix
  else
    let aug2 :=
      if pivot_val ≠ 1 then aug1.set col (scale_row (aug1.getD col []) col (gf_inv pivot_val))
      else aug1
    let piv := aug2.getD col []
    .ok ((List.range aug2.length).map fun row =>
      let r := aug2.getD row []
      if row = col then r
      else if r.getD col 0 ≠ 0 then eliminate_row r piv col (r.getD col 0)
      else r)

/-- The column loop `for (col = 0; col < num_unknowns; col++)`; the first argument counts
the remaining columns. -/
def eliminate_from : Nat → Nat → List (List Nat) → Except SrsError (List (List Nat))
  | 0, _, aug => .ok aug
  | cnt + 1, col, aug =>
    match eliminate_column aug col with
    | .error e => .error e
    | .ok aug1 => eliminate_from cnt (col + 1) aug1

/-- The body of the byte loop of `solve_linear_system`: build `[A|b]` for one byte position,
reduce it, read the last column. -/
def solve_byte (matrix rhs : List (List Nat)) (num_unknowns byte_pos : Nat) :
    Except SrsError (List Nat) :=
  let aug := (List.range num_unknowns).map fun i =>
    ((List.range num_unknowns).map fun j => (matrix.getD i []).getD j 0) ++
      [(rhs.getD i []).getD byte_pos 0]
  match eliminate_from num_unknowns 0 aug with
  | .error e => .error e
  | .ok r => .ok ((List.range num_unknowns).map fun i => (r.getD i []).getD num_unknowns 0)

/-- The method `solve_linear_system`: the result is the list of the `num_unknowns` solution
buffers, each `block_size` bytes long. -/
def solve_linear_system (matrix rhs : List (List Nat)) (block_size num_unknowns : Nat) :
    Except SrsError (List (List Nat)) :=
  if matrix.length ≠ num_unknowns ∨ rhs.length ≠ num_unknowns then
    .error .matrixRhsSizeMismatch
  else
    match mapExcept (solve_byte matrix rhs num_unknowns) (List.range block_size) with
    | .error e => .error e
    | .ok cols =>
      .ok ((List.range num_unknowns).map fun i =>
        (List.range block_size).map fun p => (cols.getD p []).getD i 0)

/-- The read `buf[p]` through a raw pointer to a buffer of `data.length` bytes. A position
past the end lies outside the buffer (undefined behaviour in the source): the byte found
there is not determined by the program and is supplied by `beyond`. -/
def read_raw (beyond : Nat → Nat) (data : List Nat) (p : Nat) : Nat :=
  if p < data.length then data.getD p 0 else beyond p

/-- The method `repair_rs`. The right-hand side handed to `solve_linear_system` is the list
of the raw pointers `parity_blocks[i]->data`, and the solver reads `rhs[i][byte_pos]` for
every `byte_pos < block_size`, also where a buffer is shorter than `block_size` (leading
zero-length blocks pass the size scan). `beyond i p` is the byte that lies at offset `p`
behind the start of the buffer of the parity block with index `i`, for `p` past its end. -/
def repair_rs_with (beyond : Nat → Nat → Nat) (g : FecGroupBuffer) :
    Except SrsError (List FecBlock) :=
  match scan_block_size 0 g.blocks_ with
  | none => .error .blockSizeMismatch
  | some block_size =>
    if block_size = 0 then .error .noBlocksToRepair
    else
      let parity_blocks := g.parity_blocks
      let data_blocks := g.data_blocks
      let available_indices := g.available_indices
      let missing_indices := g.get_missing_blocks
      if missing_indices.length = 0 then .ok (data_blocks.map copy_block)
      else if parity_blocks.length < missing_indices.length then .error .notEnoughParity
      else
        match build_vandermonde_matrix available_indices missing_indices with
        | .error e => .error e
        | .ok matrix =>
          let rhs := (parity_blocks.take missing_indices.length).map fun b =>
            (List.range block_size).map (read_raw (beyond b.block_index) b.data)
          match solve_linear_system matrix rhs block_size missing_indices.length with
          | .error e => .error e
          | .ok solution =>
            let ts := match parity_blocks with
              | p :: _ => p.timestamp_ms
              | [] => 0
            let restored := (List.range missing_indices.length).map fun i =>
              let missing_idx := missing_indices.getD i 0
              let m := restored_meta data_blocks missing_idx
              ({ group_id := g.group_id_, block_index := missing_idx,
                 data := solution.getD i [], is_parity := false, timestamp_ms := ts,
                 received := true, seq_num := m.1, is_keyframe := m.2 } : FecBlock)
            .ok (restored ++ data_blocks.map copy_block)

/-- The method `repair_rs` in a process whose memory holds zero bytes behind every parity
buffer. Where every parity buffer the solver reads has `block_size` bytes, nothing is read
behind a buffer and this is the result of `repair_rs_with` whatever the memory holds. -/
def repair_rs (g : FecGroupBuffer) : Except SrsError (List FecBlock) :=
  g.repair_rs_with fun _ _ => 0

/-- The method `repair`: the blocks appended to `restored_blocks` on success (nothing is
appended on an error return). The Reed-Solomon path is taken as `repair_rs`. -/
def repair (g : FecGroupBuffer) : Except SrsError (List FecBlock) :=
  if ¬ g.can_repair then .error .notEnoughBlocks
  else if g.is_complete then .ok (g.data_blocks.map copy_block)
  else
    let missing := g.get_missing_blocks
    let total_received := g.blocks_.length
    let num_parity := sub64 total_received (sub64 g.config_.k missing.length)
    let try_rs : Option (List FecBlock) :=
      if missing.length > 0 ∧ missing.length ≤ num_parity ∧ total_received ≥ g.config_.k then
        match g.repair_rs with
        | .ok out => some out
        | .error _ => none
      else none
    match try_rs with
    | some out => .ok out
    | none =>
      if missing.length = 1 then g.repair_xor
      else .error .cannotRepair

end FecGroupBuffer

/-! ## Reorder buffer (`reorder_buffer.{hpp,cpp}`) -/

/-- The constant `SRS_TS_PACKET_SIZE`. -/
def SRS_TS_PACKET_SIZE : Nat := 188

/-- The struct `ReorderBufferConfig`. -/
structure ReorderBufferConfig where
  reorder_window_ms : Int
  enable_keyframe_relax : Bool
  keyframe_relax_ms : Int
  max_buffer_size : Nat
  deriving DecidableEq, Repr

/-- The default configuration of the `ReorderBufferConfig` constructor. -/
def ReorderBufferConfig.default : ReorderBufferConfig :=
  { reorder_window_ms := 200, enable_keyframe_relax := true, keyframe_relax_ms := 100,
    max_buffer_size := 10 * 1024 * 1024 }

/-- The struct `TsPacketFragment`. -/
structure TsPacketFragment where
  data : List Nat
  sequence_number : Nat
  timestamp_ms : Int
  is_keyframe : Bool
  is_complete : Bool
  deriving DecidableEq, Repr

/-- The struct `ReorderBuffer::Stats`; the counters are taken unbounded (a 64-bit counter
stepped by one does not wrap in any run). -/
structure ReorderStats where
  total_packets : Nat
  out_of_order_packets : Nat
  dropped_packets : Nat
  duplicate_packets : Nat
  reordered_packets : Nat
  deriving DecidableEq, Repr

/-- The class `ReorderBuffer`. -/
structure ReorderBuffer where
  config_ : ReorderBufferConfig
  buffer_ : List (Nat × TsPacketFragment)
  expected_sequence_ : Nat
  stats_ : ReorderStats
  deriving DecidableEq, Repr

namespace ReorderBuffer

/-- The constructor. -/
def new (config : ReorderBufferConfig) : ReorderBuffer :=
  { config_ := config, buffer_ := [], expected_sequence_ := 0,
    stats_ := { total_packets := 0, out_of_order_packets := 0, dropped_packets := 0,
                duplicate_packets := 0, reordered_packets := 0 } }

/-- The method `get_buffer_size`: the stored bytes. -/
def get_buffer_size (r : ReorderBuffer) : Nat :=
  (r.buffer_.map fun e => e.2.data.length).sum

/-- The method `has_ready_packets`. -/
def has_ready_packets (r : ReorderBuffer) : Bool :=
  (mapFind r.expected_sequence_ r.buffer_).isSome

/-- The method `clear`. -/
def clear (r : ReorderBuffer) : ReorderBuffer :=
  { r with buffer_ := [], expected_sequence_ := 0 }

/-- The method `set_expected_sequence`. -/
def set_expected_sequence (r : ReorderBuffer) (seq : Nat) : ReorderBuffer :=
  { r with expected_sequence_ := seq }

/-- The method `add_packet`: the returned error (`none` is `srs_success`) and the state
after the call. -/
def add_packet (r : ReorderBuffer) (seq_num : Nat) (data : List Nat) (timestamp_ms : Int)
    (is_keyframe : Bool) : Option SrsError × ReorderBuffer :=
  let st1 := { r.stats_ with total_packets := r.stats_.total_packets + 1 }
  if (mapFind seq_num r.buffer_).isSome then
    (none, { r with stats_ := { st1 with duplicate_packets := st1.duplicate_packets + 1 } })
  else if r.get_buffer_size + data.length > r.config_.max_buffer_size then
    (some .reorderBufferFull,
      { r with stats_ := { st1 with dropped_packets := st1.dropped_packets + 1 } })
  else
    let expected :=
      if r.buffer_.isEmpty ∧ r.expected_sequence_ = 0 then seq_num else r.expected_sequence_
    if seq_num < expected then
      (none, { r with expected_sequence_ := expected
                      stats_ := { st1 with out_of_order_packets := st1.out_of_order_packets + 1 } })
    else
      let fragment : TsPacketFragment :=
        { data := data, sequence_number := seq_num, timestamp_ms := timestamp_ms,
          is_keyframe := is_keyframe,
          is_complete := decide (data.length % SRS_TS_PACKET_SIZE = 0) }
      (none, { r with expected_sequence_ := expected
                      buffer_ := mapInsert seq_num fragment r.buffer_
                      stats_ := st1 })

/-- The method `is_packet_expired`. -/
def is_packet_expired (config : ReorderBufferConfig) (fragment : TsPacketFragment)
    (current_time_ms : Int) : Bool :=
  let age_ms := current_time_ms - fragment.timestamp_ms
  let deadline_ms :=
    if config.enable_keyframe_relax ∧ fragment.is_keyframe then
      config.reorder_window_ms + config.keyframe_relax_ms
    else config.reorder_window_ms
  decide (age_ms > deadline_ms)

/-- The sync search of `align_ts_packets`: the first `i < min(size, 188)` with
`data[i] == 0x47`, else the initial `start_pos = 0`. -/
def find_sync (data : List Nat) : Nat :=
  match (List.range (min data.length 188)).find? (fun i => data.getD i 0 = 0x47) with
  | some i => i
  | none => 0

/-- The loop `while (pos + 188 <= data.size())` of `align_ts_packets`; the first argument
bounds the number of iterations. -/
def split_ts_loop : Nat → Nat → List Nat → List (List Nat)
  | 0, _, _ => []
  | cnt + 1, pos, data =>
    if pos + SRS_TS_PACKET_SIZE ≤ data.length then
      ((data.drop pos).take SRS_TS_PACKET_SIZE) :: split_ts_loop cnt (pos + SRS_TS_PACKET_SIZE) data
    else []

/-- The method `align_ts_packets` (it always returns `srs_success`): the aligned packets. -/
def align_ts_packets (data : List Nat) : List (List Nat) :=
  if data.isEmpty then []
  else
    let start_pos := find_sync data
    if start_pos = 0 ∧ data.getD 0 0 ≠ 0x47 ∧ data.length < SRS_TS_PACKET_SIZE then []
    else split_ts_loop data.length start_pos data

/-- The loop of `get_ordered_packets`; the first argument bounds the number of iterations,
every one of which erases an entry. The source compares `expected_sequence_ < it->first`
after `erase(it)`; the key read there is taken to be the key of the entry just erased. -/
def drain_loop : Nat → Int → ReorderBuffer → List (List Nat) → List (List Nat) × ReorderBuffer
  | 0, _, r, packets => (packets, r)
  | cnt + 1, now, r, packets =>
    match mapFind r.expected_sequence_ r.buffer_ with
    | none => (packets, r)
    | some fragment =>
      let key := r.expected_sequence_
      let next := (r.expected_sequence_ + 1) % 2 ^ 64
      if is_packet_expired r.config_ fragment now then
        drain_loop cnt now
          { r with buffer_ := mapErase key r.buffer_
                   expected_sequence_ := next
                   stats_ := { r.stats_ with dropped_packets := r.stats_.dropped_packets + 1 } }
          packets
      else
        drain_loop cnt now
          { r with buffer_ := mapErase key r.buffer_
                   expected_sequence_ := next
                   stats_ := if next < key then
                       { r.stats_ with reordered_packets := r.stats_.reordered_packets + 1 }
                     else r.stats_ }
          (packets ++ align_ts_packets fragment.data)

/-- The method `get_ordered_packets` (it always returns `srs_success`): the output vector
and the state after the call. The loop runs at most once per stored entry. -/
def get_ordered_packets (r : ReorderBuffer) (current_time_ms : Int) :
    List (List Nat) × ReorderBuffer :=
  drain_loop (r.buffer_.length + 1) current_time_ms r []

end ReorderBuffer

/-! ## Canonical frame (`std_frame.hpp`) and parameter sets (`parameter_set_manager.hpp`) -/

/-- The struct `StdFrameCommon`. -/
structure StdFrameCommon where
  codec : String
  dts_ms : Int
  pts_ms : Int
  keyframe : Bool
  extradata : List Nat
  stream_id : String
  width : Nat
  height : Nat
  sample_rate : Nat
  channels : Nat
  bitrate : Nat
  duration_ms : Int
  has_pts : Bool
  deriving DecidableEq, Repr

/-- The struct `StdFrame`. -/
structure StdFrame where
  h : StdFrameCommon
  payload : List Nat
  deriving DecidableEq, Repr

/-- The default constructor `StdFrame()`. -/
def StdFrame.new : StdFrame :=
  { h := { codec := "", dts_ms := 0, pts_ms := 0, keyframe := false, extradata := [],
           stream_id := "", width := 0, height := 0, sample_rate := 0, channels := 0,
           bitrate := 0, duration_ms := 0, has_pts := false },
    payload := [] }

/-- The method `StdFrame::is_valid`. -/
def StdFrame.is_valid (f : StdFrame) : Bool :=
  if f.h.codec.isEmpty ∨ f.payload.isEmpty then false
  else if f.h.has_pts ∧ f.h.pts_ms < f.h.dts_ms then false
  else true

/-- The enum `ParameterSetType`. -/
inductive ParameterSetType where
  | SPS | PPS | VPS | ASC | OPUS_HEADER | UNKNOWN
  deriving DecidableEq, Repr

/-- The enumerator value, the key order of `parameter_sets_`. -/
def ParameterSetType.toNat : ParameterSetType → Nat
  | .SPS => 0 | .PPS => 1 | .VPS => 2 | .ASC => 3 | .OPUS_HEADER => 4 | .UNKNOWN => 5

/-- The struct `ParameterSetInfo`. -/
structure ParameterSetInfo where
  type : ParameterSetType
  data : List Nat
  timestamp_ms : Int
  is_valid : Bool
  deriving DecidableEq, Repr

/-- The struct `ParameterSetManager::Stats`. -/
structure ParameterSetStats where
  total_updates : Nat
  valid_updates : Nat
  invalid_updates : Nat
  sps_count : Nat
  pps_count : Nat
  vps_count : Nat
  asc_count : Nat
  deriving DecidableEq, Repr

/-- The class `ParameterSetManager`. -/
structure ParameterSetManager where
  parameter_sets_ : List (Nat × ParameterSetInfo)
  stats_ : ParameterSetStats
  deriving DecidableEq, Repr

namespace ParameterSetManager

/-- The constructor. -/
def new : ParameterSetManager :=
  { parameter_sets_ := [],
    stats_ := { total_updates := 0, valid_updates := 0, invalid_updates := 0, sps_count := 0,
                pps_count := 0, vps_count := 0, asc_count := 0 } }

/-- The method `validate_h264_sps`. -/
def validate_h264_sps (data : List Nat) : Bool :=
  if data.length < 4 then false else decide ((data.getD 0 0) &&& 0x1F = 7)

/-- The method `validate_h264_pps`. -/
def validate_h264_pps (data : List Nat) : Bool :=
  if data.length < 4 then false else decide ((data.getD 0 0) &&& 0x1F = 8)

/-- The method `validate_h265_vps`. -/
def validate_h265_vps (data : List Nat) : Bool :=
  if data.length < 4 then false else decide (((data.getD 0 0) >>> 1) &&& 0x3F = 32)

/-- The method `validate_h265_sps`. -/
def validate_h265_sps (data : List Nat) : Bool :=
  if data.length < 4 then false else decide (((data.getD 0 0) >>> 1) &&& 0x3F = 33)

/-- The method `validate_h265_pps`. -/
def validate_h265_pps (data : List Nat) : Bool :=
  if data.length < 4 then false else decide (((data.getD 0 0) >>> 1) &&& 0x3F = 34)

/-- The method `validate_aac_asc`. -/
def validate_aac_asc (data : List Nat) : Bool :=
  if data.length < 2 then false else true

/-- The method `validate_parameter_set`. -/
def validate_parameter_set (type : ParameterSetType) (data : List Nat) : Bool :=
  if data.isEmpty then false
  else
    match type with
    | .SPS => validate_h264_sps data
    | .PPS => validate_h264_pps data
    | .VPS => validate_h265_vps data
    | .ASC => validate_aac_asc data
    | _ => true

/-- The method `update_stats`. -/
def update_stats (st : ParameterSetStats) (type : ParameterSetType) (valid : Bool) :
    ParameterSetStats :=
  let st1 := { st with total_updates := st.total_updates + 1 }
  if valid then
    let st2 := { st1 with valid_updates := st1.valid_updates + 1 }
    match type with
    | .SPS => { st2 with sps_count := st2.sps_count + 1 }
    | .PPS => { st2 with pps_count := st2.pps_count + 1 }
    | .VPS => { st2 with vps_count := st2.vps_count + 1 }
    | .ASC => { st2 with asc_count := st2.asc_count + 1 }
    | _ => st2
  else { st1 with invalid_updates := st1.invalid_updates + 1 }

/-- The method `update_parameter_set`. -/
def update_parameter_set (m : ParameterSetManager) (type : ParameterSetType) (data : List Nat)
    (timestamp_ms : Int) : ParameterSetManager :=
  let valid := validate_parameter_set type data
  let st := update_stats m.stats_ type valid
  if valid then
    { parameter_sets_ := mapInsert type.toNat
        { type := type, data := data, timestamp_ms := timestamp_ms, is_valid := true }
        m.parameter_sets_,
      stats_ := st }
  else { m with stats_ := st }

/-- The method `get_parameter_set`. -/
def get_parameter_set (m : ParameterSetManager) (type : ParameterSetType) : List Nat :=
  match mapFind type.toNat m.parameter_sets_ with
  | some info => if info.is_valid then info.data else []
  | none => []

/-- The method `get_all_parameter_sets`. -/
def get_all_parameter_sets (m : ParameterSetManager) : List ParameterSetInfo :=
  (m.parameter_sets_.filter fun e => e.2.is_valid).map Prod.snd

/-- The method `has_parameter_set`. -/
def has_parameter_set (m : ParameterSetManager) (type : ParameterSetType) : Bool :=
  match mapFind type.toNat m.parameter_sets_ with
  | some info => info.is_valid
  | none => false

/-- The method `clear_all`. -/
def clear_all (m : ParameterSetManager) : ParameterSetManager :=
  { m with parameter_sets_ := [] }

end ParameterSetManager

/-! ## Framed-protocol adapter (`myproto_adapter.{hpp,cpp}`) -/

/-- The enum `MyProtoAdapter::State`. -/
inductive ParseState where
  | STATE_HEADER | STATE_PAYLOAD | STATE_COMPLETE
  deriving DecidableEq, Repr

/-- The struct `MyProtoAdapter::MyProtoFrame`, the parsed header. -/
structure MyProtoFrame where
  magic : Nat
  length : Nat
  type : Nat
  codec : Nat
  timestamp : Nat
  flags : Nat
  width : Nat
  height : Nat
  sample_rate : Nat
  channels : Nat
  deriving DecidableEq, Repr

/-- The number of header bytes `parseHeader` reads: 4+4+1+1+8+1+4+4+4+4. -/
def HEADER_WIRE_SIZE : Nat := 35

/-- The values `start` takes from `AdapterInit`: the stream triple and the four parameters
`b_frame_delay_ms`, `heartbeat_interval_ms`, `low_latency_drop_b`, `hot_start`. -/
structure AdapterInit where
  vhost : String
  app : String
  stream : String
  b_frame_delay_ms : Int
  heartbeat_interval_ms : Int
  low_latency_drop_b : Bool
  hot_start : Bool
  deriving DecidableEq, Repr

/-- The parameter defaults of `start`: 40, 5000, false, false. -/
def AdapterInit.default (vhost app stream : String) : AdapterInit :=
  { vhost := vhost, app := app, stream := stream, b_frame_delay_ms := 40,
    heartbeat_interval_ms := 5000, low_latency_drop_b := false, hot_start := false }

/-- An invocation of one of the two stream callbacks. -/
inductive StreamEvent where
  | on_start_stream (vhost app stream : String)
  | on_stop_stream
  deriving DecidableEq, Repr

/-- The struct `MyProtoAdapter::Stats`. -/
structure MyProtoStats where
  total_frames : Nat
  video_frames : Nat
  audio_frames : Nat
  keyframes : Nat
  b_frames : Nat
  invalid_timestamps : Nat
  parameter_set_updates : Nat
  deriving DecidableEq, Repr

/-- The class `MyProtoAdapter`. The `SrsBuffer` over `input_buffer_` is its read position
`buffer_pos`. The members `on_start_stream_` and `on_stop_stream_` are `std::function`
objects; the fields say whether they hold a callback (`if (on_start_stream_)`). Three fields
record what the adapter does to its collaborators: `pushed_frames` the frames passed to
`source_bridge_->push_frame`, in order, `stream_events` the callback invocations, and
`oob_read` whether `processParameterSets` has read past the end of a payload. -/
structure MyProtoAdapter where
  init_ : AdapterInit
  state_ : ParseState
  input_buffer_ : List Nat
  buffer_pos : Nat
  frame_header_ : MyProtoFrame
  payload_buffer_ : List Nat
  stream_started_ : Bool
  param_manager_ : ParameterSetManager
  last_dts_ms_ : Int
  last_pts_ms_ : Int
  base_timestamp_ms_ : Int
  has_base_timestamp_ : Bool
  last_frame_wallclock_ms_ : Int
  heartbeat_interval_ms_ : Int
  drop_b_in_low_latency_ : Bool
  hot_start_ : Bool
  b_frame_delay_ms_ : Int
  on_start_stream_ : Bool
  on_stop_stream_ : Bool
  stats_ : MyProtoStats
  pushed_frames : List StdFrame
  stream_events : List StreamEvent
  oob_read : Bool
  deriving DecidableEq, Repr

/-- Modelled from the spec: the reads of the SRS kernel class `SrsBuffer`
(`read_1bytes`, `read_4bytes`, `read_8bytes`), which is not part of the adapter sources;
"all multi-byte integers big-endian". The value of the `n` bytes at `pos`. -/
def read_be (data : List Nat) (pos n : Nat) : Nat :=
  ((data.drop pos).take n).foldl (fun acc b => acc * 256 + b) 0

namespace MyProtoAdapter

/-- The constructor (the header struct is taken zeroed; the two callback members are empty
`std::function` objects). -/
def new : MyProtoAdapter :=
  { init_ := AdapterInit.default "" "" "", state_ := .STATE_HEADER, input_buffer_ := [],
    buffer_pos := 0,
    frame_header_ := { magic := 0, length := 0, type := 0, codec := 0, timestamp := 0,
                       flags := 0, width := 0, height := 0, sample_rate := 0, channels := 0 },
    payload_buffer_ := [], stream_started_ := false, param_manager_ := ParameterSetManager.new,
    last_dts_ms_ := 0, last_pts_ms_ := 0, base_timestamp_ms_ := 0,
    has_base_timestamp_ := false, last_frame_wallclock_ms_ := 0,
    heartbeat_interval_ms_ := 5000, drop_b_in_low_latency_ := false, hot_start_ := false,
    b_frame_delay_ms_ := 40, on_start_stream_ := false, on_stop_stream_ := false,
    stats_ := { total_frames := 0, video_frames := 0, audio_frames := 0, keyframes := 0,
                b_frames := 0, invalid_timestamps := 0, parameter_set_updates := 0 },
    pushed_frames := [], stream_events := [], oob_read := false }

/-- The method `setOnStartStream`; `callback` says whether the function object passed in
holds a callback. -/
def setOnStartStream (a : MyProtoAdapter) (callback : Bool) : MyProtoAdapter :=
  { a with on_start_stream_ := callback }

/-- The method `setOnStopStream`; `callback` says whether the function object passed in
holds a callback. -/
def setOnStopStream (a : MyProtoAdapter) (callback : Bool) : MyProtoAdapter :=
  { a with on_stop_stream_ := callback }

/-- The method `start`, with the source bridge initialised successfully. -/
def start (a : MyProtoAdapter) (init : AdapterInit) : MyProtoAdapter :=
  { a with init_ := init, state_ := .STATE_HEADER, stream_started_ := false,
           has_base_timestamp_ := false, last_dts_ms_ := 0, last_pts_ms_ := 0,
           b_frame_delay_ms_ := init.b_frame_delay_ms,
           heartbeat_interval_ms_ := init.heartbeat_interval_ms,
           drop_b_in_low_latency_ := init.low_latency_drop_b,
           hot_start_ := init.hot_start }

/-- A freshly constructed and started adapter. -/
def fresh (init : AdapterInit) : MyProtoAdapter := MyProtoAdapter.new.start init

/-- The bytes left in `buffer_`: `buffer_->left()`. -/
def left (a : MyProtoAdapter) : Nat := a.input_buffer_.length - a.buffer_pos

/-- The method `parseHeader`; `sizeof_frame` is `sizeof(MyProtoFrame)`, which the layout of
the target fixes (48 with natural alignment on an LP64 target, never below the 35 bytes
read). -/
def parseHeader (sizeof_frame : Nat) (a : MyProtoAdapter) : Option SrsError × MyProtoAdapter :=
  if a.left < sizeof_frame then (none, a)
  else
    let d := a.input_buffer_
    let p := a.buffer_pos
    let hd : MyProtoFrame :=
      { magic := read_be d p 4, length := read_be d (p + 4) 4, type := read_be d (p + 8) 1,
        codec := read_be d (p + 9) 1, timestamp := read_be d (p + 10) 8,
        flags := read_be d (p + 18) 1, width := read_be d (p + 19) 4,
        height := read_be d (p + 23) 4, sample_rate := read_be d (p + 27) 4,
        channels := read_be d (p + 31) 4 }
    let a1 := { a with frame_header_ := hd, buffer_pos := p + HEADER_WIRE_SIZE }
    if hd.magic ≠ 0x12345678 then (some .invalidMagic, a1)
    else if hd.length > 1024 * 1024 then (some .payloadTooLarge, a1)
    else (none, { a1 with payload_buffer_ := [], state_ := .STATE_PAYLOAD })

/-- The method `parsePayload` (it always returns `srs_success`). -/
def parsePayload (a : MyProtoAdapter) : MyProtoAdapter :=
  let needed := sub64 a.frame_header_.length a.payload_buffer_.length
  let to_read := min needed a.left
  let a1 :=
    if to_read > 0 then
      { a with payload_buffer_ :=
                 a.payload_buffer_ ++ (a.input_buffer_.drop a.buffer_pos).take to_read
               buffer_pos := a.buffer_pos + to_read }
    else a
  if a1.payload_buffer_.length ≥ a1.frame_header_.length then
    { a1 with state_ := .STATE_COMPLETE }
  else a1

/-- The method `validateTimestamp`. -/
def validateTimestamp (a : MyProtoAdapter) (dts_ms pts_ms : Int) : Bool :=
  if dts_ms < 0 ∨ pts_ms < 0 then false
  else if a.last_dts_ms_ > 0 ∧ dts_ms < a.last_dts_ms_ then false
  else if pts_ms < dts_ms then false
  else true

/-- The body of the scan loop of `processParameterSets` at position `i`. -/
def scan_parameter_set_at (data : List Nat) (a : MyProtoAdapter) (i : Nat) : MyProtoAdapter :=
  if data.getD i 0 = 0x00 ∧ data.getD (i + 1) 0 = 0x00 ∧ data.getD (i + 2) 0 = 0x00 ∧
      data.getD (i + 3) 0 = 0x01 then
    let nalu_type := (data.getD (i + 4) 0) &&& 0x1F
    if nalu_type = 7 then
      { a with param_manager_ := a.param_manager_.update_parameter_set .SPS (data.drop (i + 4)) 0
               stats_ := { a.stats_ with
                 parameter_set_updates := a.stats_.parameter_set_updates + 1 } }
    else if nalu_type = 8 then
      { a with param_manager_ := a.param_manager_.update_parameter_set .PPS (data.drop (i + 4)) 0
               stats_ := { a.stats_ with
                 parameter_set_updates := a.stats_.parameter_set_updates + 1 } }
    else a
  else a

/-- The method `processParameterSets` (it always returns `srs_success`). For a payload of
fewer than 4 bytes the unsigned bound `size - 4` wraps and the scan leaves the payload:
that is recorded in `oob_read` and the scan itself is not followed further. -/
def processParameterSets (a : MyProtoAdapter) (frame : StdFrame) : MyProtoAdapter :=
  if ¬ frame.h.keyframe ∨ frame.payload.isEmpty then a
  else if frame.h.codec = "H264" then
    let size := frame.payload.length
    if size < 4 then { a with oob_read := true }
    else (List.range (size - 4)).foldl (scan_parameter_set_at frame.payload) a
  else a

/-- The method `resend_parameter_sets`: the frames it passes to `push_frame`. -/
def resend_parameter_sets (a : MyProtoAdapter) (frame : StdFrame) : List StdFrame :=
  let param_sets := a.param_manager_.get_all_parameter_sets
  if frame.h.codec = "H264" ∨ frame.h.codec = "H265" then
    (param_sets.filter fun param =>
        decide (param.type = .SPS ∨ param.type = .PPS ∨ param.type = .VPS)).map fun param =>
      ({ h := { frame.h with keyframe := true }, payload := param.data } : StdFrame)
  else []

/-- The method `processBFrameTiming`. -/
def processBFrameTiming (a : MyProtoAdapter) (frame : StdFrame) : StdFrame :=
  if frame.h.dts_ms ≥ frame.h.pts_ms then
    { frame with h := { frame.h with pts_ms := frame.h.dts_ms + a.b_frame_delay_ms_ } }
  else frame

/-- The payload normalisation of `createStdFrame`: the payload given to the frame, or `none`
when `payload_buffer_` is empty and no payload is set. -/
def normalize_payload (codec : String) (payload_buffer : List Nat) : Option (List Nat) :=
  if payload_buffer.isEmpty then none
  else if codec = "AAC" ∧ payload_buffer.length ≥ 7 then
    if payload_buffer.getD 0 0 = 0xFF ∧ (payload_buffer.getD 1 0) &&& 0xF0 = 0xF0 then
      let protection_absent := (payload_buffer.getD 1 0) &&& 0x01
      let adts_header_size := if protection_absent ≠ 0 then 7 else 9
      if payload_buffer.length > adts_header_size then
        some (payload_buffer.drop adts_header_size)
      else some payload_buffer
    else some payload_buffer
  else if codec = "H264" ∨ codec = "H265" then
    let has4 := decide (payload_buffer.length ≥ 4) &&
      decide (payload_buffer.getD 0 0 = 0x00 ∧ payload_buffer.getD 1 0 = 0x00 ∧
        payload_buffer.getD 2 0 = 0x00 ∧ payload_buffer.getD 3 0 = 0x01)
    let has_annexb_start := has4 ||
      (decide (payload_buffer.length ≥ 3) &&
        decide (payload_buffer.getD 0 0 = 0x00 ∧ payload_buffer.getD 1 0 = 0x00 ∧
          payload_buffer.getD 2 0 = 0x01))
    if ¬ has_annexb_start then some ([0x00, 0x00, 0x00, 0x01] ++ payload_buffer)
    else some payload_buffer
  else some payload_buffer

/-- The method `createStdFrame` (every path returns `srs_success`); `now_ms` is the cached
clock. -/
def createStdFrame (a : MyProtoAdapter) (now_ms : Int) : MyProtoAdapter :=
  let hd := a.frame_header_
  let timestamp_ms : Int := (hd.timestamp / 1000 : Nat)
  let a1 : MyProtoAdapter :=
    if ¬ a.has_base_timestamp_ then
      { a with base_timestamp_ms_ := timestamp_ms, has_base_timestamp_ := true }
    else a
  let dts_ms : Int := timestamp_ms - a1.base_timestamp_ms_
  let is_b_frame : Bool := decide (hd.flags &&& 0x02 ≠ 0)
  let pts_ms : Int := if is_b_frame then dts_ms + a1.b_frame_delay_ms_ else dts_ms
  let a2 : MyProtoAdapter :=
    if is_b_frame then { a1 with stats_ := { a1.stats_ with b_frames := a1.stats_.b_frames + 1 } }
    else a1
  if ¬ a2.validateTimestamp dts_ms pts_ms then
    { a2 with stats_ := { a2.stats_ with invalid_timestamps := a2.stats_.invalid_timestamps + 1 } }
  else
    let stream_id := a2.init_.vhost ++ "/" ++ a2.init_.app ++ "/" ++ a2.init_.stream
    let h0 : StdFrameCommon :=
      { StdFrame.new.h with stream_id := stream_id, dts_ms := dts_ms, pts_ms := pts_ms,
                            has_pts := true }
    let h1 : StdFrameCommon :=
      if hd.type = 0 then
        { h0 with codec := if hd.codec = 0 then "H264" else if hd.codec = 1 then "H265" else ""
                  width := hd.width, height := hd.height
                  keyframe := decide (hd.flags &&& 0x01 ≠ 0) }
      else
        { h0 with codec := if hd.codec = 2 then "AAC" else if hd.codec = 3 then "OPUS" else ""
                  sample_rate := hd.sample_rate, channels := hd.channels }
    let st3 : MyProtoStats :=
      if hd.type = 0 then
        { a2.stats_ with
            keyframes := if h1.keyframe then a2.stats_.keyframes + 1 else a2.stats_.keyframes
            video_frames := a2.stats_.video_frames + 1 }
      else { a2.stats_ with audio_frames := a2.stats_.audio_frames + 1 }
    let payload : Option (List Nat) := normalize_payload h1.codec a2.payload_buffer_
    let frame : StdFrame := { h := h1, payload := payload.getD [] }
    -- `set_payload(payload_buffer_)` swaps: the member is left empty when it was handed over
    let a3 : MyProtoAdapter :=
      { a2 with stats_ := st3,
                payload_buffer_ :=
                  if payload = some a2.payload_buffer_ then [] else a2.payload_buffer_ }
    let a4 : MyProtoAdapter := a3.processParameterSets frame
    if ¬ a4.stream_started_ ∧ ¬ a4.hot_start_ ∧ ¬ frame.h.keyframe then a4
    else
      let a5 : MyProtoAdapter :=
        if ¬ a4.stream_started_ then
          { a4 with stream_started_ := true
                    stream_events :=
                      if a4.on_start_stream_ then
                        a4.stream_events ++
                          [.on_start_stream a4.init_.vhost a4.init_.app a4.init_.stream]
                      else a4.stream_events }
        else a4
      let a6 : MyProtoAdapter :=
        if a5.hot_start_ ∧ a5.stream_started_ ∧ frame.h.keyframe then
          { a5 with pushed_frames := a5.pushed_frames ++ a5.resend_parameter_sets frame }
        else a5
      let frame1 : StdFrame := if is_b_frame then a6.processBFrameTiming frame else frame
      if a6.drop_b_in_low_latency_ ∧ is_b_frame ∧ ¬ frame1.h.keyframe then a6
      else
        { a6 with stats_ := { a6.stats_ with total_frames := a6.stats_.total_frames + 1 }
                  last_dts_ms_ := dts_ms
                  last_pts_ms_ := pts_ms
                  last_frame_wallclock_ms_ := now_ms
                  pushed_frames := a6.pushed_frames ++ [frame1] }

/-- The loop `while (buffer_->left() > 0)` of `feed`. The first argument bounds the number of
iterations: `none` means the bound ran out with the loop still running. An error return
leaves the loop at once. -/
def feed_loop (sizeof_frame : Nat) : Nat → Int → MyProtoAdapter →
    Option (Option SrsError × MyProtoAdapter)
  | 0, _, a => if a.left > 0 then none else some (none, a)
  | fuel + 1, now_ms, a =>
    if a.left > 0 then
      match a.state_ with
      | .STATE_HEADER =>
        match parseHeader sizeof_frame a with
        | (some e, a1) => some (some e, a1)
        | (none, a1) => feed_loop sizeof_frame fuel now_ms a1
      | .STATE_PAYLOAD => feed_loop sizeof_frame fuel now_ms a.parsePayload
      | .STATE_COMPLETE =>
        feed_loop sizeof_frame fuel now_ms
          { (a.createStdFrame now_ms) with state_ := .STATE_HEADER }
    else some (none, a)

/-- The heartbeat check that opens `feed`. -/
def heartbeat_check (a : MyProtoAdapter) (now_ms : Int) : MyProtoAdapter :=
  if a.last_frame_wallclock_ms_ > 0 ∧ a.heartbeat_interval_ms_ > 0 ∧
      now_ms - a.last_frame_wallclock_ms_ > a.heartbeat_interval_ms_ ∧ a.stream_started_ then
    { a with stream_started_ := false
             stream_events :=
               if a.on_stop_stream_ then a.stream_events ++ [.on_stop_stream]
               else a.stream_events }
  else a

/-- The method `feed`: `none` when the parse loop does not leave within `fuel` iterations,
else the returned error (`none` is `srs_success`) and the state after the call. -/
def feed (sizeof_frame fuel : Nat) (a : MyProtoAdapter) (data : List Nat) (now_ms : Int) :
    Option (Option SrsError × MyProtoAdapter) :=
  let a1 := a.heartbeat_check now_ms
  let a2 := { a1 with input_buffer_ := a1.input_buffer_ ++ data }
  if a2.input_buffer_.isEmpty then some (none, a2)
  else
    match feed_loop sizeof_frame fuel now_ms { a2 with buffer_pos := 0 } with
    | none => none
    | some (some e, a3) => some (some e, a3)
    | some (none, a3) =>
      if a3.buffer_pos > 0 then
        some (none, { a3 with input_buffer_ := a3.input_buffer_.drop a3.buffer_pos })
      else some (none, a3)

end MyProtoAdapter

/-! ## Traces and the vocabulary of the statements -/

namespace FecGroupBuffer

/-- The group states reachable by `add_block` calls from a newly constructed group (a call
that returns an error leaves the group as it was). -/
inductive Reachable : FecGroupBuffer → Prop where
  | new (group_id : Nat) (config : FecGroupConfig) (now_ms : Int) :
      Reachable (FecGroupBuffer.new group_id config now_ms)
  | add_block {g g1 : FecGroupBuffer} (block_index : Nat) (data : List Nat) (is_parity : Bool)
      (timestamp_ms : Int) (seq_num : Nat) (is_keyframe : Bool) :
      Reachable g →
      g.add_block block_index data is_parity timestamp_ms seq_num is_keyframe = .ok g1 →
      Reachable g1

/-- The representation invariant of a group: `blocks_` is ordered by key without repetition,
every block is stored under its own `block_index`, and a data block sits below `k`. -/
def WF (g : FecGroupBuffer) : Prop :=
  (mapKeys g.blocks_).Pairwise (· < ·) ∧
  (∀ e ∈ g.blocks_, e.2.block_index = e.1) ∧
  (∀ e ∈ g.blocks_, e.2.is_parity = false → e.1 < g.config_.k)

/-- A run of `add_block` calls, each given as (index, bytes, is_parity); arrival time 0,
sequence number 0, no key-frame hint. A rejected call changes nothing. -/
def add_blocks (g : FecGroupBuffer) (shards : List (Nat × List Nat × Bool)) : FecGroupBuffer :=
  shards.foldl (fun g s =>
    match g.add_block s.1 s.2.1 s.2.2 0 0 false with
    | .ok g1 => g1
    | .error _ => g) g

/-- The shards of an encoded group selected by `sel` (positions in `[0,n)`: below `k` a data
shard, from `k` on the parity shard `s - k`), inserted into a fresh group. -/
def insert_selected (config : FecGroupConfig) (data parity : List (List Nat)) (sel : List Nat) :
    FecGroupBuffer :=
  add_blocks (FecGroupBuffer.new 0 config 0) (sel.map fun s =>
    if s < config.k then (s, data.getD s [], false)
    else (s - config.k, parity.getD (s - config.k) [], true))

/-- The index and bytes of each returned shard, in output order. -/
def shard_view (out : List FecBlock) : List (Nat × List Nat) :=
  out.map fun b => (b.block_index, b.data)

/-- Whether a returned list of (index, bytes) holds, for every `i < k`, the bytes of data
shard `i` under index `i`; an error return does not. -/
def view_ok (config : FecGroupConfig) (data : List (List Nat)) :
    Except SrsError (List (Nat × List Nat)) → Bool
  | .error _ => false
  | .ok view => (List.range config.k).all fun i => view.contains (i, data.getD i [])

/-- Round trip for one selection: `repair` succeeds and, for every `i < k`, returns a shard
with `block_index = i` carrying the bytes of data shard `i`. -/
def round_trip_ok (config : FecGroupConfig) (data parity : List (List Nat)) (sel : List Nat) :
    Bool :=
  view_ok config data ((insert_selected config data parity sel).repair.map shard_view)

/-- A group configuration with the default deadline settings. -/
def fec_config (k n : Nat) : FecGroupConfig :=
  { k := k, n := n, repair_deadline_ms := 100, enable_keyframe_relax := true }

/-- Scenario C: k = 4, n = 5, data shards 0, 1, 3 of 188 bytes (filled with 0x10, 0x20, 0x08)
and the parity shard `d0 xor d1 xor d2 xor d3` for `d2` filled with 0x47, hence filled with
0x7F. -/
def scenario_c : FecGroupBuffer :=
  add_blocks (FecGroupBuffer.new 1 (fec_config 4 5) 0)
    [(0, List.replicate 188 0x10, false), (1, List.replicate 188 0x20, false),
     (3, List.replicate 188 0x08, false), (0, List.replicate 188 0x7F, true)]

/-- A group with k = 3, n = 5 that holds both parity shards and data shard 0 only. -/
def group_3_5 : FecGroupBuffer :=
  add_blocks (FecGroupBuffer.new 1 (fec_config 3 5) 0)
    [(0, [1], false), (0, [2], true), (1, [3], true)]

/-- A group with k = 4, n = 6 that holds both parity shards and data shards 0 and 2. -/
def group_4_6 : FecGroupBuffer :=
  add_blocks (FecGroupBuffer.new 1 (fec_config 4 6) 0)
    [(0, [1, 2], false), (2, [3, 4], false), (0, [5, 6], true), (1, [7, 8], true)]

/-- A complete group with k = 2 whose two data shards have 1 and 2 bytes. -/
def group_uneven : FecGroupBuffer :=
  add_blocks (FecGroupBuffer.new 1 (fec_config 2 3) 0)
    [(0, [1], false), (1, [2, 3], false)]

/-- A group with k = 3, n = 4: data shards 1 and 2 and the parity shard, 2 bytes each. -/
def group_3_4 : FecGroupBuffer :=
  add_blocks (FecGroupBuffer.new 1 (fec_config 3 4) 0)
    [(1, [1, 2], false), (2, [3, 4], false), (0, [5, 6], true)]

/-- What `repair` returns for `group_3_4`. -/
def group_3_4_out : List FecBlock :=
  [ { group_id := 1, block_index := 0, data := [5, 6], is_parity := false, timestamp_ms := 0,
      received := true, seq_num := 0, is_keyframe := false },
    { group_id := 1, block_index := 1, data := [1, 2], is_parity := false, timestamp_ms := 0,
      received := true, seq_num := 0, is_keyframe := false },
    { group_id := 1, block_index := 2, data := [3, 4], is_parity := false, timestamp_ms := 0,
      received := true, seq_num := 0, is_keyframe := false } ]

end FecGroupBuffer

namespace ReorderBuffer

/-- A call on a reorder buffer. -/
inductive Op where
  | add_packet (seq_num : Nat) (data : List Nat) (timestamp_ms : Int) (is_keyframe : Bool)
  | get_ordered_packets (current_time_ms : Int)
  deriving DecidableEq, Repr

/-- The state after one call. -/
def step (r : ReorderBuffer) : Op → ReorderBuffer
  | .add_packet seq_num data timestamp_ms is_keyframe =>
    (r.add_packet seq_num data timestamp_ms is_keyframe).2
  | .get_ordered_packets now => (r.get_ordered_packets now).2

/-- The state after a sequence of calls. -/
def run (r : ReorderBuffer) (ops : List Op) : ReorderBuffer := ops.foldl step r

/-- The sequence number an `add_packet` call carries. -/
def Op.seq? : Op → Option Nat
  | .add_packet seq_num _ _ _ => some seq_num
  | .get_ordered_packets _ => none

/-- What the fragment stored under `s` contributes to a drain at time `now`: its aligned
188-byte units, or nothing when it is expired (or absent). -/
def drained_units (r : ReorderBuffer) (now : Int) (s : Nat) : List (List Nat) :=
  match mapFind s r.buffer_ with
  | none => []
  | some fragment =>
    if is_packet_expired r.config_ fragment now then [] else align_ts_packets fragment.data

/-- Whether the fragment stored under `s` is expired at time `now`. -/
def expired_at (r : ReorderBuffer) (now : Int) (s : Nat) : Bool :=
  match mapFind s r.buffer_ with
  | none => false
  | some fragment => is_packet_expired r.config_ fragment now

/-- The invariant of a run with sequence numbers below 2^64 - 1: every stored key is
below 2^64 - 1. -/
def KeysBelowMax (r : ReorderBuffer) : Prop := ∀ e ∈ r.buffer_, e.1 < 2 ^ 64 - 1

/-- A buffer with the default configuration holding the 188-byte fragments 10 (arrived at
0), 11 (arrived at 100, key-frame) and 13, expecting 10. -/
def drain_demo : ReorderBuffer :=
  run (ReorderBuffer.new ReorderBufferConfig.default)
    [.add_packet 10 (List.replicate 188 0x47) 0 false,
     .add_packet 11 (0x47 :: List.replicate 187 0x01) 100 true,
     .add_packet 13 (0x47 :: List.replicate 187 0x02) 100 false]

/-- A buffer with a byte cap of 10 that holds fragment 5 (10 bytes) and expects 5. -/
def full_demo : ReorderBuffer :=
  (ReorderBuffer.new { ReorderBufferConfig.default with max_buffer_size := 10 }).step
    (.add_packet 5 (List.replicate 10 0x47) 0 false)

/-- A buffer with the default configuration that holds fragment 7 and expects 7. -/
def late_demo : ReorderBuffer :=
  (ReorderBuffer.new ReorderBufferConfig.default).step (.add_packet 7 [0x47, 0x00] 0 false)

end ReorderBuffer

/-- Big-endian bytes of `v` on `n` bytes. -/
def be_bytes (n v : Nat) : List Nat :=
  (List.range n).reverse.map fun i => (v / 256 ^ i) % 256

/-- The wire bytes of a frame: the 35 header bytes, then the payload. -/
def frame_bytes (hd : MyProtoFrame) (payload : List Nat) : List Nat :=
  be_bytes 4 hd.magic ++ be_bytes 4 hd.length ++ [hd.type, hd.codec] ++ be_bytes 8 hd.timestamp ++
    [hd.flags] ++ be_bytes 4 hd.width ++ be_bytes 4 hd.height ++ be_bytes 4 hd.sample_rate ++
    be_bytes 4 hd.channels ++ payload

namespace MyProtoAdapter

/-- The adapter the scenarios start from: constructed and started with the default
parameters for the stream `v/a/s`. -/
def fresh_default : MyProtoAdapter := fresh (AdapterInit.default "v" "a" "s")

/-- Scenario A: the header of a key-frame video frame of 5 payload bytes. -/
def scenario_a_header : MyProtoFrame :=
  { magic := 0x12345678, length := 5, type := 0, codec := 0, timestamp := 1000000,
    flags := 0x01, width := 640, height := 360, sample_rate := 0, channels := 0 }

/-- Scenario A: the 40 wire bytes, header then `AA BB CC DD EE`. -/
def scenario_a_bytes : List Nat :=
  frame_bytes scenario_a_header [0xAA, 0xBB, 0xCC, 0xDD, 0xEE]

/-- Frame A of the concatenation scenario: a key-frame with 13 payload bytes. -/
def concat_a_header : MyProtoFrame :=
  { magic := 0x12345678, length := 13, type := 0, codec := 0, timestamp := 1000000,
    flags := 0x01, width := 640, height := 360, sample_rate := 0, channels := 0 }

/-- Frame B of the concatenation scenario: a later non-key frame with 13 payload bytes. -/
def concat_b_header : MyProtoFrame :=
  { magic := 0x12345678, length := 13, type := 0, codec := 0, timestamp := 1040000,
    flags := 0x00, width := 640, height := 360, sample_rate := 0, channels := 0 }

/-- The 48 wire bytes of frame A. -/
def concat_a_bytes : List Nat := frame_bytes concat_a_header (List.replicate 13 0xA1)

/-- The 48 wire bytes of frame B. -/
def concat_b_bytes : List Nat := frame_bytes concat_b_header (List.replicate 13 0xB2)

/-- The canonical frame of frame A. -/
def concat_a_frame : StdFrame :=
  { h := { codec := "H264", dts_ms := 0, pts_ms := 0, keyframe := true, extradata := [],
           stream_id := "v/a/s", width := 640, height := 360, sample_rate := 0, channels := 0,
           bitrate := 0, duration_ms := 0, has_pts := true },
    payload := [0x00, 0x00, 0x00, 0x01] ++ List.replicate 13 0xA1 }

/-- The frames handed downstream by a `feed` result. -/
def pushed (res : Option (Option SrsError × MyProtoAdapter)) : Option (List StdFrame) :=
  res.map fun r => r.2.pushed_frames

/-- Two `feed` calls in a row (the second on the state the first one leaves, whatever it
returned); `none` when one of them does not return. -/
def feed_twice (sizeof_frame fuel : Nat) (a : MyProtoAdapter) (d1 d2 : List Nat) (now_ms : Int) :
    Option (Option SrsError × MyProtoAdapter) :=
  match feed sizeof_frame fuel a d1 now_ms with
  | none => none
  | some r1 => feed sizeof_frame fuel r1.2 d2 now_ms

end MyProtoAdapter

end SrsAdapter

namespace SrsAdapter

/-! ## Jitter buffer (`jitter_buffer.hpp`) -/

/-- The struct `JitterBufferConfig`. -/
structure JitterBufferConfig where
  window_ms : Int
  max_delay_ms : Int
  enable_reorder : Bool
  drop_late_frames : Bool
  max_frames : Nat
  flush_interval_ms : Int
  deriving DecidableEq, Repr

/-- The default member initialisers of `JitterBufferConfig`. -/
def JitterBufferConfig.default : JitterBufferConfig :=
  { window_ms := 200, max_delay_ms := 500, enable_reorder := true, drop_late_frames := true,
    max_frames := 50, flush_interval_ms := 10 }

/-- The struct `JitterBufferStats` (the counters are 64 bits wide in the source; a counter
stepped by one does not wrap in any run). -/
structure JitterBufferStats where
  total_frames : Nat
  reordered_frames : Nat
  dropped_frames : Nat
  late_frames : Nat
  duplicate_frames : Nat
  max_jitter_ms : Int
  avg_jitter_ms : Int
  deriving DecidableEq, Repr

/-- The struct `JitterBuffer::FrameWrapper`. -/
structure FrameWrapper where
  frame : StdFrame
  receive_time_ms : Int
  is_duplicate : Bool
  deriving DecidableEq, Repr

/-- The errors `JitterBuffer::push` and `JitterBuffer::pop` return. -/
inductive JitterError where
  | closed
  | timeout
  | empty
  deriving DecidableEq, Repr

/-- Lookup `std::map<int64_t, int64_t>::find`. -/
def historyFind (key : Int) : List (Int × Int) → Option Int
  | [] => none
  | (k, v) :: rest => if k = key then some v else historyFind key rest

/-- Assignment `m[key] = v` on a `std::map<int64_t, int64_t>` kept in ascending key order. -/
def historyInsert (key v : Int) : List (Int × Int) → List (Int × Int)
  | [] => [(key, v)]
  | (k, w) :: rest =>
    if key < k then (key, v) :: (k, w) :: rest
    else if key = k then (key, v) :: rest
    else (k, w) :: historyInsert key v rest

/-- The call `buffer_.push(wrapper)` on the `std::priority_queue` with `FrameComparator`
(a min-heap on `frame.h.dts_ms`). The queue is the list of its elements in the order
`top()` / `pop()` deliver them, ascending `dts_ms`; the library leaves the order among
equal `dts_ms` open, here the later arrival comes later. -/
def pq_push (w : FrameWrapper) : List FrameWrapper → List FrameWrapper
  | [] => [w]
  | x :: rest =>
    if w.frame.h.dts_ms < x.frame.h.dts_ms then w :: x :: rest else x :: pq_push w rest

/-- The class `JitterBuffer`; `buffer_` is the priority queue (see `pq_push`). -/
structure JitterBuffer where
  config_ : JitterBufferConfig
  buffer_ : List FrameWrapper
  last_output_dts_ : Int
  last_receive_time_ : Int
  dts_history_ : List (Int × Int)
  stats_ : JitterBufferStats
  is_flushing_ : Bool
  is_closed_ : Bool
  deriving DecidableEq, Repr

namespace JitterBuffer

/-- The constructor. -/
def new (config : JitterBufferConfig) : JitterBuffer :=
  { config_ := config, buffer_ := [], last_output_dts_ := 0, last_receive_time_ := 0,
    dts_history_ := [],
    stats_ := { total_frames := 0, reordered_frames := 0, dropped_frames := 0, late_frames := 0,
                duplicate_frames := 0, max_jitter_ms := 0, avg_jitter_ms := 0 },
    is_flushing_ := false, is_closed_ := false }

/-- The method `is_frame_late`. The sum is the exact integer: it is the `int64_t` sum of the
source wherever that is representable (`last_output_dts_ + max_delay_ms < 2 ^ 63`); beyond
that the addition of the source overflows, which is undefined behaviour and not modelled. -/
def is_frame_late (j : JitterBuffer) (dts_ms : Int) : Bool :=
  if j.last_output_dts_ = 0 then false
  else
    let expected_time := j.last_output_dts_ + j.config_.max_delay_ms
    decide (dts_ms < expected_time)

/-- The method `is_frame_duplicate`. -/
def is_frame_duplicate (j : JitterBuffer) (dts_ms : Int) : Bool :=
  (historyFind dts_ms j.dts_history_).isSome

/-- The method `update_jitter_stats` (the division truncates toward zero). -/
def update_jitter_stats (j : JitterBuffer) (expected_dts actual_dts : Int) : JitterBuffer :=
  if expected_dts > 0 then
    let jitter := actual_dts - expected_dts
    let current_max := j.stats_.max_jitter_ms
    let new_avg := Int.tdiv (j.stats_.avg_jitter_ms + jitter) 2
    { j with stats_ := { j.stats_ with
        max_jitter_ms := if jitter > current_max then jitter else current_max
        avg_jitter_ms := new_avg } }
  else j

/-- The method `push`; `current_time` is what `get_current_time_ms` returns during the
call. The returned error (`none` is `srs_success`) and the state after the call. -/
def push (j : JitterBuffer) (frame : StdFrame) (current_time : Int) :
    Option JitterError × JitterBuffer :=
  if j.is_closed_ then (some .closed, j)
  else
    let j1 : JitterBuffer :=
      { j with stats_ := { j.stats_ with total_frames := j.stats_.total_frames + 1 } }
    if j1.is_frame_duplicate frame.h.dts_ms then
      (none, { j1 with stats_ := { j1.stats_ with
                 duplicate_frames := j1.stats_.duplicate_frames + 1 } })
    else
      let late : Bool := j1.is_frame_late frame.h.dts_ms
      let j2 : JitterBuffer :=
        if late then
          { j1 with stats_ := { j1.stats_ with late_frames := j1.stats_.late_frames + 1 } }
        else j1
      if late ∧ j2.config_.drop_late_frames then
        (none, { j2 with stats_ := { j2.stats_ with
                   dropped_frames := j2.stats_.dropped_frames + 1 } })
      else
        let j3 : JitterBuffer :=
          if j2.last_output_dts_ > 0 ∧ frame.h.dts_ms < j2.last_output_dts_ then
            { j2 with stats_ := { j2.stats_ with
                reordered_frames := j2.stats_.reordered_frames + 1 } }
          else j2
        let j4 : JitterBuffer := j3.update_jitter_stats j3.last_output_dts_ frame.h.dts_ms
        let wrapper : FrameWrapper :=
          { frame := frame, receive_time_ms := current_time, is_duplicate := false }
        (none, { j4 with buffer_ := pq_push wrapper j4.buffer_
                         last_receive_time_ := current_time
                         dts_history_ :=
                           historyInsert frame.h.dts_ms current_time j4.dts_history_ })

/-- The method `pop` in a sequential run: no other thread pushes or closes during the
wait, so the wait times out exactly when the queue is empty and the buffer is open. The
returned frame or error, and the state after the call. -/
def pop (j : JitterBuffer) : Except JitterError StdFrame × JitterBuffer :=
  if j.buffer_.isEmpty ∧ ¬ j.is_closed_ then (.error .timeout, j)
  else if j.is_closed_ then (.error .closed, j)
  else
    match j.buffer_ with
    | [] => (.error .empty, j)
    | wrapper :: rest =>
      (.ok wrapper.frame,
        { j with buffer_ := rest, last_output_dts_ := wrapper.frame.h.dts_ms })

/-- The method `clear`. -/
def clear (j : JitterBuffer) : JitterBuffer :=
  { j with buffer_ := [], last_output_dts_ := 0, last_receive_time_ := 0, dts_history_ := [],
           is_flushing_ := false }

/-- A call on a jitter buffer. -/
inductive Op where
  | push (frame : StdFrame) (current_time : Int)
  | pop
  deriving DecidableEq, Repr

/-- The `dts_ms` a `push` call carries (0 for a `pop`). -/
def Op.dts : Op → Int
  | .push frame _ => frame.h.dts_ms
  | .pop => 0

/-- One call: the state after it and the frames popped so far, in order. -/
def step (s : JitterBuffer × List StdFrame) : Op → JitterBuffer × List StdFrame
  | .push frame current_time => ((s.1.push frame current_time).2, s.2)
  | .pop =>
    match s.1.pop with
    | (.ok frame, j) => (j, s.2 ++ [frame])
    | (.error _, j) => (j, s.2)

/-- A sequence of calls on `j`: the final state and the popped frames, in order. -/
def run (j : JitterBuffer) (ops : List Op) : JitterBuffer × List StdFrame :=
  ops.foldl step (j, [])

/-- A frame with the given `dts_ms` (all other fields as the default constructor leaves
them). -/
def frame_at (dts_ms : Int) : StdFrame :=
  { StdFrame.new with h := { StdFrame.new.h with dts_ms := dts_ms } }

/-- A run that pops the frame 0 and then the frame -5. -/
def negative_demo : List Op :=
  [.push (frame_at 0) 0, .pop, .push (frame_at (-5)) 1, .pop]

/-- A run that pops the frame 1000 and then pushes the next frame, 33 ms newer. -/
def newer_frame_demo : List Op :=
  [.push (frame_at 1000) 0, .pop, .push (frame_at 1033) 33]

end JitterBuffer

/-! ## Vocabulary of the statements on `MyProtoAdapter` and `ReorderBuffer` -/

namespace MyProtoAdapter

/-- The ten fields `parseHeader` reads at position `p` of `d`. -/
def read_header (d : List Nat) (p : Nat) : MyProtoFrame :=
  { magic := read_be d p 4, length := read_be d (p + 4) 4, type := read_be d (p + 8) 1,
    codec := read_be d (p + 9) 1, timestamp := read_be d (p + 10) 8,
    flags := read_be d (p + 18) 1, width := read_be d (p + 19) 4,
    height := read_be d (p + 23) 4, sample_rate := read_be d (p + 27) 4,
    channels := read_be d (p + 31) 4 }

/-- The two header checks of `parseHeader`. -/
def header_rejected (hd : MyProtoFrame) : Prop :=
  hd.magic ≠ 0x12345678 ∨ hd.length > 1048576

instance (hd : MyProtoFrame) : Decidable (header_rejected hd) := by
  unfold header_rejected; exact inferInstance

/-- The `dts_ms` that `createStdFrame` computes for the buffered header. -/
def frame_dts_ms (a : MyProtoAdapter) : Int :=
  let timestamp_ms : Int := (a.frame_header_.timestamp / 1000 : Nat)
  timestamp_ms - (if a.has_base_timestamp_ then a.base_timestamp_ms_ else timestamp_ms)

/-- The `pts_ms` that `createStdFrame` computes for the buffered header. -/
def frame_pts_ms (a : MyProtoAdapter) : Int :=
  if a.frame_header_.flags &&& 0x02 ≠ 0 then a.frame_dts_ms + a.b_frame_delay_ms_
  else a.frame_dts_ms

/-- The method `createStdFrame` on a complete frame: header and payload are in the members
in which `parseHeader` and `parsePayload` leave them. -/
def process_frame (a : MyProtoAdapter) (hd : MyProtoFrame) (payload : List Nat) (now_ms : Int) :
    MyProtoAdapter :=
  ({ a with frame_header_ := hd, payload_buffer_ := payload }).createStdFrame now_ms

/-- A sequence of complete frames (header, payload, clock), processed in order. -/
def process_frames (a : MyProtoAdapter) (frames : List (MyProtoFrame × List Nat × Int)) :
    MyProtoAdapter :=
  frames.foldl (fun s f => s.process_frame f.1 f.2.1 f.2.2) a

/-- The adapter states reachable from `a0` without a new `start`: the parser members
(`state_`, the input buffer and its position, the header and payload under assembly) take
any value, `createStdFrame` runs on them, and the heartbeat check of `feed` runs. -/
inductive ReachableFrom (a0 : MyProtoAdapter) : MyProtoAdapter → Prop where
  | refl : ReachableFrom a0 a0
  | parse (a : MyProtoAdapter) (s : ParseState) (buf : List Nat) (pos : Nat)
      (hd : MyProtoFrame) (payload : List Nat) :
      ReachableFrom a0 a →
      ReachableFrom a0 { a with state_ := s, input_buffer_ := buf, buffer_pos := pos,
                                frame_header_ := hd, payload_buffer_ := payload }
  | frame (a : MyProtoAdapter) (now_ms : Int) :
      ReachableFrom a0 a → ReachableFrom a0 (a.createStdFrame now_ms)
  | heartbeat (a : MyProtoAdapter) (now_ms : Int) :
      ReachableFrom a0 a → ReachableFrom a0 (a.heartbeat_check now_ms)

/-- The members `processParameterSets` leaves alone: all but the parameter-set manager, the
counter `parameter_set_updates` and the record `oob_read`. -/
structure SameExceptParams (a b : MyProtoAdapter) : Prop where
  init_ : b.init_ = a.init_
  state_ : b.state_ = a.state_
  input_buffer_ : b.input_buffer_ = a.input_buffer_
  buffer_pos : b.buffer_pos = a.buffer_pos
  frame_header_ : b.frame_header_ = a.frame_header_
  payload_buffer_ : b.payload_buffer_ = a.payload_buffer_
  stream_started_ : b.stream_started_ = a.stream_started_
  last_dts_ms_ : b.last_dts_ms_ = a.last_dts_ms_
  last_pts_ms_ : b.last_pts_ms_ = a.last_pts_ms_
  base_timestamp_ms_ : b.base_timestamp_ms_ = a.base_timestamp_ms_
  has_base_timestamp_ : b.has_base_timestamp_ = a.has_base_timestamp_
  last_frame_wallclock_ms_ : b.last_frame_wallclock_ms_ = a.last_frame_wallclock_ms_
  heartbeat_interval_ms_ : b.heartbeat_interval_ms_ = a.heartbeat_interval_ms_
  drop_b_in_low_latency_ : b.drop_b_in_low_latency_ = a.drop_b_in_low_latency_
  hot_start_ : b.hot_start_ = a.hot_start_
  b_frame_delay_ms_ : b.b_frame_delay_ms_ = a.b_frame_delay_ms_
  on_start_stream_ : b.on_start_stream_ = a.on_start_stream_
  on_stop_stream_ : b.on_stop_stream_ = a.on_stop_stream_
  pushed_frames : b.pushed_frames = a.pushed_frames
  stream_events : b.stream_events = a.stream_events
  total_frames : b.stats_.total_frames = a.stats_.total_frames
  video_frames : b.stats_.video_frames = a.stats_.video_frames
  audio_frames : b.stats_.audio_frames = a.stats_.audio_frames
  keyframes : b.stats_.keyframes = a.stats_.keyframes
  b_frames : b.stats_.b_frames = a.stats_.b_frames
  invalid_timestamps : b.stats_.invalid_timestamps = a.stats_.invalid_timestamps

/-- A video header with the given timestamp (microseconds) and flags, payload length 4. -/
def video_header (timestamp flags : Nat) : MyProtoFrame :=
  { magic := 0x12345678, length := 4, type := 0, codec := 0, timestamp := timestamp,
    flags := flags, width := 640, height := 360, sample_rate := 0, channels := 0 }

/-- Scenario B: a key-frame at t = 0 and a B-frame at t = 40000, B-frame delay 40. -/
def scenario_b_frames : List (MyProtoFrame × List Nat × Int) :=
  [(video_header 0 0x01, [0x65, 0x01, 0x02, 0x03], 0),
   (video_header 40000 0x02, [0x41, 0x01, 0x02, 0x03], 40)]

/-- Scenario B after its key-frame, with the B-frame complete in the parser members. -/
def scenario_b_second : MyProtoAdapter :=
  { fresh_default.process_frame (video_header 0 0x01) [0x65, 0x01, 0x02, 0x03] 0 with
    frame_header_ := video_header 40000 0x02, payload_buffer_ := [0x41, 0x01, 0x02, 0x03] }

/-- A non-key frame at t = 1000000 followed by a key-frame at t = 1040000. -/
def late_key_frames : List (MyProtoFrame × List Nat × Int) :=
  [(video_header 1000000 0x00, [0x41, 0x01, 0x02, 0x03], 0),
   (video_header 1040000 0x01, [0x65, 0x01, 0x02, 0x03], 40)]

/-- The frame the adapter hands downstream for the key-frame of `late_key_frames`. -/
def late_key_first : StdFrame :=
  { h := { codec := "H264", dts_ms := 40, pts_ms := 40, keyframe := true, extradata := [],
           stream_id := "v/a/s", width := 640, height := 360, sample_rate := 0, channels := 0,
           bitrate := 0, duration_ms := 0, has_pts := true },
    payload := [0x00, 0x00, 0x00, 0x01, 0x65, 0x01, 0x02, 0x03] }

/-- The default parameters with `hot_start` switched on. -/
def hot_start_init : AdapterInit := { AdapterInit.default "v" "a" "s" with hot_start := true }

/-- A key-frame at t = 1000000 that carries an SPS and a PPS, a B-frame at t = 1040000, a
frame that steps back to t = 1020000, and a frame at t = 1080000. -/
def hot_start_frames : List (MyProtoFrame × List Nat × Int) :=
  [(video_header 1000000 0x01,
     [0x00, 0x00, 0x00, 0x01, 0x67, 0x01, 0x02, 0x03,
      0x00, 0x00, 0x00, 0x01, 0x68, 0x01, 0x02, 0x03], 0),
   (video_header 1040000 0x02, [0x41, 0x01, 0x02, 0x03], 40),
   (video_header 1020000 0x00, [0x41, 0x01, 0x02, 0x03], 40),
   (video_header 1080000 0x00, [0x41, 0x01, 0x02, 0x03], 80)]

/-- The state after the first two frames of `hot_start_frames`, with the third one (the
step back) complete in the parser members. -/
def backward_state : MyProtoAdapter :=
  { process_frames (fresh hot_start_init) (hot_start_frames.take 2) with
    frame_header_ := video_header 1020000 0x00, payload_buffer_ := [0x41, 0x01, 0x02, 0x03] }

/-- The pairs (`dts_ms`, `pts_ms`) of the frames handed downstream. -/
def pushed_timestamps (a : MyProtoAdapter) : List (Int × Int) :=
  a.pushed_frames.map fun f => (f.h.dts_ms, f.h.pts_ms)

/-- The 48 wire bytes of a frame whose magic is wrong. -/
def bad_magic_bytes : List Nat :=
  frame_bytes { concat_a_header with magic := 0x12345679 } (List.replicate 13 0xA1)

end MyProtoAdapter

namespace ReorderBuffer

/-- The statement of the sync search: `s` is the position of the first `0x47` among the
first `min(|d|, 188)` bytes of `d`, or 0 when there is none. -/
def IsSyncStart (d : List Nat) (s : Nat) : Prop :=
  (s < min d.length 188 ∧ d.getD s 0 = 0x47 ∧ ∀ i < s, d.getD i 0 ≠ 0x47) ∨
  (s = 0 ∧ ∀ i < min d.length 188, d.getD i 0 ≠ 0x47)

/-- A 380-byte string: two bytes of garbage, a sync byte, 377 zero bytes. -/
def align_demo : List Nat := [1, 2] ++ (0x47 :: List.replicate 377 0x00)

/-- Scenario D: window 200, key-frame grace 100. -/
def scenario_d_config : ReorderBufferConfig :=
  { ReorderBufferConfig.default with reorder_window_ms := 200, keyframe_relax_ms := 100,
                                     enable_keyframe_relax := true }

/-- Scenario D: one 188-byte fragment with sequence number 10 that arrived at t = 0. -/
def scenario_d (is_keyframe : Bool) : ReorderBuffer :=
  (ReorderBuffer.new scenario_d_config).step
    (.add_packet 10 (0x47 :: List.replicate 187 0x00) 0 is_keyframe)

end ReorderBuffer

end SrsAdapter

namespace SrsAdapter

/-! ## FEC repair manager (class `FecRepairManager` of `fec_group_buffer.{hpp,cpp}`) -/

/-- The struct `FecRepairManager::Stats` (64-bit counters; a counter stepped by one does
not wrap in any run). -/
structure FecRepairStats where
  total_groups : Nat
  repaired_groups : Nat
  complete_groups : Nat
  expired_groups : Nat
  failed_repairs : Nat
  deriving DecidableEq, Repr

/-- The class `FecRepairManager`: `groups_` is the `std::map` from group id to group. -/
structure FecRepairManager where
  groups_ : List (Nat × FecGroupBuffer)
  config_ : FecGroupConfig
  stats_ : FecRepairStats
  max_groups_ : Nat
  deriving DecidableEq, Repr

/-- The local state of the sweep loop of `check_and_repair`: the counters, the blocks
handed out so far and the vector `groups_to_remove`. -/
structure SweepState where
  stats_ : FecRepairStats
  restored_blocks : List FecBlock
  groups_to_remove : List Nat
  deriving DecidableEq, Repr

namespace FecRepairManager

/-- The constructor: cap 100, the default `FecGroupConfig()` (k = 8, n = 12, deadline 100). -/
def new : FecRepairManager :=
  { groups_ := [],
    config_ := { k := 8, n := 12, repair_deadline_ms := 100, enable_keyframe_relax := true },
    stats_ := { total_groups := 0, repaired_groups := 0, complete_groups := 0,
                expired_groups := 0, failed_repairs := 0 },
    max_groups_ := 100 }

/-- The method `set_config`. -/
def set_config (m : FecRepairManager) (config : FecGroupConfig) : FecRepairManager :=
  { m with config_ := config }

/-- The method `set_max_groups`. -/
def set_max_groups (m : FecRepairManager) (max_groups : Nat) : FecRepairManager :=
  { m with max_groups_ := max_groups }

/-- The scan loop of `create_group_if_needed`: the value of `oldest_id` after it, the id of
the first expired group in key order, or the initial 0. -/
def scan_expired (groups : List (Nat × FecGroupBuffer)) (now_ms : Int) : Nat :=
  match groups.find? (fun e => e.2.is_expired now_ms) with
  | some e => e.1
  | none => 0

/-- The method `create_group_if_needed`; `now_ms` is the cached clock. An error return
leaves the manager as it was. -/
def create_group_if_needed (m : FecRepairManager) (group_id : Nat) (now_ms : Int) :
    Except SrsError FecRepairManager :=
  if (mapFind group_id m.groups_).isNone then
    let capped : Except SrsError FecRepairManager :=
      if m.groups_.length ≥ m.max_groups_ then
        let oldest_id := scan_expired m.groups_ now_ms
        if oldest_id > 0 then
          .ok { m with groups_ := mapErase oldest_id m.groups_
                       stats_ := { m.stats_ with
                         expired_groups := m.stats_.expired_groups + 1 } }
        else .error .fecGroupBufferFull
      else .ok m
    match capped with
    | .error e => .error e
    | .ok m1 =>
      .ok { m1 with groups_ :=
                      mapInsert group_id (FecGroupBuffer.new group_id m1.config_ now_ms)
                        m1.groups_
                    stats_ := { m1.stats_ with total_groups := m1.stats_.total_groups + 1 } }
  else .ok m

/-- The method `add_block`: the returned error (`none` is `srs_success`) and the manager
after the call. After a successful `create_group_if_needed` the group is present; the
absent case of the lookup does not arise. -/
def add_block (m : FecRepairManager) (group_id block_index : Nat) (data : List Nat)
    (is_parity : Bool) (timestamp_ms : Int) (seq_num : Nat) (is_keyframe : Bool)
    (now_ms : Int) : Option SrsError × FecRepairManager :=
  match m.create_group_if_needed group_id now_ms with
  | .error e => (some e, m)
  | .ok m1 =>
    match mapFind group_id m1.groups_ with
    | none => (none, m1)
    | some g =>
      match g.add_block block_index data is_parity timestamp_ms seq_num is_keyframe with
      | .error e => (some e, m1)
      | .ok g1 => (none, { m1 with groups_ := mapInsert group_id g1 m1.groups_ })

/-- The body of the sweep loop of `check_and_repair` for one group. -/
def sweep_step (now_ms : Int) (s : SweepState) (e : Nat × FecGroupBuffer) : SweepState :=
  if e.2.is_expired now_ms then
    { s with groups_to_remove := s.groups_to_remove ++ [e.1]
             stats_ := { s.stats_ with expired_groups := s.stats_.expired_groups + 1 } }
  else if e.2.can_repair then
    match e.2.repair with
    | .ok restored =>
      { s with restored_blocks := s.restored_blocks ++ restored
               stats_ :=
                 if e.2.is_complete then
                   { s.stats_ with complete_groups := s.stats_.complete_groups + 1 }
                 else { s.stats_ with repaired_groups := s.stats_.repaired_groups + 1 }
               groups_to_remove := s.groups_to_remove ++ [e.1] }
    | .error _ =>
      { s with stats_ := { s.stats_ with failed_repairs := s.stats_.failed_repairs + 1 } }
  else s

/-- The sweep loop of `check_and_repair` over `groups_`, in key order. -/
def sweep (m : FecRepairManager) (now_ms : Int) : SweepState :=
  m.groups_.foldl (sweep_step now_ms)
    { stats_ := m.stats_, restored_blocks := [], groups_to_remove := [] }

/-- The loop `for (id : groups_to_remove) groups_.erase(id)`. -/
def erase_all (ids : List Nat) (groups : List (Nat × FecGroupBuffer)) :
    List (Nat × FecGroupBuffer) :=
  ids.foldl (fun gs id => mapErase id gs) groups

/-- The method `check_and_repair_with_metadata` (it always returns `srs_success`): what it
appends to `restored_data`, `seq_nums` and `is_keyframes`, and the manager after the call. -/
def check_and_repair_with_metadata (m : FecRepairManager) (now_ms : Int) :
    (List (List Nat) × List Nat × List Bool) × FecRepairManager :=
  let s := m.sweep now_ms
  ((s.restored_blocks.map FecBlock.data, s.restored_blocks.map FecBlock.seq_num,
    s.restored_blocks.map FecBlock.is_keyframe),
   { m with groups_ := erase_all s.groups_to_remove m.groups_, stats_ := s.stats_ })

/-- The method `check_and_repair` (it always returns `srs_success`): what it appends to
`restored_data`, and the manager after the call. -/
def check_and_repair (m : FecRepairManager) (now_ms : Int) :
    List (List Nat) × FecRepairManager :=
  let s := m.sweep now_ms
  (s.restored_blocks.map FecBlock.data,
   { m with groups_ := erase_all s.groups_to_remove m.groups_, stats_ := s.stats_ })

/-- The method `cleanup_expired`. -/
def cleanup_expired (m : FecRepairManager) (current_time_ms : Int) : FecRepairManager :=
  let to_remove := (m.groups_.filter fun e => e.2.is_expired current_time_ms).map Prod.fst
  { m with groups_ := erase_all to_remove m.groups_
           stats_ := { m.stats_ with
             expired_groups := m.stats_.expired_groups + to_remove.length } }

/-- The method `reset_stats`. -/
def reset_stats (m : FecRepairManager) : FecRepairManager :=
  { m with stats_ := { total_groups := 0, repaired_groups := 0, complete_groups := 0,
                       expired_groups := 0, failed_repairs := 0 } }

/-- A call on a repair manager, with the clock value it sees. -/
inductive Op where
  | add_block (group_id block_index : Nat) (data : List Nat) (is_parity : Bool)
      (timestamp_ms : Int) (seq_num : Nat) (is_keyframe : Bool) (now_ms : Int)
  | check_and_repair (now_ms : Int)
  | check_and_repair_with_metadata (now_ms : Int)
  | cleanup_expired (current_time_ms : Int)
  deriving DecidableEq, Repr

/-- The manager after one call. -/
def step (m : FecRepairManager) : Op → FecRepairManager
  | .add_block group_id block_index data is_parity timestamp_ms seq_num is_keyframe now_ms =>
    (m.add_block group_id block_index data is_parity timestamp_ms seq_num is_keyframe now_ms).2
  | .check_and_repair now_ms => (m.check_and_repair now_ms).2
  | .check_and_repair_with_metadata now_ms => (m.check_and_repair_with_metadata now_ms).2
  | .cleanup_expired current_time_ms => m.cleanup_expired current_time_ms

/-- The manager after a sequence of calls. -/
def run (m : FecRepairManager) (ops : List Op) : FecRepairManager := ops.foldl step m

/-- A manager created empty and given its configuration and its cap. -/
def start (config : FecGroupConfig) (max_groups : Nat) : FecRepairManager :=
  (FecRepairManager.new.set_config config).set_max_groups max_groups

/-- The representation invariant of a manager: `groups_` is ordered by key without
repetition and every group satisfies the invariant of a group. -/
def WF (m : FecRepairManager) : Prop :=
  (mapKeys m.groups_).Pairwise (· < ·) ∧ ∀ e ∈ m.groups_, FecGroupBuffer.WF e.2

/-- Whether the sweep at `now_ms` takes the group out: it is expired, or it is repairable
and its repair succeeds. -/
def swept (now_ms : Int) (g : FecGroupBuffer) : Bool :=
  g.is_expired now_ms ||
    (g.can_repair && match g.repair with
      | .ok _ => true
      | .error _ => false)

/-- Whether the sweep at `now_ms` counts a failed repair for the group. -/
def repair_fails (now_ms : Int) (g : FecGroupBuffer) : Bool :=
  !g.is_expired now_ms &&
    (g.can_repair && match g.repair with
      | .ok _ => false
      | .error _ => true)

/-- The blocks the sweep at `now_ms` hands out for the group. -/
def sweep_output (now_ms : Int) (g : FecGroupBuffer) : List FecBlock :=
  if g.is_expired now_ms then []
  else if g.can_repair then
    match g.repair with
    | .ok restored => restored
    | .error _ => []
  else []

/-- A manager with cap 1 that holds group 0, created at time 0 (deadline 100). -/
def full_with_group_zero : FecRepairManager :=
  (start (FecGroupBuffer.fec_config 2 3) 1).step (.add_block 0 0 [1] false 0 0 false 0)

/-- A manager with cap 1 that holds group 5, created at time 0 (deadline 100). -/
def full_with_group_five : FecRepairManager :=
  (start (FecGroupBuffer.fec_config 2 3) 1).step (.add_block 5 0 [1] false 0 0 false 0)

/-- A manager (k = 3, n = 5, deadline 100) with four groups: group 1 created at 0 with one
shard, group 2 complete, group 3 with one shard, group 4 with data shard 0 and both parity
shards; groups 2 to 4 are created at 950. -/
def sweep_demo : FecRepairManager :=
  (start (FecGroupBuffer.fec_config 3 5) 10).run
    [.add_block 1 0 [1] false 0 0 false 0,
     .add_block 2 0 [1] false 950 10 false 950,
     .add_block 2 1 [2] false 950 11 true 950,
     .add_block 2 2 [3] false 950 12 false 950,
     .add_block 3 0 [1] false 950 0 false 950,
     .add_block 4 0 [1] false 950 0 false 950,
     .add_block 4 0 [2] true 950 0 false 950,
     .add_block 4 1 [3] true 950 0 false 950]

end FecRepairManager

namespace FecGroupBuffer

/-- The group after an `add_block` call (a rejected call changes nothing). -/
def insert (g : FecGroupBuffer) (block_index : Nat) (data : List Nat) (is_parity : Bool)
    (timestamp_ms : Int) (seq_num : Nat) (is_keyframe : Bool) : FecGroupBuffer :=
  match g.add_block block_index data is_parity timestamp_ms seq_num is_keyframe with
  | .ok g1 => g1
  | .error _ => g

/-- The index under which `add_block` stores a shard: `k + block_index` (32-bit) for a
parity shard, `block_index` for a data shard. -/
def normalized_index (config : FecGroupConfig) (block_index : Nat) (is_parity : Bool) : Nat :=
  if is_parity then (config.k + block_index) % 2 ^ 32 else block_index

/-- The block `add_block` creates for a shard that is not yet stored. -/
def created_block (g : FecGroupBuffer) (block_index : Nat) (data : List Nat) (is_parity : Bool)
    (timestamp_ms : Int) (seq_num : Nat) (is_keyframe : Bool) : FecBlock :=
  { group_id := g.group_id_, block_index := normalized_index g.config_ block_index is_parity,
    data := data, is_parity := is_parity, timestamp_ms := timestamp_ms, received := true,
    seq_num := seq_num, is_keyframe := is_keyframe }

/-- The group after `add_block` has stored a new shard. -/
def with_block (g : FecGroupBuffer) (block_index : Nat) (data : List Nat) (is_parity : Bool)
    (timestamp_ms : Int) (seq_num : Nat) (is_keyframe : Bool) : FecGroupBuffer :=
  let block := g.created_block block_index data is_parity timestamp_ms seq_num is_keyframe
  { g with blocks_ := mapInsert block.block_index block g.blocks_ }

/-- A group with k = 3, n = 5 that holds the two parity shards only. -/
def group_parity_only : FecGroupBuffer :=
  add_blocks (FecGroupBuffer.new 1 (fec_config 3 5) 0) [(0, [2], true), (1, [3], true)]

end FecGroupBuffer

namespace ReorderBuffer

/-- A buffer with the default configuration that holds, under the expected sequence number
7, a three-byte fragment without a sync byte that arrived at time 0. -/
def short_demo : ReorderBuffer :=
  (ReorderBuffer.new ReorderBufferConfig.default).step (.add_packet 7 [0x01, 0x02, 0x03] 0 false)

end ReorderBuffer

namespace MyProtoAdapter

/-- The codec name `createStdFrame` gives the frame for a header: type 0 is video (codec 0
H264, 1 H265), any other type audio (codec 2 AAC, 3 OPUS); an unknown codec leaves the
name empty. -/
def frame_codec (hd : MyProtoFrame) : String :=
  if hd.type = 0 then
    if hd.codec = 0 then "H264" else if hd.codec = 1 then "H265" else ""
  else
    if hd.codec = 2 then "AAC" else if hd.codec = 3 then "OPUS" else ""

/-- The key-frame flag `createStdFrame` gives the frame for a header: flags bit 0, for
video only. -/
def frame_keyframe (hd : MyProtoFrame) : Bool :=
  if hd.type = 0 then decide (hd.flags &&& 0x01 ≠ 0) else false

/-- The payload `createStdFrame` gives the frame it builds from the parser members. -/
def built_payload (a : MyProtoAdapter) : List Nat :=
  (normalize_payload (frame_codec a.frame_header_) a.payload_buffer_).getD []

/-- The statement "the payload begins with an Annex-B start code": its first four bytes
are 00 00 00 01 or its first three bytes are 00 00 01. -/
def begins_with_start_code (p : List Nat) : Prop :=
  p.take 4 = [0x00, 0x00, 0x00, 0x01] ∨ p.take 3 = [0x00, 0x00, 0x01]

instance (p : List Nat) : Decidable (begins_with_start_code p) := by
  unfold begins_with_start_code; exact inferInstance

/-- The statement of the Annex-B rule: the payload itself when it begins with a start code,
else 00 00 00 01 followed by the payload. -/
def spec_annexb_payload (p : List Nat) : List Nat :=
  if begins_with_start_code p then p else [0x00, 0x00, 0x00, 0x01] ++ p

/-- The adapter states reachable from `a0` without a new `start` and without a heartbeat
timeout: the parser members take any value and `createStdFrame` runs on them. -/
inductive ReachableWithoutTimeout (a0 : MyProtoAdapter) : MyProtoAdapter → Prop where
  | refl : ReachableWithoutTimeout a0 a0
  | parse (a : MyProtoAdapter) (s : ParseState) (buf : List Nat) (pos : Nat)
      (hd : MyProtoFrame) (payload : List Nat) :
      ReachableWithoutTimeout a0 a →
      ReachableWithoutTimeout a0
        { a with state_ := s, input_buffer_ := buf, buffer_pos := pos,
                 frame_header_ := hd, payload_buffer_ := payload }
  | frame (a : MyProtoAdapter) (now_ms : Int) :
      ReachableWithoutTimeout a0 a → ReachableWithoutTimeout a0 (a.createStdFrame now_ms)

/-- A freshly started adapter with a complete H.264 frame in the parser members whose
payload `65 01 02 03` has no start code; `hot_start` is on. -/
def annexb_demo : MyProtoAdapter :=
  { fresh hot_start_init with
    frame_header_ := video_header 0 0x01, payload_buffer_ := [0x65, 0x01, 0x02, 0x03] }

end MyProtoAdapter

end SrsAdapter
namespace SrsAdapter

/-! ## Vocabulary of the GF(2^8) statements -/

/-- Bounded universal quantifier as a computation: `p` holds for every number below `n`. -/
def all_below : Nat → (Nat → Bool) → Bool
  | 0, _ => true
  | n + 1, p => p n && all_below n p

/-- The power `alpha^i` of the generator `alpha = 2`, read from `gf_exp_table`. -/
def exp_at (i : Nat) : Nat := gf_exp_table.getD (i % 255) 0

/-- The product of two polynomials over GF(2), a number standing for the polynomial whose
coefficient of `x^i` is its bit `i`; the first factor has degree below 8. -/
def poly_mul (a b : Nat) : Nat :=
  (List.range 8).foldl (fun acc i => if a.testBit i then acc ^^^ (b <<< i) else acc) 0

/-- One step of the division by `x^8 + x^4 + x^3 + x^2 + 1` (`0x11D`): a term `x^i`,
`i ≥ 8`, is cancelled by adding `x^(i-8)` times the modulus. -/
def poly_reduce_step (r i : Nat) : Nat :=
  if r.testBit i then r ^^^ (0x11D <<< (i - 8)) else r

/-- The remainder modulo `x^8 + x^4 + x^3 + x^2 + 1` of a polynomial of degree at most
14. -/
def poly_mod (p : Nat) : Nat := [14, 13, 12, 11, 10, 9, 8].foldl poly_reduce_step p

/-- The statement of the field product: the product of `a` and `b` as polynomials over
GF(2), reduced modulo `0x11D`. -/
def gf_poly_mul (a b : Nat) : Nat := poly_mod (poly_mul a b)

/-- XOR of the numbers of a list. -/
def xor_sum (l : List Nat) : Nat := l.foldr (fun x acc => x ^^^ acc) 0

/-- A vector of `n` bytes. -/
def IsByteVector (n : Nat) (v : List Nat) : Prop := v.length = n ∧ ∀ x ∈ v, x < 256

/-- A matrix of `rows` rows of `cols` bytes each. -/
def IsByteMatrix (rows cols : Nat) (A : List (List Nat)) : Prop :=
  A.length = rows ∧ ∀ r ∈ A, IsByteVector cols r

/-- The sum over `j < n` of `row[j] * w j` in GF(2^8): XOR of the `gf_mul` products. -/
def row_sum (n : Nat) (row : List Nat) (w : Nat → Nat) : Nat :=
  xor_sum ((List.range n).map fun j => gf_mul (row.getD j 0) (w j))

/-- The product of the `M x M` matrix `A` with the vector `v`. -/
def mat_vec (M : Nat) (A : List (List Nat)) (v : List Nat) : List Nat :=
  (List.range M).map fun i => row_sum M (A.getD i []) fun j => v.getD j 0

/-- The statement "the `M x M` matrix `A` is invertible over GF(2^8)": for every right-hand
side `b` the system `A v = b` has exactly one solution. -/
def Invertible (M : Nat) (A : List (List Nat)) : Prop :=
  ∀ b, IsByteVector M b → ∃! v, IsByteVector M v ∧ mat_vec M A v = b

/-- The statement "`w` annihilates the augmented matrix": every one of the `M` rows, of
`M + 1` entries, has row sum zero against `w`. -/
def Annihilates (M : Nat) (aug : List (List Nat)) (w : Nat → Nat) : Prop :=
  ∀ i < M, row_sum (M + 1) (aug.getD i []) w = 0

/-- The state of the augmented matrix before column `col` is reduced: `M` rows of `M + 1`
bytes, and every column before `col` is the unit vector of its index. -/
def Reduced (M col : Nat) (aug : List (List Nat)) : Prop :=
  IsByteMatrix M (M + 1) aug ∧
  ∀ c < col, ∀ i < M, (aug.getD i []).getD c 0 = if i = c then 1 else 0

/-- The augmented matrix `[A | b]` that `solve_byte` builds for one byte position. -/
def augmented (matrix rhs : List (List Nat)) (num_unknowns byte_pos : Nat) : List (List Nat) :=
  (List.range num_unknowns).map fun i =>
    ((List.range num_unknowns).map fun j => (matrix.getD i []).getD j 0) ++
      [(rhs.getD i []).getD byte_pos 0]

/-- A singular matrix: the second row is twice the first (`gf_mul(2, 1) = 2`,
`gf_mul(2, 2) = 4`). -/
def singular_demo : List (List Nat) := [[1, 2], [2, 4]]

/-- An invertible matrix with a zero in the first pivot position. -/
def invertible_demo : List (List Nat) := [[0, 1], [1, 1]]

namespace FecGroupBuffer

end FecGroupBuffer

namespace MyProtoAdapter

/-- An adapter that is constructed, given a start callback by `setOnStartStream`
(`callback` says whether the function object holds one) and then started. -/
def fresh_with_start_callback (init : AdapterInit) (callback : Bool) : MyProtoAdapter :=
  (MyProtoAdapter.new.setOnStartStream callback).start init

/-- The 35 wire bytes of a complete header whose magic is 0x12345679. -/
def bad_magic_header_bytes : List Nat := bad_magic_bytes.take HEADER_WIRE_SIZE

/-- The statement "the header names a codec `createStdFrame` knows": codec 0 or 1 in a video
header (type 0), codec 2 or 3 in any other header. -/
def codec_known (hd : MyProtoFrame) : Prop :=
  if hd.type = 0 then hd.codec = 0 ∨ hd.codec = 1 else hd.codec = 2 ∨ hd.codec = 3

instance (hd : MyProtoFrame) : Decidable (codec_known hd) := by
  unfold codec_known; exact inferInstance

/-- A key-frame video header like that of frame A, with the codec byte 9. -/
def unknown_codec_header : MyProtoFrame := { concat_a_header with codec := 9 }

/-- The 48 wire bytes of a frame with the codec byte 9. -/
def unknown_codec_bytes : List Nat := frame_bytes unknown_codec_header (List.replicate 13 0xA1)

/-- The canonical frame built for `unknown_codec_bytes`. -/
def unknown_codec_frame : StdFrame :=
  { h := { codec := "", dts_ms := 0, pts_ms := 0, keyframe := true, extradata := [],
           stream_id := "v/a/s", width := 640, height := 360, sample_rate := 0, channels := 0,
           bitrate := 0, duration_ms := 0, has_pts := true },
    payload := List.replicate 13 0xA1 }

/-- A key-frame video header like that of frame A, with the length field 0. -/
def empty_payload_header : MyProtoFrame := { concat_a_header with length := 0 }

/-- The 35 wire bytes of a frame without payload. -/
def empty_payload_bytes : List Nat := frame_bytes empty_payload_header []

/-- The canonical frame built for `empty_payload_bytes`. -/
def empty_payload_frame : StdFrame :=
  { h := { codec := "H264", dts_ms := 0, pts_ms := 0, keyframe := true, extradata := [],
           stream_id := "v/a/s", width := 640, height := 360, sample_rate := 0, channels := 0,
           bitrate := 0, duration_ms := 0, has_pts := true },
    payload := [] }

/-- The byte positions the scan loop of `processParameterSets` reads in a payload of `size`
bytes, `size ≥ 4`: `i, i+1, ..., i+4` for every `i < size - 4`. -/
def scan_positions (size : Nat) : List Nat :=
  (List.range (size - 4)).flatMap fun i => [i, i + 1, i + 2, i + 3, i + 4]

/-- A freshly started adapter with a complete H.264 key-frame in the parser members whose
wire payload is the three bytes `00 00 01`. -/
def short_start_code_demo : MyProtoAdapter :=
  { fresh_default with
    frame_header_ := { video_header 0 0x01 with length := 3 }, payload_buffer_ := [0x00, 0x00, 0x01] }

/-- The 38 wire bytes of an H.264 key-frame whose payload is `00 00 01`. -/
def short_start_code_bytes : List Nat :=
  frame_bytes { concat_a_header with length := 3 } [0x00, 0x00, 0x01]

end MyProtoAdapter

namespace ParameterSetManager

/-- The statement of the header rule as the specification words it: SPS when the string is
non-empty and `d[0] & 0x1F = 7`, PPS when `d[0] & 0x1F = 8`, VPS when
`(d[0] >> 1) & 0x3F = 32`, audio config when the string has at least two bytes. -/
def spec_header_matches (type : ParameterSetType) (d : List Nat) : Prop :=
  match type with
  | .SPS => d ≠ [] ∧ (d.getD 0 0) &&& 0x1F = 7
  | .PPS => d ≠ [] ∧ (d.getD 0 0) &&& 0x1F = 8
  | .VPS => d ≠ [] ∧ ((d.getD 0 0) >>> 1) &&& 0x3F = 32
  | .ASC => d.length ≥ 2
  | _ => d ≠ []

instance (type : ParameterSetType) (d : List Nat) : Decidable (spec_header_matches type d) := by
  unfold spec_header_matches; cases type <;> exact inferInstance

/-- The header rule with the length the code asks for: SPS, PPS and VPS need at least 4
bytes besides the matching header byte, the audio config at least 2 bytes, any other kind a
non-empty string. -/
def accepted (type : ParameterSetType) (d : List Nat) : Prop :=
  match type with
  | .SPS => d.length ≥ 4 ∧ (d.getD 0 0) &&& 0x1F = 7
  | .PPS => d.length ≥ 4 ∧ (d.getD 0 0) &&& 0x1F = 8
  | .VPS => d.length ≥ 4 ∧ ((d.getD 0 0) >>> 1) &&& 0x3F = 32
  | .ASC => d.length ≥ 2
  | _ => d ≠ []

instance (type : ParameterSetType) (d : List Nat) : Decidable (accepted type d) := by
  unfold accepted; cases type <;> exact inferInstance

/-- The entry `update_parameter_set` stores for an accepted string. -/
def latched_info (type : ParameterSetType) (d : List Nat) (timestamp_ms : Int) :
    ParameterSetInfo :=
  { type := type, data := d, timestamp_ms := timestamp_ms, is_valid := true }

end ParameterSetManager

/-! ## Protocol detection (`quic_fec_ts_adapter.{hpp,cpp}`) -/

/-- The enum `QuicFecTsAdapter::ProtocolMode`. -/
inductive ProtocolMode where
  | MODE_UNKNOWN | MODE_QUIC_FEC | MODE_BARE_TS
  deriving DecidableEq, Repr

/-- The members of `QuicFecTsAdapter` that protocol detection reads and writes:
`current_mode_`, `config_.enable_protocol_detection` and the start parameter
`default_mode`. The statistics counters are not followed. -/
structure QuicFecTsAdapter where
  current_mode_ : ProtocolMode
  enable_protocol_detection : Bool
  default_mode : String
  deriving DecidableEq, Repr

/-- The value `memcpy` leaves in an unsigned integer of `n` bytes copied from `data + pos`:
the bytes in host order, least significant first on a little-endian host. -/
def read_host (little_endian : Bool) (data : List Nat) (pos n : Nat) : Nat :=
  if little_endian then ((data.drop pos).take n).foldr (fun b acc => b + 256 * acc) 0
  else read_be data pos n

namespace QuicFecTsAdapter

/-- The constructor followed by `start` with detection enabled (the default). -/
def new : QuicFecTsAdapter :=
  { current_mode_ := .MODE_UNKNOWN, enable_protocol_detection := true, default_mode := "quic_fec" }

/-- The method `detect_protocol`; `little_endian` is the byte order of the host. -/
def detect_protocol (little_endian : Bool) (a : QuicFecTsAdapter) (data : List Nat) :
    QuicFecTsAdapter :=
  let size := data.length
  if size < 4 then a
  else
    let is_ts : Bool :=
      if size ≥ SRS_TS_PACKET_SIZE then
        if size ≥ SRS_TS_PACKET_SIZE * 2 ∧ data.getD SRS_TS_PACKET_SIZE 0 ≠ 0x47 then false
        else true
      else true
    if data.getD 0 0 = 0x47 ∧ is_ts = true then { a with current_mode_ := .MODE_BARE_TS }
    else if size ≥ 1 ∧ (data.getD 0 0) &&& 0x80 ≠ 0 then { a with current_mode_ := .MODE_QUIC_FEC }
    else
      let seq_num := read_host little_endian data 0 8
      let group_id := read_host little_endian data 8 4
      if size ≥ 16 ∧ ((seq_num > 0 ∧ seq_num < (2 ^ 64 - 1) / 2) ∨
          (group_id > 0 ∧ group_id < (2 ^ 32 - 1) / 2)) then
        { a with current_mode_ := .MODE_QUIC_FEC }
      else if ¬ a.enable_protocol_detection then
        if a.default_mode = "bare_ts" then { a with current_mode_ := .MODE_BARE_TS }
        else { a with current_mode_ := .MODE_QUIC_FEC }
      else a

/-- What `feed` does to the members followed here: detection runs when the mode is
undetermined and detection is enabled; the handling of the bytes that follows writes none
of these members. -/
def feed (little_endian : Bool) (a : QuicFecTsAdapter) (data : List Nat) : QuicFecTsAdapter :=
  if data.length = 0 then a
  else if a.current_mode_ = .MODE_UNKNOWN ∧ a.enable_protocol_detection then
    a.detect_protocol little_endian data
  else a

/-- A sequence of `feed` calls. -/
def run (little_endian : Bool) (a : QuicFecTsAdapter) (packets : List (List Nat)) :
    QuicFecTsAdapter :=
  packets.foldl (feed little_endian) a

/-- The statement of the detection rule as the specification words it, for a packet of at
least 4 bytes: bare-TS when byte 0 is `0x47` and the packet has fewer than 376 bytes or byte
188 is `0x47`; else QUIC+FEC when byte 0 has its high bit set, or when the packet has at
least 16 bytes and `(seq, group)` are not both zero; else undetermined. The two fields are
read as the specification lays them out, big-endian. -/
def spec_detect (data : List Nat) : ProtocolMode :=
  if data.getD 0 0 = 0x47 ∧ (data.length < 376 ∨ data.getD 188 0 = 0x47) then .MODE_BARE_TS
  else if data.getD 0 0 ≥ 0x80 then .MODE_QUIC_FEC
  else if data.length ≥ 16 ∧ ¬ (read_be data 0 8 = 0 ∧ read_be data 8 4 = 0) then
    .MODE_QUIC_FEC
  else .MODE_UNKNOWN

/-- The mode the code selects for a packet of at least 4 bytes while detection is enabled:
as `spec_detect`, with the test on `(seq, group)` replaced by the range test of the code
on the fields as `memcpy` leaves them, in the byte order of the host. -/
def selected_mode (little_endian : Bool) (data : List Nat) : ProtocolMode :=
  if data.getD 0 0 = 0x47 ∧ (data.length < 376 ∨ data.getD 188 0 = 0x47) then .MODE_BARE_TS
  else if data.getD 0 0 ≥ 0x80 then .MODE_QUIC_FEC
  else if data.length ≥ 16 ∧
      ((0 < read_host little_endian data 0 8 ∧
          read_host little_endian data 0 8 < 2 ^ 63 - 1) ∨
        (0 < read_host little_endian data 8 4 ∧
          read_host little_endian data 8 4 < 2 ^ 31 - 1)) then
    .MODE_QUIC_FEC
  else .MODE_UNKNOWN

/-- A 16-byte packet whose sequence field is zero and whose group field is `80 00 00 80`. -/
def high_group_packet : List Nat :=
  [0, 0, 0, 0, 0, 0, 0, 0, 0x80, 0, 0, 0x80, 0, 0, 0, 0]

/-- A 16-byte packet whose sequence field is 128 in big-endian layout
(`00 00 00 00 00 00 00 80`) and whose group field is zero. -/
def be_seq_packet : List Nat :=
  [0, 0, 0, 0, 0, 0, 0, 0x80, 0, 0, 0, 0, 0, 0, 0, 0]

/-- A 188-byte TS packet: the sync byte and 187 zero bytes. -/
def ts_packet : List Nat := 0x47 :: List.replicate 187 0x00

end QuicFecTsAdapter

/-! ## UDP dispatcher (`quic_udp_handler.{hpp,cpp}`) -/

/-- The source address of a datagram, a `sockaddr_in` of full length: IPv4 address and port
in host order. -/
structure PeerAddr where
  ip : Nat
  port : Nat
  deriving DecidableEq, Repr

/-- The struct `QuicUdpHandler::Route`. -/
structure Route where
  vhost : String
  app : String
  stream : String
  deriving DecidableEq, Repr

/-- What is followed of an adapter the dispatcher has created and started: the connection
id and the route it was started with, and the cap `config_.max_sessions` that its
`init_config` reads. The start parameters built by the dispatcher carry `connection_id`,
`client_ip` and `client_port` only, so the cap is the default 100. -/
structure SessionAdapter where
  connection_id : Nat
  route : Route
  max_sessions : Nat
  deriving DecidableEq, Repr

/-- The class `QuicUdpHandler`: the maps `adapters_` and `adapter_last_activity_`, the
routes, the idle timeout, and the function-static `packet_count` of `on_udp_packet`. The
QUIC session map, which mirrors `adapters_`, is not followed. -/
structure QuicUdpHandler where
  fixed_route_ : Route
  port_mapping_ : List (Nat × Route)
  adapters_ : List (Nat × SessionAdapter)
  adapter_last_activity_ : List (Nat × Int)
  adapter_timeout_ms_ : Int
  packet_count : Nat
  deriving DecidableEq, Repr

/-- One call of `on_udp_packet` with what the environment decides: the source address, the
number of bytes, the cached clock in milliseconds, whether `AdapterManager::create` and
`start` succeed should an adapter be created (`started`), and whether the handling of the
bytes by the session returns success (`fed`). -/
structure Datagram where
  src : PeerAddr
  nb_buf : Nat
  now_ms : Int
  started : Bool
  fed : Bool
  deriving DecidableEq, Repr

namespace QuicUdpHandler

/-- The constructor: the default route and the idle timeout of 5 minutes. -/
def new : QuicUdpHandler :=
  { fixed_route_ := { vhost := "__defaultVhost__", app := "live", stream := "stream" },
    port_mapping_ := [], adapters_ := [], adapter_last_activity_ := [],
    adapter_timeout_ms_ := 300000, packet_count := 0 }

/-- The method `get_connection_id`. The source builds the string `ip:port`; the string
determines the pair and is modelled by the number `ip * 65536 + port` (ports are 16-bit).
The maps keyed by it are only searched, extended and pruned, so the order of the keys
plays no part. -/
def get_connection_id (src : PeerAddr) : Nat := src.ip * 65536 + src.port

/-- The method `get_route_for_port`. -/
def get_route_for_port (h : QuicUdpHandler) (port : Nat) : Route :=
  match mapFind port h.port_mapping_ with
  | some r => r
  | none => h.fixed_route_

/-- The method `get_or_create_adapter`: the adapter returned (`none` is `nullptr`) and the
dispatcher afterwards. No step of it reads the number of adapters held. -/
def get_or_create_adapter (h : QuicUdpHandler) (connection_id client_port : Nat) (now_ms : Int)
    (started : Bool) : Option SessionAdapter × QuicUdpHandler :=
  match mapFind connection_id h.adapters_ with
  | some adapter =>
    (some adapter,
      { h with adapter_last_activity_ := mapInsert connection_id now_ms h.adapter_last_activity_ })
  | none =>
    if ¬ started then (none, h)
    else
      let adapter : SessionAdapter :=
        { connection_id := connection_id, route := h.get_route_for_port client_port,
          max_sessions := 100 }
      (some adapter,
        { h with adapters_ := mapInsert connection_id adapter h.adapters_
                 adapter_last_activity_ :=
                   mapInsert connection_id now_ms h.adapter_last_activity_ })

/-- The removal of one expired id in `cleanup_expired_adapters`. -/
def cleanup_one (h : QuicUdpHandler) (id : Nat) : QuicUdpHandler :=
  match mapFind id h.adapters_ with
  | some _ =>
    { h with adapters_ := mapErase id h.adapters_
             adapter_last_activity_ := mapErase id h.adapter_last_activity_ }
  | none => h

/-- The method `cleanup_expired_adapters`. -/
def cleanup_expired_adapters (h : QuicUdpHandler) (now_ms : Int) : QuicUdpHandler :=
  let expired_ids :=
    (h.adapter_last_activity_.filter fun e =>
      decide (now_ms - e.2 > h.adapter_timeout_ms_)).map Prod.fst
  expired_ids.foldl cleanup_one h

/-- The method `on_udp_packet`. -/
def on_udp_packet (h : QuicUdpHandler) (d : Datagram) : Option SrsError × QuicUdpHandler :=
  if d.nb_buf = 0 then (none, h)
  else
    match h.get_or_create_adapter (get_connection_id d.src) d.src.port d.now_ms d.started with
    | (none, h1) => (some .createAdapterFailed, h1)
    | (some _, h1) =>
      if ¬ d.fed then (some .adapterFeedFailed, h1)
      else
        let h2 := { h1 with packet_count := (h1.packet_count + 1) % 2 ^ 64 }
        if h2.packet_count % 100 = 0 then (none, h2.cleanup_expired_adapters d.now_ms)
        else (none, h2)

/-- A sequence of datagrams. -/
def run (h : QuicUdpHandler) (ds : List Datagram) : QuicUdpHandler :=
  ds.foldl (fun s d => (s.on_udp_packet d).2) h

/-- A datagram of 16 bytes from `src` at time `now_ms` for which adapter start and byte
handling succeed. -/
def datagram (now_ms : Int) (src : PeerAddr) : Datagram :=
  { src := src, nb_buf := 16, now_ms := now_ms, started := true, fed := true }

/-- The peers `10.0.0.1:5000`, ..., `10.0.0.1:5100`: 101 of them. -/
def peers_101 : List PeerAddr :=
  (List.range 101).map fun i => ({ ip := 0x0A000001, port := 5000 + i } : PeerAddr)

end QuicUdpHandler

end SrsAdapter
namespace SrsAdapter

/-- The traversal `mapExcept` depends on the values of `f` on the list only. -/
theorem mapExcept_congr {α β ε : Type} (f g : α → Except ε β) :
    ∀ l : List α, (∀ x ∈ l, f x = g x) → mapExcept f l = mapExcept g l
  | [], _ => rfl
  | x :: xs, h => by
    unfold mapExcept
    rw [h x (List.mem_cons_self _ _),
      mapExcept_congr f g xs (fun y hy => h y (List.mem_cons_of_mem _ hy))]

namespace FecGroupBuffer

/-- The solver reads the right-hand side at the rows below `num_unknowns` and the positions
below `block_size` only. -/
theorem solve_linear_system_congr (matrix rhs1 rhs2 : List (List Nat)) (bs m : Nat)
    (hlen : rhs1.length = rhs2.length)
    (h : ∀ i < m, ∀ p < bs, (rhs1.getD i []).getD p 0 = (rhs2.getD i []).getD p 0) :
    solve_linear_system matrix rhs1 bs m = solve_linear_system matrix rhs2 bs m := by
  have hb : mapExcept (solve_byte matrix rhs1 m) (List.range bs) =
      mapExcept (solve_byte matrix rhs2 m) (List.range bs) := by
    apply mapExcept_congr
    intro p hp
    have haug : ((List.range m).map fun i =>
        ((List.range m).map fun j => (matrix.getD i []).getD j 0) ++
          [(rhs1.getD i []).getD p 0]) =
      ((List.range m).map fun i =>
        ((List.range m).map fun j => (matrix.getD i []).getD j 0) ++
          [(rhs2.getD i []).getD p 0]) := by
      apply List.map_congr_left
      intro i hi
      rw [h i (List.mem_range.mp hi) p (List.mem_range.mp hp)]
    unfold solve_byte
    simp only []
    rw [haug]
  unfold solve_linear_system
  rw [hlen, hb]

/-- With zero bytes behind the buffer a raw read is the read with default 0. -/
theorem read_raw_zero (data : List Nat) (p : Nat) :
    read_raw (fun _ => 0) data p = data.getD p 0 := by
  unfold read_raw
  split_ifs with h
  · rfl
  · rw [List.getD_eq_getElem?_getD, List.getElem?_eq_none (by omega)]
    rfl

/-- With zero bytes behind the buffers the solver sees the buffers read with default 0. -/
theorem solve_linear_system_zero_beyond (matrix : List (List Nat)) (blocks : List FecBlock)
    (bs m : Nat) :
    solve_linear_system matrix
        (blocks.map fun b => (List.range bs).map (read_raw (fun _ => 0) b.data)) bs m =
      solve_linear_system matrix (blocks.map FecBlock.data) bs m := by
  apply solve_linear_system_congr
  · simp
  · intro i _ p hp
    by_cases hi : i < blocks.length
    · simp [List.getD_eq_getElem?_getD, List.getElem?_eq_getElem hi, List.getElem?_range hp,
        read_raw_zero]
    · simp [List.getD_eq_getElem?_getD, List.getElem?_eq_none (Nat.le_of_not_lt hi)]

/-- The method `repair_rs` with zero bytes behind the buffers, written out: the right-hand
side is read from the parity buffers with default 0. -/
theorem repair_rs_eq (g : FecGroupBuffer) :
    g.repair_rs =
      match scan_block_size 0 g.blocks_ with
      | none => .error .blockSizeMismatch
      | some block_size =>
        if block_size = 0 then .error .noBlocksToRepair
        else
          let parity_blocks := g.parity_blocks
          let data_blocks := g.data_blocks
          let available_indices := g.available_indices
          let missing_indices := g.get_missing_blocks
          if missing_indices.length = 0 then .ok (data_blocks.map copy_block)
          else if parity_blocks.length < missing_indices.length then .error .notEnoughParity
          else
            match build_vandermonde_matrix available_indices missing_indices with
            | .error e => .error e
            | .ok matrix =>
              let rhs := (parity_blocks.take missing_indices.length).map FecBlock.data
              match solve_linear_system matrix rhs block_size missing_indices.length with
              | .error e => .error e
              | .ok solution =>
                let ts := match parity_blocks with
                  | p :: _ => p.timestamp_ms
                  | [] => 0
                let restored := (List.range missing_indices.length).map fun i =>
                  let missing_idx := missing_indices.getD i 0
                  let m := restored_meta data_blocks missing_idx
                  ({ group_id := g.group_id_, block_index := missing_idx,
                     data := solution.getD i [], is_parity := false, timestamp_ms := ts,
                     received := true, seq_num := m.1, is_keyframe := m.2 } : FecBlock)
                .ok (restored ++ data_blocks.map copy_block) := by
  unfold repair_rs repair_rs_with
  simp only [solve_linear_system_zero_beyond]

end FecGroupBuffer

end SrsAdapter

/-! # Theorems -/

namespace SrsAdapter

/-! ## The ordered map -/

theorem mapFind_mem {β : Type} {key : Nat} {v : β} :
    ∀ {m : List (Nat × β)}, mapFind key m = some v → (key, v) ∈ m
  | [], h => by simp [mapFind] at h
  | (k, w) :: rest, h => by
    unfold mapFind at h
    split at h
    · rename_i hk
      cases h
      subst hk
      exact List.mem_cons_self _ _
    · exact List.mem_cons_of_mem _ (mapFind_mem h)

theorem mapFind_of_mem {β : Type} {key : Nat} {v : β} :
    ∀ {m : List (Nat × β)}, (mapKeys m).Pairwise (· < ·) → (key, v) ∈ m →
      mapFind key m = some v
  | [], _, h => by simp at h
  | (k, w) :: rest, hs, h => by
    unfold mapFind
    simp only [mapKeys, List.map_cons, List.pairwise_cons] at hs
    rcases List.mem_cons.mp h with h1 | h1
    · cases h1
      simp
    · have hlt : k < key := hs.1 key (List.mem_map.mpr ⟨(key, v), h1, rfl⟩)
      have hne : ¬ k = key := Nat.ne_of_lt hlt
      simp only [hne, if_false]
      exact mapFind_of_mem hs.2 h1

theorem mapFind_none_iff {β : Type} {key : Nat} :
    ∀ {m : List (Nat × β)}, mapFind key m = none ↔ key ∉ mapKeys m
  | [] => by simp [mapFind, mapKeys]
  | (k, w) :: rest => by
    unfold mapFind
    by_cases hk : k = key
    · simp [hk, mapKeys]
    · have ih := @mapFind_none_iff β key rest
      simp only [hk, if_false, mapKeys, List.map_cons, List.mem_cons] at ih ⊢
      rw [ih]
      constructor
      · intro h1 h2
        rcases h2 with h2 | h2
        · exact hk h2.symm
        · exact h1 h2
      · intro h1 h2
        exact h1 (Or.inr h2)

theorem mem_mapInsert {β : Type} {key : Nat} {v : β} {e : Nat × β} :
    ∀ {m : List (Nat × β)}, e ∈ mapInsert key v m → e = (key, v) ∨ e ∈ m
  | [], h => by
    simp [mapInsert] at h
    exact Or.inl h
  | (k, w) :: rest, h => by
    unfold mapInsert at h
    split at h
    · rcases List.mem_cons.mp h with h1 | h1
      · exact Or.inl h1
      · exact Or.inr h1
    · split at h
      · rcases List.mem_cons.mp h with h1 | h1
        · exact Or.inl h1
        · exact Or.inr (List.mem_cons_of_mem _ h1)
      · rcases List.mem_cons.mp h with h1 | h1
        · exact Or.inr (h1 ▸ List.mem_cons_self _ _)
        · rcases mem_mapInsert h1 with h2 | h2
          · exact Or.inl h2
          · exact Or.inr (List.mem_cons_of_mem _ h2)

theorem mapInsert_sorted {β : Type} {key : Nat} {v : β} :
    ∀ {m : List (Nat × β)}, (mapKeys m).Pairwise (· < ·) →
      (mapKeys (mapInsert key v m)).Pairwise (· < ·)
  | [], _ => by simp [mapInsert, mapKeys]
  | (k, w) :: rest, hs => by
    unfold mapInsert
    simp only [mapKeys, List.map_cons, List.pairwise_cons] at hs
    split
    · rename_i hlt
      simp only [mapKeys, List.map_cons, List.pairwise_cons, List.mem_cons]
      refine ⟨?_, hs.1, hs.2⟩
      intro a ha
      rcases ha with ha | ha
      · exact ha ▸ hlt
      · exact Nat.lt_trans hlt (hs.1 a ha)
    · split
      · rename_i hnlt heq
        simp only [mapKeys, List.map_cons, List.pairwise_cons]
        exact ⟨fun a ha => heq ▸ hs.1 a ha, hs.2⟩
      · rename_i hnlt hne
        simp only [mapKeys, List.map_cons, List.pairwise_cons]
        refine ⟨?_, mapInsert_sorted hs.2⟩
        intro a ha
        rcases List.mem_map.mp ha with ⟨e, he, rfl⟩
        rcases mem_mapInsert he with h2 | h2
        · subst h2
          show k < key
          omega
        · exact hs.1 e.1 (List.mem_map.mpr ⟨e, h2, rfl⟩)

/-! ## FEC group buffer: invariant and index bookkeeping -/

namespace FecGroupBuffer

theorem add_block_ok {g g1 : FecGroupBuffer} {block_index : Nat} {data : List Nat}
    {is_parity : Bool} {timestamp_ms : Int} {seq_num : Nat} {is_keyframe : Bool}
    (h : g.add_block block_index data is_parity timestamp_ms seq_num is_keyframe = .ok g1) :
    g1 = g ∨ ∃ idx blk, (is_parity = false → idx < g.config_.k) ∧
      mapFind idx g.blocks_ = none ∧ blk.block_index = idx ∧ blk.is_parity = is_parity ∧
      blk.data = data ∧ g1 = { g with blocks_ := mapInsert idx blk g.blocks_ } := by
  unfold FecGroupBuffer.add_block at h
  by_cases h1 : is_parity = true ∧ block_index ≥ sub32 g.config_.n g.config_.k
  · rw [if_pos h1] at h
    cases h
  · rw [if_neg h1] at h
    by_cases h2 : ¬ is_parity = true ∧ block_index ≥ g.config_.k
    · rw [if_pos h2] at h
      cases h
    · rw [if_neg h2] at h
      simp only at h
      generalize hidx : (if is_parity = true then (g.config_.k + block_index) % 2 ^ 32
        else block_index) = idx at h
      cases hf : mapFind idx g.blocks_ with
      | some b =>
        rw [hf] at h
        simp only [Except.ok.injEq] at h
        exact Or.inl h.symm
      | none =>
        rw [hf] at h
        simp only [Except.ok.injEq] at h
        refine Or.inr ⟨idx, _, ?_, hf, rfl, rfl, rfl, h.symm⟩
        intro hp
        subst hp
        simp only [Bool.false_eq_true, if_false] at hidx
        subst hidx
        simp only [Bool.false_eq_true, not_false_eq_true, true_and, ge_iff_le, not_le] at h2
        exact h2

theorem add_block_wf {g g1 : FecGroupBuffer} {block_index : Nat} {data : List Nat}
    {is_parity : Bool} {timestamp_ms : Int} {seq_num : Nat} {is_keyframe : Bool}
    (hw : WF g)
    (h : g.add_block block_index data is_parity timestamp_ms seq_num is_keyframe = .ok g1) :
    WF g1 := by
  obtain ⟨hs, hi, hd⟩ := hw
  rcases add_block_ok h with h1 | ⟨idx, blk, hlt, _, hbi, hbp, _, h1⟩
  · subst h1
    exact ⟨hs, hi, hd⟩
  · subst h1
    refine ⟨mapInsert_sorted hs, ?_, ?_⟩
    · intro e he
      rcases mem_mapInsert he with h1 | h1
      · subst h1
        exact hbi
      · exact hi e h1
    · intro e he hp
      rcases mem_mapInsert he with h1 | h1
      · subst h1
        exact hlt (hbp ▸ hp)
      · exact hd e h1 hp

theorem reachable_wf {g : FecGroupBuffer} (h : Reachable g) : WF g := by
  induction h with
  | new group_id config now_ms =>
    refine ⟨?_, ?_, ?_⟩ <;> simp [FecGroupBuffer.new, mapKeys]
  | add_block block_index data is_parity timestamp_ms seq_num is_keyframe _ hadd ih =>
    exact add_block_wf ih hadd

theorem available_indices_eq {g : FecGroupBuffer} (hw : WF g) :
    g.available_indices = (g.blocks_.filter fun e => !e.2.is_parity).map Prod.fst := by
  unfold available_indices data_blocks
  rw [List.map_map]
  apply List.map_congr_left
  intro e he
  exact hw.2.1 e (List.mem_of_mem_filter he)

theorem available_indices_sorted {g : FecGroupBuffer} (hw : WF g) :
    g.available_indices.Pairwise (· < ·) := by
  rw [available_indices_eq hw]
  have h1 : ((g.blocks_.filter fun e => !e.2.is_parity).map Prod.fst).Sublist (mapKeys g.blocks_) :=
    List.Sublist.map _ (List.filter_sublist _)
  exact List.Pairwise.sublist h1 hw.1

theorem mem_available_indices {g : FecGroupBuffer} (hw : WF g) (i : Nat) :
    i ∈ g.available_indices ↔ ∃ b, mapFind i g.blocks_ = some b ∧ b.is_parity = false := by
  rw [available_indices_eq hw]
  constructor
  · intro h
    rcases List.mem_map.mp h with ⟨e, he, rfl⟩
    rcases List.mem_filter.mp he with ⟨he1, he2⟩
    refine ⟨e.2, mapFind_of_mem hw.1 he1, ?_⟩
    simpa using he2
  · rintro ⟨b, hb, hp⟩
    refine List.mem_map.mpr ⟨(i, b), List.mem_filter.mpr ⟨mapFind_mem hb, ?_⟩, rfl⟩
    simp [hp]

/-- The missing indices together with the indices of the stored data blocks are exactly
`0, ..., k-1`, each once. -/
theorem missing_available_perm {g : FecGroupBuffer} (hw : WF g) :
    (g.get_missing_blocks ++ g.available_indices).Perm (List.range g.config_.k) := by
  have hA : g.available_indices.Perm
      ((List.range g.config_.k).filter fun i =>
        !(match mapFind i g.blocks_ with
          | none => true
          | some b => b.is_parity)) := by
    refine (List.perm_ext_iff_of_nodup ?_ ?_).mpr ?_
    · exact (available_indices_sorted hw).imp (fun h => Nat.ne_of_lt h)
    · exact (List.nodup_range _).filter _
    · intro i
      rw [mem_available_indices hw, List.mem_filter, List.mem_range]
      constructor
      · rintro ⟨b, hb, hp⟩
        refine ⟨hw.2.2 (i, b) (mapFind_mem hb) hp, ?_⟩
        simp [hb, hp]
      · rintro ⟨_, h2⟩
        cases hf : mapFind i g.blocks_ with
        | none => simp [hf] at h2
        | some b =>
          refine ⟨b, rfl, ?_⟩
          simpa [hf] using h2
  exact (List.Perm.append_left _ hA).trans (List.filter_append_perm _ _)

theorem missing_length {g : FecGroupBuffer} (hw : WF g) :
    g.get_missing_blocks.length + g.data_blocks.length = g.config_.k := by
  have h := (missing_available_perm hw).length_eq
  simpa [available_indices] using h

theorem getD_map_range {α : Type} (f : Nat → α) (d : α) {i n : Nat} (h : i < n) :
    ((List.range n).map f).getD i d = f i := by
  simp [List.getD_eq_getElem?_getD, List.getElem?_map, List.getElem?_range h]

theorem scan_block_size_uniform {L : Nat} :
    ∀ (m : List (Nat × FecBlock)) (bs : Nat), (bs = 0 ∨ bs = L) →
      (∀ e ∈ m, e.2.data.length = L) →
      scan_block_size bs m = some (if m = [] then bs else L)
  | [], bs, _, _ => by simp [scan_block_size]
  | e :: rest, bs, hbs, hall => by
    have he : e.2.data.length = L := hall e (List.mem_cons_self _ _)
    have hrest : ∀ x ∈ rest, x.2.data.length = L := fun x hx => hall x (List.mem_cons_of_mem _ hx)
    unfold scan_block_size
    by_cases h0 : bs = 0
    · rw [if_pos h0, he, scan_block_size_uniform rest L (Or.inr rfl) hrest]
      simp
    · have hL : bs = L := by
        rcases hbs with h | h
        · exact absurd h h0
        · exact h
      rw [if_neg h0, he, if_neg (by simp [hL]), scan_block_size_uniform rest bs (Or.inr hL) hrest]
      simp [hL]

theorem xor_into_length (acc blk : List Nat) : (xor_into acc blk).length = acc.length := by
  simp [xor_into]

theorem foldl_xor_into_length (bl : List FecBlock) :
    ∀ acc : List Nat, (bl.foldl (fun acc b => xor_into acc b.data) acc).length = acc.length := by
  induction bl with
  | nil => intro acc; rfl
  | cons b rest ih =>
    intro acc
    simp only [List.foldl_cons]
    rw [ih, xor_into_length]

theorem solve_linear_system_shape {matrix rhs : List (List Nat)} {bs M : Nat}
    {sol : List (List Nat)} (h : solve_linear_system matrix rhs bs M = .ok sol) :
    sol.length = M ∧ ∀ i, i < M → (sol.getD i []).length = bs := by
  unfold solve_linear_system at h
  split at h
  · cases h
  · split at h
    · cases h
    · simp only [Except.ok.injEq] at h
      subst h
      refine ⟨by simp, ?_⟩
      intro i hi
      rw [getD_map_range _ _ hi]
      simp

/-- The shape of a successful `repair_rs`: reconstructed blocks for the missing indices, in
the order of `get_missing_blocks`, each `block_size` long, then the stored data blocks. -/
theorem repair_rs_shape {g : FecGroupBuffer} {out : List FecBlock} (h : g.repair_rs = .ok out) :
    ∃ restored bs, out = restored ++ g.data_blocks.map copy_block ∧
      restored.map FecBlock.block_index = g.get_missing_blocks ∧
      scan_block_size 0 g.blocks_ = some bs ∧ bs ≠ 0 ∧ ∀ b ∈ restored, b.data.length = bs := by
  rw [repair_rs_eq] at h
  cases hscan : scan_block_size 0 g.blocks_ with
  | none => simp [hscan] at h
  | some bs =>
    simp only [hscan] at h
    by_cases hbs : bs = 0
    · simp [hbs] at h
    · rw [if_neg hbs] at h
      by_cases hm : g.get_missing_blocks.length = 0
      · rw [if_pos hm] at h
        simp only [Except.ok.injEq] at h
        refine ⟨[], bs, by simp [h], ?_, rfl, hbs, by simp⟩
        simp [List.length_eq_zero.mp hm]
      · rw [if_neg hm] at h
        split at h
        · cases h
        · split at h
          · cases h
          · split at h
            · cases h
            · rename_i solution hsol
              simp only [Except.ok.injEq] at h
              obtain ⟨hlen, hrow⟩ := solve_linear_system_shape hsol
              refine ⟨_, bs, h.symm, ?_, rfl, hbs, ?_⟩
              · apply List.ext_getElem
                · simp
                · intro i h1 h2
                  simp only [List.length_map, List.length_range] at h1
                  simp [List.getD_eq_getElem?_getD, List.getElem?_eq_getElem h1]
              · intro b hb
                rcases List.mem_map.mp hb with ⟨i, hi, rfl⟩
                exact hrow i (List.mem_range.mp hi)

/-- The shape of a successful `repair_xor`: one reconstructed block for the single missing
index, `block_size` long, then the stored data blocks. -/
theorem repair_xor_shape {g : FecGroupBuffer} {out : List FecBlock} (h : g.repair_xor = .ok out) :
    ∃ restored bs, out = restored ++ g.data_blocks.map copy_block ∧
      restored.map FecBlock.block_index = g.get_missing_blocks ∧
      scan_block_size 0 g.blocks_ = some bs ∧ bs ≠ 0 ∧ ∀ b ∈ restored, b.data.length = bs := by
  unfold repair_xor at h
  cases hscan : scan_block_size 0 g.blocks_ with
  | none => simp [hscan] at h
  | some bs =>
    simp only [hscan] at h
    by_cases hbs : bs = 0
    · simp [hbs] at h
    · rw [if_neg hbs] at h
      split at h
      · rename_i missing_idx parity rest hmiss hpar
        split at h
        · simp only [Except.ok.injEq] at h
          refine ⟨[_], bs, h.symm, ?_, rfl, hbs, ?_⟩
          · simp [hmiss]
          · intro b hb
            simp only [List.mem_singleton] at hb
            subst hb
            simp [foldl_xor_into_length]
        · cases h
      · cases h

/-- The shape of every successful `repair`. -/
theorem repair_shape {g : FecGroupBuffer} {out : List FecBlock} (h : g.repair = .ok out) :
    (g.is_complete = true ∧ out = g.data_blocks.map copy_block) ∨
    (g.is_complete = false ∧ ∃ restored bs, out = restored ++ g.data_blocks.map copy_block ∧
      restored.map FecBlock.block_index = g.get_missing_blocks ∧
      scan_block_size 0 g.blocks_ = some bs ∧ bs ≠ 0 ∧ ∀ b ∈ restored, b.data.length = bs) := by
  unfold repair at h
  split at h
  · cases h
  · split at h
    · rename_i hc
      simp only [Except.ok.injEq] at h
      exact Or.inl ⟨hc, h.symm⟩
    · rename_i hc
      simp only [Bool.not_eq_true] at hc
      refine Or.inr ⟨hc, ?_⟩
      simp only at h
      split at h
      · rename_i o ho
        simp only [Except.ok.injEq] at h
        subst h
        split at ho
        · split at ho
          · rename_i o1 hrs
            simp only [Option.some.injEq] at ho
            subst ho
            exact repair_rs_shape hrs
          · cases ho
        · cases ho
      · split at h
        · exact repair_xor_shape h
        · cases h

theorem blocks_length_split (g : FecGroupBuffer) :
    g.blocks_.length = g.parity_blocks.length + g.data_blocks.length := by
  unfold parity_blocks data_blocks
  rw [List.length_map, List.length_map]
  exact List.length_eq_length_filter_add _

theorem copy_block_index (b : FecBlock) : (copy_block b).block_index = b.block_index := rfl

theorem copy_block_data (b : FecBlock) : (copy_block b).data = b.data := rfl

theorem data_blocks_copy_indices (g : FecGroupBuffer) :
    (g.data_blocks.map copy_block).map FecBlock.block_index = g.available_indices := by
  unfold available_indices
  rw [List.map_map]
  rfl

/-- The indices returned by a successful `repair` are `0, ..., k-1`, each once. -/
theorem repair_indices_perm {g : FecGroupBuffer} {out : List FecBlock} (hw : WF g)
    (h : g.repair = .ok out) :
    (out.map FecBlock.block_index).Perm (List.range g.config_.k) := by
  have hperm := missing_available_perm hw
  rcases repair_shape h with ⟨hc, hout⟩ | ⟨_, restored, bs, hout, hidx, _, _, _⟩
  · subst hout
    rw [data_blocks_copy_indices]
    have hlen := missing_length hw
    have hge : g.config_.k ≤ g.data_blocks.length := by
      have := hc
      unfold is_complete at this
      simp only [ge_iff_le, decide_eq_true_eq] at this
      simpa [data_blocks] using this
    have hm : g.get_missing_blocks = [] := List.length_eq_zero.mp (by omega)
    simpa [hm] using hperm
  · subst hout
    rw [List.map_append, hidx, data_blocks_copy_indices]
    exact hperm

theorem mapExcept_ok {α β ε : Type} (f : α → Except ε β) :
    ∀ l : List α, (∀ x ∈ l, ∃ y, f x = .ok y) → ∃ ys, mapExcept f l = .ok ys
  | [], _ => ⟨[], rfl⟩
  | x :: xs, h => by
    obtain ⟨y, hy⟩ := h x (List.mem_cons_self _ _)
    obtain ⟨ys, hys⟩ := mapExcept_ok f xs (fun z hz => h z (List.mem_cons_of_mem _ hz))
    exact ⟨y :: ys, by simp [mapExcept, hy, hys]⟩

theorem build_vandermonde_matrix_ok {avail miss : List Nat} (h0 : miss.length ≠ 0)
    (h : miss.length ≤ avail.length) : ∃ V, build_vandermonde_matrix avail miss = .ok V := by
  unfold build_vandermonde_matrix
  simp only [h0, if_false]
  apply mapExcept_ok
  intro i hi
  have hi1 : i < miss.length := List.mem_range.mp hi
  have : ¬ i ≥ avail.length := by omega
  simp only [this, if_false]
  exact ⟨_, rfl⟩

theorem sub64_eq {a b : Nat} (hb : b ≤ a) (ha : a < 2 ^ 64) : sub64 a b = a - b := by
  unfold sub64
  have h1 : b % 2 ^ 64 = b := Nat.mod_eq_of_lt (by omega)
  rw [h1]
  have h2 : a + 2 ^ 64 - b = (a - b) + 2 ^ 64 := by omega
  rw [h2, Nat.add_mod_right]
  exact Nat.mod_eq_of_lt (by omega)

theorem mapExcept_eq_map {α β ε : Type} (f : α → Except ε β) (g : α → β) :
    ∀ l : List α, (∀ x ∈ l, f x = .ok (g x)) → mapExcept f l = .ok (l.map g)
  | [], _ => rfl
  | x :: xs, h => by
    have h1 := h x (List.mem_cons_self _ _)
    have h2 := mapExcept_eq_map f g xs (fun z hz => h z (List.mem_cons_of_mem _ hz))
    simp [mapExcept, h1, h2]

/-- With the 1 x 1 matrix `[[1]]` the solver returns the right-hand side itself. -/
theorem solve_linear_system_one (p : List Nat) (bs : Nat) :
    solve_linear_system [[1]] [p] bs 1 = .ok [(List.range bs).map fun i => p.getD i 0] := by
  have hb : ∀ pos, solve_byte [[1]] [p] 1 pos = .ok [p.getD pos 0] := by
    intro pos
    simp [solve_byte, eliminate_from, eliminate_column, find_pivot, List.range, List.range.loop]
  have hm := mapExcept_eq_map (solve_byte [[1]] [p] 1) (fun pos => [p.getD pos 0])
    (List.range bs) (fun x _ => hb x)
  unfold solve_linear_system
  simp only [List.length_singleton, ne_eq, not_true_eq_false, or_self, if_false, hm]
  have h1 : List.range 1 = [0] := rfl
  simp only [h1, List.map_cons, List.map_nil, Except.ok.injEq, List.cons.injEq, and_true]
  apply List.map_congr_left
  intro i hi
  rw [getD_map_range _ _ (List.mem_range.mp hi)]
  rfl

theorem reachable_add_blocks {g : FecGroupBuffer} (h : Reachable g)
    (shards : List (Nat × List Nat × Bool)) : Reachable (add_blocks g shards) := by
  induction shards generalizing g with
  | nil => exact h
  | cons s rest ih =>
    unfold add_blocks
    rw [List.foldl_cons]
    cases hs : g.add_block s.1 s.2.1 s.2.2 0 0 false with
    | error e => exact ih h
    | ok g1 => exact ih (Reachable.add_block _ _ _ _ _ _ h hs)

/-- The dispatch of `repair` when the Reed-Solomon path is taken and succeeds. -/
theorem repair_eq_of_rs_ok {g : FecGroupBuffer} {out : List FecBlock}
    (hcan : g.can_repair = true) (hc : g.is_complete = false)
    (hcond : g.get_missing_blocks.length > 0 ∧
      g.get_missing_blocks.length ≤
        sub64 g.blocks_.length (sub64 g.config_.k g.get_missing_blocks.length) ∧
      g.blocks_.length ≥ g.config_.k)
    (hrs : g.repair_rs = .ok out) : g.repair = .ok out := by
  unfold repair
  rw [if_neg (by simp [hcan]), if_neg (by simp [hc])]
  simp only [if_pos hcond, hrs]

/-- The dispatch of `repair` when the Reed-Solomon path is not taken or fails. -/
theorem repair_eq_of_rs_error {g : FecGroupBuffer}
    (hcan : g.can_repair = true) (hc : g.is_complete = false)
    (hrs : (¬ (g.get_missing_blocks.length > 0 ∧
      g.get_missing_blocks.length ≤
        sub64 g.blocks_.length (sub64 g.config_.k g.get_missing_blocks.length) ∧
      g.blocks_.length ≥ g.config_.k)) ∨ ∃ e, g.repair_rs = .error e) :
    g.repair = if g.get_missing_blocks.length = 1 then g.repair_xor else .error .cannotRepair := by
  unfold repair
  rw [if_neg (by simp [hcan]), if_neg (by simp [hc])]
  rcases hrs with h | ⟨e, h⟩
  · simp only [if_neg h]
  · by_cases hcond : (g.get_missing_blocks.length > 0 ∧
      g.get_missing_blocks.length ≤
        sub64 g.blocks_.length (sub64 g.config_.k g.get_missing_blocks.length) ∧
      g.blocks_.length ≥ g.config_.k)
    · simp only [if_pos hcond, h]
    · simp only [if_neg hcond]

end FecGroupBuffer

end SrsAdapter

namespace SrsAdapter

/-! ## GF(2^8) tables -/

set_option maxRecDepth 1000000 in
/-- The contents of `gf_exp_table` after `init_gf_tables`. -/
theorem gf_exp_table_eq : gf_exp_table =
    [1, 2, 4, 8, 16, 32, 64, 128, 29, 58, 116, 232, 205, 135, 19, 38, 76, 152, 45, 90, 180, 117,
    234, 201, 143, 3, 6, 12, 24, 48, 96, 192, 157, 39, 78, 156, 37, 74, 148, 53, 106, 212, 181,
    119, 238, 193, 159, 35, 70, 140, 5, 10, 20, 40, 80, 160, 93, 186, 105, 210, 185, 111, 222,
    161, 95, 190, 97, 194, 153, 47, 94, 188, 101, 202, 137, 15, 30, 60, 120, 240, 253, 231, 211,
    187, 107, 214, 177, 127, 254, 225, 223, 163, 91, 182, 113, 226, 217, 175, 67, 134, 17, 34,
    68, 136, 13, 26, 52, 104, 208, 189, 103, 206, 129, 31, 62, 124, 248, 237, 199, 147, 59, 118,
    236, 197, 151, 51, 102, 204, 133, 23, 46, 92, 184, 109, 218, 169, 79, 158, 33, 66, 132, 21,
    42, 84, 168, 77, 154, 41, 82, 164, 85, 170, 73, 146, 57, 114, 228, 213, 183, 115, 230, 209,
    191, 99, 198, 145, 63, 126, 252, 229, 215, 179, 123, 246, 241, 255, 227, 219, 171, 75, 150,
    49, 98, 196, 149, 55, 110, 220, 165, 87, 174, 65, 130, 25, 50, 100, 200, 141, 7, 14, 28, 56,
    112, 224, 221, 167, 83, 166, 81, 162, 89, 178, 121, 242, 249, 239, 195, 155, 43, 86, 172, 69,
    138, 9, 18, 36, 72, 144, 61, 122, 244, 245, 247, 243, 251, 235, 203, 139, 11, 22, 44, 88,
    176, 125, 250, 233, 207, 131, 27, 54, 108, 216, 173, 71, 142, 1, 2, 4, 8, 16, 32, 64, 128,
    29, 58, 116, 232, 205, 135, 19, 38, 76, 152, 45, 90, 180, 117, 234, 201, 143, 3, 6, 12, 24,
    48, 96, 192, 157, 39, 78, 156, 37, 74, 148, 53, 106, 212, 181, 119, 238, 193, 159, 35, 70,
    140, 5, 10, 20, 40, 80, 160, 93, 186, 105, 210, 185, 111, 222, 161, 95, 190, 97, 194, 153,
    47, 94, 188, 101, 202, 137, 15, 30, 60, 120, 240, 253, 231, 211, 187, 107, 214, 177, 127,
    254, 225, 223, 163, 91, 182, 113, 226, 217, 175, 67, 134, 17, 34, 68, 136, 13, 26, 52, 104,
    208, 189, 103, 206, 129, 31, 62, 124, 248, 237, 199, 147, 59, 118, 236, 197, 151, 51, 102,
    204, 133, 23, 46, 92, 184, 109, 218, 169, 79, 158, 33, 66, 132, 21, 42, 84, 168, 77, 154, 41,
    82, 164, 85, 170, 73, 146, 57, 114, 228, 213, 183, 115, 230, 209, 191, 99, 198, 145, 63, 126,
    252, 229, 215, 179, 123, 246, 241, 255, 227, 219, 171, 75, 150, 49, 98, 196, 149, 55, 110,
    220, 165, 87, 174, 65, 130, 25, 50, 100, 200, 141, 7, 14, 28, 56, 112, 224, 221, 167, 83,
    166, 81, 162, 89, 178, 121, 242, 249, 239, 195, 155, 43, 86, 172, 69, 138, 9, 18, 36, 72,
    144, 61, 122, 244, 245, 247, 243, 251, 235, 203, 139, 11, 22, 44, 88, 176, 125, 250, 233,
    207, 131, 27, 54, 108, 216, 173, 71, 142, 1, 2] := by
  decide

set_option maxRecDepth 1000000 in
/-- The contents of `gf_log_table` after `init_gf_tables`. -/
theorem gf_log_table_eq : gf_log_table =
    [255, 0, 1, 25, 2, 50, 26, 198, 3, 223, 51, 238, 27, 104, 199, 75, 4, 100, 224, 14, 52, 141,
    239, 129, 28, 193, 105, 248, 200, 8, 76, 113, 5, 138, 101, 47, 225, 36, 15, 33, 53, 147, 142,
    218, 240, 18, 130, 69, 29, 181, 194, 125, 106, 39, 249, 185, 201, 154, 9, 120, 77, 228, 114,
    166, 6, 191, 139, 98, 102, 221, 48, 253, 226, 152, 37, 179, 16, 145, 34, 136, 54, 208, 148,
    206, 143, 150, 219, 189, 241, 210, 19, 92, 131, 56, 70, 64, 30, 66, 182, 163, 195, 72, 126,
    110, 107, 58, 40, 84, 250, 133, 186, 61, 202, 94, 155, 159, 10, 21, 121, 43, 78, 212, 229,
    172, 115, 243, 167, 87, 7, 112, 192, 247, 140, 128, 99, 13, 103, 74, 222, 237, 49, 197, 254,
    24, 227, 165, 153, 119, 38, 184, 180, 124, 17, 68, 146, 217, 35, 32, 137, 46, 55, 63, 209,
    91, 149, 188, 207, 205, 144, 135, 151, 178, 220, 252, 190, 97, 242, 86, 211, 171, 20, 42, 93,
    158, 132, 60, 57, 83, 71, 109, 65, 162, 31, 45, 67, 216, 183, 123, 164, 118, 196, 23, 73,
    236, 127, 12, 111, 246, 108, 161, 59, 82, 41, 157, 85, 170, 251, 96, 134, 177, 187, 204, 62,
    90, 203, 89, 95, 176, 156, 169, 160, 81, 11, 245, 22, 235, 122, 117, 44, 215, 79, 174, 213,
    233, 230, 231, 173, 232, 116, 214, 244, 234, 168, 80, 88, 175] := by
  decide

end SrsAdapter
namespace SrsAdapter

/-! ## GF(2^8) arithmetic -/

theorem all_below_spec {n : Nat} {p : Nat → Bool} (h : all_below n p = true) :
    ∀ i < n, p i = true := by
  induction n with
  | zero => intro i hi; omega
  | succ n ih =>
    unfold all_below at h
    simp only [Bool.and_eq_true] at h
    intro i hi
    rcases Nat.lt_succ_iff_lt_or_eq.mp hi with h1 | h1
    · exact ih h.2 i h1
    · rw [h1]
      exact h.1

theorem gf_step_lt (v : Nat) : gf_step v < 256 := by
  unfold gf_step
  exact Nat.mod_lt _ (by norm_num)

set_option maxRecDepth 1000000 in
/-- The table `gf_exp_table` holds the powers of `alpha`: each entry is `gf_step` of the
one before. -/
theorem exp_table_step :
    ∀ i < 255, gf_exp_table.getD (i + 1) 0 = gf_step (gf_exp_table.getD i 0) := by
  rw [gf_exp_table_eq]
  decide

set_option maxRecDepth 1000000 in
/-- The entries of `gf_exp_table` below 255 are non-zero bytes whose logarithm is their
position. -/
theorem log_exp_table :
    ∀ i < 255, gf_log_table.getD (gf_exp_table.getD i 0) 0 = i ∧
      gf_exp_table.getD i 0 ≠ 0 ∧ gf_exp_table.getD i 0 < 256 := by
  rw [gf_exp_table_eq, gf_log_table_eq]
  decide

set_option maxRecDepth 1000000 in
/-- A non-zero byte is the power of `alpha` that `gf_log_table` names. -/
theorem exp_log_table :
    ∀ a < 256, a ≠ 0 → gf_exp_table.getD (gf_log_table.getD a 0) 0 = a ∧
      gf_log_table.getD a 0 < 255 := by
  rw [gf_exp_table_eq, gf_log_table_eq]
  decide

end SrsAdapter
namespace SrsAdapter

theorem exp_at_facts (i : Nat) :
    exp_at i < 256 ∧ exp_at i ≠ 0 ∧ gf_log_table.getD (exp_at i) 0 = i % 255 := by
  unfold exp_at
  obtain ⟨h1, h2, h3⟩ := log_exp_table (i % 255) (Nat.mod_lt _ (by norm_num))
  exact ⟨h3, h2, h1⟩

theorem exp_at_log {a : Nat} (ha : a < 256) (h0 : a ≠ 0) :
    exp_at (gf_log_table.getD a 0) = a ∧ gf_log_table.getD a 0 < 255 := by
  obtain ⟨h1, h2⟩ := exp_log_table a ha h0
  unfold exp_at
  rw [Nat.mod_eq_of_lt h2]
  exact ⟨h1, h2⟩

theorem exp_at_mod (i : Nat) : exp_at (i % 255) = exp_at i := by
  unfold exp_at
  rw [Nat.mod_mod]

theorem exp_at_zero : exp_at 0 = 1 := by
  unfold exp_at
  rw [gf_exp_table_eq]
  rfl

theorem log_one : gf_log_table.getD 1 0 = 0 := by
  have := (exp_at_facts 0).2.2
  rw [exp_at_zero] at this
  exact this

/-- Multiplication by `alpha` moves one place up in the table. -/
theorem gf_step_exp_at (i : Nat) : gf_step (exp_at i) = exp_at (i + 1) := by
  have hlt : i % 255 < 255 := Nat.mod_lt _ (by norm_num)
  have hs := exp_table_step (i % 255) hlt
  unfold exp_at
  rw [← hs]
  by_cases h : i % 255 = 254
  · have h1 : (i + 1) % 255 = 0 := by omega
    rw [h1, h]
    rw [gf_exp_table_eq]
    rfl
  · have h1 : (i + 1) % 255 = i % 255 + 1 := by omega
    rw [h1]

theorem gf_step_iterate_exp_at (n i : Nat) : gf_step^[n] (exp_at i) = exp_at (i + n) := by
  induction n generalizing i with
  | zero => rfl
  | succ n ih =>
    rw [Function.iterate_succ_apply, gf_step_exp_at, ih]
    congr 1
    omega

theorem gf_step_zero : gf_step 0 = 0 := by decide

theorem gf_step_iterate_zero (n : Nat) : gf_step^[n] 0 = 0 := by
  induction n with
  | zero => rfl
  | succ n ih => rw [Function.iterate_succ_apply, gf_step_zero, ih]

theorem gf_step_iterate_lt (n : Nat) {b : Nat} (hb : b < 256) : gf_step^[n] b < 256 := by
  induction n generalizing b with
  | zero => exact hb
  | succ n ih =>
    rw [Function.iterate_succ_apply]
    exact ih (gf_step_lt b)

/-- The product of two non-zero bytes is the power of `alpha` whose exponent is the sum of
their logarithms. -/
theorem gf_mul_fast_eq_exp {a b : Nat} (ha : a < 256) (hb : b < 256) (ha0 : a ≠ 0)
    (hb0 : b ≠ 0) :
    gf_mul_fast a b = exp_at (gf_log_table.getD a 0 + gf_log_table.getD b 0) := by
  obtain ⟨hea, hla⟩ := exp_at_log ha ha0
  obtain ⟨heb, hlb⟩ := exp_at_log hb hb0
  unfold gf_mul_fast
  rw [if_neg (by simp [ha0, hb0])]
  by_cases h1 : a = 1
  · rw [if_pos h1, h1, log_one, Nat.zero_add, heb]
  · rw [if_neg h1]
    by_cases h2 : b = 1
    · rw [if_pos h2, h2, log_one, Nat.add_zero, hea]
    · rw [if_neg h2]
      have hsum : (if gf_log_table.getD a 0 + gf_log_table.getD b 0 ≥ 255 then
          gf_log_table.getD a 0 + gf_log_table.getD b 0 - 255
          else gf_log_table.getD a 0 + gf_log_table.getD b 0) =
          (gf_log_table.getD a 0 + gf_log_table.getD b 0) % 255 := by
        split_ifs with h3
        · omega
        · omega
      show gf_exp_table.getD (if gf_log_table.getD a 0 + gf_log_table.getD b 0 ≥ 255 then
          gf_log_table.getD a 0 + gf_log_table.getD b 0 - 255
          else gf_log_table.getD a 0 + gf_log_table.getD b 0) 0 = _
      rw [hsum]
      rfl

theorem gf_mul_fast_zero_left (b : Nat) : gf_mul_fast 0 b = 0 := by
  unfold gf_mul_fast
  simp

theorem gf_mul_fast_zero_right (a : Nat) : gf_mul_fast a 0 = 0 := by
  unfold gf_mul_fast
  simp

theorem gf_mul_fast_one_left (b : Nat) : gf_mul_fast 1 b = b := by
  unfold gf_mul_fast
  by_cases h : b = 0
  · simp [h]
  · simp [h]

theorem gf_mul_fast_one_right (a : Nat) : gf_mul_fast a 1 = a := by
  unfold gf_mul_fast
  by_cases h : a = 0
  · simp [h]
  · by_cases h1 : a = 1
    · simp [h1]
    · simp [h, h1]

theorem gf_mul_fast_comm (a b : Nat) : gf_mul_fast a b = gf_mul_fast b a := by
  unfold gf_mul_fast
  by_cases ha : a = 0
  · simp [ha]
  · by_cases hb : b = 0
    · simp [hb]
    · by_cases ha1 : a = 1
      · by_cases hb1 : b = 1
        · simp [ha1, hb1]
        · simp [ha1, hb1, hb]
      · by_cases hb1 : b = 1
        · simp [ha1, hb1, ha]
        · simp only [ha, hb, ha1, hb1, or_self, if_false]
          rw [Nat.add_comm]

theorem gf_mul_fast_lt {a b : Nat} (ha : a < 256) (hb : b < 256) : gf_mul_fast a b < 256 := by
  by_cases ha0 : a = 0
  · rw [ha0, gf_mul_fast_zero_left]
    norm_num
  · by_cases hb0 : b = 0
    · rw [hb0, gf_mul_fast_zero_right]
      norm_num
    · rw [gf_mul_fast_eq_exp ha hb ha0 hb0]
      exact (exp_at_facts _).1

theorem gf_mul_fast_ne_zero {a b : Nat} (ha : a < 256) (hb : b < 256) (ha0 : a ≠ 0)
    (hb0 : b ≠ 0) : gf_mul_fast a b ≠ 0 := by
  rw [gf_mul_fast_eq_exp ha hb ha0 hb0]
  exact (exp_at_facts _).2.1

theorem gf_mul_fast_assoc {a b c : Nat} (ha : a < 256) (hb : b < 256) (hc : c < 256) :
    gf_mul_fast (gf_mul_fast a b) c = gf_mul_fast a (gf_mul_fast b c) := by
  by_cases ha0 : a = 0
  · simp only [ha0, gf_mul_fast_zero_left]
  by_cases hb0 : b = 0
  · simp only [hb0, gf_mul_fast_zero_left, gf_mul_fast_zero_right]
  by_cases hc0 : c = 0
  · simp only [hc0, gf_mul_fast_zero_right]
  generalize hla : gf_log_table.getD a 0 = la
  generalize hlb : gf_log_table.getD b 0 = lb
  generalize hlc : gf_log_table.getD c 0 = lc
  have hab : gf_mul_fast a b = exp_at (la + lb) := by
    rw [gf_mul_fast_eq_exp ha hb ha0 hb0, hla, hlb]
  have hbc : gf_mul_fast b c = exp_at (lb + lc) := by
    rw [gf_mul_fast_eq_exp hb hc hb0 hc0, hlb, hlc]
  have h1 : gf_mul_fast (gf_mul_fast a b) c = exp_at ((la + lb) % 255 + lc) := by
    rw [gf_mul_fast_eq_exp (gf_mul_fast_lt ha hb) hc (gf_mul_fast_ne_zero ha hb ha0 hb0) hc0,
      hlc, hab, (exp_at_facts (la + lb)).2.2]
  have h2 : gf_mul_fast a (gf_mul_fast b c) = exp_at (la + (lb + lc) % 255) := by
    rw [gf_mul_fast_eq_exp ha (gf_mul_fast_lt hb hc) ha0 (gf_mul_fast_ne_zero hb hc hb0 hc0),
      hla, hbc, (exp_at_facts (lb + lc)).2.2]
  have h3 : ((la + lb) % 255 + lc) % 255 = (la + (lb + lc) % 255) % 255 := by omega
  have e1 := exp_at_mod ((la + lb) % 255 + lc)
  have e2 := exp_at_mod (la + (lb + lc) % 255)
  rw [h1, h2, ← e1, ← e2, h3]

/-- Multiplication by a non-zero byte `a` is `log a` multiplications by `alpha`. -/
theorem gf_mul_fast_eq_iterate {a b : Nat} (ha : a < 256) (hb : b < 256) (ha0 : a ≠ 0) :
    gf_mul_fast a b = gf_step^[gf_log_table.getD a 0] b := by
  by_cases hb0 : b = 0
  · rw [hb0, gf_mul_fast_zero_right, gf_step_iterate_zero]
  · rw [gf_mul_fast_eq_exp ha hb ha0 hb0]
    obtain ⟨heb, _⟩ := exp_at_log hb hb0
    conv_rhs => rw [← heb]
    rw [gf_step_iterate_exp_at, Nat.add_comm]

end SrsAdapter
namespace SrsAdapter

set_option maxRecDepth 100000 in
theorem and_0x80_iff : ∀ v < 256, (v &&& 0x80 ≠ 0 ↔ v.testBit 7 = true) := by decide

/-- The update `gf_step` on a byte, with the test of bit 7 spelt out. -/
theorem gf_step_eq {v : Nat} (hv : v < 256) :
    gf_step v = ((v <<< 1) ^^^ (if v.testBit 7 = true then 0x1D else 0)) % 256 := by
  unfold gf_step
  by_cases h : v.testBit 7 = true
  · rw [if_pos ((and_0x80_iff v hv).mpr h), if_pos h]
  · rw [if_neg (fun hc => h ((and_0x80_iff v hv).mp hc)), if_neg h]

/-- Multiplication by `alpha` is additive. -/
theorem gf_step_xor {b c : Nat} (hb : b < 256) (hc : c < 256) :
    gf_step (b ^^^ c) = gf_step b ^^^ gf_step c := by
  have hx : b ^^^ c < 256 := Nat.xor_lt_two_pow (n := 8) hb hc
  rw [gf_step_eq hx, gf_step_eq hb, gf_step_eq hc]
  have h256 : (256 : Nat) = 2 ^ 8 := by norm_num
  rw [h256]
  apply Nat.eq_of_testBit_eq
  intro i
  simp only [Nat.testBit_mod_two_pow, Nat.testBit_xor, Nat.testBit_shiftLeft]
  generalize decide (i < 8) = p
  generalize decide (i ≥ 1) = q
  generalize b.testBit (i - 1) = x
  generalize c.testBit (i - 1) = y
  cases hb7 : b.testBit 7 <;> cases hc7 : c.testBit 7 <;>
    simp only [Bool.xor_false, Bool.xor_true, Bool.false_xor, Bool.true_xor, Bool.not_true,
      Bool.not_false, if_true, if_false, Bool.false_eq_true, Nat.zero_testBit] <;>
    generalize Nat.testBit 0x1D i = z <;>
    cases p <;> cases q <;> cases x <;> cases y <;> cases z <;> rfl

theorem gf_step_iterate_xor (n : Nat) :
    ∀ {b c : Nat}, b < 256 → c < 256 →
      gf_step^[n] (b ^^^ c) = gf_step^[n] b ^^^ gf_step^[n] c := by
  induction n with
  | zero => intro b c _ _; rfl
  | succ n ih =>
    intro b c hb hc
    rw [Function.iterate_succ_apply, Function.iterate_succ_apply, Function.iterate_succ_apply,
      gf_step_xor hb hc, ih (gf_step_lt b) (gf_step_lt c)]

/-- Multiplication distributes over addition (XOR). -/
theorem gf_mul_fast_xor_right {a b c : Nat} (ha : a < 256) (hb : b < 256) (hc : c < 256) :
    gf_mul_fast a (b ^^^ c) = gf_mul_fast a b ^^^ gf_mul_fast a c := by
  have hx : b ^^^ c < 256 := Nat.xor_lt_two_pow (n := 8) hb hc
  by_cases ha0 : a = 0
  · simp only [ha0, gf_mul_fast_zero_left, Nat.xor_self]
  · rw [gf_mul_fast_eq_iterate ha hx ha0, gf_mul_fast_eq_iterate ha hb ha0,
      gf_mul_fast_eq_iterate ha hc ha0, gf_step_iterate_xor _ hb hc]

theorem gf_mul_fast_xor_left {a b c : Nat} (ha : a < 256) (hb : b < 256) (hc : c < 256) :
    gf_mul_fast (a ^^^ b) c = gf_mul_fast a c ^^^ gf_mul_fast b c := by
  rw [gf_mul_fast_comm, gf_mul_fast_xor_right hc ha hb, gf_mul_fast_comm c a,
    gf_mul_fast_comm c b]

theorem gf_inv_facts {a : Nat} (ha : a < 256) (ha0 : a ≠ 0) :
    gf_inv a < 256 ∧ gf_inv a ≠ 0 ∧ gf_mul_fast a (gf_inv a) = 1 := by
  by_cases h1 : a = 1
  · subst h1
    refine ⟨by decide, by decide, ?_⟩
    rw [gf_mul_fast_one_left]
    rfl
  · obtain ⟨hea, hla⟩ := exp_at_log ha ha0
    have hinv : gf_inv a = exp_at (255 - gf_log_table.getD a 0) := by
      unfold gf_inv
      rw [if_neg ha0, if_neg h1]
      have hpos : gf_log_table.getD a 0 ≠ 0 := by
        intro hz
        rw [hz, exp_at_zero] at hea
        exact h1 hea.symm
      unfold exp_at
      rw [Nat.mod_eq_of_lt (by omega)]
    obtain ⟨f1, f2, f3⟩ := exp_at_facts (255 - gf_log_table.getD a 0)
    rw [hinv]
    refine ⟨f1, f2, ?_⟩
    rw [gf_mul_fast_eq_exp ha f1 ha0 f2, f3, ← exp_at_mod]
    have : (gf_log_table.getD a 0 + (255 - gf_log_table.getD a 0) % 255) % 255 = 0 := by omega
    rw [this, exp_at_zero]

end SrsAdapter
namespace SrsAdapter

/-- One division step is additive. -/
theorem poly_reduce_step_xor (r q i : Nat) :
    poly_reduce_step (r ^^^ q) i = poly_reduce_step r i ^^^ poly_reduce_step q i := by
  unfold poly_reduce_step
  rw [Nat.testBit_xor]
  cases hr : r.testBit i <;> cases hq : q.testBit i
  · simp
  · simp only [Bool.false_xor, if_true, Bool.false_eq_true, if_false]
    rw [Nat.xor_assoc]
  · simp only [Bool.xor_false, if_true, Bool.false_eq_true, if_false]
    rw [Nat.xor_assoc, Nat.xor_comm q, ← Nat.xor_assoc]
  · simp only [Bool.xor_self, Bool.false_eq_true, if_false, if_true]
    rw [Nat.xor_assoc, ← Nat.xor_assoc (0x11D <<< (i - 8)), Nat.xor_comm (0x11D <<< (i - 8)) q,
      Nat.xor_assoc q, Nat.xor_self, Nat.xor_zero]

theorem poly_reduce_fold_xor (l : List Nat) :
    ∀ r q : Nat, l.foldl poly_reduce_step (r ^^^ q) =
      l.foldl poly_reduce_step r ^^^ l.foldl poly_reduce_step q := by
  induction l with
  | nil => intro r q; rfl
  | cons i rest ih =>
    intro r q
    rw [List.foldl_cons, List.foldl_cons, List.foldl_cons, poly_reduce_step_xor, ih]

/-- The remainder is additive. -/
theorem poly_mod_xor (r q : Nat) : poly_mod (r ^^^ q) = poly_mod r ^^^ poly_mod q := by
  unfold poly_mod
  exact poly_reduce_fold_xor _ r q

theorem poly_mod_zero : poly_mod 0 = 0 := by decide

set_option maxRecDepth 1000000 in
theorem poly_mod_shift_check :
    all_below 8 (fun i => all_below 256 (fun b =>
      poly_mod (b <<< i) == gf_step^[i] b)) = true := by
  decide!

/-- The remainder of `x^i` times a byte is `i` multiplications by `alpha`. -/
theorem poly_mod_shift {i b : Nat} (hi : i < 8) (hb : b < 256) :
    poly_mod (b <<< i) = gf_step^[i] b := by
  have h := all_below_spec (all_below_spec poly_mod_shift_check i hi) b hb
  exact beq_iff_eq.mp h

set_option maxRecDepth 100000 in
theorem log_two_pow : ∀ i < 8, gf_log_table.getD (2 ^ i) 0 = i := by
  rw [gf_log_table_eq]
  decide

set_option maxRecDepth 100000 in
/-- A byte is the sum of the powers of two of its bits. -/
theorem byte_bits : ∀ a < 256,
    (List.range 8).foldl (fun acc i => if a.testBit i then acc ^^^ 2 ^ i else acc) 0 = a := by
  decide

theorem cond_fold_map (f : Nat → Nat) (hf : ∀ x y, f (x ^^^ y) = f x ^^^ f y)
    (t : Nat → Bool) (g : Nat → Nat) (l : List Nat) :
    ∀ acc : Nat, f (l.foldl (fun acc i => if t i then acc ^^^ g i else acc) acc) =
      l.foldl (fun acc i => if t i then acc ^^^ f (g i) else acc) (f acc) := by
  induction l with
  | nil => intro acc; rfl
  | cons i rest ih =>
    intro acc
    rw [List.foldl_cons, List.foldl_cons, ih]
    by_cases h : t i = true
    · simp only [h, if_true, hf]
    · simp only [h, if_false, Bool.false_eq_true]

theorem cond_fold_mul (b : Nat) (hb : b < 256) (t : Nat → Bool) (g : Nat → Nat) (l : List Nat)
    (hg : ∀ i ∈ l, g i < 256) :
    ∀ acc : Nat, acc < 256 →
      gf_mul_fast (l.foldl (fun acc i => if t i then acc ^^^ g i else acc) acc) b =
        l.foldl (fun acc i => if t i then acc ^^^ gf_mul_fast (g i) b else acc)
          (gf_mul_fast acc b) := by
  induction l with
  | nil => intro acc _; rfl
  | cons i rest ih =>
    intro acc hacc
    have hgi := hg i (List.mem_cons_self _ _)
    have hrest : ∀ j ∈ rest, g j < 256 := fun j hj => hg j (List.mem_cons_of_mem _ hj)
    rw [List.foldl_cons, List.foldl_cons]
    by_cases h : t i = true
    · simp only [h, if_true]
      rw [ih hrest _ (Nat.xor_lt_two_pow (n := 8) hacc hgi), gf_mul_fast_xor_left hacc hgi hb]
    · simp only [h, if_false]
      exact ih hrest _ hacc

theorem cond_fold_congr (t : Nat → Bool) (g g1 : Nat → Nat) (l : List Nat)
    (h : ∀ i ∈ l, g i = g1 i) :
    ∀ acc : Nat, l.foldl (fun acc i => if t i then acc ^^^ g i else acc) acc =
      l.foldl (fun acc i => if t i then acc ^^^ g1 i else acc) acc := by
  induction l with
  | nil => intro acc; rfl
  | cons i rest ih =>
    intro acc
    rw [List.foldl_cons, List.foldl_cons, h i (List.mem_cons_self _ _)]
    exact ih (fun j hj => h j (List.mem_cons_of_mem _ hj)) _

/-- The table product is the polynomial product modulo `0x11D`. -/
theorem gf_mul_fast_eq_poly {a b : Nat} (ha : a < 256) (hb : b < 256) :
    gf_mul_fast a b = gf_poly_mul a b := by
  have hpow : ∀ i ∈ List.range 8, (2 : Nat) ^ i < 256 := by
    intro i hi
    have hi8 := List.mem_range.mp hi
    calc (2 : Nat) ^ i < 2 ^ 8 := Nat.pow_lt_pow_right (by norm_num) hi8
      _ = 256 := by norm_num
  have h1 := cond_fold_mul b hb a.testBit (fun i => 2 ^ i) (List.range 8) hpow 0 (by norm_num)
  rw [byte_bits a ha, gf_mul_fast_zero_left] at h1
  have h2 : ∀ i ∈ List.range 8, gf_mul_fast (2 ^ i) b = poly_mod (b <<< i) := by
    intro i hi
    have hi8 := List.mem_range.mp hi
    have hne : (2 : Nat) ^ i ≠ 0 := Nat.pos_iff_ne_zero.mp (Nat.two_pow_pos i)
    rw [gf_mul_fast_eq_iterate (hpow i hi) hb hne, log_two_pow i hi8, poly_mod_shift hi8 hb]
  rw [h1, cond_fold_congr a.testBit _ _ _ h2 0]
  unfold gf_poly_mul poly_mul
  rw [cond_fold_map poly_mod poly_mod_xor a.testBit (fun i => b <<< i) (List.range 8) 0,
    poly_mod_zero]

/-- C37. For all bytes `a` and `b`, `gf_mul(a, b)` computed from the initialised tables is
the product of `a` and `b` as polynomials over GF(2) reduced modulo
`x^8 + x^4 + x^3 + x^2 + 1`; a zero factor gives zero; and for `a ≠ 0`,
`gf_mul(a, gf_inv(a)) = 1`. -/
theorem gf_mul_is_polynomial_product (a b : Nat) (ha : a < 256) (hb : b < 256) :
    gf_mul a b = gf_poly_mul a b ∧ gf_mul a 0 = 0 ∧ gf_mul 0 a = 0 ∧
    (a ≠ 0 → gf_mul a (gf_inv a) = 1) := by
  unfold gf_mul
  exact ⟨gf_mul_fast_eq_poly ha hb, gf_mul_fast_zero_right a, gf_mul_fast_zero_left a,
    fun h => (gf_inv_facts ha h).2.2⟩

/-- C37 (witness). `gf_mul(2, 128) = 0x1D`: `x * x^7 = x^8`, which reduces to
`x^4 + x^3 + x^2 + 1`; and `gf_mul(2, gf_inv(2)) = 1`. -/
theorem gf_mul_is_polynomial_product_witness :
    gf_mul 2 128 = 0x1D ∧ gf_mul 2 (gf_inv 2) = 1 :=
  ⟨(gf_mul_is_polynomial_product 2 128 (by decide) (by decide)).1.trans (by decide),
    (gf_mul_is_polynomial_product 2 128 (by decide) (by decide)).2.2.2 (by decide)⟩

end SrsAdapter

namespace SrsAdapter

/-! ## FEC group buffer: the statements -/

namespace FecGroupBuffer

theorem insert_pair_explicit (parity : List (List Nat)) :
    insert_selected (fec_config 2 3) [[0], [1]] parity [0, 2] =
      FecGroupBuffer.mk 0 (fec_config 2 3)
        [(0, ⟨0, 0, [0], false, 0, true, 0, false⟩),
         (2, ⟨0, 2, parity.getD 0 [], true, 0, true, 0, false⟩)] 0 ∧
    insert_selected (fec_config 2 3) [[0], [1]] parity [1, 2] =
      FecGroupBuffer.mk 0 (fec_config 2 3)
        [(1, ⟨0, 1, [1], false, 0, true, 0, false⟩),
         (2, ⟨0, 2, parity.getD 0 [], true, 0, true, 0, false⟩)] 0 := by
  constructor <;>
  simp [insert_selected, add_blocks, add_block, fec_config, FecGroupBuffer.new, mapFind,
    mapInsert, sub32]

/-- A group with k = 2, n = 3 holding one data shard `d` (1 byte) at index `i` and the parity
shard `p`: `repair` hands back the parity byte as the other data shard. -/
theorem repair_pair_explicit (d p : List Nat) (i m : Nat) (hd : d.length = 1)
    (him : (i = 0 ∧ m = 1) ∨ (i = 1 ∧ m = 0)) :
    (FecGroupBuffer.mk 0 (fec_config 2 3)
        [(i, ⟨0, i, d, false, 0, true, 0, false⟩), (2, ⟨0, 2, p, true, 0, true, 0, false⟩)]
        0).repair.map shard_view =
      if p.length = 1 then .ok [(m, [p.getD 0 0]), (i, d)] else .error .blockSizeMismatch := by
  have hsub : sub64 2 (sub64 2 1) = 1 := by decide
  generalize hg : (FecGroupBuffer.mk 0 (fec_config 2 3)
        [(i, ⟨0, i, d, false, 0, true, 0, false⟩), (2, ⟨0, 2, p, true, 0, true, 0, false⟩)]
        0) = g
  have hcan : g.can_repair = true := by
    subst hg
    simp [can_repair, is_complete, has_enough_blocks_for_repair, fec_config]
  have hc : g.is_complete = false := by
    subst hg
    simp [is_complete, fec_config]
  have hmiss : g.get_missing_blocks = [m] := by
    subst hg
    rcases him with ⟨rfl, rfl⟩ | ⟨rfl, rfl⟩ <;>
    simp [get_missing_blocks, fec_config, mapFind, List.range, List.range.loop]
  have hcond : g.get_missing_blocks.length > 0 ∧
      g.get_missing_blocks.length ≤
        sub64 g.blocks_.length (sub64 g.config_.k g.get_missing_blocks.length) ∧
      g.blocks_.length ≥ g.config_.k := by
    rw [hmiss]
    subst hg
    simp [fec_config, hsub]
  by_cases hp : p.length = 1
  · have hrs : g.repair_rs.map shard_view = .ok [(m, [p.getD 0 0]), (i, d)] := by
      rw [repair_rs_eq]
      rw [hmiss]
      subst hg
      rcases him with ⟨rfl, rfl⟩ | ⟨rfl, rfl⟩ <;>
      simp [scan_block_size, parity_blocks, data_blocks, available_indices,
        build_vandermonde_matrix, mapExcept, solve_linear_system_one, restored_meta,
        copy_block, List.range, List.range.loop, hd, hp, shard_view, Except.map]
    rw [if_pos hp]
    cases hout : g.repair_rs with
    | error e => rw [hout] at hrs; cases hrs
    | ok out =>
      rw [repair_eq_of_rs_ok hcan hc hcond hout]
      rw [hout] at hrs
      exact hrs
  · have hrs : g.repair_rs = .error .blockSizeMismatch := by
      rw [repair_rs_eq]
      subst hg
      simp [scan_block_size, hd, hp]
    have hx : g.repair_xor = .error .blockSizeMismatch := by
      unfold repair_xor
      subst hg
      simp [scan_block_size, hd, hp]
    rw [if_neg hp, repair_eq_of_rs_error hcan hc (Or.inr ⟨_, hrs⟩), hmiss]
    simp [hx, Except.map]

theorem round_trip_ok_def (c : FecGroupConfig) (d p : List (List Nat)) (s : List Nat) :
    round_trip_ok c d p s =
      view_ok c d ((insert_selected c d p s).repair.map shard_view) := rfl

/-- C1 (code defect). Round trip with k = 2, n = 3 and the data shards `[0x00]`, `[0x01]`:
whatever the parity shards of the group are, `repair` cannot give back the originals from
both selections {data 0, parity 0} and {data 1, parity 0} (it returns the parity byte as the
missing data shard in each of them). No encoder makes the round trip hold. -/
theorem fec_round_trip_defeated_for_every_parity (parity : List (List Nat)) :
    (round_trip_ok (fec_config 2 3) [[0], [1]] parity [0, 2] &&
      round_trip_ok (fec_config 2 3) [[0], [1]] parity [1, 2]) = false := by
  have hA := repair_pair_explicit [0] (parity.getD 0 []) 0 1 rfl (Or.inl ⟨rfl, rfl⟩)
  have hB := repair_pair_explicit [1] (parity.getD 0 []) 1 0 rfl (Or.inr ⟨rfl, rfl⟩)
  rw [← (insert_pair_explicit parity).1] at hA
  rw [← (insert_pair_explicit parity).2] at hB
  rw [round_trip_ok_def, round_trip_ok_def, hA, hB]
  have hk : (fec_config 2 3).k = 2 := rfl
  have hr : List.range 2 = [0, 1] := rfl
  by_cases hp : (parity.getD 0 []).length = 1
  · simp only [if_pos hp, view_ok, hk, hr]
    simp
    omega
  · simp only [if_neg hp, view_ok]
    simp

set_option maxRecDepth 100000 in
/-- C2 (code defect). Scenario C (k = 4, n = 5, data shards 0, 1, 3 of 188 bytes and the XOR
parity): `repair` returns under index 2 the 188 parity bytes 0x7F unchanged, not the XOR of
the parity with the present data shards (0x47, the original shard 2), which the sibling path
`repair_xor` computes on the same group. -/
theorem scenario_c_repair_returns_parity_bytes :
    scenario_c.repair.map shard_view =
      .ok [(2, List.replicate 188 0x7F), (0, List.replicate 188 0x10),
           (1, List.replicate 188 0x20), (3, List.replicate 188 0x08)] ∧
    scenario_c.repair_xor.map shard_view =
      .ok [(2, List.replicate 188 0x47), (0, List.replicate 188 0x10),
           (1, List.replicate 188 0x20), (3, List.replicate 188 0x08)] := by
  decide

/-- C3 (code defect). With k = 3, n = 5 (so n-k = 2 <= k) the group `group_3_5` holds both
parity shards and all data shards except two, every shard one byte long: k = 3 shards are
stored, `can_repair` holds and the missing shards are no more than the parity shards, yet
`repair` returns an error. `build_vandermonde_matrix` takes one stored data index per
unknown, and only one data shard is stored for the two unknowns, so `repair_rs` fails with
"Not enough available indices". -/
theorem repair_fails_with_all_parity_3_5 :
    group_3_5.config_.k = 3 ∧ group_3_5.config_.n = 5 ∧
    group_3_5.parity_blocks.length = 2 ∧ group_3_5.data_blocks.length = 1 ∧
    (∀ e ∈ group_3_5.blocks_, e.2.data.length = 1) ∧
    group_3_5.can_repair = true ∧
    group_3_5.get_missing_blocks.length ≤ group_3_5.parity_blocks.length ∧
    group_3_5.repair_rs = .error .notEnoughAvailable ∧
    group_3_5.repair = .error .cannotRepair := by
  decide

/-- When the decoding matrix can be built and solved, `repair` succeeds. For k < n <= 255 and a reachable group that holds all n-k parity shards and
all data shards except n-k of them, every shard of the same non-zero length L: if at least
n-k data shards are held and the solver succeeds on the decoding matrix built from them (it
meets no zero pivot), then `repair` returns success. -/
theorem repair_succeeds_when_matrix_solvable (g : FecGroupBuffer) (L : Nat)
    (hr : Reachable g) (hkn : g.config_.k < g.config_.n) (hn : g.config_.n ≤ 255)
    (hL : 0 < L) (hlen : ∀ e ∈ g.blocks_, e.2.data.length = L)
    (hpar : g.parity_blocks.length = g.config_.n - g.config_.k)
    (hdat : g.data_blocks.length + (g.config_.n - g.config_.k) = g.config_.k)
    (henough : g.config_.n - g.config_.k ≤ g.data_blocks.length)
    (hsolve : ∀ V, build_vandermonde_matrix g.available_indices g.get_missing_blocks = .ok V →
      ∃ sol, solve_linear_system V
        ((g.parity_blocks.take g.get_missing_blocks.length).map FecBlock.data) L
        g.get_missing_blocks.length = .ok sol) :
    ∃ out, g.repair = .ok out := by
  have hwf := reachable_wf hr
  have hml := missing_length hwf
  have hbl := blocks_length_split g
  have hdl : (g.blocks_.filter fun e => !e.2.is_parity).length = g.data_blocks.length := by
    simp [data_blocks]
  have hc : g.is_complete = false := by
    unfold is_complete
    rw [hdl]
    simp only [ge_iff_le, decide_eq_false_iff_not, not_le]
    omega
  have hcan : g.can_repair = true := by
    unfold can_repair has_enough_blocks_for_repair
    rw [hc]
    simp only [Bool.false_eq_true, if_false, ge_iff_le, decide_eq_true_eq]
    omega
  have hM : g.get_missing_blocks.length = g.config_.n - g.config_.k := by omega
  have hne : g.blocks_ ≠ [] := by
    intro h
    rw [h] at hbl
    simp only [List.length_nil] at hbl
    omega
  have hscan : scan_block_size 0 g.blocks_ = some L := by
    rw [scan_block_size_uniform g.blocks_ 0 (Or.inl rfl) hlen, if_neg hne]
  have hm0 : ¬ g.get_missing_blocks.length = 0 := by omega
  have hal : g.available_indices.length = g.data_blocks.length := by
    simp [available_indices]
  have hbuild : ∃ V, build_vandermonde_matrix g.available_indices g.get_missing_blocks =
      .ok V := build_vandermonde_matrix_ok hm0 (by omega)
  obtain ⟨V, hV⟩ := hbuild
  obtain ⟨sol, hsol⟩ := hsolve V hV
  have hrs : ∃ out, g.repair_rs = .ok out := by
    rw [repair_rs_eq]
    simp only [hscan]
    rw [if_neg (Nat.pos_iff_ne_zero.mp hL)]
    rw [if_neg hm0, if_neg (by omega)]
    simp only [hV, hsol]
    exact ⟨_, rfl⟩
  obtain ⟨out, hout⟩ := hrs
  refine ⟨out, repair_eq_of_rs_ok hcan hc ?_ hout⟩
  have h1 : sub64 g.config_.k g.get_missing_blocks.length =
      g.config_.k - g.get_missing_blocks.length :=
    sub64_eq (by omega) (by omega)
  have h2 : sub64 g.blocks_.length (g.config_.k - g.get_missing_blocks.length) =
      g.blocks_.length - (g.config_.k - g.get_missing_blocks.length) :=
    sub64_eq (by omega) (by omega)
  rw [h1, h2]
  omega

set_option maxRecDepth 1000000 in
/-- The statement `repair_succeeds_when_matrix_solvable` at `group_4_6`: k = 4, n = 6, data shards 0 and 2 and
both parity shards, 2 bytes each; the decoding matrix is `[[1, 1], [4, 64]]`. -/
theorem repair_succeeds_when_matrix_solvable_witness :
    group_4_6.config_.k < group_4_6.config_.n ∧
    group_4_6.parity_blocks.length = group_4_6.config_.n - group_4_6.config_.k ∧
    group_4_6.config_.n - group_4_6.config_.k ≤ group_4_6.data_blocks.length ∧
    ∃ out, group_4_6.repair = .ok out :=
  ⟨by decide, by decide, by decide,
    repair_succeeds_when_matrix_solvable group_4_6 2
      (reachable_add_blocks (Reachable.new _ _ _) _) (by decide) (by decide) (by decide)
      (by decide) (by decide) (by decide) (by decide)
      (fun V hV => by
        have hb : build_vandermonde_matrix group_4_6.available_indices
            group_4_6.get_missing_blocks = .ok [[1, 1], [4, 64]] := by decide
        rw [hb] at hV
        cases hV
        exact ⟨[[123, 211], [126, 213]], by decide⟩)⟩

/-- C4 (code defect). The complete group `group_uneven` (k = 2, data shards of 1 and 2
bytes) is reachable by `add_block` calls and `repair` succeeds on it, returning shards of
byte lengths 1 and 2: the complete-group path hands the shards back without the size scan
with which `repair_rs` and `repair_xor` reject the same group ("Block size mismatch"). -/
theorem repair_returns_uneven_lengths :
    Reachable group_uneven ∧
    (group_uneven.repair.map fun out => out.map fun b => b.data.length) = .ok [1, 2] ∧
    group_uneven.repair_rs = .error .blockSizeMismatch ∧
    group_uneven.repair_xor = .error .blockSizeMismatch :=
  ⟨reachable_add_blocks (Reachable.new _ _ _) _, by decide, by decide, by decide⟩

/-- The indices `repair` returns. For every group state reachable by `add_block` calls on which `repair`
succeeds: it returns exactly k shards, their `block_index` values are pairwise distinct and
lie in `[0, k)`, and if all stored shards have one byte length L then every returned shard
has byte length L. -/
theorem repair_returns_k_distinct_indices (g : FecGroupBuffer) (out : List FecBlock)
    (hr : Reachable g) (h : g.repair = .ok out) :
    out.length = g.config_.k ∧
    (out.map FecBlock.block_index).Nodup ∧
    (∀ b ∈ out, b.block_index < g.config_.k) ∧
    (∀ L, (∀ e ∈ g.blocks_, e.2.data.length = L) → ∀ b ∈ out, b.data.length = L) := by
  have hwf := reachable_wf hr
  have hperm := repair_indices_perm hwf h
  refine ⟨?_, ?_, ?_, ?_⟩
  · have := hperm.length_eq
    simpa using this
  · exact hperm.nodup_iff.mpr (List.nodup_range _)
  · intro b hb
    have : b.block_index ∈ List.range g.config_.k :=
      hperm.mem_iff.mp (List.mem_map.mpr ⟨b, hb, rfl⟩)
    exact List.mem_range.mp this
  · intro L hL b hb
    have hcopy : ∀ c ∈ g.data_blocks.map copy_block, c.data.length = L := by
      intro c hc
      rcases List.mem_map.mp hc with ⟨d, hd, rfl⟩
      rw [copy_block_data]
      unfold data_blocks at hd
      rcases List.mem_map.mp hd with ⟨e, he, rfl⟩
      exact hL e (List.mem_of_mem_filter he)
    rcases repair_shape h with ⟨_, hout⟩ | ⟨_, restored, bs, hout, _, hscan, hbs, hres⟩
    · subst hout
      exact hcopy b hb
    · subst hout
      rcases List.mem_append.mp hb with h1 | h1
      · rw [hres b h1]
        rw [scan_block_size_uniform g.blocks_ 0 (Or.inl rfl) hL] at hscan
        by_cases hne : g.blocks_ = []
        · rw [if_pos hne] at hscan
          simp only [Option.some.injEq] at hscan
          exact absurd hscan.symm hbs
        · rw [if_neg hne] at hscan
          simp only [Option.some.injEq] at hscan
          exact hscan.symm
      · exact hcopy b h1

/-- The statement `repair_returns_k_distinct_indices` at `group_3_4` (k = 3, data shards 1 and 2 and the
parity shard, 2 bytes each). -/
theorem repair_returns_k_distinct_indices_witness :
    Reachable group_3_4 ∧ group_3_4.repair = .ok group_3_4_out ∧
    group_3_4_out.length = group_3_4.config_.k ∧
    (group_3_4_out.map FecBlock.block_index).Nodup ∧
    (∀ b ∈ group_3_4_out, b.block_index < group_3_4.config_.k) ∧
    (∀ L, (∀ e ∈ group_3_4.blocks_, e.2.data.length = L) →
      ∀ b ∈ group_3_4_out, b.data.length = L) :=
  ⟨reachable_add_blocks (Reachable.new _ _ _) _, by decide,
    repair_returns_k_distinct_indices group_3_4 group_3_4_out
      (reachable_add_blocks (Reachable.new _ _ _) _) (by decide)⟩

set_option maxRecDepth 1000000 in
/-- C5 (code defect). On `group_4_6` (k = 4, data shards 0 and 2 present, shards 1 and 3
reconstructed) `repair` succeeds and appends the shards in the order 1, 3, 0, 2: the
reconstructed shards first, then the stored ones, not in ascending `block_index` order. -/
theorem repair_output_order_not_ascending :
    (group_4_6.repair.map fun out => out.map FecBlock.block_index) = .ok [1, 3, 0, 2] := by
  decide

end FecGroupBuffer

end SrsAdapter

namespace SrsAdapter

/-- A lookup right after the insertion finds the inserted value. -/
theorem mapFind_mapInsert_self {β : Type} (key : Nat) (v : β) :
    ∀ m : List (Nat × β), mapFind key (mapInsert key v m) = some v
  | [] => by simp [mapInsert, mapFind]
  | (k, w) :: rest => by
    unfold mapInsert
    split_ifs with h1 h2
    · simp [mapFind]
    · simp [mapFind]
    · have hne : ¬ k = key := fun h => h2 h.symm
      simp only [mapFind, hne, if_false]
      exact mapFind_mapInsert_self key v rest

/-- An insertion under an absent key makes the map one entry longer. -/
theorem mapInsert_length_of_absent {β : Type} (key : Nat) (v : β) :
    ∀ m : List (Nat × β), mapFind key m = none → (mapInsert key v m).length = m.length + 1
  | [], _ => by simp [mapInsert]
  | (k, w) :: rest, h => by
    unfold mapFind at h
    split_ifs at h with hk
    unfold mapInsert
    split_ifs with h1 h2
    · simp
    · exact absurd h2.symm hk
    · simp only [List.length_cons]
      rw [mapInsert_length_of_absent key v rest h]

/-- An insertion under a key present in an ordered map replaces the entry: the length
stays. -/
theorem mapInsert_length_of_present {β : Type} (key : Nat) (v : β) :
    ∀ m : List (Nat × β), (mapKeys m).Pairwise (· < ·) → (mapFind key m).isSome = true →
      (mapInsert key v m).length = m.length
  | [], _, h => by simp [mapFind] at h
  | (k, w) :: rest, hs, h => by
    simp only [mapKeys, List.map_cons, List.pairwise_cons] at hs
    unfold mapInsert
    split_ifs with h1 h2
    · exfalso
      unfold mapFind at h
      have hne : ¬ k = key := by omega
      simp only [hne, if_false] at h
      obtain ⟨x, hx⟩ := Option.isSome_iff_exists.mp h
      have hmem := mapFind_mem hx
      have : key ∈ rest.map Prod.fst := List.mem_map.mpr ⟨(key, x), hmem, rfl⟩
      have := hs.1 key this
      omega
    · simp
    · have hne : ¬ k = key := fun hc => h2 hc.symm
      unfold mapFind at h
      simp only [hne, if_false] at h
      simp only [List.length_cons]
      rw [mapInsert_length_of_present key v rest hs.2 h]

/-- Unsigned 32-bit subtraction without a borrow is subtraction. -/
theorem sub32_eq {n k : Nat} (hk : k ≤ n) (hn : n < 2 ^ 32) : sub32 n k = n - k := by
  unfold sub32
  have hkm : k % 2 ^ 32 = k := Nat.mod_eq_of_lt (by omega)
  rw [hkm]
  have : n + 2 ^ 32 - k = (n - k) + 2 ^ 32 := by omega
  rw [this, Nat.add_mod_right]
  exact Nat.mod_eq_of_lt (by omega)

namespace FecGroupBuffer

/-- The method `add_block` with its normalised index spelled out. -/
theorem add_block_eq (g : FecGroupBuffer) (block_index : Nat) (data : List Nat)
    (is_parity : Bool) (timestamp_ms : Int) (seq_num : Nat) (is_keyframe : Bool) :
    g.add_block block_index data is_parity timestamp_ms seq_num is_keyframe =
      if is_parity = true ∧ block_index ≥ sub32 g.config_.n g.config_.k then
        .error .parityIndexOutOfRange
      else if ¬ is_parity = true ∧ block_index ≥ g.config_.k then .error .dataIndexOutOfRange
      else
        match mapFind (normalized_index g.config_ block_index is_parity) g.blocks_ with
        | some _ => .ok g
        | none =>
          .ok (g.with_block block_index data is_parity timestamp_ms seq_num is_keyframe) := by
  unfold add_block with_block created_block normalized_index
  rfl

/-- The blocks of a group with a new shard stored. -/
theorem with_block_blocks (g : FecGroupBuffer) (block_index : Nat) (data : List Nat)
    (is_parity : Bool) (timestamp_ms : Int) (seq_num : Nat) (is_keyframe : Bool) :
    (g.with_block block_index data is_parity timestamp_ms seq_num is_keyframe).blocks_ =
      mapInsert (normalized_index g.config_ block_index is_parity)
        (g.created_block block_index data is_parity timestamp_ms seq_num is_keyframe)
        g.blocks_ := rfl

/-- A successful `add_block` keeps the configuration and leaves the shard's normalised
index stored. -/
theorem add_block_ok_stored {g g1 : FecGroupBuffer} {block_index : Nat} {data : List Nat}
    {is_parity : Bool} {timestamp_ms : Int} {seq_num : Nat} {is_keyframe : Bool}
    (h : g.add_block block_index data is_parity timestamp_ms seq_num is_keyframe = .ok g1) :
    g1.config_ = g.config_ ∧
    ¬ (is_parity = true ∧ block_index ≥ sub32 g.config_.n g.config_.k) ∧
    ¬ (¬ is_parity = true ∧ block_index ≥ g.config_.k) ∧
    ((g1 = g ∧ ∃ b, mapFind (normalized_index g.config_ block_index is_parity) g.blocks_ =
        some b) ∨
     (mapFind (normalized_index g.config_ block_index is_parity) g.blocks_ = none ∧
      g1 = g.with_block block_index data is_parity timestamp_ms seq_num is_keyframe)) := by
  rw [add_block_eq] at h
  split_ifs at h with h1 h2
  cases hf : mapFind (normalized_index g.config_ block_index is_parity) g.blocks_ with
  | some b =>
    rw [hf] at h
    simp only [Except.ok.injEq] at h
    subst h
    exact ⟨rfl, h1, h2, Or.inl ⟨rfl, b, rfl⟩⟩
  | none =>
    rw [hf] at h
    simp only [Except.ok.injEq] at h
    subst h
    exact ⟨rfl, h1, h2, Or.inr ⟨rfl, rfl⟩⟩

/-- Once the normalised index is stored, an in-range `add_block` for it is a no-op. -/
theorem add_block_of_stored (g : FecGroupBuffer) (block_index : Nat) (data : List Nat)
    (is_parity : Bool) (timestamp_ms : Int) (seq_num : Nat) (is_keyframe : Bool) (b : FecBlock)
    (h1 : ¬ (is_parity = true ∧ block_index ≥ sub32 g.config_.n g.config_.k))
    (h2 : ¬ (¬ is_parity = true ∧ block_index ≥ g.config_.k))
    (hf : mapFind (normalized_index g.config_ block_index is_parity) g.blocks_ = some b) :
    g.add_block block_index data is_parity timestamp_ms seq_num is_keyframe = .ok g := by
  rw [add_block_eq, if_neg h1, if_neg h2, hf]

/-- The index invariant of a group with `k ≤ n < 2^32`: every stored index is below `n`,
and the stored shard is a parity shard exactly when its index is at least `k`. -/
theorem reachable_index_invariant {g : FecGroupBuffer} (hr : Reachable g) :
    g.config_.k ≤ g.config_.n → g.config_.n < 2 ^ 32 →
    ∀ e ∈ g.blocks_, e.1 < g.config_.n ∧ (e.2.is_parity = true ↔ e.1 ≥ g.config_.k) := by
  induction hr with
  | new group_id config now_ms =>
    intro _ _ e he
    simp [FecGroupBuffer.new] at he
  | @add_block g0 g1 block_index data is_parity timestamp_ms seq_num is_keyframe _ hadd ih =>
    intro hkn hn e he
    obtain ⟨hc, h1, h2, hcase⟩ := add_block_ok_stored hadd
    rw [hc] at hkn hn ⊢
    rcases hcase with ⟨heq, _⟩ | ⟨_, heq⟩
    · rw [heq] at he
      exact ih hkn hn e he
    · rw [heq, with_block_blocks] at he
      rcases mem_mapInsert he with he1 | he1
      · subst he1
        rw [sub32_eq hkn hn] at h1
        unfold normalized_index
        cases is_parity with
        | true =>
          simp only [if_true, true_and, ge_iff_le, not_le] at h1 ⊢
          have hlt : g0.config_.k + block_index < 2 ^ 32 := by omega
          rw [Nat.mod_eq_of_lt hlt]
          constructor
          · omega
          · simp [created_block]
        | false =>
          simp only [Bool.false_eq_true, if_false, not_false_eq_true, true_and, ge_iff_le,
            not_le] at h2 ⊢
          constructor
          · omega
          · simp only [created_block, Bool.false_eq_true, false_iff, not_le]
            exact h2
      · exact ih hkn hn e he1

/-- The method `can_repair` holds exactly when at least `k` blocks are stored. -/
theorem can_repair_eq_true_iff (g : FecGroupBuffer) :
    g.can_repair = true ↔ g.blocks_.length ≥ g.config_.k := by
  unfold can_repair is_complete has_enough_blocks_for_repair
  have hle := List.length_filter_le (fun e : Nat × FecBlock => !e.2.is_parity) g.blocks_
  by_cases hc : (g.blocks_.filter (fun e => !e.2.is_parity)).length ≥ g.config_.k
  · simp only [hc, decide_True, if_true, true_iff]
    omega
  · simp only [hc, decide_False, Bool.false_eq_true, if_false, decide_eq_true_eq]

/-- C26. For every group, `can_repair` holds if and only if at least `k` shards (data plus
parity) are stored; with fewer than `k` stored, `repair` returns an error (and so hands out
nothing). In particular, in a group built by `add_block` calls in which `(n - k) + 1`
data shards are missing and exactly `n - k` parity shards are stored, `repair` fails. -/
theorem can_repair_iff_k_shards_stored (g : FecGroupBuffer) :
    (g.can_repair = true ↔ g.blocks_.length ≥ g.config_.k) ∧
    (g.blocks_.length < g.config_.k → g.repair = .error .notEnoughBlocks) ∧
    (Reachable g →
      g.get_missing_blocks.length = (g.config_.n - g.config_.k) + 1 →
      g.parity_blocks.length = g.config_.n - g.config_.k →
      g.blocks_.length < g.config_.k ∧ g.repair = .error .notEnoughBlocks) := by
  have hiff := can_repair_eq_true_iff g
  have hfail : g.blocks_.length < g.config_.k → g.repair = .error .notEnoughBlocks := by
    intro hlt
    have hcan : ¬ g.can_repair = true := by
      rw [hiff]
      omega
    unfold repair
    rw [if_pos hcan]
  refine ⟨hiff, hfail, ?_⟩
  intro hr hmiss hpar
  have hw := reachable_wf hr
  have h1 := missing_length hw
  have h2 := blocks_length_split g
  have hlt : g.blocks_.length < g.config_.k := by omega
  exact ⟨hlt, hfail hlt⟩

set_option maxRecDepth 100000 in
/-- C26 (witness). The group `group_parity_only` (k = 3, n = 5): all three data shards are
missing, both parity shards are stored. -/
theorem can_repair_iff_k_shards_stored_witness :
    group_parity_only.get_missing_blocks.length =
      (group_parity_only.config_.n - group_parity_only.config_.k) + 1 ∧
    group_parity_only.parity_blocks.length =
      group_parity_only.config_.n - group_parity_only.config_.k ∧
    group_parity_only.can_repair = false ∧
    group_parity_only.blocks_.length < group_parity_only.config_.k ∧
    group_parity_only.repair = .error .notEnoughBlocks :=
  ⟨by decide, by decide, by decide,
    (can_repair_iff_k_shards_stored group_parity_only).2.2
      (reachable_add_blocks (Reachable.new 1 (fec_config 3 5) 0) _) (by decide) (by decide)⟩

/-- C27. For every group and every `add_block` argument tuple: a second `add_block` for
the same index and parity class, with any bytes and metadata, returns success and changes
nothing when the first one succeeded, and returns the same error when the first one
failed; so performing the call twice leaves the group as performing it once. More
generally an in-range `add_block` for an index that is already stored returns success and
changes nothing. -/
theorem add_block_twice_is_once (g : FecGroupBuffer) (block_index : Nat) (data : List Nat)
    (is_parity : Bool) (timestamp_ms : Int) (seq_num : Nat) (is_keyframe : Bool)
    (data2 : List Nat) (timestamp_ms2 : Int) (seq_num2 : Nat) (is_keyframe2 : Bool) :
    (∀ g1, g.add_block block_index data is_parity timestamp_ms seq_num is_keyframe = .ok g1 →
      g1.add_block block_index data2 is_parity timestamp_ms2 seq_num2 is_keyframe2 = .ok g1) ∧
    (∀ e, g.add_block block_index data is_parity timestamp_ms seq_num is_keyframe = .error e →
      g.add_block block_index data2 is_parity timestamp_ms2 seq_num2 is_keyframe2 = .error e) ∧
    (g.insert block_index data is_parity timestamp_ms seq_num is_keyframe).insert
        block_index data is_parity timestamp_ms seq_num is_keyframe =
      g.insert block_index data is_parity timestamp_ms seq_num is_keyframe ∧
    (∀ b, ¬ (is_parity = true ∧ block_index ≥ sub32 g.config_.n g.config_.k) →
      ¬ (¬ is_parity = true ∧ block_index ≥ g.config_.k) →
      mapFind (normalized_index g.config_ block_index is_parity) g.blocks_ = some b →
      g.add_block block_index data2 is_parity timestamp_ms2 seq_num2 is_keyframe2 = .ok g) := by
  have hsecond : ∀ (d : List Nat) (t : Int) (s : Nat) (kf : Bool) (g1 : FecGroupBuffer),
      g.add_block block_index data is_parity timestamp_ms seq_num is_keyframe = .ok g1 →
      g1.add_block block_index d is_parity t s kf = .ok g1 := by
    intro d t s kf g1 h
    obtain ⟨hc, h1, h2, hcase⟩ := add_block_ok_stored h
    rcases hcase with ⟨heq, b, hb⟩ | ⟨_, heq⟩
    · rw [heq]
      exact add_block_of_stored g block_index d is_parity t s kf b h1 h2 hb
    · refine add_block_of_stored g1 block_index d is_parity t s kf
        (g.created_block block_index data is_parity timestamp_ms seq_num is_keyframe)
        (by rw [hc]; exact h1) (by rw [hc]; exact h2) ?_
      rw [hc, heq, with_block_blocks]
      exact mapFind_mapInsert_self _ _ _
  refine ⟨hsecond data2 timestamp_ms2 seq_num2 is_keyframe2, ?_, ?_, ?_⟩
  · intro e h
    rw [add_block_eq] at h ⊢
    split_ifs at h ⊢ with h1 h2
    · exact h
    · exact h
    · cases hf : mapFind (normalized_index g.config_ block_index is_parity) g.blocks_ with
      | some b => rw [hf] at h; cases h
      | none => rw [hf] at h; cases h
  · unfold insert
    cases h : g.add_block block_index data is_parity timestamp_ms seq_num is_keyframe with
    | error e => simp only [h]
    | ok g1 =>
      simp only []
      rw [hsecond data timestamp_ms seq_num is_keyframe g1 h]
  · intro b h1 h2 hf
    exact add_block_of_stored g block_index data2 is_parity timestamp_ms2 seq_num2 is_keyframe2
      b h1 h2 hf

set_option maxRecDepth 100000 in
/-- C27 (witness). In `group_3_5` parity shard 1 is stored (under index 4): an `add_block`
for parity index 1 with other bytes and metadata returns success and changes nothing. -/
theorem add_block_twice_is_once_witness :
    (∃ b, mapFind (normalized_index group_3_5.config_ 1 true) group_3_5.blocks_ = some b) ∧
    group_3_5.add_block 1 [9, 9] true 77 5 true = .ok group_3_5 :=
  ⟨⟨⟨1, 4, [3], true, 0, true, 0, false⟩, by decide⟩,
    (add_block_twice_is_once group_3_5 1 [3] true 0 0 false [9, 9] 77 5 true).2.2.2
      ⟨1, 4, [3], true, 0, true, 0, false⟩ (by decide) (by decide) (by decide)⟩

/-- C28. For every configuration with `k ≤ n < 2^32`, `add_block` fails if and only if the
shard is a data shard with index `≥ k` or a parity shard with index `≥ n - k`; a failing
call leaves the group as it is. In a group built by `add_block` calls, an accepted parity
shard with index `j` is stored under the index `k + j`, every stored index is below `n`,
and a stored shard is a parity shard exactly when its index is at least `k`. -/
theorem add_block_fails_iff_index_out_of_range (g : FecGroupBuffer) (block_index : Nat)
    (data : List Nat) (is_parity : Bool) (timestamp_ms : Int) (seq_num : Nat)
    (is_keyframe : Bool) (hkn : g.config_.k ≤ g.config_.n) (hn : g.config_.n < 2 ^ 32) :
    ((∃ e, g.add_block block_index data is_parity timestamp_ms seq_num is_keyframe = .error e) ↔
      (is_parity = false ∧ block_index ≥ g.config_.k) ∨
      (is_parity = true ∧ block_index ≥ g.config_.n - g.config_.k)) ∧
    ((∃ e, g.add_block block_index data is_parity timestamp_ms seq_num is_keyframe = .error e) →
      g.insert block_index data is_parity timestamp_ms seq_num is_keyframe = g) ∧
    (Reachable g → ∀ g1,
      g.add_block block_index data true timestamp_ms seq_num is_keyframe = .ok g1 →
      ∃ b, mapFind (g.config_.k + block_index) g1.blocks_ = some b ∧ b.is_parity = true ∧
        (mapFind (g.config_.k + block_index) g.blocks_ = none → b.data = data)) ∧
    (Reachable g →
      ∀ e ∈ g.blocks_, e.1 < g.config_.n ∧ (e.2.is_parity = true ↔ e.1 ≥ g.config_.k)) := by
  have hsub : sub32 g.config_.n g.config_.k = g.config_.n - g.config_.k := sub32_eq hkn hn
  refine ⟨?_, ?_, ?_, ?_⟩
  · rw [add_block_eq, hsub]
    constructor
    · rintro ⟨e, h⟩
      split_ifs at h with h1 h2
      · exact Or.inr h1
      · left
        refine ⟨?_, h2.2⟩
        cases is_parity with
        | true => exact absurd rfl h2.1
        | false => rfl
      · cases hf : mapFind (normalized_index g.config_ block_index is_parity) g.blocks_ with
        | some b => rw [hf] at h; cases h
        | none => rw [hf] at h; cases h
    · intro h
      rcases h with ⟨hp, hi⟩ | ⟨hp, hi⟩
      · subst hp
        simp only [Bool.false_eq_true, false_and, if_false, not_false_eq_true, true_and]
        rw [if_pos hi]
        exact ⟨_, rfl⟩
      · rw [if_pos ⟨hp, hi⟩]
        exact ⟨_, rfl⟩
  · rintro ⟨e, h⟩
    unfold insert
    rw [h]
  · intro hr g1 h
    obtain ⟨hc, h1, _, hcase⟩ := add_block_ok_stored h
    rw [hsub] at h1
    simp only [true_and, ge_iff_le, not_le] at h1
    have hnorm : normalized_index g.config_ block_index true = g.config_.k + block_index := by
      unfold normalized_index
      simp only [if_true]
      exact Nat.mod_eq_of_lt (by omega)
    rw [hnorm] at hcase
    rcases hcase with ⟨heq, b, hb⟩ | ⟨hnone, heq⟩
    · rw [heq]
      refine ⟨b, hb, ?_, ?_⟩
      · have := reachable_index_invariant hr hkn hn _ (mapFind_mem hb)
        exact this.2.mpr (by simp)
      · intro hcontra
        rw [hcontra] at hb
        cases hb
    · rw [heq, with_block_blocks, hnorm]
      exact ⟨g.created_block block_index data true timestamp_ms seq_num is_keyframe,
        mapFind_mapInsert_self _ _ _, rfl, fun _ => rfl⟩
  · intro hr
    exact reachable_index_invariant hr hkn hn

set_option maxRecDepth 100000 in
/-- C28 (witness). In `group_3_5` (k = 3, n = 5) a data shard with index 3 and a parity
shard with index 2 are rejected, and parity shard 1 sits under index 4. -/
theorem add_block_fails_iff_index_out_of_range_witness :
    group_3_5.config_.k ≤ group_3_5.config_.n ∧ group_3_5.config_.n < 2 ^ 32 ∧
    (∃ e, group_3_5.add_block 3 [7] false 0 0 false = .error e) ∧
    group_3_5.add_block 2 [7] true 0 0 false = .error .parityIndexOutOfRange ∧
    mapKeys group_3_5.blocks_ = [0, 3, 4] :=
  ⟨by decide, by decide,
    (add_block_fails_iff_index_out_of_range group_3_5 3 [7] false 0 0 false
      (by decide) (by decide)).1.mpr (Or.inl ⟨rfl, by decide⟩),
    by decide, by decide⟩

end FecGroupBuffer

end SrsAdapter
namespace SrsAdapter

namespace FecGroupBuffer

end FecGroupBuffer

end SrsAdapter

namespace SrsAdapter

namespace FecGroupBuffer

end FecGroupBuffer

end SrsAdapter
namespace SrsAdapter

/-! ## Linear systems over GF(2^8) -/

theorem xor_sum_cons (x : Nat) (l : List Nat) : xor_sum (x :: l) = x ^^^ xor_sum l := rfl

theorem xor_sum_append (l1 l2 : List Nat) :
    xor_sum (l1 ++ l2) = xor_sum l1 ^^^ xor_sum l2 := by
  induction l1 with
  | nil => simp [xor_sum]
  | cons x rest ih => rw [List.cons_append, xor_sum_cons, xor_sum_cons, ih, Nat.xor_assoc]

theorem xor_sum_lt (l : List Nat) (h : ∀ x ∈ l, x < 256) : xor_sum l < 256 := by
  induction l with
  | nil => simp [xor_sum]
  | cons x rest ih =>
    rw [xor_sum_cons]
    exact Nat.xor_lt_two_pow (n := 8) (h x (List.mem_cons_self _ _))
      (ih fun y hy => h y (List.mem_cons_of_mem _ hy))

theorem xor_sum_map_xor {α : Type} (l : List α) (s t : α → Nat) :
    xor_sum (l.map fun j => s j ^^^ t j) = xor_sum (l.map s) ^^^ xor_sum (l.map t) := by
  induction l with
  | nil => simp [xor_sum]
  | cons x rest ih =>
    simp only [List.map_cons, xor_sum_cons, ih]
    rw [Nat.xor_assoc, Nat.xor_assoc, ← Nat.xor_assoc (t x), ← Nat.xor_assoc (xor_sum _),
      Nat.xor_comm (t x)]

theorem xor_sum_map_mul {α : Type} {f : Nat} (hf : f < 256) (l : List α) (t : α → Nat)
    (ht : ∀ j ∈ l, t j < 256) :
    xor_sum (l.map fun j => gf_mul_fast f (t j)) = gf_mul_fast f (xor_sum (l.map t)) := by
  induction l with
  | nil => simp [xor_sum, gf_mul_fast_zero_right]
  | cons x rest ih =>
    have hrest : ∀ j ∈ rest, t j < 256 := fun j hj => ht j (List.mem_cons_of_mem _ hj)
    simp only [List.map_cons, xor_sum_cons, ih hrest]
    rw [gf_mul_fast_xor_right hf (ht x (List.mem_cons_self _ _))]
    apply xor_sum_lt
    intro y hy
    obtain ⟨j, hj, rfl⟩ := List.mem_map.mp hy
    exact hrest j hj

theorem xor_sum_map_congr {α : Type} (l : List α) (s t : α → Nat) (h : ∀ j ∈ l, s j = t j) :
    xor_sum (l.map s) = xor_sum (l.map t) := by
  rw [List.map_congr_left h]

theorem xor_sum_map_zero {α : Type} (l : List α) (t : α → Nat) (h : ∀ j ∈ l, t j = 0) :
    xor_sum (l.map t) = 0 := by
  induction l with
  | nil => rfl
  | cons x rest ih =>
    simp only [List.map_cons, xor_sum_cons, h x (List.mem_cons_self _ _),
      ih fun j hj => h j (List.mem_cons_of_mem _ hj), Nat.xor_self]

theorem xor_sum_range_succ (n : Nat) (t : Nat → Nat) :
    xor_sum ((List.range (n + 1)).map t) = xor_sum ((List.range n).map t) ^^^ t n := by
  rw [List.range_succ, List.map_append, xor_sum_append]
  simp [xor_sum]

/-- A sum with a single non-zero term. -/
theorem xor_sum_single (t : Nat → Nat) :
    ∀ (n i : Nat), i < n → (∀ j < n, j ≠ i → t j = 0) →
      xor_sum ((List.range n).map t) = t i := by
  intro n
  induction n with
  | zero => intro i hi; omega
  | succ n ih =>
    intro i hi h
    rw [xor_sum_range_succ]
    by_cases hin : i = n
    · subst hin
      rw [xor_sum_map_zero _ _ (fun j hj => h j (by have := List.mem_range.mp hj; omega)
        (by have := List.mem_range.mp hj; omega)), Nat.zero_xor]
    · rw [ih i (by omega) (fun j hj hne => h j (by omega) hne), h n (by omega) (fun hc => hin hc.symm),
        Nat.xor_zero]

theorem row_sum_succ (n : Nat) (row : List Nat) (w : Nat → Nat) :
    row_sum (n + 1) row w = row_sum n row w ^^^ gf_mul (row.getD n 0) (w n) := by
  unfold row_sum
  exact xor_sum_range_succ n _

theorem row_sum_lt (n : Nat) (row : List Nat) (w : Nat → Nat)
    (hr : ∀ j < n, row.getD j 0 < 256) (hw : ∀ j, w j < 256) : row_sum n row w < 256 := by
  unfold row_sum
  apply xor_sum_lt
  intro y hy
  obtain ⟨j, hj, rfl⟩ := List.mem_map.mp hy
  exact gf_mul_fast_lt (hr j (List.mem_range.mp hj)) (hw j)

theorem row_sum_congr (n : Nat) (r1 r2 : List Nat) (w : Nat → Nat)
    (h : ∀ j < n, r1.getD j 0 = r2.getD j 0) : row_sum n r1 w = row_sum n r2 w := by
  unfold row_sum
  apply xor_sum_map_congr
  intro j hj
  rw [h j (List.mem_range.mp hj)]

/-- The row sum of a unit row picks one entry of the vector. -/
theorem row_sum_unit (n i : Nat) (hi : i < n) (row : List Nat) (w : Nat → Nat)
    (h : ∀ j < n, row.getD j 0 = if i = j then 1 else 0) : row_sum n row w = w i := by
  unfold row_sum
  have h1 := xor_sum_single (fun j => gf_mul (row.getD j 0) (w j)) n i hi (by
    intro j hj hne
    simp only []
    rw [h j hj, if_neg (fun hc => hne hc.symm)]
    exact gf_mul_fast_zero_left _)
  rw [h1]
  simp only []
  rw [h i hi, if_pos rfl]
  exact gf_mul_fast_one_left _

theorem getD_scale_row (row : List Nat) (col f j : Nat) (hj : j < row.length) :
    (FecGroupBuffer.scale_row row col f).getD j 0 =
      if col ≤ j then gf_mul_fast (row.getD j 0) f else row.getD j 0 := by
  unfold FecGroupBuffer.scale_row
  exact FecGroupBuffer.getD_map_range _ 0 hj

theorem getD_eliminate_row (row piv : List Nat) (col factor j : Nat) (hj : j < row.length) :
    (FecGroupBuffer.eliminate_row row piv col factor).getD j 0 =
      if col ≤ j then (row.getD j 0) ^^^ gf_mul_fast factor (piv.getD j 0)
      else row.getD j 0 := by
  unfold FecGroupBuffer.eliminate_row
  exact FecGroupBuffer.getD_map_range _ 0 hj

/-- Scaling a row whose entries before `col` are zero scales its row sum. -/
theorem row_sum_scale_row (n : Nat) (row : List Nat) (col f : Nat) (w : Nat → Nat)
    (hn : n ≤ row.length) (hz : ∀ c < col, row.getD c 0 = 0)
    (hr : ∀ j < n, row.getD j 0 < 256) (hf : f < 256) (hw : ∀ j, w j < 256) :
    row_sum n (FecGroupBuffer.scale_row row col f) w = gf_mul_fast f (row_sum n row w) := by
  unfold row_sum gf_mul
  rw [← xor_sum_map_mul hf _ _ (fun j hj =>
    gf_mul_fast_lt (hr j (List.mem_range.mp hj)) (hw j))]
  apply xor_sum_map_congr
  intro j hj
  have hjn := List.mem_range.mp hj
  rw [getD_scale_row row col f j (by omega)]
  by_cases hc : col ≤ j
  · rw [if_pos hc, gf_mul_fast_comm (row.getD j 0) f,
      gf_mul_fast_assoc hf (hr j hjn) (hw j)]
  · rw [if_neg hc, hz j (by omega), gf_mul_fast_zero_left, gf_mul_fast_zero_right]

/-- Adding a multiple of a pivot row whose entries before `col` are zero adds the multiple
of its row sum. -/
theorem row_sum_eliminate_row (n : Nat) (row piv : List Nat) (col factor : Nat)
    (w : Nat → Nat) (hn : n ≤ row.length) (hz : ∀ c < col, piv.getD c 0 = 0)
    (hr : ∀ j < n, row.getD j 0 < 256) (hp : ∀ j < n, piv.getD j 0 < 256)
    (hf : factor < 256) (hw : ∀ j, w j < 256) :
    row_sum n (FecGroupBuffer.eliminate_row row piv col factor) w =
      row_sum n row w ^^^ gf_mul_fast factor (row_sum n piv w) := by
  unfold row_sum gf_mul
  rw [← xor_sum_map_mul hf _ _ (fun j hj =>
    gf_mul_fast_lt (hp j (List.mem_range.mp hj)) (hw j)), ← xor_sum_map_xor]
  apply xor_sum_map_congr
  intro j hj
  have hjn := List.mem_range.mp hj
  rw [getD_eliminate_row row piv col factor j (by omega)]
  have hlin : gf_mul_fast (row.getD j 0 ^^^ gf_mul_fast factor (piv.getD j 0)) (w j) =
      gf_mul_fast (row.getD j 0) (w j) ^^^
        gf_mul_fast factor (gf_mul_fast (piv.getD j 0) (w j)) := by
    rw [gf_mul_fast_xor_left (hr j hjn) (gf_mul_fast_lt hf (hp j hjn)) (hw j),
      gf_mul_fast_assoc hf (hp j hjn) (hw j)]
  by_cases hc : col ≤ j
  · rw [if_pos hc, hlin]
  · rw [if_neg hc, hz j (by omega), gf_mul_fast_zero_left, gf_mul_fast_zero_right, Nat.xor_zero]

end SrsAdapter
namespace SrsAdapter

namespace FecGroupBuffer

theorem byteVector_getD {n : Nat} {v : List Nat} (h : IsByteVector n v) (j : Nat) :
    v.getD j 0 < 256 := by
  rw [List.getD_eq_getElem?_getD]
  cases hj : v[j]? with
  | none => simp
  | some x =>
    simp only [Option.getD_some]
    exact h.2 x (List.getElem?_mem hj)

theorem byteMatrix_row {R C : Nat} {A : List (List Nat)} (h : IsByteMatrix R C A) {i : Nat}
    (hi : i < R) : IsByteVector C (A.getD i []) := by
  have hlt : i < A.length := by rw [h.1]; exact hi
  rw [List.getD_eq_getElem?_getD, List.getElem?_eq_getElem hlt]
  simp only [Option.getD_some]
  exact h.2 _ (List.getElem_mem hlt)

theorem byteMatrix_of_rows {R C : Nat} {A : List (List Nat)} (hl : A.length = R)
    (h : ∀ i < R, IsByteVector C (A.getD i [])) : IsByteMatrix R C A := by
  refine ⟨hl, ?_⟩
  intro r hr
  obtain ⟨i, hi, hget⟩ := List.getElem_of_mem hr
  have := h i (by rw [← hl]; exact hi)
  rw [List.getD_eq_getElem?_getD, List.getElem?_eq_getElem hi] at this
  simp only [Option.getD_some] at this
  rw [← hget]
  exact this

theorem getD_set_rows (l : List (List Nat)) (i k : Nat) (x : List Nat) (hi : i < l.length) :
    (l.set i x).getD k [] = if k = i then x else l.getD k [] := by
  rw [List.getD_eq_getElem?_getD, List.getD_eq_getElem?_getD, List.getElem?_set]
  by_cases h : i = k
  · subst h
    simp [hi]
  · rw [if_neg h, if_neg (fun hc => h hc.symm)]

/-- The pivot search: the row found lies at or below `col`; either it is below `col` and
its entry in column `col` is non-zero, or it is `col` and no row below has a non-zero
entry in column `col`. -/
theorem find_pivot_spec (aug : List (List Nat)) (col : Nat) (hcol : col < aug.length) :
    col ≤ find_pivot aug col ∧ find_pivot aug col < aug.length ∧
    ((find_pivot aug col ≠ col ∧ (aug.getD (find_pivot aug col) []).getD col 0 ≠ 0) ∨
      (find_pivot aug col = col ∧
        ∀ i, col < i → i < aug.length → (aug.getD i []).getD col 0 = 0)) := by
  unfold find_pivot
  cases hf : (List.range aug.length).filter (fun row =>
      decide (col + 1 ≤ row) && decide ((aug.getD row []).getD col 0 ≠ 0)) with
  | nil =>
    simp only [List.head?_nil]
    refine ⟨Nat.le_refl _, hcol, Or.inr ⟨trivial, ?_⟩⟩
    intro i hci hi
    by_contra hne
    have hmem : i ∈ (List.range aug.length).filter (fun row =>
        decide (col + 1 ≤ row) && decide ((aug.getD row []).getD col 0 ≠ 0)) := by
      rw [List.mem_filter]
      refine ⟨List.mem_range.mpr hi, ?_⟩
      simp only [Bool.and_eq_true, decide_eq_true_eq]
      exact ⟨hci, hne⟩
    rw [hf] at hmem
    simp at hmem
  | cons p rest =>
    simp only [List.head?_cons]
    have hmem : p ∈ (List.range aug.length).filter (fun row =>
        decide (col + 1 ≤ row) && decide ((aug.getD row []).getD col 0 ≠ 0)) := by
      rw [hf]
      exact List.mem_cons_self _ _
    rw [List.mem_filter] at hmem
    obtain ⟨h1, h2⟩ := hmem
    simp only [Bool.and_eq_true, decide_eq_true_eq] at h2
    exact ⟨by omega, List.mem_range.mp h1, Or.inl ⟨by omega, h2.2⟩⟩

/-- The row that stands at position `k` after the exchange of row `col` with the pivot row
`p`. -/
theorem getD_swap_rows (aug : List (List Nat)) (col p k : Nat) (hcol : col < aug.length)
    (hp : p < aug.length) :
    (swap_rows aug col p).getD k [] =
      if k = p then aug.getD col [] else if k = col then aug.getD p [] else aug.getD k [] := by
  unfold swap_rows
  rw [getD_set_rows _ p k _ (by rw [List.length_set]; exact hp), getD_set_rows _ col k _ hcol]

theorem length_scale_row (row : List Nat) (col f : Nat) :
    (scale_row row col f).length = row.length := by
  simp [scale_row]

theorem length_eliminate_row (row piv : List Nat) (col f : Nat) :
    (eliminate_row row piv col f).length = row.length := by
  simp [eliminate_row]

/-- One pass of the column loop, row by row. With `p` the pivot row found and `v` its
entry in column `col`: the pass fails exactly when `v = 0`; otherwise row `col` of the
result is the pivot row, scaled by `gf_inv v` unless `v = 1`, and every other row is the
row that stood there after the exchange, with the multiple of the pivot row added that
clears its entry in column `col`. -/
theorem eliminate_column_rows (aug : List (List Nat)) (col : Nat) (hcol : col < aug.length) :
    ((aug.getD (find_pivot aug col) []).getD col 0 = 0 ∧
      eliminate_column aug col = .error .singularMatrix) ∨
    ((aug.getD (find_pivot aug col) []).getD col 0 ≠ 0 ∧
      ∃ res, eliminate_column aug col = .ok res ∧ res.length = aug.length ∧
        ∀ k < aug.length, res.getD k [] =
          if k = col then
            (if (aug.getD (find_pivot aug col) []).getD col 0 ≠ 1 then
              scale_row (aug.getD (find_pivot aug col) []) col
                (gf_inv ((aug.getD (find_pivot aug col) []).getD col 0))
            else aug.getD (find_pivot aug col) [])
          else
            if ((if k = find_pivot aug col then aug.getD col [] else aug.getD k []).getD col 0)
                ≠ 0 then
              eliminate_row (if k = find_pivot aug col then aug.getD col [] else aug.getD k [])
                (if (aug.getD (find_pivot aug col) []).getD col 0 ≠ 1 then
                  scale_row (aug.getD (find_pivot aug col) []) col
                    (gf_inv ((aug.getD (find_pivot aug col) []).getD col 0))
                else aug.getD (find_pivot aug col) []) col
                ((if k = find_pivot aug col then aug.getD col [] else aug.getD k []).getD col 0)
            else (if k = find_pivot aug col then aug.getD col [] else aug.getD k [])) := by
  obtain ⟨hp1, hp2, _⟩ := find_pivot_spec aug col hcol
  generalize hpdef : find_pivot aug col = p at hp1 hp2 ⊢
  -- the matrix after the exchange
  have hlen1 : (if p ≠ col then swap_rows aug col p else aug).length = aug.length := by
    split_ifs
    · unfold swap_rows
      rw [List.length_set, List.length_set]
    · rfl
  have hrow1 : ∀ k, (if p ≠ col then swap_rows aug col p else aug).getD k [] =
      if k = col then aug.getD p [] else if k = p then aug.getD col [] else aug.getD k [] := by
    intro k
    by_cases hpc : p = col
    · rw [if_neg (by simp [hpc])]
      subst hpc
      by_cases hk : k = p
      · rw [if_pos hk, hk]
      · rw [if_neg hk, if_neg hk]
    · rw [if_pos hpc, getD_swap_rows aug col p k hcol hp2]
      by_cases hk : k = p
      · rw [if_pos hk, if_neg (by omega), if_pos hk]
      · rw [if_neg hk, if_neg hk]
  unfold eliminate_column
  simp only []
  rw [hpdef]
  generalize haug1 : (if p ≠ col then swap_rows aug col p else aug) = aug1 at hlen1 hrow1 ⊢
  have hpv : (aug1.getD col []).getD col 0 = (aug.getD p []).getD col 0 := by
    rw [hrow1 col, if_pos rfl]
  rw [hpv]
  by_cases hv : (aug.getD p []).getD col 0 = 0
  · left
    exact ⟨hv, by rw [if_pos hv]⟩
  · right
    refine ⟨hv, ?_⟩
    rw [if_neg hv]
    have hcol1 : col < aug1.length := by rw [hlen1]; exact hcol
    have hlen2 : (if (aug.getD p []).getD col 0 ≠ 1 then
        aug1.set col (scale_row (aug1.getD col []) col (gf_inv ((aug.getD p []).getD col 0)))
        else aug1).length = aug.length := by
      split_ifs
      · rw [List.length_set, hlen1]
      · exact hlen1
    have hrow2 : ∀ k, (if (aug.getD p []).getD col 0 ≠ 1 then
        aug1.set col (scale_row (aug1.getD col []) col (gf_inv ((aug.getD p []).getD col 0)))
        else aug1).getD k [] =
        if k = col then
          (if (aug.getD p []).getD col 0 ≠ 1 then
            scale_row (aug.getD p []) col (gf_inv ((aug.getD p []).getD col 0))
          else aug.getD p [])
        else if k = p then aug.getD col [] else aug.getD k [] := by
      intro k
      by_cases h1 : (aug.getD p []).getD col 0 ≠ 1
      · rw [if_pos h1, if_pos h1, getD_set_rows _ col k _ hcol1, hrow1 col, if_pos rfl]
        by_cases hk : k = col
        · rw [if_pos hk, if_pos hk]
        · rw [if_neg hk, if_neg hk, hrow1 k, if_neg hk]
      · rw [if_neg h1, if_neg h1, hrow1 k]
    generalize haug2 : (if (aug.getD p []).getD col 0 ≠ 1 then
        aug1.set col (scale_row (aug1.getD col []) col (gf_inv ((aug.getD p []).getD col 0)))
        else aug1) = aug2 at hlen2 hrow2 ⊢
    refine ⟨_, rfl, by rw [List.length_map, List.length_range, hlen2], ?_⟩
    intro k hk
    rw [getD_map_range _ [] (by rw [hlen2]; exact hk)]
    rw [hrow2 col, if_pos rfl, hrow2 k]
    by_cases hkc : k = col
    · rw [if_pos hkc, if_pos hkc, if_pos hkc]
    · rw [if_neg hkc, if_neg hkc, if_neg hkc]

end FecGroupBuffer

end SrsAdapter
namespace SrsAdapter

namespace FecGroupBuffer

theorem isByteVector_scale_row {n : Nat} {row : List Nat} (col : Nat) {f : Nat}
    (hr : IsByteVector n row) (hf : f < 256) : IsByteVector n (scale_row row col f) := by
  refine ⟨by rw [length_scale_row, hr.1], ?_⟩
  intro x hx
  unfold scale_row at hx
  obtain ⟨c, _, rfl⟩ := List.mem_map.mp hx
  split_ifs
  · exact gf_mul_fast_lt (byteVector_getD hr c) hf
  · exact byteVector_getD hr c

theorem isByteVector_eliminate_row {n : Nat} {row piv : List Nat} (col : Nat) {f : Nat}
    (hr : IsByteVector n row) (hp : IsByteVector n piv) (hf : f < 256) :
    IsByteVector n (eliminate_row row piv col f) := by
  refine ⟨by rw [length_eliminate_row, hr.1], ?_⟩
  intro x hx
  unfold eliminate_row at hx
  obtain ⟨c, _, rfl⟩ := List.mem_map.mp hx
  split_ifs
  · exact Nat.xor_lt_two_pow (n := 8) (byteVector_getD hr c)
      (gf_mul_fast_lt hf (byteVector_getD hp c))
  · exact byteVector_getD hr c

/-- The pivot row after normalisation: it is a byte row with zeros before `col` and 1 in
column `col`, and its row sum vanishes exactly when that of the row it comes from does. -/
theorem pivot_row_facts {n : Nat} {prow : List Nat} {col : Nat} (hcol : col < n)
    (hr : IsByteVector n prow) (hz : ∀ c < col, prow.getD c 0 = 0)
    (hv : prow.getD col 0 ≠ 0) :
    IsByteVector n (if prow.getD col 0 ≠ 1 then scale_row prow col (gf_inv (prow.getD col 0))
      else prow) ∧
    (∀ c < col, (if prow.getD col 0 ≠ 1 then scale_row prow col (gf_inv (prow.getD col 0))
      else prow).getD c 0 = 0) ∧
    (if prow.getD col 0 ≠ 1 then scale_row prow col (gf_inv (prow.getD col 0))
      else prow).getD col 0 = 1 ∧
    ∀ w : Nat → Nat, (∀ j, w j < 256) →
      (row_sum n (if prow.getD col 0 ≠ 1 then scale_row prow col (gf_inv (prow.getD col 0))
        else prow) w = 0 ↔ row_sum n prow w = 0) := by
  have hvb : prow.getD col 0 < 256 := byteVector_getD hr col
  obtain ⟨hi1, hi2, hi3⟩ := gf_inv_facts hvb hv
  by_cases h1 : prow.getD col 0 ≠ 1
  · simp only [if_pos h1]
    refine ⟨isByteVector_scale_row col hr hi1, ?_, ?_, ?_⟩
    · intro c hc
      rw [getD_scale_row prow col _ c (by rw [hr.1]; omega), if_neg (by omega), hz c hc]
    · rw [getD_scale_row prow col _ col (by rw [hr.1]; exact hcol), if_pos (Nat.le_refl _), hi3]
    · intro w hw
      rw [row_sum_scale_row n prow col _ w (by rw [hr.1]) hz
        (fun j _ => byteVector_getD hr j) hi1 hw]
      have hs : row_sum n prow w < 256 :=
        row_sum_lt n prow w (fun j _ => byteVector_getD hr j) hw
      constructor
      · intro h
        by_contra hne
        exact gf_mul_fast_ne_zero hi1 hs hi2 hne h
      · intro h
        rw [h, gf_mul_fast_zero_right]
  · simp only [if_neg h1]
    have h1' : prow.getD col 0 = 1 := by
      by_contra hc
      exact h1 hc
    exact ⟨hr, hz, h1', fun w _ => trivial⟩

/-- A row after the elimination with pivot row `piv` (1 in column `col`, zeros before):
its entries, and its row sum. -/
theorem eliminated_row_facts {n : Nat} {s piv : List Nat} {col : Nat} (hcol : col < n)
    (hs : IsByteVector n s) (hp : IsByteVector n piv) (hz : ∀ c < col, piv.getD c 0 = 0)
    (h1 : piv.getD col 0 = 1) :
    IsByteVector n (if s.getD col 0 ≠ 0 then eliminate_row s piv col (s.getD col 0) else s) ∧
    (∀ c < col, (if s.getD col 0 ≠ 0 then eliminate_row s piv col (s.getD col 0)
      else s).getD c 0 = s.getD c 0) ∧
    (if s.getD col 0 ≠ 0 then eliminate_row s piv col (s.getD col 0) else s).getD col 0 = 0 ∧
    ∀ w : Nat → Nat, (∀ j, w j < 256) →
      row_sum n (if s.getD col 0 ≠ 0 then eliminate_row s piv col (s.getD col 0) else s) w =
        row_sum n s w ^^^ gf_mul_fast (s.getD col 0) (row_sum n piv w) := by
  have hf : s.getD col 0 < 256 := byteVector_getD hs col
  by_cases h0 : s.getD col 0 ≠ 0
  · simp only [if_pos h0]
    refine ⟨isByteVector_eliminate_row col hs hp hf, ?_, ?_, ?_⟩
    · intro c hc
      rw [getD_eliminate_row s piv col _ c (by rw [hs.1]; omega), if_neg (by omega)]
    · rw [getD_eliminate_row s piv col _ col (by rw [hs.1]; exact hcol), if_pos (Nat.le_refl _),
        h1, gf_mul_fast_one_right, Nat.xor_self]
    · intro w hw
      exact row_sum_eliminate_row n s piv col _ w (by rw [hs.1]) hz
        (fun j _ => byteVector_getD hs j) (fun j _ => byteVector_getD hp j) hf hw
  · simp only [if_neg h0]
    have h0' : s.getD col 0 = 0 := by
      by_contra hc
      exact h0 hc
    refine ⟨hs, fun _ _ => trivial, h0', ?_⟩
    intro w _
    rw [h0', gf_mul_fast_zero_left, Nat.xor_zero]

/-- One pass of the column loop on a matrix reduced up to column `col`. Either it fails
with the singular-matrix error, and then column `col` is zero from row `col` on; or it
returns a matrix reduced up to column `col + 1` that is annihilated by the same vectors. -/
theorem eliminate_column_step (M col : Nat) (aug : List (List Nat)) (hcol : col < M)
    (hred : Reduced M col aug) :
    (eliminate_column aug col = .error .singularMatrix ∧
      ∀ i, col ≤ i → i < M → (aug.getD i []).getD col 0 = 0) ∨
    (∃ res, eliminate_column aug col = .ok res ∧ Reduced M (col + 1) res ∧
      ∀ w : Nat → Nat, (∀ j, w j < 256) → (Annihilates M aug w ↔ Annihilates M res w)) := by
  obtain ⟨hbm, hunit⟩ := hred
  have hM : aug.length = M := hbm.1
  have hcolA : col < aug.length := by rw [hM]; exact hcol
  obtain ⟨hp1, hp2, hpcase⟩ := find_pivot_spec aug col hcolA
  rcases eliminate_column_rows aug col hcolA with ⟨hv0, herr⟩ | ⟨hv, res, hres, hlen, hrows⟩
  · left
    refine ⟨herr, ?_⟩
    rcases hpcase with ⟨_, hne⟩ | ⟨hpc, hbelow⟩
    · exact absurd hv0 hne
    · intro i hi1 hi2
      rcases Nat.eq_or_lt_of_le hi1 with h | h
      · rw [← h]
        rw [hpc] at hv0
        exact hv0
      · exact hbelow i h (by rw [hM]; exact hi2)
  · right
    generalize hpdef : find_pivot aug col = p at hp1 hp2 hpcase hv hrows
    rw [hM] at hp2 hlen hrows
    have hprow : IsByteVector (M + 1) (aug.getD p []) := byteMatrix_row hbm hp2
    have hpz : ∀ c < col, (aug.getD p []).getD c 0 = 0 := by
      intro c hc
      rw [hunit c hc p hp2, if_neg (by omega)]
    obtain ⟨hpiv1, hpiv2, hpiv3, hpiv4⟩ := pivot_row_facts (by omega : col < M + 1) hprow hpz hv
    generalize hpivdef : (if (aug.getD p []).getD col 0 ≠ 1 then
        scale_row (aug.getD p []) col (gf_inv ((aug.getD p []).getD col 0))
        else aug.getD p []) = piv at hpiv1 hpiv2 hpiv3 hpiv4 hrows
    -- the row at position `k ≠ col` after the exchange
    have hs : ∀ k < M, IsByteVector (M + 1)
        (if k = p then aug.getD col [] else aug.getD k []) := by
      intro k hk
      split_ifs
      · exact byteMatrix_row hbm hcol
      · exact byteMatrix_row hbm hk
    have hrow_col : res.getD col [] = piv := by
      rw [hrows col hcol, if_pos rfl]
    have hrow_k : ∀ k < M, k ≠ col → res.getD k [] =
        if (if k = p then aug.getD col [] else aug.getD k []).getD col 0 ≠ 0 then
          eliminate_row (if k = p then aug.getD col [] else aug.getD k []) piv col
            ((if k = p then aug.getD col [] else aug.getD k []).getD col 0)
        else (if k = p then aug.getD col [] else aug.getD k []) := by
      intro k hk hkc
      rw [hrows k hk, if_neg hkc]
    refine ⟨res, hres, ⟨byteMatrix_of_rows hlen ?_, ?_⟩, ?_⟩
    · intro k hk
      by_cases hkc : k = col
      · rw [hkc, hrow_col]
        exact hpiv1
      · rw [hrow_k k hk hkc]
        exact (eliminated_row_facts (by omega : col < M + 1) (hs k hk) hpiv1 hpiv2 hpiv3).1
    · intro c hc i hi
      by_cases hic : i = col
      · rw [hic, hrow_col]
        rcases Nat.eq_or_lt_of_le (Nat.lt_succ_iff.mp hc) with h | h
        · rw [h, hpiv3, if_pos rfl]
        · rw [hpiv2 c h, if_neg (by omega)]
      · rw [hrow_k i hi hic]
        obtain ⟨_, e2, e3, _⟩ := eliminated_row_facts (by omega : col < M + 1) (hs i hi) hpiv1
          hpiv2 hpiv3
        rcases Nat.eq_or_lt_of_le (Nat.lt_succ_iff.mp hc) with h | h
        · rw [h, e3, if_neg hic]
        · rw [e2 c h]
          by_cases hip : i = p
          · rw [if_pos hip, hunit c h col hcol, if_neg (by omega), if_neg (by omega)]
          · rw [if_neg hip, hunit c h i hi]
    · intro w hw
      have hsum_k : ∀ k < M, k ≠ col → row_sum (M + 1) (res.getD k []) w =
          row_sum (M + 1) (if k = p then aug.getD col [] else aug.getD k []) w ^^^
            gf_mul_fast ((if k = p then aug.getD col [] else aug.getD k []).getD col 0)
              (row_sum (M + 1) piv w) := by
        intro k hk hkc
        rw [hrow_k k hk hkc]
        exact (eliminated_row_facts (by omega : col < M + 1) (hs k hk) hpiv1 hpiv2
          hpiv3).2.2.2 w hw
      constructor
      · intro ha k hk
        have hpsum : row_sum (M + 1) piv w = 0 := (hpiv4 w hw).mpr (ha p hp2)
        by_cases hkc : k = col
        · rw [hkc, hrow_col]
          exact hpsum
        · rw [hsum_k k hk hkc, hpsum, gf_mul_fast_zero_right, Nat.xor_zero]
          by_cases hkp : k = p
          · rw [if_pos hkp]
            exact ha col hcol
          · rw [if_neg hkp]
            exact ha k hk
      · intro ha i hi
        have hpsum : row_sum (M + 1) piv w = 0 := by
          have := ha col hcol
          rw [hrow_col] at this
          exact this
        by_cases hip : i = p
        · rw [hip]
          exact (hpiv4 w hw).mp hpsum
        · by_cases hic : i = col
          · -- the row of `col` stands at position `p` in the result
            have hpc : p ≠ col := fun h => hip (hic.trans h.symm)
            have := ha p hp2
            rw [hsum_k p hp2 hpc, hpsum, gf_mul_fast_zero_right, Nat.xor_zero, if_pos rfl] at this
            rw [hic]
            exact this
          · have := ha i hi
            rw [hsum_k i hi hic, hpsum, gf_mul_fast_zero_right, Nat.xor_zero, if_neg hip] at this
            exact this

end FecGroupBuffer

end SrsAdapter
namespace SrsAdapter

namespace FecGroupBuffer

theorem row_sum_congr_vec (n : Nat) (row : List Nat) (w1 w2 : Nat → Nat)
    (h : ∀ j < n, w1 j = w2 j) : row_sum n row w1 = row_sum n row w2 := by
  unfold row_sum
  apply xor_sum_map_congr
  intro j hj
  rw [h j (List.mem_range.mp hj)]

theorem row_sum_zero_vec (n : Nat) (row : List Nat) (w : Nat → Nat) (h : ∀ j < n, w j = 0) :
    row_sum n row w = 0 := by
  unfold row_sum
  apply xor_sum_map_zero
  intro j hj
  rw [h j (List.mem_range.mp hj)]
  exact gf_mul_fast_zero_right _

/-- A matrix reduced up to column `col` whose column `col` is zero from row `col` on is
annihilated by a vector with a 1 at position `col` and a 0 at position `M`. -/
theorem kernel_vector_of_zero_column (M col : Nat) (aug : List (List Nat)) (hcol : col < M)
    (hred : Reduced M col aug)
    (hz : ∀ i, col ≤ i → i < M → (aug.getD i []).getD col 0 = 0) :
    ∃ w : Nat → Nat, (∀ j, w j < 256) ∧ Annihilates M aug w ∧ w M = 0 ∧ ∃ c < M, w c = 1 := by
  obtain ⟨hbm, hunit⟩ := hred
  refine ⟨fun j => if j < col then (aug.getD j []).getD col 0 else if j = col then 1 else 0,
    ?_, ?_, ?_, col, hcol, ?_⟩
  · intro j
    simp only []
    split_ifs with h1 h2
    · exact byteVector_getD (byteMatrix_row hbm (by omega)) col
    · norm_num
    · norm_num
  · intro i hi
    unfold row_sum gf_mul
    have hterm : ∀ j ∈ List.range (M + 1),
        gf_mul_fast ((aug.getD i []).getD j 0)
          (if j < col then (aug.getD j []).getD col 0 else if j = col then 1 else 0) =
        (if j = i ∧ i < col then (aug.getD i []).getD col 0 else 0) ^^^
          (if j = col then (aug.getD i []).getD col 0 else 0) := by
      intro j _
      by_cases h1 : j < col
      · have hjc : ¬ j = col := by omega
        rw [if_pos h1, hunit j h1 i hi, if_neg hjc, Nat.xor_zero]
        by_cases hij : i = j
        · have hcond : j = i ∧ i < col := ⟨hij.symm, by omega⟩
          rw [if_pos hij, if_pos hcond, gf_mul_fast_one_left, hij]
        · have hcond : ¬ (j = i ∧ i < col) := fun hc => hij hc.1.symm
          rw [if_neg hij, if_neg hcond, gf_mul_fast_zero_left]
      · have hcond : ¬ (j = i ∧ i < col) := fun hc => h1 (by omega)
        rw [if_neg h1, if_neg hcond, Nat.zero_xor]
        by_cases h2 : j = col
        · rw [if_pos h2, if_pos h2, gf_mul_fast_one_right, h2]
        · rw [if_neg h2, if_neg h2, gf_mul_fast_zero_right]
    rw [xor_sum_map_congr _ _ _ hterm, xor_sum_map_xor]
    have hsecond : xor_sum ((List.range (M + 1)).map fun j =>
        if j = col then (aug.getD i []).getD col 0 else 0) = (aug.getD i []).getD col 0 := by
      have := xor_sum_single (fun j => if j = col then (aug.getD i []).getD col 0 else 0)
        (M + 1) col (by omega) (fun j _ hne => by simp only [if_neg hne])
      rw [this]
      simp
    rw [hsecond]
    by_cases hic : i < col
    · have hfirst : xor_sum ((List.range (M + 1)).map fun j =>
          if j = i ∧ i < col then (aug.getD i []).getD col 0 else 0) =
          (aug.getD i []).getD col 0 := by
        have := xor_sum_single
          (fun j => if j = i ∧ i < col then (aug.getD i []).getD col 0 else 0)
          (M + 1) i (by omega) (fun j _ hne => by
            simp only []
            rw [if_neg (fun hc => hne hc.1)])
        rw [this]
        simp [hic]
      rw [hfirst, Nat.xor_self]
    · have hfirst : xor_sum ((List.range (M + 1)).map fun j =>
          if j = i ∧ i < col then (aug.getD i []).getD col 0 else 0) = 0 := by
        apply xor_sum_map_zero
        intro j _
        rw [if_neg (fun hc => hic hc.2)]
      rw [hfirst, hz i (by omega) hi, Nat.xor_self]
  · simp only []
    rw [if_neg (by omega), if_neg (by omega)]
  · simp

/-- The column loop from column `col` on, started on a matrix reduced up to `col`: either
it returns a fully reduced matrix annihilated by the same vectors, or it fails with the
singular-matrix error and the matrix it started from has a kernel vector. -/
theorem eliminate_from_spec (M : Nat) :
    ∀ (cnt col : Nat) (aug : List (List Nat)), col + cnt = M → Reduced M col aug →
      (∃ res, eliminate_from cnt col aug = .ok res ∧ Reduced M M res ∧
        ∀ w : Nat → Nat, (∀ j, w j < 256) → (Annihilates M aug w ↔ Annihilates M res w)) ∨
      (eliminate_from cnt col aug = .error .singularMatrix ∧
        ∃ w : Nat → Nat, (∀ j, w j < 256) ∧ Annihilates M aug w ∧ w M = 0 ∧
          ∃ c < M, w c = 1) := by
  intro cnt
  induction cnt with
  | zero =>
    intro col aug hc hred
    left
    have : col = M := by omega
    subst this
    exact ⟨aug, rfl, hred, fun _ _ => Iff.rfl⟩
  | succ cnt ih =>
    intro col aug hc hred
    have hcol : col < M := by omega
    rcases eliminate_column_step M col aug hcol hred with ⟨herr, hz⟩ | ⟨res, hok, hred1, heq⟩
    · right
      refine ⟨?_, kernel_vector_of_zero_column M col aug hcol hred hz⟩
      unfold eliminate_from
      rw [herr]
    · have hstep : eliminate_from (cnt + 1) col aug = eliminate_from cnt (col + 1) res := by
        conv_lhs => unfold eliminate_from
        rw [hok]
      rw [hstep]
      rcases ih (col + 1) res (by omega) hred1 with ⟨r, hr, hredM, heq2⟩ | ⟨herr, w, hw, ha, h0, hc1⟩
      · left
        exact ⟨r, hr, hredM, fun w hw => (heq w hw).trans (heq2 w hw)⟩
      · right
        exact ⟨herr, w, hw, (heq w hw).mpr ha, h0, hc1⟩

/-- A vector annihilates a fully reduced matrix exactly when each of its first `M` entries
is the last entry of the row, times its own last entry. -/
theorem annihilates_reduced (M : Nat) (r : List (List Nat)) (hred : Reduced M M r)
    (w : Nat → Nat) :
    Annihilates M r w ↔ ∀ i < M, w i = gf_mul ((r.getD i []).getD M 0) (w M) := by
  obtain ⟨_, hunit⟩ := hred
  have hrow : ∀ i < M, row_sum (M + 1) (r.getD i []) w =
      w i ^^^ gf_mul ((r.getD i []).getD M 0) (w M) := by
    intro i hi
    rw [row_sum_succ, row_sum_unit M i hi (r.getD i []) w (fun j hj => by
      rw [hunit j hj i hi])]
  constructor
  · intro h i hi
    have := h i hi
    rw [hrow i hi] at this
    exact Nat.xor_eq_zero.mp this
  · intro h i hi
    rw [hrow i hi]
    exact Nat.xor_eq_zero.mpr (h i hi)

theorem getD_augmented (A rhs : List (List Nat)) (M p i j : Nat) (hi : i < M) :
    ((augmented A rhs M p).getD i []).getD j 0 =
      if j < M then (A.getD i []).getD j 0
      else if j = M then (rhs.getD i []).getD p 0 else 0 := by
  unfold augmented
  rw [getD_map_range _ [] hi]
  rw [List.getD_eq_getElem?_getD]
  by_cases hj : j < M
  · rw [if_pos hj, List.getElem?_append_left (by simp [hj])]
    rw [← List.getD_eq_getElem?_getD, getD_map_range _ 0 hj]
  · rw [if_neg hj, List.getElem?_append_right (by simp; omega)]
    simp only [List.length_map, List.length_range]
    by_cases hjM : j = M
    · rw [if_pos hjM, hjM]
      simp
    · rw [if_neg hjM]
      have : j - M ≠ 0 := by omega
      cases hd : j - M with
      | zero => exact absurd hd this
      | succ n => simp

/-- The augmented matrix of `solve_byte` is a byte matrix, reduced up to column 0. -/
theorem augmented_reduced (A rhs : List (List Nat)) (M L p : Nat)
    (hA : IsByteMatrix M M A) (hrhs : IsByteMatrix M L rhs) :
    Reduced M 0 (augmented A rhs M p) := by
  refine ⟨byteMatrix_of_rows (by simp [augmented]) ?_, fun c hc => absurd hc (Nat.not_lt_zero _)⟩
  intro i hi
  unfold augmented
  rw [getD_map_range _ [] hi]
  refine ⟨by simp, ?_⟩
  intro x hx
  rcases List.mem_append.mp hx with h | h
  · obtain ⟨j, _, rfl⟩ := List.mem_map.mp h
    exact byteVector_getD (byteMatrix_row hA hi) j
  · simp only [List.mem_singleton] at h
    rw [h]
    exact byteVector_getD (byteMatrix_row hrhs hi) p

/-- A vector annihilates the augmented matrix exactly when the row sums of `A` against it
are the right-hand side times its last entry. -/
theorem annihilates_augmented (A rhs : List (List Nat)) (M p : Nat) (w : Nat → Nat) :
    Annihilates M (augmented A rhs M p) w ↔
      ∀ i < M, row_sum M (A.getD i []) w = gf_mul ((rhs.getD i []).getD p 0) (w M) := by
  have hrow : ∀ i < M, row_sum (M + 1) ((augmented A rhs M p).getD i []) w =
      row_sum M (A.getD i []) w ^^^ gf_mul ((rhs.getD i []).getD p 0) (w M) := by
    intro i hi
    rw [row_sum_succ, getD_augmented A rhs M p i M hi, if_neg (Nat.lt_irrefl _), if_pos rfl,
      row_sum_congr M _ (A.getD i []) w (fun j hj => by
        rw [getD_augmented A rhs M p i j hi, if_pos hj])]
  constructor
  · intro h i hi
    have := h i hi
    rw [hrow i hi] at this
    exact Nat.xor_eq_zero.mp this
  · intro h i hi
    rw [hrow i hi]
    exact Nat.xor_eq_zero.mpr (h i hi)

/-- The elimination of one byte position, `solve_byte`: either it returns a byte vector `x`
such that the homogenised solutions `w` of `A w = rhs_p * w M` are exactly the multiples
`w i = x i * w M`, or it reports a singular matrix and `A` has a kernel vector (a byte
vector with an entry 1 whose row sums against every row of `A` vanish). -/
theorem solve_byte_spec (A rhs : List (List Nat)) (M L p : Nat)
    (hA : IsByteMatrix M M A) (hrhs : IsByteMatrix M L rhs) :
    (∃ x, solve_byte A rhs M p = .ok x ∧ IsByteVector M x ∧
      ∀ w : Nat → Nat, (∀ j, w j < 256) →
        ((∀ i < M, row_sum M (A.getD i []) w = gf_mul ((rhs.getD i []).getD p 0) (w M)) ↔
          ∀ i < M, w i = gf_mul (x.getD i 0) (w M))) ∨
    (solve_byte A rhs M p = .error .singularMatrix ∧
      ∃ w : Nat → Nat, (∀ j, w j < 256) ∧ (∀ i < M, row_sum M (A.getD i []) w = 0) ∧
        ∃ c < M, w c = 1) := by
  have hsb : solve_byte A rhs M p =
      match eliminate_from M 0 (augmented A rhs M p) with
      | .error e => .error e
      | .ok r => .ok ((List.range M).map fun i => (r.getD i []).getD M 0) := rfl
  rcases eliminate_from_spec M M 0 (augmented A rhs M p) (by omega)
      (augmented_reduced A rhs M L p hA hrhs) with
    ⟨r, hr, hred, heq⟩ | ⟨herr, w, hw, ha, h0, hc⟩
  · left
    rw [hsb, hr]
    refine ⟨_, rfl, ⟨by simp, ?_⟩, ?_⟩
    · intro x hx
      obtain ⟨i, hi, rfl⟩ := List.mem_map.mp hx
      exact byteVector_getD (byteMatrix_row hred.1 (List.mem_range.mp hi)) M
    · intro w hw
      rw [← annihilates_augmented, heq w hw, annihilates_reduced M r hred w]
      constructor
      · intro h i hi
        rw [getD_map_range _ 0 hi]
        exact h i hi
      · intro h i hi
        have := h i hi
        rw [getD_map_range _ 0 hi] at this
        exact this
  · right
    rw [hsb, herr]
    refine ⟨rfl, w, hw, ?_, hc⟩
    have := (annihilates_augmented A rhs M p w).mp ha
    intro i hi
    rw [this i hi, h0]
    exact gf_mul_fast_zero_right _

end FecGroupBuffer

end SrsAdapter
namespace SrsAdapter

theorem mapExcept_ok_inv {α β ε : Type} (f : α → Except ε β) (d : β) :
    ∀ (l : List α) (ys : List β), mapExcept f l = .ok ys →
      (∀ x ∈ l, ∃ y, f x = .ok y) ∧
      ys = l.map fun x => match f x with
        | .ok y => y
        | .error _ => d
  | [], ys, h => by
    simp only [mapExcept, Except.ok.injEq] at h
    subst h
    exact ⟨fun x hx => by simp at hx, rfl⟩
  | x :: xs, ys, h => by
    unfold mapExcept at h
    cases hfx : f x with
    | error e => simp [hfx] at h
    | ok y =>
      simp only [hfx] at h
      cases hrest : mapExcept f xs with
      | error e => simp [hrest] at h
      | ok zs =>
        simp only [hrest, Except.ok.injEq] at h
        obtain ⟨h1, h2⟩ := mapExcept_ok_inv f d xs zs hrest
        subst h
        refine ⟨?_, ?_⟩
        · intro z hz
          rcases List.mem_cons.mp hz with hz1 | hz1
          · subst hz1
            exact ⟨y, hfx⟩
          · exact h1 z hz1
        · rw [List.map_cons, hfx, ← h2]

theorem mapExcept_error_inv {α β ε : Type} (f : α → Except ε β) :
    ∀ (l : List α) (e : ε), mapExcept f l = .error e → ∃ x ∈ l, f x = .error e
  | [], e, h => by simp [mapExcept] at h
  | x :: xs, e, h => by
    unfold mapExcept at h
    cases hfx : f x with
    | error e1 =>
      simp only [hfx, Except.error.injEq] at h
      subst h
      exact ⟨x, List.mem_cons_self _ _, hfx⟩
    | ok y =>
      simp only [hfx] at h
      cases hrest : mapExcept f xs with
      | error e1 =>
        simp only [hrest, Except.error.injEq] at h
        subst h
        obtain ⟨z, hz, hfz⟩ := mapExcept_error_inv f xs e1 hrest
        exact ⟨z, List.mem_cons_of_mem _ hz, hfz⟩
      | ok zs => simp [hrest] at h

namespace FecGroupBuffer

theorem byteVector_ext {n : Nat} {v1 v2 : List Nat} (h1 : v1.length = n) (h2 : v2.length = n)
    (h : ∀ i < n, v1.getD i 0 = v2.getD i 0) : v1 = v2 := by
  apply List.ext_getElem (by rw [h1, h2])
  intro i hi1 hi2
  have := h i (by rw [← h1]; exact hi1)
  rw [List.getD_eq_getElem?_getD, List.getD_eq_getElem?_getD, List.getElem?_eq_getElem hi1,
    List.getElem?_eq_getElem hi2] at this
  simpa using this

theorem mat_vec_eq_iff (M : Nat) (A : List (List Nat)) (v b : List Nat) (hb : b.length = M) :
    mat_vec M A v = b ↔
      ∀ i < M, row_sum M (A.getD i []) (fun j => v.getD j 0) = b.getD i 0 := by
  unfold mat_vec
  constructor
  · intro h i hi
    rw [← h, getD_map_range _ 0 hi]
  · intro h
    apply byteVector_ext (by simp) hb
    intro i hi
    rw [getD_map_range _ 0 hi]
    exact h i hi

/-- A matrix with a kernel vector is not invertible: the zero right-hand side has two
solutions. -/
theorem not_invertible_of_kernel (M : Nat) (A : List (List Nat)) (w : Nat → Nat)
    (hw : ∀ j, w j < 256) (hk : ∀ i < M, row_sum M (A.getD i []) w = 0) (c : Nat)
    (hc : c < M) (hc1 : w c = 1) : ¬ Invertible M A := by
  intro hinv
  have hb0 : IsByteVector M ((List.range M).map fun _ => 0) := by
    refine ⟨by simp, ?_⟩
    intro x hx
    obtain ⟨_, _, rfl⟩ := List.mem_map.mp hx
    norm_num
  obtain ⟨v, _, huniq⟩ := hinv _ hb0
  have hzero : IsByteVector M ((List.range M).map fun _ => 0) ∧
      mat_vec M A ((List.range M).map fun _ => 0) = (List.range M).map fun _ => 0 := by
    refine ⟨hb0, ?_⟩
    rw [mat_vec_eq_iff M A _ _ hb0.1]
    intro i hi
    rw [getD_map_range _ 0 hi]
    apply row_sum_zero_vec
    intro j hj
    beta_reduce
    rw [getD_map_range _ 0 hj]
  have hker : IsByteVector M ((List.range M).map w) ∧
      mat_vec M A ((List.range M).map w) = (List.range M).map fun _ => 0 := by
    refine ⟨⟨by simp, ?_⟩, ?_⟩
    · intro x hx
      obtain ⟨j, _, rfl⟩ := List.mem_map.mp hx
      exact hw j
    · rw [mat_vec_eq_iff M A _ _ hb0.1]
      intro i hi
      rw [getD_map_range _ 0 hi]
      refine Eq.trans ?_ (hk i hi)
      apply row_sum_congr_vec
      intro j hj
      beta_reduce
      rw [getD_map_range _ 0 hj]
  have h1 := huniq _ hzero
  have h2 := huniq _ hker
  have h3 : ((List.range M).map w).getD c 0 = ((List.range M).map fun _ => 0).getD c 0 := by
    rw [h2, ← h1]
  rw [getD_map_range _ 0 hc, getD_map_range _ 0 hc, hc1] at h3
  exact absurd h3 (by norm_num)

/-- A successful `solve_byte` rules out a kernel vector. -/
theorem no_kernel_of_solve_byte_ok (A rhs : List (List Nat)) (M L p : Nat)
    (hA : IsByteMatrix M M A) (hrhs : IsByteMatrix M L rhs) (x : List Nat)
    (hx : solve_byte A rhs M p = .ok x) (w : Nat → Nat) (hw : ∀ j, w j < 256)
    (hk : ∀ i < M, row_sum M (A.getD i []) w = 0) (c : Nat) (hc : c < M) (hc1 : w c = 1) :
    False := by
  rcases solve_byte_spec A rhs M L p hA hrhs with ⟨x1, hx1, _, heq⟩ | ⟨herr, _⟩
  · have hw1 : ∀ j, (fun j => if j < M then w j else 0) j < 256 := by
      intro j
      beta_reduce
      split_ifs
      · exact hw j
      · norm_num
    have := (heq (fun j => if j < M then w j else 0) hw1).mp (by
      intro i hi
      rw [if_neg (Nat.lt_irrefl _)]
      have : gf_mul ((rhs.getD i []).getD p 0) 0 = 0 := gf_mul_fast_zero_right _
      rw [this, ← hk i hi]
      apply row_sum_congr_vec
      intro j hj
      beta_reduce
      rw [if_pos hj]) c hc
    simp only [] at this
    rw [if_pos hc, if_neg (Nat.lt_irrefl _), hc1] at this
    have h0 : gf_mul (x1.getD c 0) 0 = 0 := gf_mul_fast_zero_right _
    rw [h0] at this
    exact absurd this (by norm_num)
  · rw [hx] at herr
    cases herr

/-- A matrix without a kernel vector is invertible: `solve_byte` finds the one solution of
every right-hand side. -/
theorem invertible_of_no_kernel (M : Nat) (A : List (List Nat)) (hA : IsByteMatrix M M A)
    (hno : ∀ w : Nat → Nat, (∀ j, w j < 256) → (∀ i < M, row_sum M (A.getD i []) w = 0) →
      ∀ c < M, w c = 1 → False) : Invertible M A := by
  intro b hb
  have hrhs : IsByteMatrix M 1 (b.map fun x => [x]) := by
    refine ⟨by rw [List.length_map, hb.1], ?_⟩
    intro r hr
    obtain ⟨x, hx, rfl⟩ := List.mem_map.mp hr
    refine ⟨rfl, ?_⟩
    intro y hy
    simp only [List.mem_singleton] at hy
    rw [hy]
    exact hb.2 x hx
  have hcol : ∀ i < M, ((b.map fun x => [x]).getD i []).getD 0 0 = b.getD i 0 := by
    intro i hi
    have hlt : i < b.length := by rw [hb.1]; exact hi
    simp [List.getD_eq_getElem?_getD, hlt]
  rcases solve_byte_spec A (b.map fun x => [x]) M 1 0 hA hrhs with
    ⟨x, _, hxv, heq⟩ | ⟨_, w, hw, hk, c, hc, hc1⟩
  · refine ⟨x, ⟨hxv, ?_⟩, ?_⟩
    · rw [mat_vec_eq_iff M A x b hb.1]
      have hw1 : ∀ j, (fun j => if j = M then 1 else x.getD j 0) j < 256 := by
        intro j
        beta_reduce
        split_ifs
        · norm_num
        · exact byteVector_getD hxv j
      have := (heq _ hw1).mpr (by
        intro i hi
        rw [if_neg (by omega), if_pos rfl]
        exact (gf_mul_fast_one_right _).symm)
      intro i hi
      have h1 := this i hi
      simp only [if_true] at h1
      rw [hcol i hi] at h1
      have h2 : gf_mul (b.getD i 0) 1 = b.getD i 0 := gf_mul_fast_one_right _
      rw [h2] at h1
      rw [← h1]
      apply row_sum_congr_vec
      intro j hj
      beta_reduce
      rw [if_neg (by omega)]
    · intro v ⟨hv, hmv⟩
      rw [mat_vec_eq_iff M A v b hb.1] at hmv
      have hw1 : ∀ j, (fun j => if j = M then 1 else v.getD j 0) j < 256 := by
        intro j
        beta_reduce
        split_ifs
        · norm_num
        · exact byteVector_getD hv j
      have := (heq _ hw1).mp (by
        intro i hi
        simp only [if_true]
        rw [hcol i hi]
        have h2 : gf_mul (b.getD i 0) 1 = b.getD i 0 := gf_mul_fast_one_right _
        rw [h2, ← hmv i hi]
        apply row_sum_congr_vec
        intro j hj
        beta_reduce
        rw [if_neg (by omega)])
      apply byteVector_ext hv.1 hxv.1
      intro i hi
      have h1 := this i hi
      simp only [if_true] at h1
      rw [if_neg (by omega)] at h1
      rw [h1]
      exact gf_mul_fast_one_right _
  · exact absurd (hno w hw hk c hc hc1) id

/-- C36. For every `M`, every `M x M` byte matrix `A` and every right-hand side of `M` byte
vectors of length `L ≥ 1`, `solve_linear_system` returns success if and only if `A` is
invertible over GF(2^8) (every right-hand side has exactly one solution). On success the
solution `x` is `M` byte vectors of length `L` and satisfies, for every row `i` and byte
position `p`, XOR over `j` of `gf_mul(A[i][j], x[j][p]) = rhs[i][p]`. A matrix that is not
invertible yields the singular-matrix error. -/
theorem solve_linear_system_iff_invertible (M L : Nat) (A rhs : List (List Nat))
    (hL : 1 ≤ L) (hA : IsByteMatrix M M A) (hrhs : IsByteMatrix M L rhs) :
    ((∃ x, solve_linear_system A rhs L M = .ok x) ↔ Invertible M A) ∧
    (∀ x, solve_linear_system A rhs L M = .ok x →
      IsByteMatrix M L x ∧
      ∀ i < M, ∀ p < L,
        row_sum M (A.getD i []) (fun j => (x.getD j []).getD p 0) = (rhs.getD i []).getD p 0) ∧
    (¬ Invertible M A → solve_linear_system A rhs L M = .error .singularMatrix) := by
  have hsls : solve_linear_system A rhs L M =
      match mapExcept (solve_byte A rhs M) (List.range L) with
      | .error e => .error e
      | .ok cols =>
        .ok ((List.range M).map fun i =>
          (List.range L).map fun p => (cols.getD p []).getD i 0) := by
    unfold solve_linear_system
    rw [if_neg (by rw [hA.1, hrhs.1]; simp)]
  -- success gives invertibility and the equations
  have hok : ∀ x, solve_linear_system A rhs L M = .ok x →
      Invertible M A ∧ IsByteMatrix M L x ∧
      ∀ i < M, ∀ p < L,
        row_sum M (A.getD i []) (fun j => (x.getD j []).getD p 0) =
          (rhs.getD i []).getD p 0 := by
    intro x hx
    rw [hsls] at hx
    cases hm : mapExcept (solve_byte A rhs M) (List.range L) with
    | error e => simp [hm] at hx
    | ok cols =>
      simp only [hm, Except.ok.injEq] at hx
      obtain ⟨hall, hcols⟩ := mapExcept_ok_inv (solve_byte A rhs M) [] _ _ hm
      have hcolp : ∀ p < L, solve_byte A rhs M p = .ok (cols.getD p []) := by
        intro p hp
        obtain ⟨y, hy⟩ := hall p (List.mem_range.mpr hp)
        rw [hcols, getD_map_range _ [] hp, hy]
      have hentry : ∀ j < M, ∀ p < L, (x.getD j []).getD p 0 = (cols.getD p []).getD j 0 := by
        intro j hj p hp
        rw [← hx, getD_map_range _ [] hj, getD_map_range _ 0 hp]
      have hbytes : ∀ p < L, IsByteVector M (cols.getD p []) := by
        intro p hp
        rcases solve_byte_spec A rhs M L p hA hrhs with ⟨y, hy, hyv, _⟩ | ⟨herr, _⟩
        · rw [hcolp p hp] at hy
          rw [Except.ok.inj hy]
          exact hyv
        · rw [hcolp p hp] at herr
          cases herr
      refine ⟨?_, ?_, ?_⟩
      · apply invertible_of_no_kernel M A hA
        intro w hw hk c hc hc1
        exact no_kernel_of_solve_byte_ok A rhs M L 0 hA hrhs _ (hcolp 0 (by omega)) w hw hk c
          hc hc1
      · apply byteMatrix_of_rows (by rw [← hx]; simp)
        intro j hj
        rw [← hx, getD_map_range _ [] hj]
        refine ⟨by simp, ?_⟩
        intro y hy
        obtain ⟨p, hp, rfl⟩ := List.mem_map.mp hy
        exact byteVector_getD (hbytes p (List.mem_range.mp hp)) j
      · intro i hi p hp
        rcases solve_byte_spec A rhs M L p hA hrhs with ⟨y, hy, hyv, heq⟩ | ⟨herr, _⟩
        · rw [hcolp p hp] at hy
          have hyc : cols.getD p [] = y := Except.ok.inj hy
          have hw1 : ∀ j, (fun j => if j = M then 1 else y.getD j 0) j < 256 := by
            intro j
            beta_reduce
            split_ifs
            · norm_num
            · exact byteVector_getD hyv j
          have := (heq _ hw1).mpr (by
            intro i hi
            rw [if_neg (by omega), if_pos rfl]
            exact (gf_mul_fast_one_right _).symm) i hi
          simp only [if_true] at this
          have h2 : gf_mul ((rhs.getD i []).getD p 0) 1 = (rhs.getD i []).getD p 0 :=
            gf_mul_fast_one_right _
          rw [h2] at this
          rw [← this]
          apply row_sum_congr_vec
          intro j hj
          beta_reduce
          rw [if_neg (by omega), hentry j hj p hp, hyc]
        · rw [hcolp p hp] at herr
          cases herr
  -- a failure is the singular-matrix error and gives a kernel vector
  have herr : ∀ e, solve_linear_system A rhs L M = .error e →
      e = .singularMatrix ∧ ¬ Invertible M A := by
    intro e he
    rw [hsls] at he
    cases hm : mapExcept (solve_byte A rhs M) (List.range L) with
    | ok cols => simp [hm] at he
    | error e1 =>
      simp only [hm, Except.error.injEq] at he
      subst he
      obtain ⟨p, _, hp⟩ := mapExcept_error_inv _ _ _ hm
      rcases solve_byte_spec A rhs M L p hA hrhs with ⟨y, hy, _⟩ | ⟨herr, w, hw, hk, c, hc, hc1⟩
      · rw [hp] at hy
        cases hy
      · rw [hp] at herr
        exact ⟨Except.error.inj herr, not_invertible_of_kernel M A w hw hk c hc hc1⟩
  refine ⟨⟨?_, ?_⟩, fun x hx => (hok x hx).2, ?_⟩
  · rintro ⟨x, hx⟩
    exact (hok x hx).1
  · intro hinv
    cases hs : solve_linear_system A rhs L M with
    | ok x => exact ⟨x, rfl⟩
    | error e => exact absurd hinv (herr e hs).2
  · intro hninv
    cases hs : solve_linear_system A rhs L M with
    | ok x => exact absurd (hok x hs).1 hninv
    | error e => rw [(herr e hs).1]

set_option maxRecDepth 1000000 in
/-- Witness for C36: the invertible matrix `invertible_demo` (whose first pivot needs a row
swap) is solved, the singular matrix `singular_demo` is rejected. -/
theorem solve_linear_system_iff_invertible_witness :
    (solve_linear_system invertible_demo [[5], [7]] 1 2 = .ok [[2], [5]] ∧
      Invertible 2 invertible_demo ∧
      row_sum 2 (invertible_demo.getD 1 []) (fun j => ([[2], [5]].getD j []).getD 0 0) = 7) ∧
    (solve_linear_system singular_demo [[5], [7]] 1 2 = .error .singularMatrix ∧
      ¬ Invertible 2 singular_demo) := by
  have hrhs : IsByteMatrix 2 1 [[5], [7]] := by
    refine ⟨rfl, ?_⟩
    unfold IsByteVector
    decide
  have hA1 : IsByteMatrix 2 2 invertible_demo := by
    refine ⟨rfl, ?_⟩
    unfold IsByteVector
    decide
  have hA2 : IsByteMatrix 2 2 singular_demo := by
    refine ⟨rfl, ?_⟩
    unfold IsByteVector
    decide
  have h1 := solve_linear_system_iff_invertible 2 1 invertible_demo [[5], [7]] (by decide) hA1
    hrhs
  have h2 := solve_linear_system_iff_invertible 2 1 singular_demo [[5], [7]] (by decide) hA2
    hrhs
  have e1 : solve_linear_system invertible_demo [[5], [7]] 1 2 = .ok [[2], [5]] := by decide
  have e2 : solve_linear_system singular_demo [[5], [7]] 1 2 = .error .singularMatrix := by
    decide
  refine ⟨⟨e1, h1.1.mp ⟨_, e1⟩, (h1.2.1 _ e1).2 1 (by decide) 0 (by decide)⟩, e2, ?_⟩
  intro hinv
  obtain ⟨x, hx⟩ := h2.1.mpr hinv
  rw [e2] at hx
  cases hx

end FecGroupBuffer

end SrsAdapter

namespace SrsAdapter

/-! ## Reorder buffer -/

theorem mapFind_mapErase_ne {β : Type} {key s : Nat} (h : s ≠ key) :
    ∀ m : List (Nat × β), mapFind s (mapErase key m) = mapFind s m
  | [] => rfl
  | (k, v) :: rest => by
    have ih := mapFind_mapErase_ne h rest
    unfold mapErase at ih ⊢
    by_cases hk : k = key
    · subst hk
      have hks : ¬ k = s := fun h1 => h h1.symm
      simp only [List.filter_cons, ne_eq, not_true_eq_false, decide_False, Bool.false_eq_true,
        if_false, mapFind, hks]
      exact ih
    · simp only [List.filter_cons, ne_eq, hk, not_false_eq_true, decide_True, if_true, mapFind]
      rw [ih]

theorem mapErase_length_lt {β : Type} {key : Nat} {v : β} :
    ∀ {m : List (Nat × β)}, mapFind key m = some v → (mapErase key m).length < m.length
  | [], h => by simp [mapFind] at h
  | (k, w) :: rest, h => by
    unfold mapErase
    by_cases hk : k = key
    · simp only [List.filter_cons, ne_eq, hk, not_true_eq_false, decide_False,
        Bool.false_eq_true, if_false, List.length_cons]
      exact Nat.lt_succ_of_le (List.length_filter_le _ _)
    · have h1 : mapFind key rest = some v := by
        unfold mapFind at h
        simpa [hk] using h
      have ih := mapErase_length_lt h1
      unfold mapErase at ih
      simp only [ne_eq] at ih
      simp only [List.filter_cons, ne_eq, hk, not_false_eq_true, decide_True, if_true,
        List.length_cons]
      omega

namespace ReorderBuffer

theorem drained_units_congr {r r1 : ReorderBuffer} {now : Int} {s : Nat}
    (hc : r1.config_ = r.config_) (hf : mapFind s r1.buffer_ = mapFind s r.buffer_) :
    r1.drained_units now s = r.drained_units now s := by
  unfold drained_units
  rw [hc, hf]

theorem expired_at_congr {r r1 : ReorderBuffer} {now : Int} {s : Nat}
    (hc : r1.config_ = r.config_) (hf : mapFind s r1.buffer_ = mapFind s r.buffer_) :
    r1.expired_at now s = r.expired_at now s := by
  unfold expired_at
  rw [hc, hf]

theorem filter_erase_run {β : Type} (m : List (Nat × β)) {E E1 : Nat} (h : E < E1) :
    (mapErase E m).filter (fun e => !(decide (E + 1 ≤ e.1) && decide (e.1 < E1))) =
      m.filter (fun e => !(decide (E ≤ e.1) && decide (e.1 < E1))) := by
  unfold mapErase
  rw [List.filter_filter]
  apply List.filter_congr
  intro e _
  by_cases h1 : e.1 = E
  · simp [h1, h]
  · have h2 : (E + 1 ≤ e.1) ↔ (E ≤ e.1) := by omega
    simp [h1, h2]

/-- The drain loop removes the run of stored sequence numbers that starts at the expected
one, and stops at the first gap `E1`. -/
theorem drain_loop_spec (now : Int) :
    ∀ (fuel : Nat) (r : ReorderBuffer) (packets : List (List Nat)) (E1 : Nat),
      r.buffer_.length < fuel → r.expected_sequence_ ≤ E1 → E1 < 2 ^ 64 →
      (∀ s, r.expected_sequence_ ≤ s → s < E1 → (mapFind s r.buffer_).isSome = true) →
      mapFind E1 r.buffer_ = none →
      (drain_loop fuel now r packets).2.buffer_ =
          r.buffer_.filter (fun e => !(decide (r.expected_sequence_ ≤ e.1) && decide (e.1 < E1))) ∧
      (drain_loop fuel now r packets).2.expected_sequence_ = E1 ∧
      (drain_loop fuel now r packets).2.config_ = r.config_ ∧
      (drain_loop fuel now r packets).1 = packets ++
          (List.range' r.expected_sequence_ (E1 - r.expected_sequence_)).flatMap
            (r.drained_units now) ∧
      (drain_loop fuel now r packets).2.stats_.dropped_packets = r.stats_.dropped_packets +
          ((List.range' r.expected_sequence_ (E1 - r.expected_sequence_)).filter
            (r.expired_at now)).length := by
  intro fuel
  induction fuel with
  | zero =>
    intro r packets E1 hlen
    exact absurd hlen (Nat.not_lt_zero _)
  | succ fuel ih =>
    intro r packets E1 hlen hle hlt hrun hgap
    cases hf : mapFind r.expected_sequence_ r.buffer_ with
    | none =>
      have hE : E1 = r.expected_sequence_ := by
        by_contra hne
        have h1 := hrun r.expected_sequence_ (Nat.le_refl _) (by omega)
        rw [hf] at h1
        cases h1
      subst hE
      have hd : drain_loop (fuel + 1) now r packets = (packets, r) := by
        simp only [drain_loop, hf]
      rw [hd]
      refine ⟨?_, rfl, rfl, by simp, by simp⟩
      symm
      apply List.filter_eq_self.mpr
      intro e _
      simp only [Bool.not_eq_true', Bool.and_eq_false_imp, decide_eq_true_eq, decide_eq_false_iff_not]
      omega
    | some fragment =>
      have hElt : r.expected_sequence_ < E1 := by
        rcases Nat.lt_or_ge r.expected_sequence_ E1 with h1 | h1
        · exact h1
        · have h2 : E1 = r.expected_sequence_ := by omega
          rw [h2, hf] at hgap
          cases hgap
      have hnext : (r.expected_sequence_ + 1) % 2 ^ 64 = r.expected_sequence_ + 1 :=
        Nat.mod_eq_of_lt (by omega)
      have hrange : List.range' r.expected_sequence_ (E1 - r.expected_sequence_) =
          r.expected_sequence_ ::
            List.range' (r.expected_sequence_ + 1) (E1 - (r.expected_sequence_ + 1)) := by
        have h3 : E1 - r.expected_sequence_ = (E1 - (r.expected_sequence_ + 1)) + 1 := by omega
        rw [h3, List.range'_succ]
      -- what the induction hypothesis gives for any successor state
      have key : ∀ (r1 : ReorderBuffer) (packets1 : List (List Nat)),
          r1.buffer_ = mapErase r.expected_sequence_ r.buffer_ →
          r1.expected_sequence_ = r.expected_sequence_ + 1 → r1.config_ = r.config_ →
          (drain_loop fuel now r1 packets1).2.buffer_ =
            r.buffer_.filter
              (fun e => !(decide (r.expected_sequence_ ≤ e.1) && decide (e.1 < E1))) ∧
          (drain_loop fuel now r1 packets1).2.expected_sequence_ = E1 ∧
          (drain_loop fuel now r1 packets1).2.config_ = r.config_ ∧
          (drain_loop fuel now r1 packets1).1 = packets1 ++
            (List.range' (r.expected_sequence_ + 1) (E1 - (r.expected_sequence_ + 1))).flatMap
              (r.drained_units now) ∧
          (drain_loop fuel now r1 packets1).2.stats_.dropped_packets =
            r1.stats_.dropped_packets +
            ((List.range' (r.expected_sequence_ + 1) (E1 - (r.expected_sequence_ + 1))).filter
              (r.expired_at now)).length := by
        intro r1 packets1 hb he hc
        have hfind : ∀ s, s ≠ r.expected_sequence_ →
            mapFind s r1.buffer_ = mapFind s r.buffer_ := by
          intro s hs
          rw [hb]
          exact mapFind_mapErase_ne hs _
        have h1 := ih r1 packets1 E1
          (by rw [hb]; have := mapErase_length_lt hf; omega)
          (by rw [he]; omega) hlt
          (by
            intro s hs1 hs2
            rw [he] at hs1
            rw [hfind s (by omega)]
            exact hrun s (by omega) hs2)
          (by rw [hfind E1 (by omega)]; exact hgap)
        obtain ⟨h1a, h1b, h1c, h1d, h1e⟩ := h1
        refine ⟨?_, h1b, h1c.trans hc, ?_, ?_⟩
        · rw [h1a, hb, he]
          exact filter_erase_run _ hElt
        · rw [h1d, he]
          congr 1
          apply List.flatMap_congr
          intro s hs
          have := (List.mem_range'_1.mp hs).1
          exact drained_units_congr hc (hfind s (by omega))
        · rw [h1e, he]
          congr 2
          apply List.filter_congr
          intro s hs
          have := (List.mem_range'_1.mp hs).1
          exact expired_at_congr hc (hfind s (by omega))
      have hunits : r.drained_units now r.expected_sequence_ =
          if is_packet_expired r.config_ fragment now then []
          else align_ts_packets fragment.data := by
        simp only [drained_units, hf]
      have hexp : r.expired_at now r.expected_sequence_ =
          is_packet_expired r.config_ fragment now := by
        simp only [expired_at, hf]
      by_cases hx : is_packet_expired r.config_ fragment now = true
      · have hd : drain_loop (fuel + 1) now r packets =
            drain_loop fuel now
              { r with buffer_ := mapErase r.expected_sequence_ r.buffer_
                       expected_sequence_ := (r.expected_sequence_ + 1) % 2 ^ 64
                       stats_ := { r.stats_ with
                         dropped_packets := r.stats_.dropped_packets + 1 } }
              packets := by
          simp only [drain_loop, hf, hx, if_true]
        obtain ⟨r1, hr1, hb, he, hc, hs⟩ : ∃ r1 : ReorderBuffer,
            drain_loop (fuel + 1) now r packets = drain_loop fuel now r1 packets ∧
            r1.buffer_ = mapErase r.expected_sequence_ r.buffer_ ∧
            r1.expected_sequence_ = r.expected_sequence_ + 1 ∧ r1.config_ = r.config_ ∧
            r1.stats_.dropped_packets = r.stats_.dropped_packets + 1 :=
          ⟨_, hd, rfl, hnext, rfl, rfl⟩
        rw [hr1]
        obtain ⟨k1, k2, k3, k4, k5⟩ := key r1 packets hb he hc
        refine ⟨k1, k2, k3, ?_, ?_⟩
        · rw [k4, hrange, List.flatMap_cons, hunits, hx]
          simp
        · rw [k5, hrange, List.filter_cons, hexp, hx, hs]
          simp only [if_true, List.length_cons]
          omega
      · have hd : drain_loop (fuel + 1) now r packets =
            drain_loop fuel now
              { r with buffer_ := mapErase r.expected_sequence_ r.buffer_
                       expected_sequence_ := (r.expected_sequence_ + 1) % 2 ^ 64
                       stats_ :=
                         if (r.expected_sequence_ + 1) % 2 ^ 64 < r.expected_sequence_ then
                           { r.stats_ with
                             reordered_packets := r.stats_.reordered_packets + 1 }
                         else r.stats_ }
              (packets ++ align_ts_packets fragment.data) := by
          simp only [drain_loop, hf, hx, Bool.false_eq_true, if_false]
        have hnl : ¬ (r.expected_sequence_ + 1) % 2 ^ 64 < r.expected_sequence_ := by
          rw [hnext]
          omega
        obtain ⟨r1, hr1, hb, he, hc, hs⟩ : ∃ r1 : ReorderBuffer,
            drain_loop (fuel + 1) now r packets =
              drain_loop fuel now r1 (packets ++ align_ts_packets fragment.data) ∧
            r1.buffer_ = mapErase r.expected_sequence_ r.buffer_ ∧
            r1.expected_sequence_ = r.expected_sequence_ + 1 ∧ r1.config_ = r.config_ ∧
            r1.stats_.dropped_packets = r.stats_.dropped_packets :=
          ⟨_, hd, rfl, hnext, rfl, by simp only [hnl, if_false]⟩
        rw [hr1]
        obtain ⟨k1, k2, k3, k4, k5⟩ := key r1 (packets ++ align_ts_packets fragment.data)
          hb he hc
        refine ⟨k1, k2, k3, ?_, ?_⟩
        · rw [k4, hrange, List.flatMap_cons, hunits]
          simp [hx]
        · rw [k5, hrange, List.filter_cons, hexp, hs]
          simp only [hx, Bool.false_eq_true, if_false]

/-- The iteration bound of `get_ordered_packets` is never what ends the loop: the state it
returns has no fragment stored under the expected sequence number. -/
theorem drain_loop_exits (now : Int) :
    ∀ (fuel : Nat) (r : ReorderBuffer) (packets : List (List Nat)), r.buffer_.length < fuel →
      mapFind (drain_loop fuel now r packets).2.expected_sequence_
        (drain_loop fuel now r packets).2.buffer_ = none := by
  intro fuel
  induction fuel with
  | zero =>
    intro r packets hlen
    exact absurd hlen (Nat.not_lt_zero _)
  | succ fuel ih =>
    intro r packets hlen
    cases hf : mapFind r.expected_sequence_ r.buffer_ with
    | none =>
      have hd : drain_loop (fuel + 1) now r packets = (packets, r) := by
        simp only [drain_loop, hf]
      rw [hd]
      exact hf
    | some fragment =>
      have hl := mapErase_length_lt hf
      unfold drain_loop
      simp only [hf]
      split
      · exact ih _ _ (by simp only; omega)
      · exact ih _ _ (by simp only; omega)

theorem get_ordered_packets_exits (r : ReorderBuffer) (now : Int) :
    mapFind (r.get_ordered_packets now).2.expected_sequence_
      (r.get_ordered_packets now).2.buffer_ = none :=
  drain_loop_exits now _ r [] (Nat.lt_succ_self _)

/-- C6. Drain postcondition: with E the expected sequence number and E1 the smallest sequence
number >= E that is not stored, `get_ordered_packets` removes exactly the fragments stored
under E, ..., E1-1 and leaves every other entry untouched, sets the expected sequence number
to E1, outputs the concatenation in increasing sequence order of the aligned 188-byte units
of the removed fragments that are not expired, and adds one to `dropped_packets` for each
expired one. -/
theorem get_ordered_packets_drains_run (r : ReorderBuffer) (now : Int) (E1 : Nat)
    (hle : r.expected_sequence_ ≤ E1) (hlt : E1 < 2 ^ 64)
    (hrun : ∀ s, r.expected_sequence_ ≤ s → s < E1 → (mapFind s r.buffer_).isSome = true)
    (hgap : mapFind E1 r.buffer_ = none) :
    (r.get_ordered_packets now).2.buffer_ =
        r.buffer_.filter (fun e => !(decide (r.expected_sequence_ ≤ e.1) && decide (e.1 < E1))) ∧
    (r.get_ordered_packets now).2.expected_sequence_ = E1 ∧
    (r.get_ordered_packets now).1 =
        (List.range' r.expected_sequence_ (E1 - r.expected_sequence_)).flatMap
          (r.drained_units now) ∧
    (r.get_ordered_packets now).2.stats_.dropped_packets = r.stats_.dropped_packets +
        ((List.range' r.expected_sequence_ (E1 - r.expected_sequence_)).filter
          (r.expired_at now)).length := by
  obtain ⟨h1, h2, _, h4, h5⟩ :=
    drain_loop_spec now (r.buffer_.length + 1) r [] E1 (Nat.lt_succ_self _) hle hlt hrun hgap
  exact ⟨h1, h2, by simpa using h4, h5⟩

set_option maxRecDepth 100000 in
/-- C6 (witness). At `drain_demo` (fragments 10, 11, 13 stored, 10 expected) and time 250 the
run is 10, 11 and the first gap is 12: fragment 10 is expired (age 250 > 200), the key-frame
fragment 11 is not (age 150 <= 300). -/
theorem get_ordered_packets_drains_run_witness :
    drain_demo.expected_sequence_ = 10 ∧ mapFind 12 drain_demo.buffer_ = none ∧
    mapKeys (drain_demo.get_ordered_packets 250).2.buffer_ = [13] ∧
    (drain_demo.get_ordered_packets 250).2.expected_sequence_ = 12 ∧
    (drain_demo.get_ordered_packets 250).1 = [0x47 :: List.replicate 187 0x01] ∧
    (drain_demo.get_ordered_packets 250).2.stats_.dropped_packets =
      drain_demo.stats_.dropped_packets + 1 := by
  have h := get_ordered_packets_drains_run drain_demo 250 12 (by decide) (by decide)
    (by
      intro s h1 h2
      have h3 : drain_demo.expected_sequence_ = 10 := by decide
      rw [h3] at h1
      have h4 : s = 10 ∨ s = 11 := by omega
      rcases h4 with rfl | rfl <;> decide)
    (by decide)
  obtain ⟨h1, h2, h3, h4⟩ := h
  refine ⟨by decide, by decide, ?_, h2, ?_, ?_⟩
  · rw [h1]
    decide
  · rw [h3]
    decide
  · rw [h4]
    decide

theorem drain_loop_buffer_subset (now : Int) :
    ∀ (fuel : Nat) (r : ReorderBuffer) (packets : List (List Nat)),
      ∀ e ∈ (drain_loop fuel now r packets).2.buffer_, e ∈ r.buffer_ := by
  intro fuel
  induction fuel with
  | zero => intro r packets e he; exact he
  | succ fuel ih =>
    intro r packets e he
    unfold drain_loop at he
    split at he
    · exact he
    · split at he
      · have := ih _ _ e he
        exact List.mem_of_mem_filter this
      · have := ih _ _ e he
        exact List.mem_of_mem_filter this

theorem drain_loop_expected_mono (now : Int) :
    ∀ (fuel : Nat) (r : ReorderBuffer) (packets : List (List Nat)), KeysBelowMax r →
      r.expected_sequence_ ≤ (drain_loop fuel now r packets).2.expected_sequence_ := by
  intro fuel
  induction fuel with
  | zero => intro r packets _; exact Nat.le_refl _
  | succ fuel ih =>
    intro r packets hk
    cases hf : mapFind r.expected_sequence_ r.buffer_ with
    | none =>
      have hd : drain_loop (fuel + 1) now r packets = (packets, r) := by
        simp only [drain_loop, hf]
      rw [hd]
    | some fragment =>
      have hlt : r.expected_sequence_ < 2 ^ 64 - 1 := hk _ (mapFind_mem hf)
      have hnext : (r.expected_sequence_ + 1) % 2 ^ 64 = r.expected_sequence_ + 1 :=
        Nat.mod_eq_of_lt (by omega)
      have hsub : ∀ r1 : ReorderBuffer,
          r1.buffer_ = mapErase r.expected_sequence_ r.buffer_ → KeysBelowMax r1 := by
        intro r1 hb e he
        rw [hb] at he
        exact hk e (List.mem_of_mem_filter he)
      unfold drain_loop
      simp only [hf]
      split
      · refine Nat.le_trans ?_ (ih _ _ (hsub _ rfl))
        simp only [hnext]
        omega
      · refine Nat.le_trans ?_ (ih _ _ (hsub _ rfl))
        simp only [hnext]
        omega

/-- The four outcomes of `add_packet`. -/
theorem add_packet_cases (r : ReorderBuffer) (seq_num : Nat) (data : List Nat)
    (timestamp_ms : Int) (is_keyframe : Bool) :
    ((r.add_packet seq_num data timestamp_ms is_keyframe).2.buffer_ = r.buffer_ ∨
      (r.add_packet seq_num data timestamp_ms is_keyframe).2.buffer_ =
        mapInsert seq_num
          { data := data, sequence_number := seq_num, timestamp_ms := timestamp_ms,
            is_keyframe := is_keyframe,
            is_complete := decide (data.length % SRS_TS_PACKET_SIZE = 0) } r.buffer_) ∧
    ((r.add_packet seq_num data timestamp_ms is_keyframe).2.expected_sequence_ =
        r.expected_sequence_ ∨
      (r.expected_sequence_ = 0 ∧
        (r.add_packet seq_num data timestamp_ms is_keyframe).2.expected_sequence_ = seq_num)) := by
  unfold add_packet
  simp only
  split_ifs with h1 h2 h3 h4 h5 <;> simp_all

theorem add_packet_expected_mono (r : ReorderBuffer) (seq_num : Nat) (data : List Nat)
    (timestamp_ms : Int) (is_keyframe : Bool) :
    r.expected_sequence_ ≤
      (r.add_packet seq_num data timestamp_ms is_keyframe).2.expected_sequence_ := by
  rcases (add_packet_cases r seq_num data timestamp_ms is_keyframe).2 with h | ⟨h0, _⟩
  · rw [h]
  · rw [h0]
    exact Nat.zero_le _

theorem add_packet_keys (r : ReorderBuffer) (seq_num : Nat) (data : List Nat)
    (timestamp_ms : Int) (is_keyframe : Bool) (hk : KeysBelowMax r)
    (hs : seq_num < 2 ^ 64 - 1) :
    KeysBelowMax (r.add_packet seq_num data timestamp_ms is_keyframe).2 := by
  intro e he
  rcases (add_packet_cases r seq_num data timestamp_ms is_keyframe).1 with h | h
  · rw [h] at he
    exact hk e he
  · rw [h] at he
    rcases mem_mapInsert he with h1 | h1
    · rw [h1]
      exact hs
    · exact hk e h1

theorem step_keys (r : ReorderBuffer) (op : Op) (hk : KeysBelowMax r)
    (hs : ∀ s, op.seq? = some s → s < 2 ^ 64 - 1) : KeysBelowMax (r.step op) := by
  cases op with
  | add_packet seq_num data timestamp_ms is_keyframe =>
    exact add_packet_keys r seq_num data timestamp_ms is_keyframe hk (hs seq_num rfl)
  | get_ordered_packets now =>
    intro e he
    exact hk e (drain_loop_buffer_subset now _ r [] e he)

theorem run_keys (ops : List Op) :
    ∀ r : ReorderBuffer, KeysBelowMax r →
      (∀ o ∈ ops, ∀ s, o.seq? = some s → s < 2 ^ 64 - 1) → KeysBelowMax (r.run ops) := by
  induction ops with
  | nil => intro r hk _; exact hk
  | cons o rest ih =>
    intro r hk hs
    unfold run
    rw [List.foldl_cons]
    exact ih (r.step o) (step_keys r o hk (hs o (List.mem_cons_self _ _)))
      (fun o1 ho1 => hs o1 (List.mem_cons_of_mem _ ho1))

set_option maxRecDepth 100000 in
/-- C7 (counterexample). On a fresh buffer, `add_packet` with sequence number 2^64-1 sets the
expected sequence number to 2^64-1, and the following `get_ordered_packets` drains that
fragment and wraps the expected sequence number to 0. -/
theorem expected_sequence_wraps_to_zero :
    ((ReorderBuffer.new ReorderBufferConfig.default).run
        [.add_packet (2 ^ 64 - 1) [0x47] 0 false]).expected_sequence_ = 2 ^ 64 - 1 ∧
    ((ReorderBuffer.new ReorderBufferConfig.default).run
        [.add_packet (2 ^ 64 - 1) [0x47] 0 false, .get_ordered_packets 0]).expected_sequence_
      = 0 := by
  decide

/-- C7 (amended). Over every sequence of `add_packet` and `get_ordered_packets` calls on a
new buffer in which every sequence number is below 2^64-1, the expected sequence number
never decreases from one step to the next. -/
theorem expected_sequence_never_decreases (config : ReorderBufferConfig) (ops : List Op)
    (op : Op) (hs : ∀ o ∈ ops ++ [op], ∀ s, o.seq? = some s → s < 2 ^ 64 - 1) :
    ((ReorderBuffer.new config).run ops).expected_sequence_ ≤
      (((ReorderBuffer.new config).run ops).step op).expected_sequence_ := by
  have hk : KeysBelowMax ((ReorderBuffer.new config).run ops) :=
    run_keys ops _ (by intro e he; simp [ReorderBuffer.new] at he)
      (fun o ho => hs o (List.mem_append_left _ ho))
  cases op with
  | add_packet seq_num data timestamp_ms is_keyframe =>
    exact add_packet_expected_mono _ _ _ _ _
  | get_ordered_packets now =>
    exact drain_loop_expected_mono now _ _ [] hk

set_option maxRecDepth 100000 in
/-- C7 (witness). The amended statement for the calls add 10, add 11, then a drain at 250. -/
theorem expected_sequence_never_decreases_witness :
    ((ReorderBuffer.new ReorderBufferConfig.default).run
        [.add_packet 10 [0x47] 0 false, .add_packet 11 [0x47] 0 false]).expected_sequence_ ≤
      (((ReorderBuffer.new ReorderBufferConfig.default).run
        [.add_packet 10 [0x47] 0 false, .add_packet 11 [0x47] 0 false]).step
          (.get_ordered_packets 250)).expected_sequence_ :=
  expected_sequence_never_decreases ReorderBufferConfig.default
    [.add_packet 10 [0x47] 0 false, .add_packet 11 [0x47] 0 false] (.get_ordered_packets 250)
    (by decide)

set_option maxRecDepth 100000 in
/-- C8 (counterexample). `full_demo` holds 10 bytes under a cap of 10 and expects 5; an
`add_packet` with the smaller sequence number 3 and one byte is refused as "buffer full":
`dropped_packets` grows and `out_of_order_packets` does not. -/
theorem late_packet_on_full_buffer_not_counted :
    3 < full_demo.expected_sequence_ ∧
    (full_demo.add_packet 3 [0x47] 0 false).1 = some .reorderBufferFull ∧
    (full_demo.add_packet 3 [0x47] 0 false).2.stats_.out_of_order_packets =
      full_demo.stats_.out_of_order_packets ∧
    (full_demo.add_packet 3 [0x47] 0 false).2.stats_.dropped_packets =
      full_demo.stats_.dropped_packets + 1 := by
  decide

/-- C8 (amended). For every buffer state and every `add_packet` call whose sequence number is
smaller than the expected one: the stored fragments and the expected sequence number are
unchanged; and if the sequence number is not stored and the payload fits under the byte cap,
the call returns success and increments `out_of_order_packets` by exactly one. -/
theorem add_packet_late_is_dropped (r : ReorderBuffer) (seq_num : Nat) (data : List Nat)
    (timestamp_ms : Int) (is_keyframe : Bool) (hlate : seq_num < r.expected_sequence_) :
    (r.add_packet seq_num data timestamp_ms is_keyframe).2.buffer_ = r.buffer_ ∧
    (r.add_packet seq_num data timestamp_ms is_keyframe).2.expected_sequence_ =
      r.expected_sequence_ ∧
    (mapFind seq_num r.buffer_ = none →
      r.get_buffer_size + data.length ≤ r.config_.max_buffer_size →
      (r.add_packet seq_num data timestamp_ms is_keyframe).1 = none ∧
      (r.add_packet seq_num data timestamp_ms is_keyframe).2.stats_.out_of_order_packets =
        r.stats_.out_of_order_packets + 1) := by
  have hne : ¬ (r.buffer_.isEmpty = true ∧ r.expected_sequence_ = 0) := by
    intro h
    omega
  unfold add_packet
  simp only [hne, if_false, hlate, if_true]
  refine ⟨?_, ?_, ?_⟩
  · split
    · rfl
    · split <;> rfl
  · split
    · rfl
    · split <;> rfl
  · intro hfind hfit
    have h1 : ¬ (mapFind seq_num r.buffer_).isSome = true := by simp [hfind]
    have h2 : ¬ r.get_buffer_size + data.length > r.config_.max_buffer_size := by omega
    simp only [h1, h2, if_false]
    exact ⟨rfl, rfl⟩

set_option maxRecDepth 100000 in
/-- C8 (witness). The amended statement at `late_demo` (fragment 7 stored, 7 expected) for an
`add_packet` with sequence number 3. -/
theorem add_packet_late_is_dropped_witness :
    3 < late_demo.expected_sequence_ ∧
    (late_demo.add_packet 3 [0x47] 5 false).2.buffer_ = late_demo.buffer_ ∧
    (late_demo.add_packet 3 [0x47] 5 false).2.expected_sequence_ =
      late_demo.expected_sequence_ ∧
    (late_demo.add_packet 3 [0x47] 5 false).2.stats_.out_of_order_packets =
      late_demo.stats_.out_of_order_packets + 1 :=
  ⟨by decide,
    (add_packet_late_is_dropped late_demo 3 [0x47] 5 false (by decide)).1,
    (add_packet_late_is_dropped late_demo 3 [0x47] 5 false (by decide)).2.1,
    ((add_packet_late_is_dropped late_demo 3 [0x47] 5 false (by decide)).2.2
      (by decide) (by decide)).2⟩

end ReorderBuffer

end SrsAdapter

namespace SrsAdapter

namespace ReorderBuffer

/-- A search `find?` over `List.range n` that meets no hit returns `none`. -/
theorem find_range_none (p : Nat → Bool) (n : Nat) (h : ∀ i < n, p i = false) :
    (List.range n).find? p = none := by
  rw [List.find?_eq_none]
  intro x hx
  simp [h x (List.mem_range.mp hx)]

/-- A search `find?` over `List.range n` returns the first hit. -/
theorem find_range_first (p : Nat → Bool) (n s : Nat) (hs : s < n) (hp : p s = true)
    (hlt : ∀ i < s, p i = false) : (List.range n).find? p = some s := by
  induction n with
  | zero => omega
  | succ n ih =>
    rw [List.range_succ, List.find?_append]
    by_cases hsn : s < n
    · rw [ih hsn]; rfl
    · have hs2 : s = n := by omega
      subst hs2
      rw [find_range_none p s hlt]
      simp [List.find?, hp]

/-- The sync search returns the position the statement describes. -/
theorem find_sync_eq {d : List Nat} {s : Nat} (hs : IsSyncStart d s) : find_sync d = s := by
  unfold find_sync
  rcases hs with ⟨h1, h2, h3⟩ | ⟨h1, h2⟩
  · rw [find_range_first _ _ s h1 (by simpa using h2) (by intro i hi; simpa using h3 i hi)]
  · rw [find_range_none _ _ (by intro i hi; simpa using h2 i hi)]
    exact h1.symm

/-- The split loop in closed form, once the bound covers the packets to cut. -/
theorem split_ts_loop_eq (d : List Nat) :
    ∀ (cnt pos : Nat), (d.length - pos) / 188 ≤ cnt →
      split_ts_loop cnt pos d =
        (List.range ((d.length - pos) / 188)).map
          (fun i => (d.drop (pos + 188 * i)).take 188) := by
  intro cnt
  induction cnt with
  | zero =>
    intro pos h
    have h0 : (d.length - pos) / 188 = 0 := by omega
    rw [h0]; rfl
  | succ cnt ih =>
    intro pos h
    unfold split_ts_loop
    by_cases hfit : pos + SRS_TS_PACKET_SIZE ≤ d.length
    · rw [if_pos hfit]
      unfold SRS_TS_PACKET_SIZE at hfit ⊢
      have hq : (d.length - pos) / 188 = (d.length - (pos + 188)) / 188 + 1 := by omega
      rw [ih (pos + 188) (by omega), hq, List.range_succ_eq_map, List.map_cons, List.map_map]
      congr 1
      apply List.map_congr_left
      intro i _
      simp only [Function.comp, Nat.succ_eq_add_one]
      congr 2
      omega
    · rw [if_neg hfit]
      unfold SRS_TS_PACKET_SIZE at hfit
      have h0 : (d.length - pos) / 188 = 0 := by omega
      rw [h0]; rfl

/-- The packets of the closed form, put end to end, are a slice of the input. -/
theorem slices_join (d : List Nat) :
    ∀ (n pos : Nat), pos + 188 * n ≤ d.length →
      ((List.range n).map (fun i => (d.drop (pos + 188 * i)).take 188)).flatten =
        (d.drop pos).take (188 * n) := by
  intro n
  induction n with
  | zero => intro pos _; simp
  | succ n ih =>
    intro pos h
    rw [List.range_succ, List.map_append, List.flatten_append, ih pos (by omega)]
    simp only [List.map_cons, List.map_nil, List.flatten_cons, List.flatten_nil, List.append_nil]
    rw [show 188 * (n + 1) = 188 * n + 188 by ring, List.take_add, List.drop_drop]

/-- C19. For every configuration, fragment and time, `is_packet_expired` holds if and only
if the age `now - arrival` exceeds the reorder window, extended by the key-frame grace when
the grace is enabled and the fragment is a key-frame; an age equal to the deadline is not
expired. Scenario D (window 200, grace 100, fragment 10 arrived at 0, drained at 250): the
plain fragment is dropped, the key-frame fragment is emitted. -/
theorem is_packet_expired_iff_age_exceeds_deadline (config : ReorderBufferConfig)
    (fragment : TsPacketFragment) (now : Int) :
    (is_packet_expired config fragment now = true ↔
      now - fragment.timestamp_ms >
        config.reorder_window_ms +
          (if config.enable_keyframe_relax = true ∧ fragment.is_keyframe = true then
            config.keyframe_relax_ms else 0)) ∧
    (now - fragment.timestamp_ms =
        config.reorder_window_ms +
          (if config.enable_keyframe_relax = true ∧ fragment.is_keyframe = true then
            config.keyframe_relax_ms else 0) →
      is_packet_expired config fragment now = false) ∧
    ((scenario_d false).get_ordered_packets 250).1 = [] ∧
    ((scenario_d false).get_ordered_packets 250).2.stats_.dropped_packets = 1 ∧
    ((scenario_d true).get_ordered_packets 250).1 = [0x47 :: List.replicate 187 0x00] ∧
    ((scenario_d true).get_ordered_packets 250).2.stats_.dropped_packets = 0 := by
  refine ⟨?_, ?_, ?_, ?_, ?_, ?_⟩
  · unfold is_packet_expired
    by_cases h : config.enable_keyframe_relax = true ∧ fragment.is_keyframe = true
    · simp only [if_pos h, decide_eq_true_eq]
    · simp only [if_neg h, decide_eq_true_eq, add_zero]
  · unfold is_packet_expired
    by_cases h : config.enable_keyframe_relax = true ∧ fragment.is_keyframe = true
    · simp only [if_pos h, decide_eq_false_iff_not]
      intro he; omega
    · simp only [if_neg h, decide_eq_false_iff_not, add_zero]
      intro he; omega
  · set_option maxRecDepth 100000 in decide
  · set_option maxRecDepth 100000 in decide
  · set_option maxRecDepth 100000 in decide
  · set_option maxRecDepth 100000 in decide

/-- C20. For a non-empty byte string `d` and the position `s` of the first `0x47` among
its first `min(|d|, 188)` bytes (0 when there is none), `align_ts_packets` returns the
`(|d| - s) / 188` slices `d[s + 188 i .. s + 188 (i + 1))`: each has 188 bytes, end to end
they are the slice of `d` from `s`, the first one starts with `0x47` when a sync byte was
found, and fewer than 188 trailing bytes are left out. -/
theorem align_ts_packets_closed_form (d : List Nat) (s : Nat) (hd : d ≠ [])
    (hs : IsSyncStart d s) :
    align_ts_packets d =
      (List.range ((d.length - s) / 188)).map (fun i => (d.drop (s + 188 * i)).take 188) ∧
    (align_ts_packets d).length = (d.length - s) / 188 ∧
    (∀ p ∈ align_ts_packets d, p.length = 188) ∧
    (align_ts_packets d).flatten = (d.drop s).take (188 * ((d.length - s) / 188)) ∧
    (d.getD s 0 = 0x47 → ∀ p, (align_ts_packets d).head? = some p → p.head? = some 0x47) ∧
    d.length - s - 188 * (align_ts_packets d).length < 188 := by
  have hform : align_ts_packets d =
      (List.range ((d.length - s) / 188)).map (fun i => (d.drop (s + 188 * i)).take 188) := by
    unfold align_ts_packets
    have hne : d.isEmpty = false := by
      cases d with
      | nil => exact absurd rfl hd
      | cons x xs => rfl
    rw [find_sync_eq hs]
    simp only [hne, Bool.false_eq_true, if_false]
    by_cases hc : s = 0 ∧ d.getD 0 0 ≠ 0x47 ∧ d.length < SRS_TS_PACKET_SIZE
    · rw [if_pos hc]
      unfold SRS_TS_PACKET_SIZE at hc
      have h0 : (d.length - s) / 188 = 0 := by omega
      rw [h0]; rfl
    · rw [if_neg hc]
      exact split_ts_loop_eq d d.length s (by
        calc (d.length - s) / 188 ≤ d.length - s := Nat.div_le_self _ _
          _ ≤ d.length := Nat.sub_le _ _)
  have hlen : (align_ts_packets d).length = (d.length - s) / 188 := by
    rw [hform]; simp
  refine ⟨hform, hlen, ?_, ?_, ?_, ?_⟩
  · intro p hp
    rw [hform] at hp
    obtain ⟨i, hi, rfl⟩ := List.mem_map.mp hp
    have hi2 := List.mem_range.mp hi
    rw [List.length_take, List.length_drop]
    have : 188 * (i + 1) ≤ d.length - s := by
      calc 188 * (i + 1) ≤ 188 * ((d.length - s) / 188) := Nat.mul_le_mul_left _ hi2
        _ ≤ d.length - s := Nat.mul_div_le _ _
    omega
  · rw [hform]
    exact slices_join d _ s (by
      have := Nat.mul_div_le (d.length - s) 188
      rcases hs with ⟨h1, _, _⟩ | ⟨h1, _⟩ <;> omega)
  · intro hsync p hp
    rw [hform] at hp
    cases hq : (d.length - s) / 188 with
    | zero => rw [hq] at hp; simp at hp
    | succ q =>
      rw [hq, List.range_succ_eq_map] at hp
      simp only [List.map_cons, List.head?_cons, Option.some.injEq, mul_zero, add_zero] at hp
      subst hp
      have hlt : s < d.length := by
        have := Nat.mul_div_le (d.length - s) 188
        rw [hq] at this
        omega
      rw [List.getD_eq_getElem?_getD, List.getElem?_eq_getElem hlt] at hsync
      simp only [Option.getD_some] at hsync
      rw [List.head?_take, if_neg (by decide), List.head?_drop, List.getElem?_eq_getElem hlt,
        hsync]
  · rw [hlen]
    have := Nat.div_add_mod (d.length - s) 188
    have := Nat.mod_lt (d.length - s) (show 188 > 0 by decide)
    omega

set_option maxRecDepth 100000 in
/-- C20 (witness). The 380-byte string `align_demo`, whose first sync byte is at position
2: two packets, the slices from 2 and from 190. -/
theorem align_ts_packets_closed_form_witness :
    IsSyncStart align_demo 2 ∧
    align_ts_packets align_demo =
      (List.range ((align_demo.length - 2) / 188)).map
        (fun i => (align_demo.drop (2 + 188 * i)).take 188) ∧
    (align_ts_packets align_demo).length = (align_demo.length - 2) / 188 :=
  ⟨Or.inl ⟨by decide, by decide, by decide⟩,
    (align_ts_packets_closed_form align_demo 2 (by decide)
      (Or.inl ⟨by decide, by decide, by decide⟩)).1,
    (align_ts_packets_closed_form align_demo 2 (by decide)
      (Or.inl ⟨by decide, by decide, by decide⟩)).2.1⟩

end ReorderBuffer

end SrsAdapter

namespace SrsAdapter

/-- The byte total of a map after an insertion under an absent key. -/
theorem sum_mapInsert_absent {β : Type} (f : β → Nat) (key : Nat) (v : β) :
    ∀ m : List (Nat × β), mapFind key m = none →
      ((mapInsert key v m).map fun e => f e.2).sum = (m.map fun e => f e.2).sum + f v
  | [], _ => by simp [mapInsert]
  | (k, w) :: rest, h => by
    unfold mapFind at h
    split_ifs at h with hk
    unfold mapInsert
    split_ifs with h1 h2
    · simp only [List.map_cons, List.sum_cons]
      omega
    · exact absurd h2.symm hk
    · simp only [List.map_cons, List.sum_cons]
      rw [sum_mapInsert_absent f key v rest h]
      omega

/-- A filter does not raise the byte total of a map. -/
theorem sum_filter_le {α : Type} (f : α → Nat) (p : α → Bool) :
    ∀ l : List α, ((l.filter p).map f).sum ≤ (l.map f).sum
  | [] => by simp
  | x :: xs => by
    have ih := sum_filter_le f p xs
    rw [List.filter_cons]
    split_ifs
    · simp only [List.map_cons, List.sum_cons]
      omega
    · simp only [List.map_cons, List.sum_cons]
      omega

namespace ReorderBuffer

/-- The drain loop keeps the configuration and does not raise the stored byte total. -/
theorem drain_loop_size (now : Int) :
    ∀ (fuel : Nat) (r : ReorderBuffer) (packets : List (List Nat)),
      (drain_loop fuel now r packets).2.config_ = r.config_ ∧
      (drain_loop fuel now r packets).2.get_buffer_size ≤ r.get_buffer_size := by
  intro fuel
  induction fuel with
  | zero => intro r packets; exact ⟨rfl, Nat.le_refl _⟩
  | succ fuel ih =>
    intro r packets
    unfold drain_loop
    split
    · exact ⟨rfl, Nat.le_refl _⟩
    · have herase : ∀ r1 : ReorderBuffer,
          r1.buffer_ = mapErase r.expected_sequence_ r.buffer_ →
          r1.get_buffer_size ≤ r.get_buffer_size := by
        intro r1 hb
        unfold get_buffer_size
        rw [hb]
        exact sum_filter_le _ _ _
      split
      · obtain ⟨i1, i2⟩ := ih
          { r with buffer_ := mapErase r.expected_sequence_ r.buffer_
                   expected_sequence_ := (r.expected_sequence_ + 1) % 2 ^ 64
                   stats_ := { r.stats_ with dropped_packets := r.stats_.dropped_packets + 1 } }
          packets
        exact ⟨i1, Nat.le_trans i2 (herase _ rfl)⟩
      · rename_i fragment _ _
        obtain ⟨i1, i2⟩ := ih
          { r with buffer_ := mapErase r.expected_sequence_ r.buffer_
                   expected_sequence_ := (r.expected_sequence_ + 1) % 2 ^ 64
                   stats_ := if (r.expected_sequence_ + 1) % 2 ^ 64 < r.expected_sequence_ then
                       { r.stats_ with reordered_packets := r.stats_.reordered_packets + 1 }
                     else r.stats_ }
          (packets ++ align_ts_packets fragment.data)
        exact ⟨i1, Nat.le_trans i2 (herase _ rfl)⟩

/-- The method `add_packet` keeps the configuration and keeps the stored byte total within
`max_buffer_size`. -/
theorem add_packet_size (r : ReorderBuffer) (seq_num : Nat) (data : List Nat)
    (timestamp_ms : Int) (is_keyframe : Bool) :
    (r.add_packet seq_num data timestamp_ms is_keyframe).2.config_ = r.config_ ∧
    (r.get_buffer_size ≤ r.config_.max_buffer_size →
      (r.add_packet seq_num data timestamp_ms is_keyframe).2.get_buffer_size ≤
        r.config_.max_buffer_size) := by
  unfold add_packet
  simp only []
  split_ifs with h1 h2
  all_goals first
    | exact ⟨rfl, fun h => h⟩
    | (refine ⟨rfl, fun _ => ?_⟩
       have habsent : mapFind seq_num r.buffer_ = none := by
         cases hm : mapFind seq_num r.buffer_ with
         | none => rfl
         | some x => rw [hm] at h1; simp at h1
       unfold get_buffer_size at h2 ⊢
       simp only []
       rw [sum_mapInsert_absent (fun v : TsPacketFragment => v.data.length) seq_num _ _ habsent]
       simp only []
       omega)

/-- The byte bound passes through every call. -/
theorem step_size (r : ReorderBuffer) (op : Op) :
    (r.step op).config_ = r.config_ ∧
    (r.get_buffer_size ≤ r.config_.max_buffer_size →
      (r.step op).get_buffer_size ≤ r.config_.max_buffer_size) := by
  cases op with
  | add_packet seq_num data timestamp_ms is_keyframe =>
    exact add_packet_size r seq_num data timestamp_ms is_keyframe
  | get_ordered_packets now =>
    obtain ⟨i1, i2⟩ := drain_loop_size now (r.buffer_.length + 1) r []
    exact ⟨i1, fun h => Nat.le_trans i2 h⟩

/-- The byte bound passes through every run. -/
theorem run_size (ops : List Op) :
    ∀ r : ReorderBuffer, r.get_buffer_size ≤ r.config_.max_buffer_size →
      (r.run ops).config_ = r.config_ ∧
      (r.run ops).get_buffer_size ≤ r.config_.max_buffer_size := by
  induction ops with
  | nil => intro r h; exact ⟨rfl, h⟩
  | cons op ops ih =>
    intro r h
    obtain ⟨s1, s2⟩ := step_size r op
    have := ih (r.step op) (by rw [s1]; exact s2 h)
    unfold run at this ⊢
    rw [List.foldl_cons]
    rw [s1] at this
    exact this

/-- One turn of the drain loop on a stored fragment that is not expired. -/
theorem drain_loop_turn (now : Int) (fuel : Nat) (r : ReorderBuffer) (packets : List (List Nat))
    (fragment : TsPacketFragment)
    (hf : mapFind r.expected_sequence_ r.buffer_ = some fragment)
    (hexp : is_packet_expired r.config_ fragment now = false) :
    ∃ r1 : ReorderBuffer,
      r1.buffer_ = mapErase r.expected_sequence_ r.buffer_ ∧
      r1.expected_sequence_ = (r.expected_sequence_ + 1) % 2 ^ 64 ∧
      r1.stats_.dropped_packets = r.stats_.dropped_packets ∧
      drain_loop (fuel + 1) now r packets =
        drain_loop fuel now r1 (packets ++ align_ts_packets fragment.data) := by
  refine ⟨{ r with buffer_ := mapErase r.expected_sequence_ r.buffer_
                   expected_sequence_ := (r.expected_sequence_ + 1) % 2 ^ 64
                   stats_ := if (r.expected_sequence_ + 1) % 2 ^ 64 < r.expected_sequence_ then
                       { r.stats_ with reordered_packets := r.stats_.reordered_packets + 1 }
                     else r.stats_ }, rfl, rfl, ?_, ?_⟩
  · simp only []
    split_ifs <;> rfl
  · simp only [drain_loop, hf, hexp, Bool.false_eq_true, if_false]

/-- A short fragment without a sync byte aligns to nothing. -/
theorem align_short_without_sync (d : List Nat) (hsync : ∀ b ∈ d, b ≠ 0x47)
    (hshort : d.length < 188) : align_ts_packets d = [] := by
  cases d with
  | nil => rfl
  | cons x xs =>
    have hgetD : ∀ i, (x :: xs).getD i 0 ≠ 0x47 := by
      intro i
      by_cases hi : i < (x :: xs).length
      · rw [List.getD_eq_getElem?_getD, List.getElem?_eq_getElem hi]
        exact hsync _ (List.getElem_mem _)
      · rw [List.getD_eq_getElem?_getD, List.getElem?_eq_none (by omega)]
        decide
    have hs : IsSyncStart (x :: xs) 0 := Or.inr ⟨rfl, fun i _ => hgetD i⟩
    unfold align_ts_packets
    rw [find_sync_eq hs]
    have hc : (0 : Nat) = 0 ∧ (x :: xs).getD 0 0 ≠ 0x47 ∧
        (x :: xs).length < SRS_TS_PACKET_SIZE := ⟨rfl, hgetD 0, hshort⟩
    simp only [List.isEmpty_cons, Bool.false_eq_true, if_false]
    rw [if_pos ⟨trivial, hc.2⟩]

/-- C21. Let the fragment stored under the expected sequence number be not expired, hold no
`0x47` byte and be shorter than 188 bytes (stored keys below 2^64 - 1). After
`get_ordered_packets` the fragment is no longer stored and the expected sequence number
has moved past it; the fragment contributes no packet to the output. -/
theorem short_fragment_without_sync_is_discarded (r : ReorderBuffer) (now : Int)
    (fragment : TsPacketFragment) (hk : KeysBelowMax r)
    (hf : mapFind r.expected_sequence_ r.buffer_ = some fragment)
    (hexp : is_packet_expired r.config_ fragment now = false)
    (hsync : ∀ b ∈ fragment.data, b ≠ 0x47) (hshort : fragment.data.length < 188) :
    mapFind r.expected_sequence_ (r.get_ordered_packets now).2.buffer_ = none ∧
    r.expected_sequence_ < (r.get_ordered_packets now).2.expected_sequence_ ∧
    align_ts_packets fragment.data = [] := by
  obtain ⟨r1, hb, he, _, hturn⟩ := drain_loop_turn now r.buffer_.length r [] fragment hf hexp
  have hlt : r.expected_sequence_ < 2 ^ 64 - 1 := hk _ (mapFind_mem hf)
  have hnext : (r.expected_sequence_ + 1) % 2 ^ 64 = r.expected_sequence_ + 1 :=
    Nat.mod_eq_of_lt (by omega)
  have hk1 : KeysBelowMax r1 := by
    intro e hmem
    rw [hb] at hmem
    exact hk e (List.mem_of_mem_filter hmem)
  unfold get_ordered_packets
  rw [hturn]
  refine ⟨?_, ?_, align_short_without_sync _ hsync hshort⟩
  · rw [mapFind_none_iff]
    intro hc
    obtain ⟨e, hmem, hkey⟩ := List.mem_map.mp hc
    have h1 := drain_loop_buffer_subset now _ r1 _ e hmem
    rw [hb] at h1
    have := (List.mem_filter.mp h1).2
    simp only [ne_eq, decide_not, Bool.not_eq_true', decide_eq_false_iff_not] at this
    exact this hkey
  · have := drain_loop_expected_mono now r.buffer_.length r1
      ([] ++ align_ts_packets fragment.data) hk1
    rw [he, hnext] at this
    omega

set_option maxRecDepth 100000 in
/-- C21 (witness). The buffer `short_demo` holds the three bytes 01 02 03 under the expected
sequence number 7; a drain at time 100 (age 100, window 200) returns no packet, leaves the
buffer empty and expects 8; `dropped_packets` is not stepped. -/
theorem short_fragment_without_sync_is_discarded_witness :
    short_demo.expected_sequence_ = 7 ∧ mapKeys short_demo.buffer_ = [7] ∧
    (short_demo.get_ordered_packets 100).1 = [] ∧
    (short_demo.get_ordered_packets 100).2.buffer_ = [] ∧
    (short_demo.get_ordered_packets 100).2.stats_.dropped_packets = 0 ∧
    mapFind short_demo.expected_sequence_ (short_demo.get_ordered_packets 100).2.buffer_ =
      none ∧
    short_demo.expected_sequence_ < (short_demo.get_ordered_packets 100).2.expected_sequence_ :=
  ⟨by decide, by decide, by decide, by decide, by decide,
    (short_fragment_without_sync_is_discarded short_demo 100
      ⟨[0x01, 0x02, 0x03], 7, 0, false, false⟩ (by unfold KeysBelowMax; decide) (by decide)
      (by decide) (by decide) (by decide)).1,
    (short_fragment_without_sync_is_discarded short_demo 100
      ⟨[0x01, 0x02, 0x03], 7, 0, false, false⟩ (by unfold KeysBelowMax; decide) (by decide)
      (by decide) (by decide) (by decide)).2.1⟩

/-- C22. From an empty buffer, after every sequence of `add_packet` and
`get_ordered_packets` calls the stored bytes sum to at most `max_buffer_size`. In every
state, an `add_packet` with a sequence number that is not stored and whose bytes would
raise the sum above `max_buffer_size` returns the buffer-full error, adds one to
`dropped_packets` and stores nothing. -/
theorem buffer_bytes_within_cap (config : ReorderBufferConfig) (ops : List Op) :
    ((ReorderBuffer.new config).run ops).get_buffer_size ≤ config.max_buffer_size ∧
    ∀ (r : ReorderBuffer) (seq_num : Nat) (data : List Nat) (timestamp_ms : Int)
      (is_keyframe : Bool),
      mapFind seq_num r.buffer_ = none →
      r.get_buffer_size + data.length > r.config_.max_buffer_size →
      (r.add_packet seq_num data timestamp_ms is_keyframe).1 = some .reorderBufferFull ∧
      (r.add_packet seq_num data timestamp_ms is_keyframe).2.buffer_ = r.buffer_ ∧
      (r.add_packet seq_num data timestamp_ms is_keyframe).2.stats_.dropped_packets =
        r.stats_.dropped_packets + 1 := by
  constructor
  · have h := run_size ops (ReorderBuffer.new config)
      (by simp [ReorderBuffer.new, get_buffer_size])
    exact h.2
  · intro r seq_num data timestamp_ms is_keyframe hnone hfull
    unfold add_packet
    simp only [hnone, Option.isSome_none, Bool.false_eq_true, if_false]
    rw [if_pos hfull]
    exact ⟨rfl, rfl, rfl⟩

set_option maxRecDepth 100000 in
/-- C22 (witness). The buffer `full_demo` (cap 10) holds 10 bytes under sequence number 5;
an `add_packet` of one byte under sequence number 6 is refused. -/
theorem buffer_bytes_within_cap_witness :
    full_demo.get_buffer_size = 10 ∧ full_demo.config_.max_buffer_size = 10 ∧
    (full_demo.add_packet 6 [0x47] 0 false).1 = some .reorderBufferFull ∧
    (full_demo.add_packet 6 [0x47] 0 false).2.buffer_ = full_demo.buffer_ ∧
    (full_demo.add_packet 6 [0x47] 0 false).2.stats_.dropped_packets =
      full_demo.stats_.dropped_packets + 1 :=
  ⟨by decide, by decide,
    (buffer_bytes_within_cap ReorderBufferConfig.default []).2 full_demo 6 [0x47] 0 false
      (by decide) (by decide)⟩

end ReorderBuffer

end SrsAdapter

namespace SrsAdapter

/-- Two entries of an ordered map with the same key are the same entry. -/
theorem entry_eq_of_key_eq {β : Type} {m : List (Nat × β)} (hs : (mapKeys m).Pairwise (· < ·))
    {e1 e2 : Nat × β} (h1 : e1 ∈ m) (h2 : e2 ∈ m) (hk : e1.1 = e2.1) : e1 = e2 := by
  have f1 : mapFind e1.1 m = some e1.2 := mapFind_of_mem hs h1
  have f2 : mapFind e2.1 m = some e2.2 := mapFind_of_mem hs h2
  rw [hk, f2] at f1
  simp only [Option.some.injEq] at f1
  exact Prod.ext hk f1.symm

/-- A filter keeps an ordered map ordered. -/
theorem filter_sorted {β : Type} (p : Nat × β → Bool) {m : List (Nat × β)}
    (hs : (mapKeys m).Pairwise (· < ·)) : (mapKeys (m.filter p)).Pairwise (· < ·) := by
  unfold mapKeys at *
  rw [List.pairwise_map] at hs ⊢
  exact hs.filter p

/-- The first entry of an ordered map that holds the key 0 is the entry of key 0. -/
theorem head_of_key_zero {β : Type} {m : List (Nat × β)} (hs : (mapKeys m).Pairwise (· < ·))
    {v : β} (h0 : mapFind 0 m = some v) : ∃ rest, m = (0, v) :: rest := by
  cases m with
  | nil => simp [mapFind] at h0
  | cons e rest =>
    obtain ⟨k, w⟩ := e
    by_cases hk : k = 0
    · subst hk
      simp only [mapFind, if_true, Option.some.injEq] at h0
      subst h0
      exact ⟨rest, rfl⟩
    · exfalso
      simp only [mapFind, hk, if_false] at h0
      have hmem := mapFind_mem h0
      simp only [mapKeys, List.map_cons, List.pairwise_cons] at hs
      have := hs.1 0 (List.mem_map.mpr ⟨(0, v), hmem, rfl⟩)
      omega

namespace FecRepairManager

/-- The erase loop keeps the entries whose key is not in the list. -/
theorem erase_all_eq_filter (ids : List Nat) :
    ∀ groups : List (Nat × FecGroupBuffer),
      erase_all ids groups = groups.filter (fun e => !(ids.contains e.1)) := by
  induction ids with
  | nil => intro groups; simp [erase_all]
  | cons id ids ih =>
    intro groups
    unfold erase_all at ih ⊢
    rw [List.foldl_cons, ih]
    unfold mapErase
    rw [List.filter_filter]
    apply List.filter_congr
    intro e _
    by_cases h : e.1 = id
    · simp [h]
    · have h2 : ¬ id = e.1 := fun hc => h hc.symm
      simp [h, h2, List.contains_cons]

/-- A newly constructed group satisfies the invariant of a group. -/
theorem new_group_wf (group_id : Nat) (config : FecGroupConfig) (now_ms : Int) :
    FecGroupBuffer.WF (FecGroupBuffer.new group_id config now_ms) :=
  FecGroupBuffer.reachable_wf (FecGroupBuffer.Reachable.new group_id config now_ms)

/-- A non-zero scan result is the key of a stored group that is expired. -/
theorem scan_expired_pos {groups : List (Nat × FecGroupBuffer)} {now_ms : Int}
    (h : scan_expired groups now_ms > 0) :
    ∃ g, (scan_expired groups now_ms, g) ∈ groups ∧ g.is_expired now_ms = true := by
  unfold scan_expired at h ⊢
  cases hf : groups.find? (fun e => e.2.is_expired now_ms) with
  | none => rw [hf] at h; simp at h
  | some e =>
    simp only []
    exact ⟨e.2, List.mem_of_find?_eq_some hf, by simpa using List.find?_some hf⟩

/-- What a successful `create_group_if_needed` leaves: the cap and the configuration are
unchanged, the map is ordered, its groups satisfy the invariant, the requested group is
present, and the number of groups is within the cap if it was. -/
theorem create_group_ok {m m1 : FecRepairManager} {group_id : Nat} {now_ms : Int}
    (hw : m.WF) (h : m.create_group_if_needed group_id now_ms = .ok m1) :
    m1.WF ∧ m1.max_groups_ = m.max_groups_ ∧ m1.config_ = m.config_ ∧
    (mapFind group_id m1.groups_).isSome = true ∧
    (m.groups_.length ≤ m.max_groups_ → m1.groups_.length ≤ m.max_groups_) := by
  unfold create_group_if_needed at h
  by_cases hpresent : (mapFind group_id m.groups_).isNone = true
  · rw [if_pos hpresent] at h
    have habsent : mapFind group_id m.groups_ = none := by
      cases hm : mapFind group_id m.groups_ with
      | none => rfl
      | some x => rw [hm] at hpresent; simp at hpresent
    simp only [] at h
    by_cases hfull : m.groups_.length ≥ m.max_groups_
    · rw [if_pos hfull] at h
      by_cases hold : scan_expired m.groups_ now_ms > 0
      · rw [if_pos hold] at h
        simp only [Except.ok.injEq] at h
        subst h
        obtain ⟨g, hg, _⟩ := scan_expired_pos hold
        have hfound : mapFind (scan_expired m.groups_ now_ms) m.groups_ = some g :=
          mapFind_of_mem hw.1 hg
        have hlt := mapErase_length_lt hfound
        have hne : group_id ≠ scan_expired m.groups_ now_ms := by
          intro hc
          rw [← hc, habsent] at hfound
          cases hfound
        have hab2 : mapFind group_id (mapErase (scan_expired m.groups_ now_ms) m.groups_) =
            none := by
          rw [mapFind_mapErase_ne hne]
          exact habsent
        have hsort : (mapKeys (mapErase (scan_expired m.groups_ now_ms) m.groups_)).Pairwise
            (· < ·) := filter_sorted _ hw.1
        refine ⟨⟨mapInsert_sorted hsort, ?_⟩, rfl, rfl, ?_, ?_⟩
        · intro e he
          rcases mem_mapInsert he with he1 | he1
          · rw [he1]
            exact new_group_wf _ _ _
          · exact hw.2 e (List.mem_of_mem_filter he1)
        · simp only []
          rw [mapFind_mapInsert_self]
          rfl
        · intro _
          simp only []
          rw [mapInsert_length_of_absent _ _ _ hab2]
          omega
      · rw [if_neg hold] at h
        cases h
    · rw [if_neg hfull] at h
      simp only [Except.ok.injEq] at h
      subst h
      refine ⟨⟨mapInsert_sorted hw.1, ?_⟩, rfl, rfl, ?_, ?_⟩
      · intro e he
        rcases mem_mapInsert he with he1 | he1
        · rw [he1]
          exact new_group_wf _ _ _
        · exact hw.2 e he1
      · simp only []
        rw [mapFind_mapInsert_self]
        rfl
      · intro _
        simp only []
        rw [mapInsert_length_of_absent _ _ _ habsent]
        omega
  · rw [if_neg hpresent] at h
    simp only [Except.ok.injEq] at h
    subst h
    refine ⟨hw, rfl, rfl, ?_, fun hle => hle⟩
    cases hm : mapFind group_id m.groups_ with
    | none => rw [hm] at hpresent; simp at hpresent
    | some x => rfl

/-- The invariant, the cap and the bound on the number of groups pass through
`add_block`. -/
theorem add_block_inv (m : FecRepairManager) (group_id block_index : Nat) (data : List Nat)
    (is_parity : Bool) (timestamp_ms : Int) (seq_num : Nat) (is_keyframe : Bool)
    (now_ms : Int) (hw : m.WF) :
    (m.add_block group_id block_index data is_parity timestamp_ms seq_num is_keyframe
      now_ms).2.WF ∧
    (m.add_block group_id block_index data is_parity timestamp_ms seq_num is_keyframe
      now_ms).2.max_groups_ = m.max_groups_ ∧
    (m.groups_.length ≤ m.max_groups_ →
      (m.add_block group_id block_index data is_parity timestamp_ms seq_num is_keyframe
        now_ms).2.groups_.length ≤ m.max_groups_) := by
  unfold add_block
  cases hc : m.create_group_if_needed group_id now_ms with
  | error e => exact ⟨hw, rfl, fun h => h⟩
  | ok m1 =>
    obtain ⟨hw1, hmax, _, hpres, hlen⟩ := create_group_ok hw hc
    simp only []
    cases hf : mapFind group_id m1.groups_ with
    | none => exact ⟨hw1, hmax, hlen⟩
    | some g =>
      simp only []
      cases ha : g.add_block block_index data is_parity timestamp_ms seq_num is_keyframe with
      | error e => exact ⟨hw1, hmax, hlen⟩
      | ok g1 =>
        simp only []
        refine ⟨⟨mapInsert_sorted hw1.1, ?_⟩, hmax, ?_⟩
        · intro e he
          rcases mem_mapInsert he with he1 | he1
          · rw [he1]
            exact FecGroupBuffer.add_block_wf (hw1.2 _ (mapFind_mem hf)) ha
          · exact hw1.2 e he1
        · intro hle
          rw [mapInsert_length_of_present _ _ _ hw1.1 (by rw [hf]; rfl)]
          exact hlen hle

/-- Erasing groups keeps the invariant and does not add groups. -/
theorem erase_all_inv (ids : List Nat) (groups : List (Nat × FecGroupBuffer))
    (hs : (mapKeys groups).Pairwise (· < ·)) (hg : ∀ e ∈ groups, FecGroupBuffer.WF e.2) :
    (mapKeys (erase_all ids groups)).Pairwise (· < ·) ∧
    (∀ e ∈ erase_all ids groups, FecGroupBuffer.WF e.2) ∧
    (erase_all ids groups).length ≤ groups.length := by
  rw [erase_all_eq_filter]
  exact ⟨filter_sorted _ hs, fun e he => hg e (List.mem_of_mem_filter he),
    List.length_filter_le _ _⟩

/-- The invariant, the cap and the bound on the number of groups pass through every call. -/
theorem step_inv (m : FecRepairManager) (op : Op) (hw : m.WF) :
    (m.step op).WF ∧ (m.step op).max_groups_ = m.max_groups_ ∧
    (m.groups_.length ≤ m.max_groups_ → (m.step op).groups_.length ≤ m.max_groups_) := by
  cases op with
  | add_block group_id block_index data is_parity timestamp_ms seq_num is_keyframe now_ms =>
    exact add_block_inv m group_id block_index data is_parity timestamp_ms seq_num is_keyframe
      now_ms hw
  | check_and_repair now_ms =>
    obtain ⟨h1, h2, h3⟩ := erase_all_inv (m.sweep now_ms).groups_to_remove m.groups_ hw.1 hw.2
    exact ⟨⟨h1, h2⟩, rfl, fun hle => le_trans h3 hle⟩
  | check_and_repair_with_metadata now_ms =>
    obtain ⟨h1, h2, h3⟩ := erase_all_inv (m.sweep now_ms).groups_to_remove m.groups_ hw.1 hw.2
    exact ⟨⟨h1, h2⟩, rfl, fun hle => le_trans h3 hle⟩
  | cleanup_expired t =>
    obtain ⟨h1, h2, h3⟩ := erase_all_inv
      ((m.groups_.filter fun e => e.2.is_expired t).map Prod.fst) m.groups_ hw.1 hw.2
    exact ⟨⟨h1, h2⟩, rfl, fun hle => le_trans h3 hle⟩

/-- The invariant, the cap and the bound on the number of groups pass through every run. -/
theorem run_inv (ops : List Op) :
    ∀ m : FecRepairManager, m.WF → m.groups_.length ≤ m.max_groups_ →
      (m.run ops).WF ∧ (m.run ops).max_groups_ = m.max_groups_ ∧
      (m.run ops).groups_.length ≤ m.max_groups_ := by
  induction ops with
  | nil => intro m hw hle; exact ⟨hw, rfl, hle⟩
  | cons op ops ih =>
    intro m hw hle
    obtain ⟨s1, s2, s3⟩ := step_inv m op hw
    have := ih (m.step op) s1 (by rw [s2]; exact s3 hle)
    unfold run at this ⊢
    rw [List.foldl_cons]
    rw [s2] at this
    exact this

/-- A manager created empty satisfies the invariant. -/
theorem start_wf (config : FecGroupConfig) (max_groups : Nat) : (start config max_groups).WF := by
  unfold WF start set_max_groups set_config FecRepairManager.new
  simp [mapKeys]

/-- The sweep loop in closed form: the ids to remove are those of the swept groups, the
blocks handed out are the repair results of the repaired groups in key order, and the two
counters grow by the number of expired groups and of failed repairs. -/
theorem sweep_fold (now_ms : Int) :
    ∀ (l : List (Nat × FecGroupBuffer)) (s : SweepState),
      (l.foldl (sweep_step now_ms) s).groups_to_remove =
        s.groups_to_remove ++ (l.filter fun e => swept now_ms e.2).map Prod.fst ∧
      (l.foldl (sweep_step now_ms) s).restored_blocks =
        s.restored_blocks ++ l.flatMap (fun e => sweep_output now_ms e.2) ∧
      (l.foldl (sweep_step now_ms) s).stats_.expired_groups =
        s.stats_.expired_groups + (l.filter fun e => e.2.is_expired now_ms).length ∧
      (l.foldl (sweep_step now_ms) s).stats_.failed_repairs =
        s.stats_.failed_repairs + (l.filter fun e => repair_fails now_ms e.2).length := by
  intro l
  induction l with
  | nil => intro s; simp
  | cons e l ih =>
    intro s
    rw [List.foldl_cons]
    obtain ⟨i1, i2, i3, i4⟩ := ih (sweep_step now_ms s e)
    rw [i1, i2, i3, i4]
    unfold sweep_step swept sweep_output repair_fails
    by_cases hexp : e.2.is_expired now_ms = true
    · simp [hexp, List.filter_cons, Nat.add_assoc, Nat.add_comm]
    · by_cases hcan : e.2.can_repair = true
      · cases hrep : e.2.repair with
        | ok restored =>
          by_cases hcomp : e.2.is_complete = true
          · simp [hexp, hcan, hrep, hcomp, List.filter_cons]
          · simp [hexp, hcan, hrep, hcomp, List.filter_cons]
        | error err =>
          simp [hexp, hcan, hrep, List.filter_cons, Nat.add_assoc, Nat.add_comm]
      · simp [hexp, hcan, List.filter_cons]

/-- The groups left by the sweep: those the sweep does not take out. -/
theorem sweep_groups (m : FecRepairManager) (now_ms : Int)
    (hs : (mapKeys m.groups_).Pairwise (· < ·)) :
    erase_all (m.sweep now_ms).groups_to_remove m.groups_ =
      m.groups_.filter (fun e => !swept now_ms e.2) := by
  rw [erase_all_eq_filter]
  unfold sweep
  rw [(sweep_fold now_ms m.groups_ _).1]
  apply List.filter_congr
  intro e he
  simp only [List.nil_append]
  by_cases hsw : swept now_ms e.2 = true
  · have : ((m.groups_.filter fun e => swept now_ms e.2).map Prod.fst).contains e.1 = true := by
      exact List.elem_iff.mpr (List.mem_map.mpr ⟨e, List.mem_filter.mpr ⟨he, hsw⟩, rfl⟩)
    rw [this, hsw]
  · have : ((m.groups_.filter fun e => swept now_ms e.2).map Prod.fst).contains e.1 = false := by
      cases hc : ((m.groups_.filter fun e => swept now_ms e.2).map Prod.fst).contains e.1 with
      | false => rfl
      | true =>
        exfalso
        obtain ⟨e2, he2, hk⟩ := List.mem_map.mp (List.elem_iff.mp hc)
        obtain ⟨hm2, hsw2⟩ := List.mem_filter.mp he2
        have := entry_eq_of_key_eq hs hm2 he hk
        rw [this] at hsw2
        exact hsw hsw2
    rw [this]
    simp only [Bool.not_eq_true] at hsw
    rw [hsw]

/-- A lookup in a filtered ordered map. -/
theorem mapFind_filter {β : Type} (p : Nat × β → Bool) {m : List (Nat × β)}
    (hs : (mapKeys m).Pairwise (· < ·)) {e : Nat × β} (he : e ∈ m) :
    mapFind e.1 (m.filter p) = if p e = true then some e.2 else none := by
  by_cases hp : p e = true
  · rw [if_pos hp]
    exact mapFind_of_mem (filter_sorted p hs) (List.mem_filter.mpr ⟨he, hp⟩)
  · rw [if_neg hp, mapFind_none_iff]
    intro hc
    obtain ⟨e2, he2, hk⟩ := List.mem_map.mp hc
    obtain ⟨hm2, hp2⟩ := List.mem_filter.mp he2
    have := entry_eq_of_key_eq hs hm2 he hk
    rw [this] at hp2
    exact hp hp2

/-- C23. Let a manager with its map in key order hold at least `max_groups` groups, among
them group 0, expired at the current time. Then `add_block` for a group id it does not hold
fails with the buffer-full error and leaves the manager as it is: the expired group 0 is
not evicted. -/
theorem add_block_fails_when_group_zero_is_expired (m : FecRepairManager) (g0 : FecGroupBuffer)
    (group_id block_index : Nat) (data : List Nat) (is_parity : Bool) (timestamp_ms : Int)
    (seq_num : Nat) (is_keyframe : Bool) (now_ms : Int)
    (hs : (mapKeys m.groups_).Pairwise (· < ·))
    (h0 : mapFind 0 m.groups_ = some g0) (hexp : g0.is_expired now_ms = true)
    (hfull : m.groups_.length ≥ m.max_groups_) (hnew : mapFind group_id m.groups_ = none) :
    m.add_block group_id block_index data is_parity timestamp_ms seq_num is_keyframe now_ms =
      (some .fecGroupBufferFull, m) := by
  obtain ⟨rest, hrest⟩ := head_of_key_zero hs h0
  have hscan : scan_expired m.groups_ now_ms = 0 := by
    unfold scan_expired
    rw [hrest]
    simp [List.find?, hexp]
  have hcreate : m.create_group_if_needed group_id now_ms = .error .fecGroupBufferFull := by
    unfold create_group_if_needed
    rw [hnew]
    simp only [Option.isNone_none, if_true]
    rw [if_pos hfull, hscan]
    rfl
  unfold add_block
  rw [hcreate]

set_option maxRecDepth 100000 in
/-- C23 (witness). Cap 1, deadline 100. A manager that holds group 0, created at 0, refuses
a shard for group 1 at time 1000 and keeps group 0; a manager that holds group 5 instead
evicts it and creates group 1. -/
theorem add_block_fails_when_group_zero_is_expired_witness :
    mapKeys full_with_group_zero.groups_ = [0] ∧
    full_with_group_zero.add_block 1 0 [1] false 1000 0 false 1000 =
      (some .fecGroupBufferFull, full_with_group_zero) ∧
    (full_with_group_five.add_block 1 0 [1] false 1000 0 false 1000).1 = none ∧
    mapKeys (full_with_group_five.add_block 1 0 [1] false 1000 0 false 1000).2.groups_ = [1] ∧
    (full_with_group_five.add_block 1 0 [1] false 1000 0 false 1000).2.stats_.expired_groups =
      1 :=
  ⟨by decide,
    add_block_fails_when_group_zero_is_expired full_with_group_zero
      (FecGroupBuffer.mk 0 (FecGroupBuffer.fec_config 2 3)
        [(0, ⟨0, 0, [1], false, 0, true, 0, false⟩)] 0)
      1 0 [1] false 1000 0 false 1000 (by decide) (by decide) (by decide) (by decide)
      (by decide),
    by decide, by decide, by decide⟩

/-- C25. For every configuration, every cap `max_groups` and every sequence of `add_block`,
`check_and_repair`, `check_and_repair_with_metadata` and `cleanup_expired` calls, at any
times, on a manager created empty with that cap, the number of groups held after the
sequence is at most `max_groups`. -/
theorem group_count_within_cap (config : FecGroupConfig) (max_groups : Nat) (ops : List Op) :
    ((start config max_groups).run ops).groups_.length ≤ max_groups := by
  have h := run_inv ops (start config max_groups) (start_wf config max_groups)
    (by simp [start, set_max_groups, set_config, FecRepairManager.new])
  exact h.2.2

/-- C24. For a manager whose map is in key order and whose groups are built by `add_block`
calls, `check_and_repair` at time `now`: (a) leaves no group that is expired at `now` and
adds their number to `expired_groups`; (b) takes out every non-expired group with at least
`k` shards whose repair succeeds, the repair giving `k` shards; (c) keeps every non-expired
group with at least `k` shards whose repair fails and adds their number to
`failed_repairs`; (d) keeps every non-expired group with fewer than `k` shards as it is.
The output is, in key order, the shards of the repairs of (b) and nothing else.
`check_and_repair_with_metadata` leaves the same manager and the same shards. -/
theorem check_and_repair_postcondition (m : FecRepairManager) (now : Int) (hw : m.WF) :
    ((∀ e ∈ m.groups_, e.2.is_expired now = true →
        mapFind e.1 (m.check_and_repair now).2.groups_ = none) ∧
      (m.check_and_repair now).2.stats_.expired_groups =
        m.stats_.expired_groups + (m.groups_.filter fun e => e.2.is_expired now).length) ∧
    (∀ e ∈ m.groups_, e.2.is_expired now = false → e.2.blocks_.length ≥ e.2.config_.k →
      ∀ restored, e.2.repair = .ok restored →
        mapFind e.1 (m.check_and_repair now).2.groups_ = none ∧
        restored.length = e.2.config_.k ∧ sweep_output now e.2 = restored) ∧
    ((∀ e ∈ m.groups_, e.2.is_expired now = false → e.2.blocks_.length ≥ e.2.config_.k →
        ∀ err, e.2.repair = .error err →
          mapFind e.1 (m.check_and_repair now).2.groups_ = some e.2 ∧
          sweep_output now e.2 = []) ∧
      (m.check_and_repair now).2.stats_.failed_repairs =
        m.stats_.failed_repairs + (m.groups_.filter fun e => repair_fails now e.2).length) ∧
    (∀ e ∈ m.groups_, e.2.is_expired now = false → e.2.blocks_.length < e.2.config_.k →
      mapFind e.1 (m.check_and_repair now).2.groups_ = some e.2 ∧
      sweep_output now e.2 = []) ∧
    (∀ e ∈ m.groups_, e.2.is_expired now = true → sweep_output now e.2 = []) ∧
    (m.check_and_repair now).1 =
      (m.groups_.flatMap fun e => sweep_output now e.2).map FecBlock.data ∧
    (m.check_and_repair_with_metadata now).2 = (m.check_and_repair now).2 ∧
    (m.check_and_repair_with_metadata now).1.1 = (m.check_and_repair now).1 := by
  have hgroups : (m.check_and_repair now).2.groups_ =
      m.groups_.filter (fun e => !swept now e.2) := sweep_groups m now hw.1
  have hfold := sweep_fold now m.groups_
    { stats_ := m.stats_, restored_blocks := [], groups_to_remove := [] }
  have hfind : ∀ e ∈ m.groups_, mapFind e.1 (m.check_and_repair now).2.groups_ =
      if swept now e.2 = true then none else some e.2 := by
    intro e he
    rw [hgroups, mapFind_filter _ hw.1 he]
    by_cases hsw : swept now e.2 = true
    · simp [hsw]
    · simp [hsw]
  refine ⟨⟨?_, ?_⟩, ?_, ⟨?_, ?_⟩, ?_, ?_, ?_, rfl, rfl⟩
  · intro e he hexp
    rw [hfind e he]
    have : swept now e.2 = true := by
      unfold swept
      rw [hexp]
      rfl
    rw [if_pos this]
  · exact hfold.2.2.1
  · intro e he hexp hk restored hrep
    have hcan : e.2.can_repair = true := (FecGroupBuffer.can_repair_eq_true_iff e.2).mpr hk
    refine ⟨?_, ?_, ?_⟩
    · rw [hfind e he]
      have : swept now e.2 = true := by
        unfold swept
        rw [hexp, hcan, hrep]
        rfl
      rw [if_pos this]
    · have hperm := FecGroupBuffer.repair_indices_perm (hw.2 e he) hrep
      have := hperm.length_eq
      simpa using this
    · unfold sweep_output
      rw [hexp, hcan, hrep]
      rfl
  · intro e he hexp hk err hrep
    have hcan : e.2.can_repair = true := (FecGroupBuffer.can_repair_eq_true_iff e.2).mpr hk
    constructor
    · rw [hfind e he]
      have : ¬ swept now e.2 = true := by
        unfold swept
        rw [hexp, hcan, hrep]
        simp
      rw [if_neg this]
    · unfold sweep_output
      rw [hexp, hcan, hrep]
      rfl
  · exact hfold.2.2.2
  · intro e he hexp hk
    have hcan : e.2.can_repair = false := by
      cases hc : e.2.can_repair with
      | false => rfl
      | true =>
        have := (FecGroupBuffer.can_repair_eq_true_iff e.2).mp hc
        omega
    constructor
    · rw [hfind e he]
      have : ¬ swept now e.2 = true := by
        unfold swept
        rw [hexp, hcan]
        simp
      rw [if_neg this]
    · unfold sweep_output
      rw [hexp, hcan]
      rfl
  · intro e _ hexp
    unfold sweep_output
    rw [hexp]
    rfl
  · show ((m.sweep now).restored_blocks.map FecBlock.data) = _
    unfold sweep
    rw [hfold.2.1]
    rfl

set_option maxRecDepth 100000 in
/-- C24 (witness). The sweep of `sweep_demo` at time 1000: group 1 (expired) and group 2
(complete) are taken out, the three shards of group 2 are the output, group 3 (one shard)
and group 4 (repair fails) stay, and the counters `expired_groups` and `failed_repairs`
grow by one each. -/
theorem check_and_repair_postcondition_witness :
    mapKeys sweep_demo.groups_ = [1, 2, 3, 4] ∧
    mapKeys (sweep_demo.check_and_repair 1000).2.groups_ = [3, 4] ∧
    (sweep_demo.check_and_repair 1000).2.stats_.expired_groups = 1 ∧
    (sweep_demo.check_and_repair 1000).2.stats_.failed_repairs = 1 ∧
    (sweep_demo.check_and_repair 1000).1 = [[1], [2], [3]] ∧
    (sweep_demo.check_and_repair 1000).1 =
      (sweep_demo.groups_.flatMap fun e => sweep_output 1000 e.2).map FecBlock.data :=
  ⟨by decide, by decide, by decide, by decide, by decide,
    (check_and_repair_postcondition sweep_demo 1000
      ((run_inv _ _ (start_wf _ _) (by decide)).1)).2.2.2.2.2.1⟩

end FecRepairManager

end SrsAdapter
namespace SrsAdapter

namespace ParameterSetManager

/-- The method `validate_parameter_set` accepts exactly the strings of `accepted`. -/
theorem validate_parameter_set_iff (type : ParameterSetType) (d : List Nat) :
    validate_parameter_set type d = true ↔ accepted type d := by
  unfold validate_parameter_set accepted
  cases d with
  | nil => cases type <;> simp
  | cons x xs =>
    cases type <;>
      simp [validate_h264_sps, validate_h264_pps, validate_h265_vps, validate_aac_asc]

/-- C32 (counterexample). The one-byte string `67` is an SPS by the rule as worded (it is
non-empty and `0x67 & 0x1F = 7`), and likewise `68` a PPS and `40` a VPS, but
`update_parameter_set` does not latch them: the validators ask for 4 bytes. -/
theorem one_byte_sps_is_not_latched :
    spec_header_matches .SPS [0x67] ∧
    (ParameterSetManager.new.update_parameter_set .SPS [0x67] 0).has_parameter_set .SPS = false ∧
    (ParameterSetManager.new.update_parameter_set .SPS [0x67] 0).stats_.invalid_updates = 1 ∧
    spec_header_matches .PPS [0x68] ∧
    (ParameterSetManager.new.update_parameter_set .PPS [0x68] 0).has_parameter_set .PPS = false ∧
    spec_header_matches .VPS [0x40] ∧
    (ParameterSetManager.new.update_parameter_set .VPS [0x40] 0).has_parameter_set .VPS =
      false := by
  decide

/-- C32 (amended). For every manager, kind and byte string `d`, `update_parameter_set`
latches `d` as the current value of its kind if and only if `d` is accepted: an SPS, PPS or
VPS has at least 4 bytes and the matching header byte (`d[0] & 0x1F` is 7 or 8,
`(d[0] >> 1) & 0x3F` is 32), an audio config has at least 2 bytes. An accepted string is
stored under its kind, is what `get_parameter_set` returns, and `valid_updates` grows by
one; otherwise the stored entries are unchanged, `invalid_updates` grows by one and
`valid_updates` stays. -/
theorem update_parameter_set_latches_iff_accepted (m : ParameterSetManager)
    (type : ParameterSetType) (d : List Nat) (timestamp_ms : Int) :
    ((m.update_parameter_set type d timestamp_ms).stats_.valid_updates =
        m.stats_.valid_updates + 1 ↔ accepted type d) ∧
    (accepted type d →
      (m.update_parameter_set type d timestamp_ms).parameter_sets_ =
        mapInsert type.toNat (latched_info type d timestamp_ms) m.parameter_sets_ ∧
      (m.update_parameter_set type d timestamp_ms).get_parameter_set type = d ∧
      (m.update_parameter_set type d timestamp_ms).stats_.invalid_updates =
        m.stats_.invalid_updates) ∧
    (¬ accepted type d →
      (m.update_parameter_set type d timestamp_ms).parameter_sets_ = m.parameter_sets_ ∧
      (m.update_parameter_set type d timestamp_ms).stats_.invalid_updates =
        m.stats_.invalid_updates + 1 ∧
      (m.update_parameter_set type d timestamp_ms).stats_.valid_updates =
        m.stats_.valid_updates) := by
  have hv := validate_parameter_set_iff type d
  by_cases ha : accepted type d
  · have hval : validate_parameter_set type d = true := hv.mpr ha
    have hst : (update_stats m.stats_ type true).valid_updates = m.stats_.valid_updates + 1 ∧
        (update_stats m.stats_ type true).invalid_updates = m.stats_.invalid_updates := by
      unfold update_stats
      cases type <;> exact ⟨rfl, rfl⟩
    have hres : m.update_parameter_set type d timestamp_ms =
        { parameter_sets_ := mapInsert type.toNat (latched_info type d timestamp_ms)
            m.parameter_sets_,
          stats_ := update_stats m.stats_ type true } := by
      unfold update_parameter_set latched_info
      simp only [hval, if_true]
    rw [hres]
    refine ⟨⟨fun _ => ha, fun _ => hst.1⟩, fun _ => ⟨rfl, ?_, hst.2⟩, fun h => absurd ha h⟩
    unfold get_parameter_set
    simp only [mapFind_mapInsert_self]
    rfl
  · have hval : validate_parameter_set type d = false := by
      cases h : validate_parameter_set type d with
      | false => rfl
      | true => exact absurd (hv.mp h) ha
    have hst : (update_stats m.stats_ type false).valid_updates = m.stats_.valid_updates ∧
        (update_stats m.stats_ type false).invalid_updates = m.stats_.invalid_updates + 1 := by
      unfold update_stats
      exact ⟨rfl, rfl⟩
    have hres : m.update_parameter_set type d timestamp_ms =
        { m with stats_ := update_stats m.stats_ type false } := by
      unfold update_parameter_set
      simp only [hval, Bool.false_eq_true, if_false]
    rw [hres]
    refine ⟨⟨fun h => ?_, fun h => absurd h ha⟩, fun h => absurd h ha,
      fun _ => ⟨rfl, hst.2, hst.1⟩⟩
    simp only [hst.1] at h
    omega

/-- C32 (witness). The four-byte SPS `67 42 00 1E` is latched; the one-byte string `67` is
not and leaves a latched SPS in place. -/
theorem update_parameter_set_latches_iff_accepted_witness :
    (ParameterSetManager.new.update_parameter_set .SPS [0x67, 0x42, 0x00, 0x1E] 0).get_parameter_set
        .SPS = [0x67, 0x42, 0x00, 0x1E] ∧
    ((ParameterSetManager.new.update_parameter_set .SPS [0x67, 0x42, 0x00, 0x1E] 0).update_parameter_set
        .SPS [0x67] 5).parameter_sets_ =
      (ParameterSetManager.new.update_parameter_set .SPS [0x67, 0x42, 0x00, 0x1E] 0).parameter_sets_ :=
  ⟨((update_parameter_set_latches_iff_accepted ParameterSetManager.new .SPS
      [0x67, 0x42, 0x00, 0x1E] 0).2.1 (by decide)).2.1,
    ((update_parameter_set_latches_iff_accepted
      (ParameterSetManager.new.update_parameter_set .SPS [0x67, 0x42, 0x00, 0x1E] 0) .SPS
      [0x67] 5).2.2 (by decide)).1⟩

end ParameterSetManager

namespace QuicFecTsAdapter

set_option maxRecDepth 100000 in
/-- The high bit of a byte, as the code tests it. -/
theorem high_bit_iff (b : Nat) (hb : b < 256) : b &&& 0x80 ≠ 0 ↔ b ≥ 0x80 := by
  have h : ∀ x < 256, (x &&& 0x80 ≠ 0 ↔ x ≥ 0x80) := by decide
  exact h b hb

/-- The mode `detect_protocol` leaves for a packet of at least 4 bytes. -/
theorem detect_protocol_mode (little_endian : Bool) (a : QuicFecTsAdapter) (data : List Nat)
    (hb : ∀ b ∈ data, b < 256) (h4 : 4 ≤ data.length) :
    (a.detect_protocol little_endian data).current_mode_ =
      if selected_mode little_endian data ≠ .MODE_UNKNOWN then selected_mode little_endian data
      else if a.enable_protocol_detection then a.current_mode_
      else if a.default_mode = "bare_ts" then .MODE_BARE_TS else .MODE_QUIC_FEC := by
  have hb0 : data.getD 0 0 < 256 := by
    cases data with
    | nil => simp
    | cons x xs => exact hb x (List.mem_cons_self _ _)
  have hhigh := high_bit_iff (data.getD 0 0) hb0
  have hts : (if data.length ≥ SRS_TS_PACKET_SIZE then
        if data.length ≥ SRS_TS_PACKET_SIZE * 2 ∧ data.getD SRS_TS_PACKET_SIZE 0 ≠ 0x47 then false
        else true
      else true) = true ↔ (data.length < 376 ∨ data.getD 188 0 = 0x47) := by
    unfold SRS_TS_PACKET_SIZE
    by_cases h1 : data.length ≥ 188
    · rw [if_pos h1]
      by_cases h2 : data.length ≥ 188 * 2 ∧ data.getD 188 0 ≠ 0x47
      · rw [if_pos h2]
        constructor
        · intro h
          cases h
        · rintro (h | h)
          · omega
          · exact absurd h h2.2
      · rw [if_neg h2]
        refine ⟨fun _ => ?_, fun _ => rfl⟩
        by_cases h3 : data.length < 376
        · exact Or.inl h3
        · right
          by_contra h5
          exact h2 ⟨by omega, h5⟩
    · rw [if_neg h1]
      exact ⟨fun _ => Or.inl (by omega), fun _ => rfl⟩
  have hmax64 : ((2 : Nat) ^ 64 - 1) / 2 = 2 ^ 63 - 1 := by norm_num
  have hmax32 : ((2 : Nat) ^ 32 - 1) / 2 = 2 ^ 31 - 1 := by norm_num
  unfold detect_protocol selected_mode
  simp only []
  rw [if_neg (by omega), hmax64, hmax32]
  by_cases c1 : data.getD 0 0 = 0x47 ∧ (data.length < 376 ∨ data.getD 188 0 = 0x47)
  · rw [if_pos ⟨c1.1, hts.mpr c1.2⟩, if_pos c1]
    simp
  · have c1n : ¬ (data.getD 0 0 = 0x47 ∧ (if data.length ≥ SRS_TS_PACKET_SIZE then
          if data.length ≥ SRS_TS_PACKET_SIZE * 2 ∧ data.getD SRS_TS_PACKET_SIZE 0 ≠ 0x47 then
            false
          else true
        else true) = true) := fun h => c1 ⟨h.1, hts.mp h.2⟩
    rw [if_neg c1n, if_neg c1]
    by_cases c2 : data.getD 0 0 ≥ 0x80
    · rw [if_pos ⟨by omega, hhigh.mpr c2⟩, if_pos c2]
      simp
    · have c2n : ¬ (data.length ≥ 1 ∧ data.getD 0 0 &&& 0x80 ≠ 0) := fun h => c2 (hhigh.mp h.2)
      rw [if_neg c2n, if_neg c2]
      by_cases c3 : data.length ≥ 16 ∧
          ((0 < read_host little_endian data 0 8 ∧
              read_host little_endian data 0 8 < 2 ^ 63 - 1) ∨
            (0 < read_host little_endian data 8 4 ∧
              read_host little_endian data 8 4 < 2 ^ 31 - 1))
      · rw [if_pos c3, if_pos c3]
        simp
      · rw [if_neg c3, if_neg c3]
        simp only [ne_eq, not_true_eq_false, if_false]
        by_cases c4 : a.enable_protocol_detection = true
        · simp [c4]
        · simp only [c4]
          split_ifs <;> rfl

/-- A `feed` call leaves a mode that is selected. -/
theorem feed_keeps_selected_mode (little_endian : Bool) (a : QuicFecTsAdapter)
    (data : List Nat) (h : a.current_mode_ ≠ .MODE_UNKNOWN) :
    a.feed little_endian data = a := by
  unfold feed
  split_ifs with h1 h2
  · rfl
  · exact absurd h2.1 h
  · rfl

/-- A sequence of `feed` calls leaves a mode that is selected. -/
theorem run_keeps_selected_mode (little_endian : Bool) (packets : List (List Nat)) :
    ∀ a : QuicFecTsAdapter, a.current_mode_ ≠ .MODE_UNKNOWN →
      a.run little_endian packets = a := by
  induction packets with
  | nil => intro a _; rfl
  | cons p rest ih =>
    intro a h
    unfold run
    rw [List.foldl_cons, feed_keeps_selected_mode little_endian a p h]
    exact ih a h

/-- The range test at work: a 16-byte packet with a zero sequence field and the group field
`80 00 00 80` has fields that are not both zero, so the rule as worded selects QUIC+FEC;
`detect_protocol` leaves the mode undetermined on a host of either byte order. -/
theorem nonzero_group_leaves_mode_undetermined :
    spec_detect high_group_packet = .MODE_QUIC_FEC ∧
    (QuicFecTsAdapter.new.detect_protocol true high_group_packet).current_mode_ =
      .MODE_UNKNOWN ∧
    (QuicFecTsAdapter.new.detect_protocol false high_group_packet).current_mode_ =
      .MODE_UNKNOWN := by
  decide

/-- C33 (code defect). The wire format lays the sequence and group fields out big-endian;
`detect_protocol` copies them with `memcpy`, in the byte order of the host, and accepts them
when they lie in a range. The 16-byte packet with the sequence number 128
(`00 00 00 00 00 00 00 80`) and group 0 carries a non-zero `(seq, group)`, so the rule
selects QUIC+FEC. On a little-endian host `detect_protocol` reads the sequence number as
`2^63`, outside its range `0 < seq < 2^63 - 1`, and leaves the mode undetermined, also
after the packet has gone through `feed`; on a big-endian host the same packet selects
QUIC+FEC. -/
theorem detect_protocol_reads_fields_in_host_order :
    read_be be_seq_packet 0 8 = 128 ∧ read_be be_seq_packet 8 4 = 0 ∧
    spec_detect be_seq_packet = .MODE_QUIC_FEC ∧
    read_host true be_seq_packet 0 8 = 2 ^ 63 ∧ read_host true be_seq_packet 8 4 = 0 ∧
    (QuicFecTsAdapter.new.detect_protocol true be_seq_packet).current_mode_ = .MODE_UNKNOWN ∧
    (QuicFecTsAdapter.new.feed true be_seq_packet).current_mode_ = .MODE_UNKNOWN ∧
    read_host false be_seq_packet 0 8 = 128 ∧
    (QuicFecTsAdapter.new.detect_protocol false be_seq_packet).current_mode_ =
      .MODE_QUIC_FEC := by
  decide

/-- What `detect_protocol` selects. For every packet of at least 4 bytes seen while the mode
is undetermined and detection is enabled, `detect_protocol` selects bare-TS if byte 0 is `0x47` and the
packet has fewer than 376 bytes or byte 188 is `0x47`; otherwise QUIC+FEC if byte 0 has its
high bit set, or if the packet has at least 16 bytes and the sequence field lies strictly
between 0 and `2^63 - 1` or the group field strictly between 0 and `2^31 - 1` (fields read
in host byte order); otherwise it leaves the mode undetermined. A selected mode is not
changed by any later sequence of `feed` calls. -/
theorem detect_protocol_selects_by_range_test (little_endian : Bool) (a : QuicFecTsAdapter)
    (data : List Nat) (hb : ∀ b ∈ data, b < 256) (h4 : 4 ≤ data.length)
    (hmode : a.current_mode_ = .MODE_UNKNOWN) (hen : a.enable_protocol_detection = true) :
    (a.detect_protocol little_endian data).current_mode_ = selected_mode little_endian data ∧
    (a.feed little_endian data).current_mode_ = selected_mode little_endian data ∧
    (selected_mode little_endian data ≠ .MODE_UNKNOWN →
      ∀ packets, ((a.feed little_endian data).run little_endian packets).current_mode_ =
        selected_mode little_endian data) := by
  have hd := detect_protocol_mode little_endian a data hb h4
  have h1 : (a.detect_protocol little_endian data).current_mode_ =
      selected_mode little_endian data := by
    rw [hd]
    by_cases hs : selected_mode little_endian data = .MODE_UNKNOWN
    · rw [if_neg (by simp [hs]), if_pos hen, hmode, hs]
    · rw [if_pos hs]
  have h2 : a.feed little_endian data = a.detect_protocol little_endian data := by
    unfold feed
    rw [if_neg (by omega), if_pos ⟨hmode, hen⟩]
  refine ⟨h1, by rw [h2, h1], ?_⟩
  intro hs packets
  rw [run_keeps_selected_mode little_endian packets _ (by rw [h2, h1]; exact hs), h2, h1]

set_option maxRecDepth 100000 in
/-- The statement `detect_protocol_selects_by_range_test` at a 188-byte TS packet: it
selects bare-TS, and a later packet that begins
with `0x80` does not change the mode. -/
theorem detect_protocol_selects_by_range_test_witness :
    (QuicFecTsAdapter.new.detect_protocol true ts_packet).current_mode_ = .MODE_BARE_TS ∧
    ((QuicFecTsAdapter.new.feed true ts_packet).run true [[0x80, 0, 0, 0]]).current_mode_ =
      .MODE_BARE_TS :=
  ⟨(detect_protocol_selects_by_range_test true QuicFecTsAdapter.new ts_packet (by decide)
      (by decide) rfl rfl).1.trans (by decide),
    ((detect_protocol_selects_by_range_test true QuicFecTsAdapter.new ts_packet (by decide)
      (by decide) rfl rfl).2.2 (by decide) [[0x80, 0, 0, 0]]).trans (by decide)⟩

end QuicFecTsAdapter

end SrsAdapter
namespace SrsAdapter

namespace QuicUdpHandler

/-- The state in which no stored activity time differs from `now`. -/
theorem cleanup_of_fresh (h : QuicUdpHandler) (now : Int) (ht : 0 ≤ h.adapter_timeout_ms_)
    (hact : ∀ e ∈ h.adapter_last_activity_, e.2 = now) :
    h.cleanup_expired_adapters now = h := by
  unfold cleanup_expired_adapters
  have : (h.adapter_last_activity_.filter fun e =>
      decide (now - e.2 > h.adapter_timeout_ms_)) = [] := by
    rw [List.filter_eq_nil_iff]
    intro e he
    rw [hact e he]
    simp only [sub_self, gt_iff_lt, decide_eq_true_eq, not_lt]
    exact ht
  simp only [this, List.map_nil, List.foldl_nil]

/-- A datagram from a peer without a session, at the time of all the stored activity: a
session is created, whatever the number of sessions held. -/
theorem on_udp_packet_new_peer (h : QuicUdpHandler) (now : Int) (src : PeerAddr)
    (ht : 0 ≤ h.adapter_timeout_ms_) (hact : ∀ e ∈ h.adapter_last_activity_, e.2 = now)
    (hnew : mapFind (get_connection_id src) h.adapters_ = none) :
    (h.on_udp_packet (datagram now src)).1 = none ∧
    (h.on_udp_packet (datagram now src)).2.adapters_ =
      mapInsert (get_connection_id src)
        { connection_id := get_connection_id src, route := h.get_route_for_port src.port,
          max_sessions := 100 } h.adapters_ ∧
    (h.on_udp_packet (datagram now src)).2.adapter_timeout_ms_ = h.adapter_timeout_ms_ ∧
    (∀ e ∈ (h.on_udp_packet (datagram now src)).2.adapter_last_activity_, e.2 = now) := by
  have hact1 : ∀ e ∈ mapInsert (get_connection_id src) now h.adapter_last_activity_,
      e.2 = now := by
    intro e he
    rcases mem_mapInsert he with h1 | h1
    · rw [h1]
    · exact hact e h1
  unfold on_udp_packet datagram get_or_create_adapter
  simp only [hnew]
  rw [if_neg (by decide)]
  simp only [Bool.not_eq_true, Bool.true_eq_false, if_false, not_false_eq_true, not_true_eq_false]
  split_ifs with hc
  · rw [cleanup_of_fresh _ now (by exact ht) (by exact hact1)]
    exact ⟨rfl, rfl, rfl, hact1⟩
  · exact ⟨rfl, rfl, rfl, hact1⟩

/-- The run over datagrams from peers with distinct connection ids, none of them held, all
at the time of the stored activity. -/
theorem run_new_peers (now : Int) (peers : List PeerAddr) :
    ∀ h : QuicUdpHandler, 0 ≤ h.adapter_timeout_ms_ →
      (∀ e ∈ h.adapter_last_activity_, e.2 = now) →
      (peers.map get_connection_id).Nodup →
      (∀ p ∈ peers, mapFind (get_connection_id p) h.adapters_ = none) →
      (h.run (peers.map (datagram now))).adapters_.length = h.adapters_.length + peers.length ∧
      ∀ e ∈ (h.run (peers.map (datagram now))).adapters_,
        e ∈ h.adapters_ ∨ e.2.max_sessions = 100 := by
  induction peers with
  | nil =>
    intro h _ _ _ _
    exact ⟨rfl, fun e he => Or.inl he⟩
  | cons p rest ih =>
    intro h ht hact hnd hnew
    obtain ⟨_, h2, h3, h4⟩ := on_udp_packet_new_peer h now p ht hact
      (hnew p (List.mem_cons_self _ _))
    rw [List.map_cons, List.nodup_cons] at hnd
    have hnew1 : ∀ q ∈ rest,
        mapFind (get_connection_id q) (h.on_udp_packet (datagram now p)).2.adapters_ = none := by
      intro q hq
      rw [h2, mapFind_none_iff]
      intro hmem
      unfold mapKeys at hmem
      obtain ⟨e, he, hek⟩ := List.mem_map.mp hmem
      rcases mem_mapInsert he with h5 | h5
      · subst h5
        apply hnd.1
        have hek2 : get_connection_id p = get_connection_id q := hek
        rw [hek2]
        exact List.mem_map_of_mem _ hq
      · have := hnew q (List.mem_cons_of_mem _ hq)
        rw [mapFind_none_iff] at this
        apply this
        unfold mapKeys
        rw [← hek]
        exact List.mem_map_of_mem _ h5
    obtain ⟨ih1, ih2⟩ := ih (h.on_udp_packet (datagram now p)).2 (by rw [h3]; exact ht) h4
      hnd.2 hnew1
    have hrun : h.run ((p :: rest).map (datagram now)) =
        (h.on_udp_packet (datagram now p)).2.run (rest.map (datagram now)) := by
      unfold run
      rw [List.map_cons, List.foldl_cons]
    rw [hrun]
    constructor
    · rw [ih1, h2, mapInsert_length_of_absent _ _ _ (hnew p (List.mem_cons_self _ _)),
        List.length_cons]
      omega
    · intro e he
      rcases ih2 e he with h5 | h5
      · rw [h2] at h5
        rcases mem_mapInsert h5 with h6 | h6
        · right
          rw [h6]
        · exact Or.inl h6
      · exact Or.inr h5

/-- C34 (code defect). A dispatcher that has just been constructed and receives, at one
time, one datagram from each of any number of peers with distinct addresses holds one
session per peer: every datagram is accepted and creates a session, and each adapter
carries the cap `max_sessions = 100`, which nothing reads. -/
theorem session_count_is_not_capped (now : Int) (peers : List PeerAddr)
    (hnd : (peers.map get_connection_id).Nodup) :
    (QuicUdpHandler.new.run (peers.map (datagram now))).adapters_.length = peers.length ∧
    ∀ e ∈ (QuicUdpHandler.new.run (peers.map (datagram now))).adapters_,
      e.2.max_sessions = 100 := by
  obtain ⟨h1, h2⟩ := run_new_peers now peers QuicUdpHandler.new (by decide)
    (fun e he => by simp [QuicUdpHandler.new] at he) hnd (fun p _ => rfl)
  constructor
  · rw [h1]
    simp [QuicUdpHandler.new]
  · intro e he
    rcases h2 e he with h3 | h3
    · simp [QuicUdpHandler.new] at h3
    · exact h3

set_option maxRecDepth 100000 in
/-- C34 (witness). 101 peers `10.0.0.1:5000` to `10.0.0.1:5100`: the dispatcher holds 101
sessions, one more than the cap. -/
theorem session_count_is_not_capped_witness :
    (peers_101.map get_connection_id).Nodup ∧ peers_101.length = 101 ∧
    (QuicUdpHandler.new.run (peers_101.map (datagram 0))).adapters_.length =
      peers_101.length :=
  ⟨by decide, by decide, (session_count_is_not_capped 0 peers_101 (by decide)).1⟩

end QuicUdpHandler

end SrsAdapter

namespace SrsAdapter

/-! ## Framed-protocol adapter -/

namespace MyProtoAdapter

/-- In state Header with a non-empty input shorter than `sizeof(MyProtoFrame)`, the parse loop
of `feed` never leaves: `parseHeader` returns success without consuming a byte or changing
the state. -/
theorem feed_loop_starved (sizeof_frame : Nat) (now_ms : Int) (a : MyProtoAdapter)
    (hs : a.state_ = .STATE_HEADER) (h0 : 0 < a.left) (h1 : a.left < sizeof_frame) :
    ∀ fuel, feed_loop sizeof_frame fuel now_ms a = none := by
  intro fuel
  induction fuel with
  | zero => simp [feed_loop, h0]
  | succ fuel ih =>
    unfold feed_loop
    simp only [gt_iff_lt, h0, if_true, hs]
    have hp : parseHeader sizeof_frame a = (none, a) := by
      unfold parseHeader
      rw [if_pos h1]
    rw [hp]
    exact ih

/-- More fuel does not change a result of the parse loop. -/
theorem feed_loop_mono (sizeof_frame : Nat) (now_ms : Int) :
    ∀ (fuel : Nat) (a : MyProtoAdapter) (r : Option SrsError × MyProtoAdapter),
      feed_loop sizeof_frame fuel now_ms a = some r →
      feed_loop sizeof_frame (fuel + 1) now_ms a = some r := by
  intro fuel
  induction fuel with
  | zero =>
    intro a r h
    unfold feed_loop at h
    split at h
    · cases h
    · rename_i hl
      unfold feed_loop
      rw [if_neg hl]
      exact h
  | succ fuel ih =>
    intro a r h
    unfold feed_loop at h ⊢
    by_cases hl : a.left > 0
    · rw [if_pos hl] at h ⊢
      cases hst : a.state_ with
      | STATE_HEADER =>
        rw [hst] at h
        simp only at h ⊢
        cases hp : parseHeader sizeof_frame a with
        | mk e a1 =>
          rw [hp] at h
          cases e with
          | some e1 => exact h
          | none => exact ih _ _ h
      | STATE_PAYLOAD =>
        rw [hst] at h
        exact ih _ _ h
      | STATE_COMPLETE =>
        rw [hst] at h
        exact ih _ _ h
    · rw [if_neg hl] at h ⊢
      exact h

/-- More fuel does not change a result of `feed`. -/
theorem feed_mono (sizeof_frame : Nat) (a : MyProtoAdapter) (data : List Nat) (now_ms : Int) :
    ∀ (fuel d : Nat) (r : Option SrsError × MyProtoAdapter),
      feed sizeof_frame fuel a data now_ms = some r →
      feed sizeof_frame (fuel + d) a data now_ms = some r := by
  intro fuel d
  induction d with
  | zero => intro r h; exact h
  | succ d ih =>
    intro r h
    have h1 := ih r h
    unfold feed at h1 ⊢
    simp only at h1 ⊢
    split at h1
    · rename_i he
      rw [if_pos he]
      exact h1
    · rename_i he
      rw [if_neg he]
      cases hl : feed_loop sizeof_frame (fuel + d) now_ms
          { (a.heartbeat_check now_ms) with
            input_buffer_ := (a.heartbeat_check now_ms).input_buffer_ ++ data
            buffer_pos := 0 } with
      | none =>
        rw [hl] at h1
        cases h1
      | some r1 =>
        have h2 := feed_loop_mono sizeof_frame now_ms _ _ _ hl
        rw [hl] at h1
        rw [show fuel + (d + 1) = fuel + d + 1 from rfl, h2]
        exact h1

/-- The result of `feed`, when there is one, does not depend on the fuel. -/
theorem feed_fuel_unique (sizeof_frame : Nat) (a : MyProtoAdapter) (data : List Nat)
    (now_ms : Int) (f1 f2 : Nat) (r1 r2 : Option SrsError × MyProtoAdapter)
    (h1 : feed sizeof_frame f1 a data now_ms = some r1)
    (h2 : feed sizeof_frame f2 a data now_ms = some r2) : r1 = r2 := by
  rcases Nat.le_total f1 f2 with h | h
  · obtain ⟨d, rfl⟩ := Nat.exists_eq_add_of_le h
    have := feed_mono sizeof_frame a data now_ms f1 d r1 h1
    rw [this] at h2
    exact Option.some.inj h2
  · obtain ⟨d, rfl⟩ := Nat.exists_eq_add_of_le h
    have := feed_mono sizeof_frame a data now_ms f2 d r2 h2
    rw [this] at h1
    exact (Option.some.inj h1).symm

theorem heartbeat_check_state (a : MyProtoAdapter) (now_ms : Int) :
    (a.heartbeat_check now_ms).state_ = a.state_ ∧
    (a.heartbeat_check now_ms).input_buffer_ = a.input_buffer_ := by
  unfold heartbeat_check
  split <;> exact ⟨rfl, rfl⟩

/-- A `feed` call that leaves the adapter in state Header with fewer buffered bytes than
`sizeof(MyProtoFrame)`, and at least one, does not return. -/
theorem feed_starved (sizeof_frame : Nat) (a : MyProtoAdapter) (data : List Nat) (now_ms : Int)
    (hs : a.state_ = .STATE_HEADER) (h0 : 0 < (a.input_buffer_ ++ data).length)
    (h1 : (a.input_buffer_ ++ data).length < sizeof_frame) :
    ∀ fuel, feed sizeof_frame fuel a data now_ms = none := by
  intro fuel
  obtain ⟨hst, hib⟩ := heartbeat_check_state a now_ms
  unfold feed
  simp only
  have hne : ¬ ((a.heartbeat_check now_ms).input_buffer_ ++ data).isEmpty = true := by
    rw [hib]
    intro h
    rw [List.isEmpty_iff] at h
    rw [h] at h0
    exact absurd h0 (Nat.lt_irrefl _)
  rw [if_neg hne]
  have hl := feed_loop_starved sizeof_frame now_ms
    { (a.heartbeat_check now_ms) with
      input_buffer_ := (a.heartbeat_check now_ms).input_buffer_ ++ data
      buffer_pos := 0 }
    (by simp only [hst, hs])
    (by simp only [left, hib]; omega)
    (by simp only [left, hib]; omega) fuel
  rw [hl]

theorem option_all_some {α : Type} {p : α → Bool} {o : Option α}
    (h : o.isSome = true ∧ o.all p = true) : ∃ x, o = some x ∧ p x = true := by
  cases o with
  | none => simp at h
  | some x => exact ⟨x, rfl, by simpa using h.2⟩

set_option maxRecDepth 100000 in
theorem scenario_a_short_struct (sizeof_frame : Nat) (h1 : HEADER_WIRE_SIZE ≤ sizeof_frame)
    (h2 : sizeof_frame ≤ 40) :
    ∃ r, feed sizeof_frame 2 fresh_default scenario_a_bytes 0 = some r ∧
      (decide (r.2.pushed_frames = []) && decide (r.2.state_ = .STATE_COMPLETE)) = true := by
  have h3 : 35 ≤ sizeof_frame := h1
  apply option_all_some
  interval_cases sizeof_frame <;> decide

set_option maxRecDepth 100000 in
/-- C9 (code defect). Scenario A (one key-frame video frame: the 35 header bytes and the 5
payload bytes, given to a freshly started adapter in one `feed` call) hands no frame
downstream. With `sizeof(MyProtoFrame) = 48` (natural alignment) the 40 bytes are fewer than
`parseHeader` waits for and the parse loop never leaves; whatever the size of the struct
(at least the 35 bytes read), a call that returns has pushed no frame and left the parser in
state Complete: the loop condition `left() > 0` ends the loop before the Complete case can
call `createStdFrame`. -/
theorem scenario_a_hands_no_frame_downstream :
    (∀ fuel, feed 48 fuel fresh_default scenario_a_bytes 0 = none) ∧
    (∀ sizeof_frame fuel r, HEADER_WIRE_SIZE ≤ sizeof_frame →
      feed sizeof_frame fuel fresh_default scenario_a_bytes 0 = some r →
      r.2.pushed_frames = [] ∧ r.2.state_ = .STATE_COMPLETE) := by
  have hstarve : ∀ s, 40 < s → ∀ fuel, feed s fuel fresh_default scenario_a_bytes 0 = none := by
    intro s hs
    exact feed_starved s fresh_default scenario_a_bytes 0 (by decide) (by decide)
      (by
        have : (fresh_default.input_buffer_ ++ scenario_a_bytes).length = 40 := by decide
        omega)
  refine ⟨hstarve 48 (by decide), ?_⟩
  intro s fuel r h1 h
  rcases Nat.lt_or_ge 40 s with h2 | h2
  · rw [hstarve s h2 fuel] at h
    cases h
  · obtain ⟨r2, hr2, hp⟩ := scenario_a_short_struct s h1 h2
    have := feed_fuel_unique s fresh_default scenario_a_bytes 0 fuel 2 r r2 h hr2
    subst this
    simpa using hp

set_option maxRecDepth 100000 in
/-- C9 (witness). With a packed 35-byte struct and fuel 2 the call on Scenario A returns,
having pushed no frame. -/
theorem scenario_a_hands_no_frame_downstream_witness :
    HEADER_WIRE_SIZE ≤ 35 ∧
    pushed (feed 35 2 fresh_default scenario_a_bytes 0) = some [] :=
  ⟨by decide,
    match h : feed 35 2 fresh_default scenario_a_bytes 0 with
    | some r => by
      have := (scenario_a_hands_no_frame_downstream.2 35 2 r (by decide) h).1
      simp [pushed, this]
    | none => absurd h (by decide)⟩

/-- The result of two `feed` calls in a row, when there is one, does not depend on the fuel. -/
theorem feed_twice_fuel_unique (sizeof_frame : Nat) (a : MyProtoAdapter) (d1 d2 : List Nat)
    (now_ms : Int) (f1 f2 : Nat) (r1 r2 : Option SrsError × MyProtoAdapter)
    (h1 : feed_twice sizeof_frame f1 a d1 d2 now_ms = some r1)
    (h2 : feed_twice sizeof_frame f2 a d1 d2 now_ms = some r2) : r1 = r2 := by
  unfold feed_twice at h1 h2
  cases ha : feed sizeof_frame f1 a d1 now_ms with
  | none => rw [ha] at h1; cases h1
  | some x1 =>
    cases hb : feed sizeof_frame f2 a d1 now_ms with
    | none => rw [hb] at h2; cases h2
    | some x2 =>
      rw [ha] at h1
      rw [hb] at h2
      have hx := feed_fuel_unique sizeof_frame a d1 now_ms f1 f2 x1 x2 ha hb
      subst hx
      exact feed_fuel_unique sizeof_frame x1.2 d2 now_ms f1 f2 r1 r2 h1 h2

set_option maxRecDepth 100000 in
theorem concat_one_call (sizeof_frame : Nat) (h1 : HEADER_WIRE_SIZE ≤ sizeof_frame)
    (h2 : sizeof_frame ≤ 48) :
    ∃ r, feed sizeof_frame 8 fresh_default (concat_a_bytes ++ concat_b_bytes) 0 = some r ∧
      (decide (r.2.pushed_frames = [concat_a_frame]) &&
        decide (r.2.state_ = .STATE_COMPLETE)) = true := by
  have h3 : 35 ≤ sizeof_frame := h1
  apply option_all_some
  interval_cases sizeof_frame <;> decide

set_option maxRecDepth 100000 in
theorem concat_two_calls (sizeof_frame : Nat) (h1 : HEADER_WIRE_SIZE ≤ sizeof_frame)
    (h2 : sizeof_frame ≤ 48) :
    ∃ r, feed_twice sizeof_frame 8 fresh_default concat_a_bytes concat_b_bytes 0 = some r ∧
      (decide (r.2.pushed_frames = [concat_a_frame]) &&
        decide (r.2.state_ = .STATE_COMPLETE)) = true := by
  have h3 : 35 ≤ sizeof_frame := h1
  apply option_all_some
  interval_cases sizeof_frame <;> decide

/-- C10 (code defect). Two well-formed frames A (key-frame) and B of 48 wire bytes each, given
to a freshly started adapter: one `feed` call with bytes(A) ++ bytes(B), and likewise a
`feed` call with bytes(A) followed by one with bytes(B), hand downstream the frame of A only.
The frame of B stays behind in state Complete, for every struct size from the 35 bytes read
up to 48. -/
theorem concatenated_frames_hand_only_first_downstream (sizeof_frame fuel : Nat)
    (h1 : HEADER_WIRE_SIZE ≤ sizeof_frame) (h2 : sizeof_frame ≤ 48) :
    (∀ r, feed sizeof_frame fuel fresh_default (concat_a_bytes ++ concat_b_bytes) 0 = some r →
      r.2.pushed_frames = [concat_a_frame] ∧ r.2.state_ = .STATE_COMPLETE) ∧
    (∀ r, feed_twice sizeof_frame fuel fresh_default concat_a_bytes concat_b_bytes 0 = some r →
      r.2.pushed_frames = [concat_a_frame] ∧ r.2.state_ = .STATE_COMPLETE) := by
  constructor
  · intro r h
    obtain ⟨r2, hr2, hp⟩ := concat_one_call sizeof_frame h1 h2
    have := feed_fuel_unique sizeof_frame fresh_default _ 0 fuel 8 r r2 h hr2
    subst this
    simpa using hp
  · intro r h
    obtain ⟨r2, hr2, hp⟩ := concat_two_calls sizeof_frame h1 h2
    have := feed_twice_fuel_unique sizeof_frame fresh_default _ _ 0 fuel 8 r r2 h hr2
    subst this
    simpa using hp

set_option maxRecDepth 100000 in
/-- C10 (witness). With `sizeof(MyProtoFrame) = 48` and fuel 8 both ways of feeding return,
and each has handed downstream the frame of A alone. -/
theorem concatenated_frames_hand_only_first_downstream_witness :
    HEADER_WIRE_SIZE ≤ 48 ∧
    pushed (feed 48 8 fresh_default (concat_a_bytes ++ concat_b_bytes) 0) =
      some [concat_a_frame] ∧
    pushed (feed_twice 48 8 fresh_default concat_a_bytes concat_b_bytes 0) =
      some [concat_a_frame] :=
  ⟨by decide,
    match h : feed 48 8 fresh_default (concat_a_bytes ++ concat_b_bytes) 0 with
    | some r => by
      have := ((concatenated_frames_hand_only_first_downstream 48 8 (by decide)
        (by decide)).1 r h).1
      simp [pushed, this]
    | none => absurd h (by decide),
    match h : feed_twice 48 8 fresh_default concat_a_bytes concat_b_bytes 0 with
    | some r => by
      have := ((concatenated_frames_hand_only_first_downstream 48 8 (by decide)
        (by decide)).2 r h).1
      simp [pushed, this]
    | none => absurd h (by decide)⟩

end MyProtoAdapter

end SrsAdapter

namespace SrsAdapter

namespace MyProtoAdapter

/-- The relation `SameExceptParams` is reflexive. -/
theorem sameExceptParams_refl (a : MyProtoAdapter) : SameExceptParams a a := by
  constructor <;> rfl

/-- The relation `SameExceptParams` is transitive. -/
theorem sameExceptParams_trans {a b c : MyProtoAdapter} (h1 : SameExceptParams a b)
    (h2 : SameExceptParams b c) : SameExceptParams a c := by
  cases h1; cases h2
  constructor <;> simp only [*]

/-- One step of the parameter-set scan changes only the parameter-set members. -/
theorem scan_parameter_set_at_core (data : List Nat) (a : MyProtoAdapter) (i : Nat) :
    SameExceptParams a (scan_parameter_set_at data a i) := by
  unfold scan_parameter_set_at
  simp only []
  split_ifs <;> constructor <;> rfl

/-- The method `processParameterSets` changes only the parameter-set members. -/
theorem processParameterSets_core (a : MyProtoAdapter) (frame : StdFrame) :
    SameExceptParams a (a.processParameterSets frame) := by
  unfold processParameterSets
  simp only []
  split_ifs
  · exact sameExceptParams_refl a
  · constructor <;> rfl
  · generalize List.range (frame.payload.length - 4) = l
    induction l generalizing a with
    | nil => exact sameExceptParams_refl a
    | cons i l ih =>
      rw [List.foldl_cons]
      exact sameExceptParams_trans (scan_parameter_set_at_core _ a i) (ih _)
  · exact sameExceptParams_refl a

/-- The frames `resend_parameter_sets` pushes carry the timestamps of the frame. -/
theorem resend_parameter_sets_timing (a : MyProtoAdapter) (frame f : StdFrame)
    (hf : f ∈ a.resend_parameter_sets frame) :
    f.h.dts_ms = frame.h.dts_ms ∧ f.h.pts_ms = frame.h.pts_ms ∧ f.h.has_pts = frame.h.has_pts := by
  unfold resend_parameter_sets at hf
  simp only [] at hf
  split_ifs at hf
  · obtain ⟨p, _, rfl⟩ := List.mem_map.mp hf
    exact ⟨rfl, rfl, rfl⟩
  · simp at hf

/-- What `createStdFrame` does to the timing members and to the frames handed downstream:
the frames it hands on carry the computed `dts_ms` and `pts_ms`, it hands frames on only
when `validateTimestamp` accepts them, and `last_dts_ms_` moves exactly when it does. -/
theorem createStdFrame_spec (a : MyProtoAdapter) (now : Int) :
    ∃ extra : List StdFrame,
      (a.createStdFrame now).pushed_frames = a.pushed_frames ++ extra ∧
      (∀ f ∈ extra, f.h.dts_ms = a.frame_dts_ms ∧ f.h.pts_ms = a.frame_pts_ms ∧
        f.h.has_pts = true) ∧
      (extra ≠ [] → a.validateTimestamp a.frame_dts_ms a.frame_pts_ms = true) ∧
      (extra ≠ [] → (a.createStdFrame now).last_dts_ms_ = a.frame_dts_ms) ∧
      (extra = [] → (a.createStdFrame now).last_dts_ms_ = a.last_dts_ms_) ∧
      (a.createStdFrame now).stats_.invalid_timestamps =
        a.stats_.invalid_timestamps +
          (if a.validateTimestamp a.frame_dts_ms a.frame_pts_ms = true then 0 else 1) ∧
      (a.createStdFrame now).has_base_timestamp_ = true ∧
      (a.createStdFrame now).base_timestamp_ms_ =
        (if a.has_base_timestamp_ = true then a.base_timestamp_ms_
          else ((a.frame_header_.timestamp / 1000 : Nat) : Int)) ∧
      (a.createStdFrame now).b_frame_delay_ms_ = a.b_frame_delay_ms_ ∧
      (a.createStdFrame now).input_buffer_ = a.input_buffer_ ∧
      (a.createStdFrame now).buffer_pos = a.buffer_pos := by
  generalize hr : a.createStdFrame now = r
  unfold createStdFrame at hr
  revert hr
  lift_lets
  intro hd timestamp_ms a1 dts_ms is_b_frame pts_ms src1 a2 src2 stream_id src3 h0 h1 st3
    payload frame a3 a4 a5 a6 frame1 src4 hr
  -- the stages
  have e1 : a1.pushed_frames = a.pushed_frames ∧ a1.last_dts_ms_ = a.last_dts_ms_ ∧
      a1.stats_.invalid_timestamps = a.stats_.invalid_timestamps ∧
      a1.has_base_timestamp_ = true ∧
      a1.base_timestamp_ms_ =
        (if a.has_base_timestamp_ = true then a.base_timestamp_ms_ else timestamp_ms) ∧
      a1.b_frame_delay_ms_ = a.b_frame_delay_ms_ ∧ a1.input_buffer_ = a.input_buffer_ ∧
      a1.buffer_pos = a.buffer_pos := by
    simp only [a1]
    by_cases hb : a.has_base_timestamp_ = true
    · simp [hb]
    · simp [hb]
  have e2 : a2.pushed_frames = a1.pushed_frames ∧ a2.last_dts_ms_ = a1.last_dts_ms_ ∧
      a2.stats_.invalid_timestamps = a1.stats_.invalid_timestamps ∧
      a2.has_base_timestamp_ = a1.has_base_timestamp_ ∧
      a2.base_timestamp_ms_ = a1.base_timestamp_ms_ ∧
      a2.b_frame_delay_ms_ = a1.b_frame_delay_ms_ ∧ a2.input_buffer_ = a1.input_buffer_ ∧
      a2.buffer_pos = a1.buffer_pos := by
    simp only [a2]
    split_ifs <;> exact ⟨rfl, rfl, rfl, rfl, rfl, rfl, rfl, rfl⟩
  have e3 : a3.pushed_frames = a2.pushed_frames ∧ a3.last_dts_ms_ = a2.last_dts_ms_ ∧
      a3.stats_.invalid_timestamps = a2.stats_.invalid_timestamps ∧
      a3.has_base_timestamp_ = a2.has_base_timestamp_ ∧
      a3.base_timestamp_ms_ = a2.base_timestamp_ms_ ∧
      a3.b_frame_delay_ms_ = a2.b_frame_delay_ms_ ∧ a3.input_buffer_ = a2.input_buffer_ ∧
      a3.buffer_pos = a2.buffer_pos := by
    refine ⟨rfl, rfl, ?_, rfl, rfl, rfl, rfl, rfl⟩
    simp only [a3, st3]
    split_ifs <;> rfl
  have c4 : SameExceptParams a3 a4 := processParameterSets_core a3 frame
  have e5 : a5.pushed_frames = a4.pushed_frames ∧ a5.last_dts_ms_ = a4.last_dts_ms_ ∧
      a5.stats_.invalid_timestamps = a4.stats_.invalid_timestamps ∧
      a5.has_base_timestamp_ = a4.has_base_timestamp_ ∧
      a5.base_timestamp_ms_ = a4.base_timestamp_ms_ ∧
      a5.b_frame_delay_ms_ = a4.b_frame_delay_ms_ ∧ a5.input_buffer_ = a4.input_buffer_ ∧
      a5.buffer_pos = a4.buffer_pos := by
    simp only [a5]
    split_ifs <;> exact ⟨rfl, rfl, rfl, rfl, rfl, rfl, rfl, rfl⟩
  have e6 : a6.last_dts_ms_ = a5.last_dts_ms_ ∧
      a6.stats_.invalid_timestamps = a5.stats_.invalid_timestamps ∧
      a6.has_base_timestamp_ = a5.has_base_timestamp_ ∧
      a6.base_timestamp_ms_ = a5.base_timestamp_ms_ ∧
      a6.b_frame_delay_ms_ = a5.b_frame_delay_ms_ ∧ a6.input_buffer_ = a5.input_buffer_ ∧
      a6.buffer_pos = a5.buffer_pos := by
    simp only [a6]
    split_ifs <;> exact ⟨rfl, rfl, rfl, rfl, rfl, rfl, rfl⟩
  -- the members of the state in which the frame is withheld, in terms of `a`
  have k4 : a4.pushed_frames = a.pushed_frames ∧ a4.last_dts_ms_ = a.last_dts_ms_ ∧
      a4.stats_.invalid_timestamps = a.stats_.invalid_timestamps ∧
      a4.has_base_timestamp_ = true ∧
      a4.base_timestamp_ms_ =
        (if a.has_base_timestamp_ = true then a.base_timestamp_ms_ else timestamp_ms) ∧
      a4.b_frame_delay_ms_ = a.b_frame_delay_ms_ ∧ a4.input_buffer_ = a.input_buffer_ ∧
      a4.buffer_pos = a.buffer_pos := by
    refine ⟨?_, ?_, ?_, ?_, ?_, ?_, ?_, ?_⟩
    · rw [c4.pushed_frames, e3.1, e2.1, e1.1]
    · rw [c4.last_dts_ms_, e3.2.1, e2.2.1, e1.2.1]
    · rw [c4.invalid_timestamps, e3.2.2.1, e2.2.2.1, e1.2.2.1]
    · rw [c4.has_base_timestamp_, e3.2.2.2.1, e2.2.2.2.1, e1.2.2.2.1]
    · rw [c4.base_timestamp_ms_, e3.2.2.2.2.1, e2.2.2.2.2.1, e1.2.2.2.2.1]
    · rw [c4.b_frame_delay_ms_, e3.2.2.2.2.2.1, e2.2.2.2.2.2.1, e1.2.2.2.2.2.1]
    · rw [c4.input_buffer_, e3.2.2.2.2.2.2.1, e2.2.2.2.2.2.2.1, e1.2.2.2.2.2.2.1]
    · rw [c4.buffer_pos, e3.2.2.2.2.2.2.2, e2.2.2.2.2.2.2.2, e1.2.2.2.2.2.2.2]
  have k6 : a6.last_dts_ms_ = a.last_dts_ms_ ∧
      a6.stats_.invalid_timestamps = a.stats_.invalid_timestamps ∧
      a6.has_base_timestamp_ = true ∧
      a6.base_timestamp_ms_ =
        (if a.has_base_timestamp_ = true then a.base_timestamp_ms_ else timestamp_ms) ∧
      a6.b_frame_delay_ms_ = a.b_frame_delay_ms_ ∧ a6.input_buffer_ = a.input_buffer_ ∧
      a6.buffer_pos = a.buffer_pos := by
    refine ⟨?_, ?_, ?_, ?_, ?_, ?_, ?_⟩
    · rw [e6.1, e5.2.1, k4.2.1]
    · rw [e6.2.1, e5.2.2.1, k4.2.2.1]
    · rw [e6.2.2.1, e5.2.2.2.1, k4.2.2.2.1]
    · rw [e6.2.2.2.1, e5.2.2.2.2.1, k4.2.2.2.2.1]
    · rw [e6.2.2.2.2.1, e5.2.2.2.2.2.1, k4.2.2.2.2.2.1]
    · rw [e6.2.2.2.2.2.1, e5.2.2.2.2.2.2.1, k4.2.2.2.2.2.2.1]
    · rw [e6.2.2.2.2.2.2, e5.2.2.2.2.2.2.2, k4.2.2.2.2.2.2.2]
  -- the computed timestamps
  have hdts : dts_ms = a.frame_dts_ms := by
    simp only [dts_ms, frame_dts_ms]
    rw [e1.2.2.2.2.1]
  have hpts : pts_ms = a.frame_pts_ms := by
    simp only [pts_ms, frame_pts_ms, is_b_frame, hd]
    rw [hdts, e1.2.2.2.2.2.1]
    simp only [decide_eq_true_eq]
  have hval : a2.validateTimestamp dts_ms pts_ms =
      a.validateTimestamp a.frame_dts_ms a.frame_pts_ms := by
    unfold validateTimestamp
    rw [e2.2.1, e1.2.1, hdts, hpts]
  have hframe : frame.h.dts_ms = dts_ms ∧ frame.h.pts_ms = pts_ms ∧ frame.h.has_pts = true := by
    simp only [frame, h1]
    split_ifs <;> exact ⟨rfl, rfl, rfl⟩
  have hframe1 : frame1.h.dts_ms = dts_ms ∧ frame1.h.pts_ms = pts_ms ∧
      frame1.h.has_pts = true := by
    simp only [frame1]
    by_cases hb : is_b_frame = true
    · rw [if_pos hb]
      unfold processBFrameTiming
      split_ifs
      · refine ⟨hframe.1, ?_, hframe.2.2⟩
        simp only []
        rw [hframe.1, k6.2.2.2.2.1]
        simp only [pts_ms, if_pos hb]
        rw [e1.2.2.2.2.2.1]
      · exact hframe
    · rw [if_neg hb]
      exact hframe
  rw [hval] at hr
  by_cases hv : a.validateTimestamp a.frame_dts_ms a.frame_pts_ms = true
  · rw [if_neg (not_not.mpr hv)] at hr
    simp only [hv, if_true, add_zero]
    by_cases hw : ¬a4.stream_started_ = true ∧ ¬a4.hot_start_ = true ∧ ¬frame.h.keyframe = true
    · rw [if_pos hw] at hr
      subst hr
      exact ⟨[], by rw [List.append_nil]; exact k4.1, by simp, by simp, by simp,
        fun _ => k4.2.1, k4.2.2.1, k4.2.2.2.1, k4.2.2.2.2.1, k4.2.2.2.2.2.1,
        k4.2.2.2.2.2.2.1, k4.2.2.2.2.2.2.2⟩
    · rw [if_neg hw] at hr
      by_cases hdrop : a6.drop_b_in_low_latency_ = true ∧ is_b_frame = true ∧
          ¬frame1.h.keyframe = true
      · rw [if_pos hdrop] at hr
        subst hr
        -- a dropped frame is not a key-frame, so nothing was re-sent
        have hkf : frame1.h.keyframe = frame.h.keyframe := by
          simp only [frame1, if_pos hdrop.2.1]
          unfold processBFrameTiming
          split_ifs <;> rfl
        have h6 : a6.pushed_frames = a5.pushed_frames := by
          simp only [a6]
          rw [if_neg]
          intro hc
          exact hdrop.2.2 (hkf ▸ hc.2.2)
        refine ⟨[], by rw [List.append_nil, h6, e5.1]; exact k4.1, by simp, by simp, by simp,
          fun _ => k6.1, k6.2.1, k6.2.2.1, k6.2.2.2.1, k6.2.2.2.2.1,
          k6.2.2.2.2.2.1, k6.2.2.2.2.2.2⟩
      · rw [if_neg hdrop] at hr
        subst hr
        simp only []
        by_cases hre : a5.hot_start_ = true ∧ a5.stream_started_ = true ∧
            frame.h.keyframe = true
        · have h6 : a6.pushed_frames = a5.pushed_frames ++ a5.resend_parameter_sets frame := by
            simp only [a6]
            rw [if_pos hre]
          refine ⟨a5.resend_parameter_sets frame ++ [frame1], ?_, ?_, fun _ => trivial,
            fun _ => hdts, by simp, k6.2.1, k6.2.2.1, k6.2.2.2.1, k6.2.2.2.2.1,
            k6.2.2.2.2.2.1, k6.2.2.2.2.2.2⟩
          · rw [h6, e5.1, k4.1, List.append_assoc]
          · intro f hf
            rcases List.mem_append.mp hf with hf | hf
            · obtain ⟨g1, g2, g3⟩ := resend_parameter_sets_timing a5 frame f hf
              rw [g1, g2, g3, hframe.1, hframe.2.1, hframe.2.2, hdts, hpts]
              exact ⟨rfl, rfl, rfl⟩
            · simp only [List.mem_singleton] at hf
              subst hf
              rw [hframe1.1, hframe1.2.1, hframe1.2.2, hdts, hpts]
              exact ⟨rfl, rfl, rfl⟩
        · have h6 : a6.pushed_frames = a5.pushed_frames := by
            simp only [a6]
            rw [if_neg hre]
          refine ⟨[frame1], ?_, ?_, fun _ => trivial,
            fun _ => hdts, by simp, k6.2.1, k6.2.2.1, k6.2.2.2.1, k6.2.2.2.2.1,
            k6.2.2.2.2.2.1, k6.2.2.2.2.2.2⟩
          · rw [h6, e5.1, k4.1]
          · intro f hf
            simp only [List.mem_singleton] at hf
            subst hf
            rw [hframe1.1, hframe1.2.1, hframe1.2.2, hdts, hpts]
            exact ⟨rfl, rfl, rfl⟩
  · rw [if_pos hv] at hr
    subst hr
    simp only [hv, if_false]
    refine ⟨[], ?_, by simp, by simp, by simp, fun _ => ?_, ?_, ?_, ?_, ?_, ?_, ?_⟩
    · rw [List.append_nil]; exact e2.1.trans e1.1
    · exact e2.2.1.trans e1.2.1
    · show a2.stats_.invalid_timestamps + 1 = a.stats_.invalid_timestamps + 1
      rw [e2.2.2.1, e1.2.2.1]
    · exact e2.2.2.2.1.trans e1.2.2.2.1
    · exact e2.2.2.2.2.1.trans e1.2.2.2.2.1
    · exact e2.2.2.2.2.2.1.trans e1.2.2.2.2.2.1
    · exact e2.2.2.2.2.2.2.1.trans e1.2.2.2.2.2.2.1
    · exact e2.2.2.2.2.2.2.2.trans e1.2.2.2.2.2.2.2

/-- The four checks of `validateTimestamp`. -/
theorem validateTimestamp_eq_true_iff (a : MyProtoAdapter) (d p : Int) :
    a.validateTimestamp d p = true ↔
      0 ≤ d ∧ 0 ≤ p ∧ ¬ (a.last_dts_ms_ > 0 ∧ d < a.last_dts_ms_) ∧ d ≤ p := by
  unfold validateTimestamp
  split_ifs with h1 h2 h3
  · constructor
    · intro h; exact absurd h (by decide)
    · intro h; omega
  · constructor
    · intro h; exact absurd h (by decide)
    · intro h; exact absurd h2 h.2.2.1
  · constructor
    · intro h; exact absurd h (by decide)
    · intro h; omega
  · constructor
    · intro _; refine ⟨by omega, by omega, h2, by omega⟩
    · intro _; rfl

/-- The heartbeat check changes neither the timing members nor the frames handed on. -/
theorem heartbeat_check_timing (a : MyProtoAdapter) (now : Int) :
    (a.heartbeat_check now).pushed_frames = a.pushed_frames ∧
    (a.heartbeat_check now).last_dts_ms_ = a.last_dts_ms_ ∧
    (a.heartbeat_check now).has_base_timestamp_ = a.has_base_timestamp_ ∧
    (a.heartbeat_check now).base_timestamp_ms_ = a.base_timestamp_ms_ ∧
    (a.heartbeat_check now).b_frame_delay_ms_ = a.b_frame_delay_ms_ ∧
    (a.heartbeat_check now).stats_ = a.stats_ := by
  unfold heartbeat_check
  split_ifs <;> exact ⟨rfl, rfl, rfl, rfl, rfl, rfl⟩

/-- The invariant of the states reached from a state that satisfies it: `last_dts_ms_` is
not negative and bounds the `dts_ms` of every frame handed downstream, these `dts_ms` are
in non-decreasing order, and every such frame has `has_pts` and `pts_ms ≥ dts_ms`. -/
theorem reachable_timing_invariant (a0 a : MyProtoAdapter) (h : ReachableFrom a0 a)
    (h0 : 0 ≤ a0.last_dts_ms_ ∧ (∀ f ∈ a0.pushed_frames, f.h.dts_ms ≤ a0.last_dts_ms_) ∧
      (a0.pushed_frames.map fun f => f.h.dts_ms).Pairwise (fun x y => x ≤ y) ∧
      (∀ f ∈ a0.pushed_frames, f.h.has_pts = true ∧ f.h.dts_ms ≤ f.h.pts_ms)) :
    0 ≤ a.last_dts_ms_ ∧ (∀ f ∈ a.pushed_frames, f.h.dts_ms ≤ a.last_dts_ms_) ∧
      (a.pushed_frames.map fun f => f.h.dts_ms).Pairwise (fun x y => x ≤ y) ∧
      (∀ f ∈ a.pushed_frames, f.h.has_pts = true ∧ f.h.dts_ms ≤ f.h.pts_ms) := by
  induction h with
  | refl => exact h0
  | parse a s buf pos hd payload _ ih => exact ih
  | heartbeat a now _ ih =>
    obtain ⟨e1, e2, _⟩ := heartbeat_check_timing a now
    rw [e1, e2]
    exact ih
  | frame a now _ ih =>
    obtain ⟨i1, i2, i3, i4⟩ := ih
    obtain ⟨extra, hp, hx, hv, hl1, hl0, _⟩ := createStdFrame_spec a now
    by_cases hne : extra = []
    · rw [hp, hl0 hne, hne, List.append_nil]
      exact ⟨i1, i2, i3, i4⟩
    · have hval := (validateTimestamp_eq_true_iff a _ _).mp (hv hne)
      have hge : a.last_dts_ms_ ≤ a.frame_dts_ms := by
        by_cases hpos : a.last_dts_ms_ > 0
        · by_contra hc
          exact hval.2.2.1 ⟨hpos, by omega⟩
        · omega
      rw [hp, hl1 hne]
      refine ⟨hval.1, ?_, ?_, ?_⟩
      · intro f hf
        rcases List.mem_append.mp hf with hf | hf
        · have := i2 f hf
          omega
        · rw [(hx f hf).1]
      · rw [List.map_append, List.pairwise_append]
        refine ⟨i3, ?_, ?_⟩
        · rw [List.pairwise_map]
          have htriv : extra.Pairwise (fun _ _ => True) :=
            List.pairwise_of_forall (fun _ _ => trivial)
          refine List.Pairwise.imp_of_mem ?_ htriv
          intro x y hx1 hy1 _
          rw [(hx x hx1).1, (hx y hy1).1]
        · intro x hx1 y hy1
          obtain ⟨f, hf, rfl⟩ := List.mem_map.mp hx1
          obtain ⟨g, hg, rfl⟩ := List.mem_map.mp hy1
          have := i2 f hf
          rw [(hx g hg).1]
          omega
      · intro f hf
        rcases List.mem_append.mp hf with hf | hf
        · exact i4 f hf
        · obtain ⟨g1, g2, g3⟩ := hx f hf
          rw [g1, g2]
          exact ⟨g3, hval.2.2.2⟩

/-- A freshly started adapter satisfies the timing invariant. -/
theorem fresh_timing_invariant (init : AdapterInit) :
    0 ≤ (fresh init).last_dts_ms_ ∧
    (∀ f ∈ (fresh init).pushed_frames, f.h.dts_ms ≤ (fresh init).last_dts_ms_) ∧
    ((fresh init).pushed_frames.map fun f => f.h.dts_ms).Pairwise (fun x y => x ≤ y) ∧
    (∀ f ∈ (fresh init).pushed_frames, f.h.has_pts = true ∧ f.h.dts_ms ≤ f.h.pts_ms) := by
  have hp : (fresh init).pushed_frames = [] := rfl
  have hl : (fresh init).last_dts_ms_ = 0 := rfl
  rw [hp, hl]
  simp

/-- Processing a complete frame keeps the state reachable. -/
theorem process_frame_reachable (a0 a : MyProtoAdapter) (hd : MyProtoFrame) (payload : List Nat)
    (now : Int) (h : ReachableFrom a0 a) : ReachableFrom a0 (a.process_frame hd payload now) := by
  unfold process_frame
  exact ReachableFrom.frame _ now
    (ReachableFrom.parse a a.state_ a.input_buffer_ a.buffer_pos hd payload h)

/-- Processing a sequence of complete frames keeps the state reachable. -/
theorem process_frames_reachable (a0 : MyProtoAdapter)
    (frames : List (MyProtoFrame × List Nat × Int)) :
    ∀ a, ReachableFrom a0 a → ReachableFrom a0 (process_frames a frames) := by
  induction frames with
  | nil => intro a h; exact h
  | cons f fs ih =>
    intro a h
    unfold process_frames
    rw [List.foldl_cons]
    exact ih _ (process_frame_reachable a0 a f.1 f.2.1 f.2.2 h)

/-- The base timestamp, once set, and the B-frame delay stay as they are. -/
theorem reachable_base_invariant (a0 a : MyProtoAdapter) (h : ReachableFrom a0 a)
    (hb : a0.has_base_timestamp_ = true) :
    a.has_base_timestamp_ = true ∧ a.base_timestamp_ms_ = a0.base_timestamp_ms_ ∧
      a.b_frame_delay_ms_ = a0.b_frame_delay_ms_ := by
  induction h with
  | refl => exact ⟨hb, rfl, rfl⟩
  | parse a s buf pos hd payload _ ih => exact ih
  | heartbeat a now _ ih =>
    obtain ⟨_, _, e3, e4, e5, _⟩ := heartbeat_check_timing a now
    rw [e3, e4, e5]
    exact ih
  | frame a now _ ih =>
    obtain ⟨_, _, _, _, _, _, _, g1, g2, g3, _⟩ := createStdFrame_spec a now
    rw [g1, g2, g3, if_pos ih.1]
    exact ⟨rfl, ih.2.1, ih.2.2⟩

/-- The method `parseHeader` keeps the state reachable. -/
theorem reachable_parseHeader (a0 a : MyProtoAdapter) (sizeof_frame : Nat)
    (h : ReachableFrom a0 a) : ReachableFrom a0 (parseHeader sizeof_frame a).2 := by
  unfold parseHeader
  simp only []
  split_ifs
  · exact h
  · exact ReachableFrom.parse a a.state_ a.input_buffer_ _ _ a.payload_buffer_ h
  · exact ReachableFrom.parse a a.state_ a.input_buffer_ _ _ a.payload_buffer_ h
  · exact ReachableFrom.parse a .STATE_PAYLOAD a.input_buffer_ _ _ [] h

/-- The method `parsePayload` keeps the state reachable. -/
theorem reachable_parsePayload (a0 a : MyProtoAdapter) (h : ReachableFrom a0 a) :
    ReachableFrom a0 a.parsePayload := by
  unfold parsePayload
  simp only []
  split_ifs
  · exact ReachableFrom.parse a .STATE_COMPLETE a.input_buffer_ _ a.frame_header_ _ h
  · exact ReachableFrom.parse a a.state_ a.input_buffer_ _ a.frame_header_ _ h
  · exact ReachableFrom.parse a .STATE_COMPLETE a.input_buffer_ a.buffer_pos a.frame_header_
      a.payload_buffer_ h
  · exact h

/-- The parse loop of `feed` keeps the state reachable. -/
theorem reachable_feed_loop (a0 : MyProtoAdapter) (sizeof_frame : Nat) (now_ms : Int) :
    ∀ (fuel : Nat) (a : MyProtoAdapter) (r : Option SrsError × MyProtoAdapter),
      ReachableFrom a0 a → feed_loop sizeof_frame fuel now_ms a = some r →
      ReachableFrom a0 r.2 := by
  intro fuel
  induction fuel with
  | zero =>
    intro a r h hr
    unfold feed_loop at hr
    split_ifs at hr
    simp only [Option.some.injEq] at hr
    subst hr
    exact h
  | succ fuel ih =>
    intro a r h hr
    unfold feed_loop at hr
    split_ifs at hr
    · cases hst : a.state_ with
      | STATE_HEADER =>
        rw [hst] at hr
        simp only [] at hr
        have hp := reachable_parseHeader a0 a sizeof_frame h
        cases hc : parseHeader sizeof_frame a with
        | mk e a1 =>
          rw [hc] at hr hp
          cases e with
          | none => exact ih a1 r hp hr
          | some e =>
            simp only [Option.some.injEq] at hr
            subst hr
            exact hp
      | STATE_PAYLOAD =>
        rw [hst] at hr
        exact ih _ r (reachable_parsePayload a0 a h) hr
      | STATE_COMPLETE =>
        rw [hst] at hr
        refine ih _ r ?_ hr
        exact ReachableFrom.parse _ .STATE_HEADER _ _ _ _ (ReachableFrom.frame a now_ms h)
    · simp only [Option.some.injEq] at hr
      subst hr
      exact h

/-- Every state a returning `feed` call leaves is reachable. -/
theorem reachable_feed (a0 a : MyProtoAdapter) (sizeof_frame fuel : Nat) (data : List Nat)
    (now_ms : Int) (r : Option SrsError × MyProtoAdapter) (h : ReachableFrom a0 a)
    (hr : feed sizeof_frame fuel a data now_ms = some r) : ReachableFrom a0 r.2 := by
  unfold feed at hr
  simp only at hr
  have h1 : ReachableFrom a0
      { (a.heartbeat_check now_ms) with
        input_buffer_ := (a.heartbeat_check now_ms).input_buffer_ ++ data } :=
    ReachableFrom.parse _ (a.heartbeat_check now_ms).state_ _ (a.heartbeat_check now_ms).buffer_pos
      (a.heartbeat_check now_ms).frame_header_ (a.heartbeat_check now_ms).payload_buffer_
      (ReachableFrom.heartbeat a now_ms h)
  split_ifs at hr
  · simp only [Option.some.injEq] at hr
    subst hr
    exact h1
  · have h2 : ReachableFrom a0
        { (a.heartbeat_check now_ms) with
          input_buffer_ := (a.heartbeat_check now_ms).input_buffer_ ++ data
          buffer_pos := 0 } :=
      ReachableFrom.parse _ (a.heartbeat_check now_ms).state_ _ 0
        (a.heartbeat_check now_ms).frame_header_ (a.heartbeat_check now_ms).payload_buffer_
        (ReachableFrom.heartbeat a now_ms h)
    cases hl : feed_loop sizeof_frame fuel now_ms
        { (a.heartbeat_check now_ms) with
          input_buffer_ := (a.heartbeat_check now_ms).input_buffer_ ++ data
          buffer_pos := 0 } with
    | none => rw [hl] at hr; simp at hr
    | some r3 =>
      have h3 := reachable_feed_loop a0 sizeof_frame now_ms fuel _ r3 h2 hl
      rw [hl] at hr
      obtain ⟨e, a3⟩ := r3
      cases e with
      | some e =>
        simp only [Option.some.injEq] at hr
        subst hr
        exact h3
      | none =>
        simp only [] at hr
        split_ifs at hr
        · simp only [Option.some.injEq] at hr
          subst hr
          exact ReachableFrom.parse a3 a3.state_ _ a3.buffer_pos a3.frame_header_
            a3.payload_buffer_ h3
        · simp only [Option.some.injEq] at hr
          subst hr
          exact h3

/-- C12. In every state reachable from a freshly started adapter, whatever its parameters
(`hot_start`, `low_latency_drop_b`, `b_frame_delay_ms`) and whatever complete frames
`createStdFrame` has processed, the frames handed downstream are in non-decreasing
`dts_ms` order: each one has a `dts_ms` not below that of every frame handed on before. -/
theorem emitted_dts_non_decreasing (init : AdapterInit) (a : MyProtoAdapter)
    (h : ReachableFrom (fresh init) a) :
    (a.pushed_frames.map fun f => f.h.dts_ms).Pairwise (fun x y => x ≤ y) :=
  (reachable_timing_invariant (fresh init) a h (fresh_timing_invariant init)).2.2.1

set_option maxRecDepth 100000 in
/-- C12 (witness). Hot start, the four frames of `hot_start_frames`: the key-frame goes
downstream after its two parameter sets, the step back is rejected; the `dts_ms` handed
on are 0, 0, 0, 40, 80. -/
theorem emitted_dts_non_decreasing_witness :
    ((process_frames (fresh hot_start_init) hot_start_frames).pushed_frames.map
      fun f => f.h.dts_ms) = [0, 0, 0, 40, 80] ∧
    ((process_frames (fresh hot_start_init) hot_start_frames).pushed_frames.map
      fun f => f.h.dts_ms).Pairwise (fun x y => x ≤ y) :=
  ⟨by decide,
    emitted_dts_non_decreasing hot_start_init _
      (process_frames_reachable _ hot_start_frames _ ReachableFrom.refl)⟩

/-- C13. In every state reachable from a freshly started adapter, for every header and
every `b_frame_delay_ms`, each frame handed downstream (the parameter-set frames re-sent
in hot-start mode included) has `has_pts = true` and `pts_ms ≥ dts_ms`. -/
theorem emitted_frames_have_pts_not_below_dts (init : AdapterInit) (a : MyProtoAdapter)
    (h : ReachableFrom (fresh init) a) :
    ∀ f ∈ a.pushed_frames, f.h.has_pts = true ∧ f.h.pts_ms ≥ f.h.dts_ms :=
  (reachable_timing_invariant (fresh init) a h (fresh_timing_invariant init)).2.2.2

set_option maxRecDepth 100000 in
/-- C13 (witness). Hot start, the four frames of `hot_start_frames`: five frames go
downstream, with (`dts_ms`, `pts_ms`) = (0,0), (0,0), (0,0), (40,80), (80,80). -/
theorem emitted_frames_have_pts_not_below_dts_witness :
    (process_frames (fresh hot_start_init) hot_start_frames).pushed_timestamps =
      [(0, 0), (0, 0), (0, 0), (40, 80), (80, 80)] ∧
    ∀ f ∈ (process_frames (fresh hot_start_init) hot_start_frames).pushed_frames,
      f.h.has_pts = true ∧ f.h.pts_ms ≥ f.h.dts_ms :=
  ⟨by decide,
    emitted_frames_have_pts_not_below_dts hot_start_init _
      (process_frames_reachable _ hot_start_frames _ ReachableFrom.refl)⟩

/-- C14. In every state reachable from a freshly started adapter and for every complete
frame in the parser members, `createStdFrame` rejects the frame (one more
`invalid_timestamps`, nothing handed downstream, `last_dts_ms_` as before) if and only if
the computed `dts_ms` is below `last_dts_ms_` or the computed `pts_ms` is below the
computed `dts_ms`. -/
theorem createStdFrame_rejects_iff (init : AdapterInit) (a : MyProtoAdapter) (now : Int)
    (h : ReachableFrom (fresh init) a) :
    ((a.createStdFrame now).stats_.invalid_timestamps = a.stats_.invalid_timestamps + 1 ∧
      (a.createStdFrame now).pushed_frames = a.pushed_frames ∧
      (a.createStdFrame now).last_dts_ms_ = a.last_dts_ms_) ↔
    (a.frame_dts_ms < a.last_dts_ms_ ∨ a.frame_pts_ms < a.frame_dts_ms) := by
  have hlast := (reachable_timing_invariant (fresh init) a h (fresh_timing_invariant init)).1
  obtain ⟨extra, hp, _, hv, _, hl0, hinv, _⟩ := createStdFrame_spec a now
  have hval := validateTimestamp_eq_true_iff a a.frame_dts_ms a.frame_pts_ms
  constructor
  · rintro ⟨h1, _, _⟩
    rw [hinv] at h1
    by_cases hvt : a.validateTimestamp a.frame_dts_ms a.frame_pts_ms = true
    · rw [if_pos hvt] at h1
      omega
    · rw [hval] at hvt
      by_contra hc
      apply hvt
      refine ⟨by omega, by omega, ?_, by omega⟩
      intro hcc
      omega
  · intro hc
    have hvt : ¬ a.validateTimestamp a.frame_dts_ms a.frame_pts_ms = true := by
      rw [hval]
      intro hcc
      rcases hc with hc | hc
      · by_cases hpos : a.last_dts_ms_ > 0
        · exact hcc.2.2.1 ⟨hpos, hc⟩
        · omega
      · omega
    have hne : extra = [] := by
      by_contra hne
      exact hvt (hv hne)
    refine ⟨?_, ?_, hl0 hne⟩
    · rw [hinv, if_neg hvt]
    · rw [hp, hne, List.append_nil]

set_option maxRecDepth 100000 in
/-- C14 (witness). In `backward_state` the last frame handed on has `dts_ms = 40` and the
complete frame steps back to `dts_ms = 20`: it is rejected. -/
theorem createStdFrame_rejects_iff_witness :
    backward_state.last_dts_ms_ = 40 ∧ backward_state.frame_dts_ms = 20 ∧
    ((backward_state.createStdFrame 40).stats_.invalid_timestamps =
        backward_state.stats_.invalid_timestamps + 1 ∧
      (backward_state.createStdFrame 40).pushed_frames = backward_state.pushed_frames ∧
      (backward_state.createStdFrame 40).last_dts_ms_ = backward_state.last_dts_ms_) :=
  ⟨by decide, by decide,
    (createStdFrame_rejects_iff hot_start_init backward_state 40
      (ReachableFrom.parse _ _ _ _ _ _
        (process_frames_reachable _ (hot_start_frames.take 2) _ ReachableFrom.refl))).mpr
      (Or.inl (by decide))⟩

/-- C15. Let the first frame processed after start have the timestamp `t0` (key-frame or
not). In every state reached from there, every frame that `createStdFrame` hands
downstream for a complete frame with timestamp `t` has `dts_ms = t / 1000 - t0 / 1000`,
and `pts_ms = dts_ms + b_frame_delay_ms` when bit 1 of the flags is set, else
`pts_ms = dts_ms`. -/
theorem later_frames_timestamps (init : AdapterInit) (hd0 : MyProtoFrame) (payload0 : List Nat)
    (now0 : Int) (a : MyProtoAdapter) (now : Int)
    (h : ReachableFrom ((fresh init).process_frame hd0 payload0 now0) a) :
    ∀ f ∈ (a.createStdFrame now).pushed_frames, f ∈ a.pushed_frames ∨
      (f.h.dts_ms =
          ((a.frame_header_.timestamp / 1000 : Nat) : Int) - ((hd0.timestamp / 1000 : Nat) : Int) ∧
       f.h.pts_ms =
          if a.frame_header_.flags &&& 0x02 ≠ 0 then f.h.dts_ms + init.b_frame_delay_ms
          else f.h.dts_ms) := by
  obtain ⟨_, _, _, _, _, _, _, g1, g2, g3, _⟩ := createStdFrame_spec
    ({ fresh init with frame_header_ := hd0, payload_buffer_ := payload0 }) now0
  have hb0 : ((fresh init).process_frame hd0 payload0 now0).has_base_timestamp_ = true := g1
  have ht0 : ((fresh init).process_frame hd0 payload0 now0).base_timestamp_ms_ =
      ((hd0.timestamp / 1000 : Nat) : Int) := by
    unfold process_frame
    rw [g2]
    rfl
  have hdel : ((fresh init).process_frame hd0 payload0 now0).b_frame_delay_ms_ =
      init.b_frame_delay_ms := by
    unfold process_frame
    rw [g3]
    rfl
  obtain ⟨i1, i2, i3⟩ := reachable_base_invariant _ a h hb0
  rw [ht0] at i2
  rw [hdel] at i3
  obtain ⟨extra, hp, hx, _⟩ := createStdFrame_spec a now
  intro f hf
  rw [hp] at hf
  rcases List.mem_append.mp hf with hf | hf
  · exact Or.inl hf
  · right
    obtain ⟨e1, e2, _⟩ := hx f hf
    have hdts : a.frame_dts_ms =
        ((a.frame_header_.timestamp / 1000 : Nat) : Int) - ((hd0.timestamp / 1000 : Nat) : Int) := by
      unfold frame_dts_ms
      simp only [i1, if_true, i2]
    refine ⟨by rw [e1, hdts], ?_⟩
    rw [e2, e1]
    unfold frame_pts_ms
    rw [i3]

set_option maxRecDepth 100000 in
/-- C15 (witness). Scenario B: a key-frame at t = 0 and a B-frame at t = 40000 with the
B-frame delay 40 go downstream with (`dts_ms`, `pts_ms`) = (0,0) and (40,80). -/
theorem later_frames_timestamps_witness :
    (scenario_b_second.createStdFrame 40).pushed_timestamps = [(0, 0), (40, 80)] ∧
    ∀ f ∈ (scenario_b_second.createStdFrame 40).pushed_frames,
      f ∈ scenario_b_second.pushed_frames ∨
      (f.h.dts_ms =
          ((scenario_b_second.frame_header_.timestamp / 1000 : Nat) : Int) -
            (((video_header 0 0x01).timestamp / 1000 : Nat) : Int) ∧
       f.h.pts_ms =
          if scenario_b_second.frame_header_.flags &&& 0x02 ≠ 0 then
            f.h.dts_ms + (AdapterInit.default "v" "a" "s").b_frame_delay_ms
          else f.h.dts_ms) :=
  ⟨by decide,
    later_frames_timestamps (AdapterInit.default "v" "a" "s") (video_header 0 0x01)
      [0x65, 0x01, 0x02, 0x03] 0 scenario_b_second 40
      (ReachableFrom.parse _ _ _ _ _ _ ReachableFrom.refl)⟩

/-- The three outcomes of `parseHeader`: too few bytes, a rejected header (the error is
returned with the header read and the position behind it), an accepted header. -/
theorem parseHeader_cases (sizeof_frame : Nat) (a : MyProtoAdapter) :
    (a.left < sizeof_frame ∧ parseHeader sizeof_frame a = (none, a)) ∨
    (sizeof_frame ≤ a.left ∧ header_rejected (read_header a.input_buffer_ a.buffer_pos) ∧
      ∃ e, parseHeader sizeof_frame a =
        (some e, { a with frame_header_ := read_header a.input_buffer_ a.buffer_pos,
                          buffer_pos := a.buffer_pos + HEADER_WIRE_SIZE })) ∨
    (sizeof_frame ≤ a.left ∧ ¬ header_rejected (read_header a.input_buffer_ a.buffer_pos) ∧
      parseHeader sizeof_frame a =
        (none, { a with frame_header_ := read_header a.input_buffer_ a.buffer_pos,
                        buffer_pos := a.buffer_pos + HEADER_WIRE_SIZE,
                        payload_buffer_ := [], state_ := .STATE_PAYLOAD })) := by
  unfold parseHeader header_rejected
  by_cases hl : a.left < sizeof_frame
  · left
    exact ⟨hl, by rw [if_pos hl]⟩
  · right
    rw [if_neg hl]
    simp only []
    by_cases hm : (read_header a.input_buffer_ a.buffer_pos).magic ≠ 0x12345678
    · left
      refine ⟨by omega, Or.inl hm, .invalidMagic, ?_⟩
      unfold read_header at hm
      simp only [] at hm
      rw [if_pos hm]
      rfl
    · have hm2 := hm
      unfold read_header at hm2
      simp only [] at hm2
      rw [if_neg hm2]
      by_cases hlen : (read_header a.input_buffer_ a.buffer_pos).length > 1048576
      · left
        refine ⟨by omega, Or.inr hlen, .payloadTooLarge, ?_⟩
        unfold read_header at hlen
        simp only [] at hlen
        rw [if_pos (by omega)]
        rfl
      · right
        refine ⟨by omega, by tauto, ?_⟩
        unfold read_header at hlen
        simp only [] at hlen
        rw [if_neg (by omega)]
        rfl

/-- The method `parsePayload` leaves the input buffer alone and moves the read position
forward only. -/
theorem parsePayload_buffer (a : MyProtoAdapter) :
    a.parsePayload.input_buffer_ = a.input_buffer_ ∧ a.buffer_pos ≤ a.parsePayload.buffer_pos := by
  unfold parsePayload
  simp only []
  split_ifs <;> simp

/-- An error return of the parse loop: it comes from `parseHeader`, so the state is Header,
the header just read is a rejected one, the read position is right behind it, and the
input buffer is what it was. -/
theorem feed_loop_error (sizeof_frame : Nat) (now_ms : Int) :
    ∀ (fuel : Nat) (a : MyProtoAdapter) (e : SrsError) (a1 : MyProtoAdapter),
      feed_loop sizeof_frame fuel now_ms a = some (some e, a1) →
      a1.input_buffer_ = a.input_buffer_ ∧ a1.state_ = .STATE_HEADER ∧
      a.buffer_pos + HEADER_WIRE_SIZE ≤ a1.buffer_pos ∧
      a1.frame_header_ = read_header a1.input_buffer_ (a1.buffer_pos - HEADER_WIRE_SIZE) ∧
      header_rejected a1.frame_header_ := by
  intro fuel
  induction fuel with
  | zero =>
    intro a e a1 h
    unfold feed_loop at h
    split_ifs at h
    simp at h
  | succ fuel ih =>
    intro a e a1 h
    unfold feed_loop at h
    split_ifs at h with hleft
    · cases hst : a.state_ with
      | STATE_HEADER =>
        rw [hst] at h
        simp only [] at h
        rcases parseHeader_cases sizeof_frame a with ⟨_, hp⟩ | ⟨_, hrej, e2, hp⟩ | ⟨_, _, hp⟩
        · rw [hp] at h
          exact ih a e a1 h
        · rw [hp] at h
          simp only [Option.some.injEq, Prod.mk.injEq] at h
          obtain ⟨_, h2⟩ := h
          subst h2
          refine ⟨rfl, hst, le_refl _, ?_, ?_⟩
          · simp only [Nat.add_sub_cancel]
          · exact hrej
        · rw [hp] at h
          obtain ⟨i1, i2, i3, i4, i5⟩ := ih _ e a1 h
          refine ⟨i1, i2, ?_, i4, i5⟩
          simp only [] at i3
          omega
      | STATE_PAYLOAD =>
        rw [hst] at h
        simp only [] at h
        obtain ⟨i1, i2, i3, i4, i5⟩ := ih _ e a1 h
        obtain ⟨p1, p2⟩ := parsePayload_buffer a
        exact ⟨i1.trans p1, i2, by omega, i4, i5⟩
      | STATE_COMPLETE =>
        rw [hst] at h
        simp only [] at h
        obtain ⟨i1, i2, i3, i4, i5⟩ := ih _ e a1 h
        obtain ⟨_, _, _, _, _, _, _, _, _, _, c1, c2⟩ := createStdFrame_spec a now_ms
        simp only [] at i1 i3
        refine ⟨i1.trans c1, i2, ?_, i4, i5⟩
        rw [c2] at i3
        exact i3
    · simp at h

/-- In state Header with a complete header buffered, a rejected header makes the parse
loop return an error at once, with the read position right behind the header. -/
theorem feed_loop_rejected (sizeof_frame fuel : Nat) (now_ms : Int) (a : MyProtoAdapter)
    (hs : a.state_ = .STATE_HEADER) (hl : sizeof_frame ≤ a.left) (h0 : 0 < a.left)
    (hrej : header_rejected (read_header a.input_buffer_ a.buffer_pos)) :
    ∃ e a1, feed_loop sizeof_frame (fuel + 1) now_ms a = some (some e, a1) ∧
      a1.buffer_pos = a.buffer_pos + HEADER_WIRE_SIZE := by
  unfold feed_loop
  simp only [gt_iff_lt, h0, if_true, hs]
  rcases parseHeader_cases sizeof_frame a with ⟨hlt, _⟩ | ⟨_, _, e, hp⟩ | ⟨_, hacc, _⟩
  · omega
  · rw [hp]
    exact ⟨e, _, rfl, rfl⟩
  · exact absurd hrej hacc

/-- An error return of `feed`: nothing has been removed from the input buffer (the new
bytes are appended to it), the state is Header, and the header read last is rejected; the
read position is right behind that header. -/
theorem feed_error (sizeof_frame fuel : Nat) (a : MyProtoAdapter) (data : List Nat)
    (now_ms : Int) (e : SrsError) (a1 : MyProtoAdapter)
    (h : feed sizeof_frame fuel a data now_ms = some (some e, a1)) :
    a1.input_buffer_ = a.input_buffer_ ++ data ∧ a1.state_ = .STATE_HEADER ∧
    HEADER_WIRE_SIZE ≤ a1.buffer_pos ∧
    a1.frame_header_ = read_header a1.input_buffer_ (a1.buffer_pos - HEADER_WIRE_SIZE) ∧
    header_rejected a1.frame_header_ := by
  unfold feed at h
  simp only [] at h
  split_ifs at h with hempty
  · simp at h
  · cases hl : feed_loop sizeof_frame fuel now_ms
        { a.heartbeat_check now_ms with
          input_buffer_ := (a.heartbeat_check now_ms).input_buffer_ ++ data, buffer_pos := 0 } with
    | none => rw [hl] at h; simp at h
    | some r =>
      rw [hl] at h
      obtain ⟨r1, r2⟩ := r
      cases r1 with
      | none =>
        simp only [] at h
        split_ifs at h <;> simp at h
      | some e2 =>
        simp only [Option.some.injEq, Prod.mk.injEq] at h
        obtain ⟨h1, h2⟩ := h
        subst h1 h2
        obtain ⟨i1, i2, i3, i4, i5⟩ := feed_loop_error sizeof_frame now_ms fuel _ e2 r2 hl
        simp only [] at i1 i3
        rw [(heartbeat_check_state a now_ms).2] at i1
        exact ⟨i1, i2, by omega, i4, i5⟩

/-- The decode error of `feed`. Let the adapter be in state Header with at least
`sizeof(MyProtoFrame)` bytes buffered once `data` is appended. Then `feed`
returns a decode error for the header at the front (read position right behind it) if and
only if the magic of that header is not 0x12345678 or its length field exceeds 1048576;
and whenever `feed` returns an error, the input buffer is the old one with `data` appended
(no byte removed), the state is Header, and the header read last is such a header. -/
theorem feed_decode_error_iff_header_rejected (sizeof_frame fuel : Nat) (a : MyProtoAdapter)
    (data : List Nat) (now_ms : Int) (hsize : HEADER_WIRE_SIZE ≤ sizeof_frame)
    (hs : a.state_ = .STATE_HEADER) (hfull : sizeof_frame ≤ (a.input_buffer_ ++ data).length) :
    ((∃ e a1, feed sizeof_frame (fuel + 1) a data now_ms = some (some e, a1) ∧
        a1.buffer_pos = HEADER_WIRE_SIZE) ↔
      header_rejected (read_header (a.input_buffer_ ++ data) 0)) ∧
    (∀ e a1, feed sizeof_frame (fuel + 1) a data now_ms = some (some e, a1) →
      a1.input_buffer_ = a.input_buffer_ ++ data ∧ a1.state_ = .STATE_HEADER ∧
      header_rejected a1.frame_header_) ∧
    (∀ hd : MyProtoFrame, hd.magic = 0x12345678 → hd.length = 1048576 → ¬ header_rejected hd) := by
  refine ⟨⟨?_, ?_⟩, ?_, ?_⟩
  · rintro ⟨e, a1, h, hpos⟩
    obtain ⟨i1, _, _, i4, i5⟩ := feed_error sizeof_frame (fuel + 1) a data now_ms e a1 h
    rw [i4, i1, hpos, Nat.sub_self] at i5
    exact i5
  · intro hrej
    have hsz : 0 < sizeof_frame := by unfold HEADER_WIRE_SIZE at hsize; omega
    obtain ⟨hst, hib⟩ := heartbeat_check_state a now_ms
    unfold feed
    simp only
    have hne : ¬ ((a.heartbeat_check now_ms).input_buffer_ ++ data).isEmpty = true := by
      rw [hib]
      intro h
      rw [List.isEmpty_iff] at h
      rw [h] at hfull
      simp at hfull
      omega
    rw [if_neg hne]
    obtain ⟨e, a1, hl, hpos⟩ := feed_loop_rejected sizeof_frame fuel now_ms
      { (a.heartbeat_check now_ms) with
        input_buffer_ := (a.heartbeat_check now_ms).input_buffer_ ++ data
        buffer_pos := 0 }
      (by simp only [hst, hs])
      (by simp only [left, hib]; omega)
      (by simp only [left, hib]; omega)
      (by simp only [hib]; exact hrej)
    rw [hl]
    exact ⟨e, a1, rfl, by rw [hpos]; simp⟩
  · intro e a1 h
    obtain ⟨i1, i2, _, _, i5⟩ := feed_error sizeof_frame (fuel + 1) a data now_ms e a1 h
    exact ⟨i1, i2, i5⟩
  · intro hd h1 h2
    unfold header_rejected
    omega

set_option maxRecDepth 100000 in
/-- The statement `feed_decode_error_iff_header_rejected` at a freshly started adapter,
`sizeof(MyProtoFrame) = 48`, and the 48 bytes of a frame whose magic is 0x12345679: `feed` returns the magic error and all 48 bytes are
still in the input buffer. -/
theorem feed_decode_error_iff_header_rejected_witness :
    HEADER_WIRE_SIZE ≤ 48 ∧ fresh_default.state_ = .STATE_HEADER ∧
    48 ≤ (fresh_default.input_buffer_ ++ bad_magic_bytes).length ∧
    header_rejected (read_header (fresh_default.input_buffer_ ++ bad_magic_bytes) 0) ∧
    (∃ e a1, feed 48 (0 + 1) fresh_default bad_magic_bytes 0 = some (some e, a1) ∧
      a1.buffer_pos = HEADER_WIRE_SIZE) ∧
    (feed 48 1 fresh_default bad_magic_bytes 0).map (fun r => (r.1, r.2.input_buffer_)) =
      some (some .invalidMagic, bad_magic_bytes) :=
  ⟨by decide, by decide, by decide, by decide,
    (feed_decode_error_iff_header_rejected 48 0 fresh_default bad_magic_bytes 0
      (by decide) (by decide) (by decide)).1.mpr (by decide),
    by decide⟩

/-- A big-endian read inside a buffer does not see what is appended to the buffer. -/
theorem read_be_append (d pad : List Nat) (p n : Nat) (h : p + n ≤ d.length) :
    read_be (d ++ pad) p n = read_be d p n := by
  unfold read_be
  rw [List.drop_append_of_le_length (by omega), List.take_append_of_le_length (by simp; omega)]

/-- The header read at the front of a buffer of at least 35 bytes does not see what is
appended to the buffer. -/
theorem read_header_append (d pad : List Nat) (h : HEADER_WIRE_SIZE ≤ d.length) :
    read_header (d ++ pad) 0 = read_header d 0 := by
  unfold HEADER_WIRE_SIZE at h
  unfold read_header
  rw [read_be_append d pad 0 4 (by omega), read_be_append d pad (0 + 4) 4 (by omega),
    read_be_append d pad (0 + 8) 1 (by omega), read_be_append d pad (0 + 9) 1 (by omega),
    read_be_append d pad (0 + 10) 8 (by omega), read_be_append d pad (0 + 18) 1 (by omega),
    read_be_append d pad (0 + 19) 4 (by omega), read_be_append d pad (0 + 23) 4 (by omega),
    read_be_append d pad (0 + 27) 4 (by omega), read_be_append d pad (0 + 31) 4 (by omega)]

/-- C11 (code defect). A complete header (its 35 wire bytes) is buffered in state Header,
but fewer bytes than `sizeof(MyProtoFrame)`: `feed` does not return, whatever the header
holds, so a header with a wrong magic or a length above 1048576 is not answered with the
decode error. `parseHeader` compares the buffered bytes with the size of the struct, not
with the 35 bytes it reads; it returns success without consuming a byte and the loop of
`feed` calls it again for ever. The same header is rejected as soon as enough further
bytes follow it to fill `sizeof(MyProtoFrame)`. -/
theorem complete_header_below_struct_size_is_not_rejected (sizeof_frame : Nat)
    (a : MyProtoAdapter) (data : List Nat) (now_ms : Int) (hs : a.state_ = .STATE_HEADER)
    (hcomplete : HEADER_WIRE_SIZE ≤ (a.input_buffer_ ++ data).length)
    (hshort : (a.input_buffer_ ++ data).length < sizeof_frame) :
    (∀ fuel, feed sizeof_frame fuel a data now_ms = none) ∧
    (header_rejected (read_header (a.input_buffer_ ++ data) 0) →
      ∀ (pad : List Nat) (fuel : Nat),
        sizeof_frame ≤ (a.input_buffer_ ++ (data ++ pad)).length →
        ∃ e a1, feed sizeof_frame (fuel + 1) a (data ++ pad) now_ms = some (some e, a1)) := by
  constructor
  · exact feed_starved sizeof_frame a data now_ms hs
      (by unfold HEADER_WIRE_SIZE at hcomplete; omega) hshort
  · intro hrej pad fuel hfull
    have hiff := (feed_decode_error_iff_header_rejected sizeof_frame fuel a (data ++ pad) now_ms
      (by omega) hs hfull).1
    have hhd : read_header (a.input_buffer_ ++ (data ++ pad)) 0 =
        read_header (a.input_buffer_ ++ data) 0 := by
      rw [← List.append_assoc]
      exact read_header_append _ pad hcomplete
    obtain ⟨e, a1, h, _⟩ := hiff.mpr (by rw [hhd]; exact hrej)
    exact ⟨e, a1, h⟩

set_option maxRecDepth 100000 in
/-- C11 (witness). A freshly started adapter, `sizeof(MyProtoFrame) = 48`, and the 35 bytes
of a header whose magic is 0x12345679: `feed` does not return. With 13 further bytes the
call returns the magic error. -/
theorem complete_header_below_struct_size_is_not_rejected_witness :
    fresh_default.state_ = .STATE_HEADER ∧
    HEADER_WIRE_SIZE ≤ (fresh_default.input_buffer_ ++ bad_magic_header_bytes).length ∧
    (fresh_default.input_buffer_ ++ bad_magic_header_bytes).length < 48 ∧
    header_rejected (read_header (fresh_default.input_buffer_ ++ bad_magic_header_bytes) 0) ∧
    (∀ fuel, feed 48 fuel fresh_default bad_magic_header_bytes 0 = none) ∧
    (feed 48 1 fresh_default (bad_magic_header_bytes ++ List.replicate 13 0xA1) 0).map
      (fun r => r.1) = some (some .invalidMagic) :=
  ⟨by decide, by decide, by decide, by decide,
    (complete_header_below_struct_size_is_not_rejected 48 fresh_default bad_magic_header_bytes 0
      (by decide) (by decide) (by decide)).1,
    by decide⟩

end MyProtoAdapter

end SrsAdapter

namespace SrsAdapter

namespace MyProtoAdapter

/-- What `createStdFrame` does to the stream state and which frame it hands downstream.
Either nothing is handed on (and with `hot_start` off the stream state stays), or the
frame built from the parser members is handed on last, after the re-sent parameter sets
(none with `hot_start` off); the start callback, if one is registered, runs exactly when
the stream was not started, and with `hot_start` off the frame is then a key-frame. -/
theorem createStdFrame_frame_spec (a : MyProtoAdapter) (now : Int) :
    (a.createStdFrame now).hot_start_ = a.hot_start_ ∧
    (a.createStdFrame now).init_ = a.init_ ∧
    (((a.createStdFrame now).pushed_frames = a.pushed_frames ∧
        (a.hot_start_ = false →
          (a.createStdFrame now).stream_started_ = a.stream_started_ ∧
          (a.createStdFrame now).stream_events = a.stream_events)) ∨
      (∃ pre f, (a.createStdFrame now).pushed_frames = a.pushed_frames ++ pre ++ [f] ∧
        f.payload = a.built_payload ∧ f.h.codec = frame_codec a.frame_header_ ∧
        f.h.keyframe = frame_keyframe a.frame_header_ ∧
        (a.hot_start_ = false → pre = []) ∧
        (a.createStdFrame now).stream_started_ = true ∧
        (a.stream_started_ = true → (a.createStdFrame now).stream_events = a.stream_events) ∧
        (a.stream_started_ = false →
          (a.createStdFrame now).stream_events =
            (if a.on_start_stream_ then
              a.stream_events ++ [.on_start_stream a.init_.vhost a.init_.app a.init_.stream]
            else a.stream_events) ∧
          (a.hot_start_ = false → f.h.keyframe = true)))) := by
  generalize hr : a.createStdFrame now = r
  unfold createStdFrame at hr
  revert hr
  lift_lets
  intro hd timestamp_ms a1 dts_ms is_b_frame pts_ms src1 a2 src2 stream_id src3 h0 h1 st3
    payload frame a3 a4 a5 a6 frame1 src4 hr
  have e1 : a1.pushed_frames = a.pushed_frames ∧ a1.stream_started_ = a.stream_started_ ∧
      a1.stream_events = a.stream_events ∧ a1.hot_start_ = a.hot_start_ ∧ a1.init_ = a.init_ ∧
      a1.payload_buffer_ = a.payload_buffer_ := by
    simp only [a1]
    split_ifs <;> exact ⟨rfl, rfl, rfl, rfl, rfl, rfl⟩
  have e2 : a2.pushed_frames = a1.pushed_frames ∧ a2.stream_started_ = a1.stream_started_ ∧
      a2.stream_events = a1.stream_events ∧ a2.hot_start_ = a1.hot_start_ ∧
      a2.init_ = a1.init_ ∧ a2.payload_buffer_ = a1.payload_buffer_ := by
    simp only [a2]
    split_ifs <;> exact ⟨rfl, rfl, rfl, rfl, rfl, rfl⟩
  have k2 : a2.pushed_frames = a.pushed_frames ∧ a2.stream_started_ = a.stream_started_ ∧
      a2.stream_events = a.stream_events ∧ a2.hot_start_ = a.hot_start_ ∧ a2.init_ = a.init_ ∧
      a2.payload_buffer_ = a.payload_buffer_ :=
    ⟨e2.1.trans e1.1, e2.2.1.trans e1.2.1, e2.2.2.1.trans e1.2.2.1,
      e2.2.2.2.1.trans e1.2.2.2.1, e2.2.2.2.2.1.trans e1.2.2.2.2.1,
      e2.2.2.2.2.2.trans e1.2.2.2.2.2⟩
  have o1 : a1.on_start_stream_ = a.on_start_stream_ := by
    simp only [a1]
    split_ifs <;> rfl
  have o2 : a2.on_start_stream_ = a1.on_start_stream_ := by
    simp only [a2]
    split_ifs <;> rfl
  have c4 : SameExceptParams a3 a4 := processParameterSets_core a3 frame
  have o4 : a4.on_start_stream_ = a.on_start_stream_ :=
    c4.on_start_stream_.trans (o2.trans o1)
  have k4 : a4.pushed_frames = a.pushed_frames ∧ a4.stream_started_ = a.stream_started_ ∧
      a4.stream_events = a.stream_events ∧ a4.hot_start_ = a.hot_start_ ∧
      a4.init_ = a.init_ :=
    ⟨c4.pushed_frames.trans k2.1, c4.stream_started_.trans k2.2.1,
      c4.stream_events.trans k2.2.2.1, c4.hot_start_.trans k2.2.2.2.1,
      c4.init_.trans k2.2.2.2.2.1⟩
  have e5 : a5.pushed_frames = a4.pushed_frames ∧ a5.hot_start_ = a4.hot_start_ ∧
      a5.init_ = a4.init_ ∧ a5.stream_started_ = true ∧
      (a4.stream_started_ = true → a5.stream_events = a4.stream_events) ∧
      (a4.stream_started_ = false → a5.stream_events =
        (if a4.on_start_stream_ then
          a4.stream_events ++ [.on_start_stream a4.init_.vhost a4.init_.app a4.init_.stream]
        else a4.stream_events)) := by
    simp only [a5]
    by_cases hst : a4.stream_started_ = true
    · simp [hst]
    · simp [hst]
  have e6 : a6.hot_start_ = a5.hot_start_ ∧ a6.init_ = a5.init_ ∧
      a6.stream_started_ = a5.stream_started_ ∧ a6.stream_events = a5.stream_events ∧
      ∃ pre, a6.pushed_frames = a5.pushed_frames ++ pre ∧
        (a5.hot_start_ = false → pre = []) ∧
        (¬ frame.h.keyframe = true → pre = []) := by
    simp only [a6]
    by_cases hre : a5.hot_start_ = true ∧ a5.stream_started_ = true ∧ frame.h.keyframe = true
    · rw [if_pos hre]
      refine ⟨rfl, rfl, rfl, rfl, _, rfl, ?_, ?_⟩
      · intro hc
        rw [hre.1] at hc
        cases hc
      · intro hc
        exact absurd hre.2.2 hc
    · rw [if_neg hre]
      exact ⟨rfl, rfl, rfl, rfl, [], (List.append_nil _).symm, fun _ => rfl, fun _ => rfl⟩
  have hcodec : frame.h.codec = frame_codec a.frame_header_ := by
    simp only [frame, h1, frame_codec, hd]
    split_ifs <;> rfl
  have hkey : frame.h.keyframe = frame_keyframe a.frame_header_ := by
    simp only [frame, h1, frame_keyframe, hd]
    split_ifs <;> rfl
  have hpay : frame.payload = a.built_payload := by
    simp only [frame, payload, built_payload]
    rw [k2.2.2.2.2.2]
    have : h1.codec = frame_codec a.frame_header_ := hcodec
    rw [this]
  have hframe1 : frame1.payload = frame.payload ∧ frame1.h.codec = frame.h.codec ∧
      frame1.h.keyframe = frame.h.keyframe := by
    simp only [frame1]
    split_ifs
    · unfold processBFrameTiming
      split_ifs <;> exact ⟨rfl, rfl, rfl⟩
    · exact ⟨rfl, rfl, rfl⟩
  have hnothing_rej : ∀ x : MyProtoAdapter, x.pushed_frames = a2.pushed_frames →
      x.stream_started_ = a2.stream_started_ → x.stream_events = a2.stream_events →
      x.pushed_frames = a.pushed_frames ∧
        (a.hot_start_ = false →
          x.stream_started_ = a.stream_started_ ∧ x.stream_events = a.stream_events) := by
    intro x h1 h2 h3
    exact ⟨h1.trans k2.1, fun _ => ⟨h2.trans k2.2.1, h3.trans k2.2.2.1⟩⟩
  by_cases hv : ¬ a2.validateTimestamp dts_ms pts_ms = true
  · rw [if_pos hv] at hr
    subst hr
    exact ⟨k2.2.2.2.1, k2.2.2.2.2.1, Or.inl (hnothing_rej _ rfl rfl rfl)⟩
  · rw [if_neg hv] at hr
    by_cases hw : ¬a4.stream_started_ = true ∧ ¬a4.hot_start_ = true ∧ ¬frame.h.keyframe = true
    · rw [if_pos hw] at hr
      subst hr
      exact ⟨k4.2.2.2.1, k4.2.2.2.2, Or.inl ⟨k4.1, fun _ => ⟨k4.2.1, k4.2.2.1⟩⟩⟩
    · rw [if_neg hw] at hr
      obtain ⟨g1, g2, g3, g4, pre, g5, g6, g7⟩ := e6
      have hhot6 : a6.hot_start_ = a.hot_start_ := g1.trans (e5.2.1.trans k4.2.2.2.1)
      have hinit6 : a6.init_ = a.init_ := g2.trans (e5.2.2.1.trans k4.2.2.2.2)
      by_cases hdrop : a6.drop_b_in_low_latency_ = true ∧ is_b_frame = true ∧
          ¬frame1.h.keyframe = true
      · rw [if_pos hdrop] at hr
        subst hr
        have hnk : ¬ frame.h.keyframe = true := by
          rw [← hframe1.2.2]
          exact hdrop.2.2
        refine ⟨hhot6, hinit6, Or.inl ⟨?_, ?_⟩⟩
        · rw [g5, g7 hnk, List.append_nil, e5.1, k4.1]
        · intro hhot
          have hst4 : a4.stream_started_ = true := by
            by_contra hc
            apply hw
            refine ⟨hc, ?_, hnk⟩
            rw [k4.2.2.2.1, hhot]
            decide
          constructor
          · rw [g3, e5.2.2.2.1, ← k4.2.1, hst4]
          · rw [g4, e5.2.2.2.2.1 hst4, k4.2.2.1]
      · rw [if_neg hdrop] at hr
        subst hr
        refine ⟨hhot6, hinit6, Or.inr ⟨pre, frame1, ?_, ?_, ?_, ?_, ?_, ?_, ?_, ?_⟩⟩
        · show a6.pushed_frames ++ [frame1] = _
          rw [g5, e5.1, k4.1]
        · rw [hframe1.1, hpay]
        · rw [hframe1.2.1, hcodec]
        · rw [hframe1.2.2, hkey]
        · intro hhot
          apply g6
          rw [e5.2.1, k4.2.2.2.1, hhot]
        · show a6.stream_started_ = true
          rw [g3, e5.2.2.2.1]
        · intro hst
          show a6.stream_events = _
          rw [g4, e5.2.2.2.2.1 (by rw [k4.2.1, hst]), k4.2.2.1]
        · intro hst
          have hst4 : a4.stream_started_ = false := by rw [k4.2.1, hst]
          constructor
          · show a6.stream_events = _
            rw [g4, e5.2.2.2.2.2 hst4, k4.2.2.1, k4.2.2.2.2, o4]
          · intro hhot
            rw [hframe1.2.2]
            by_contra hc
            apply hw
            refine ⟨by rw [hst4]; decide, ?_, hc⟩
            rw [k4.2.2.2.1, hhot]
            decide

/-- Processing a complete frame keeps the state reachable without a timeout. -/
theorem process_frame_reachable_without_timeout (a0 a : MyProtoAdapter) (hd : MyProtoFrame)
    (payload : List Nat) (now : Int) (h : ReachableWithoutTimeout a0 a) :
    ReachableWithoutTimeout a0 (a.process_frame hd payload now) := by
  unfold process_frame
  exact ReachableWithoutTimeout.frame _ now
    (ReachableWithoutTimeout.parse a a.state_ a.input_buffer_ a.buffer_pos hd payload h)

/-- Processing a sequence of complete frames keeps the state reachable without a timeout. -/
theorem process_frames_reachable_without_timeout (a0 : MyProtoAdapter)
    (frames : List (MyProtoFrame × List Nat × Int)) :
    ∀ a, ReachableWithoutTimeout a0 a → ReachableWithoutTimeout a0 (process_frames a frames) := by
  induction frames with
  | nil => intro a h; exact h
  | cons f fs ih =>
    intro a h
    unfold process_frames
    rw [List.foldl_cons]
    exact ih _ (process_frame_reachable_without_timeout a0 a f.1 f.2.1 f.2.2 h)

/-- The check `has_annexb_start` of `createStdFrame` is the statement "begins with a start
code". -/
theorem has_annexb_start_iff (p : List Nat) :
    ((decide (p.length ≥ 4) &&
        decide (p.getD 0 0 = 0x00 ∧ p.getD 1 0 = 0x00 ∧ p.getD 2 0 = 0x00 ∧ p.getD 3 0 = 0x01)) ||
      (decide (p.length ≥ 3) &&
        decide (p.getD 0 0 = 0x00 ∧ p.getD 1 0 = 0x00 ∧ p.getD 2 0 = 0x01))) = true ↔
    begins_with_start_code p := by
  unfold begins_with_start_code
  rcases p with _ | ⟨a, _ | ⟨b, _ | ⟨c, _ | ⟨d, rest⟩⟩⟩⟩
  · simp
  · simp
  · simp
  · simp
  · simp

/-- The payload normalisation for an H.264 or H.265 frame with a non-empty payload. -/
theorem normalize_payload_video (codec : String) (p : List Nat)
    (hc : codec = "H264" ∨ codec = "H265") (hp : p ≠ []) :
    normalize_payload codec p = some (spec_annexb_payload p) := by
  have hne : p.isEmpty = false := by
    cases p with
    | nil => exact absurd rfl hp
    | cons x xs => rfl
  have haac : ¬ (codec = "AAC" ∧ p.length ≥ 7) := by
    rintro ⟨h, _⟩
    rcases hc with hc | hc
    · rw [hc] at h
      exact absurd h (by decide)
    · rw [hc] at h
      exact absurd h (by decide)
  unfold normalize_payload spec_annexb_payload
  rw [hne]
  simp only [Bool.false_eq_true, if_false]
  rw [if_neg haac, if_pos hc]
  by_cases hs : begins_with_start_code p
  · rw [if_pos hs]
    have := (has_annexb_start_iff p).mpr hs
    rw [this]
    simp
  · rw [if_neg hs]
    have : ¬ _ := fun h => hs ((has_annexb_start_iff p).mp h)
    simp only [Bool.not_eq_true] at this
    rw [this]
    simp

/-- The method `createStdFrame` does not touch the start callback member. -/
theorem createStdFrame_keeps_start_callback (a : MyProtoAdapter) (now : Int) :
    (a.createStdFrame now).on_start_stream_ = a.on_start_stream_ := by
  generalize hr : a.createStdFrame now = r
  unfold createStdFrame at hr
  revert hr
  lift_lets
  intro hd timestamp_ms a1 dts_ms is_b_frame pts_ms src1 a2 src2 stream_id src3 h0 h1 st3
    payload frame a3 a4 a5 a6 frame1 src4 hr
  have o1 : a1.on_start_stream_ = a.on_start_stream_ := by
    simp only [a1]
    split_ifs <;> rfl
  have o2 : a2.on_start_stream_ = a.on_start_stream_ := by
    simp only [a2]
    split_ifs
    · exact o1
    · exact o1
  have c4 : SameExceptParams a3 a4 := processParameterSets_core a3 frame
  have o4 : a4.on_start_stream_ = a.on_start_stream_ := c4.on_start_stream_.trans o2
  have o5 : a5.on_start_stream_ = a.on_start_stream_ := by
    simp only [a5]
    by_cases hst : ¬ a4.stream_started_ = true
    · rw [if_pos hst]
      exact o4
    · rw [if_neg hst]
      exact o4
  have o6 : a6.on_start_stream_ = a.on_start_stream_ := by
    simp only [a6]
    by_cases hre : a5.hot_start_ = true ∧ a5.stream_started_ = true ∧ frame.h.keyframe = true
    · rw [if_pos hre]
      exact o5
    · rw [if_neg hre]
      exact o5
  by_cases hv : ¬ a2.validateTimestamp dts_ms pts_ms = true
  · rw [if_pos hv] at hr
    subst hr
    exact o2
  · rw [if_neg hv] at hr
    by_cases hw : ¬a4.stream_started_ = true ∧ ¬a4.hot_start_ = true ∧ ¬frame.h.keyframe = true
    · rw [if_pos hw] at hr
      subst hr
      exact o4
    · rw [if_neg hw] at hr
      by_cases hdrop : a6.drop_b_in_low_latency_ = true ∧ is_b_frame = true ∧
          ¬frame1.h.keyframe = true
      · rw [if_pos hdrop] at hr
        subst hr
        exact o6
      · rw [if_neg hdrop] at hr
        subst hr
        exact o6

/-- C29. With `hot_start` off, in every state reached without a heartbeat timeout from an
adapter that was constructed, given its start callback (or none) by `setOnStartStream` and
started: either nothing has been handed downstream, the start callback has not run and the
stream is not started; or the first frame handed downstream is a key-frame, the stream is
started, and the start callback has run exactly once if one is registered (not at all if
none is, as in a newly constructed adapter). So no frame goes downstream before a key-frame
is accepted, and the callback runs in the call that hands the first key-frame on. -/
theorem no_frame_before_first_keyframe (init : AdapterInit) (callback : Bool)
    (a : MyProtoAdapter) (hhot : init.hot_start = false)
    (hr : ReachableWithoutTimeout (fresh_with_start_callback init callback) a) :
    (a.pushed_frames = [] ∧ a.stream_events = [] ∧ a.stream_started_ = false) ∨
    (∃ f rest, a.pushed_frames = f :: rest ∧ f.h.keyframe = true ∧
      a.stream_events =
        (if callback then [.on_start_stream init.vhost init.app init.stream] else []) ∧
      a.stream_started_ = true) := by
  have hinv : a.hot_start_ = false ∧ a.init_ = init ∧ a.on_start_stream_ = callback ∧
      ((a.pushed_frames = [] ∧ a.stream_events = [] ∧ a.stream_started_ = false) ∨
       (∃ f rest, a.pushed_frames = f :: rest ∧ f.h.keyframe = true ∧
          a.stream_events =
            (if callback then [.on_start_stream init.vhost init.app init.stream] else []) ∧
          a.stream_started_ = true)) := by
    induction hr with
    | refl => exact ⟨hhot, rfl, rfl, Or.inl ⟨rfl, rfl, rfl⟩⟩
    | parse a s buf pos hd payload _ ih => exact ih
    | frame a now _ ih =>
      obtain ⟨ihot, iinit, icb, icase⟩ := ih
      obtain ⟨c1, c2, ccase⟩ := createStdFrame_frame_spec a now
      refine ⟨c1.trans ihot, c2.trans iinit,
        (createStdFrame_keeps_start_callback a now).trans icb, ?_⟩
      rcases ccase with ⟨hp, hst⟩ | ⟨pre, f, hp, _, _, _, hpre, hstarted, hev1, hev0⟩
      · obtain ⟨hs1, hs2⟩ := hst ihot
        rw [hp, hs1, hs2]
        exact icase
      · have hpre0 := hpre ihot
        subst hpre0
        rw [List.append_nil] at hp
        rcases icase with ⟨i1, i2, i3⟩ | ⟨f0, rest, i1, i2, i3, i4⟩
        · right
          obtain ⟨h1, h2⟩ := hev0 i3
          refine ⟨f, [], ?_, h2 ihot, ?_, hstarted⟩
          · rw [hp, i1]
            rfl
          · rw [h1, i2, iinit, icb]
            rfl
        · right
          refine ⟨f0, rest ++ [f], ?_, i2, ?_, hstarted⟩
          · rw [hp, i1]
            rfl
          · rw [hev1 i4, i3]
  exact hinv.2.2.2

set_option maxRecDepth 100000 in
/-- C29 (witness). Default parameters (`hot_start` off) and a registered start callback, a
non-key frame and then a key-frame: the non-key frame is withheld and no callback runs; the
key-frame is the first frame handed downstream and the start callback has run once. With
no callback registered the same frames are handed on and no callback runs. -/
theorem no_frame_before_first_keyframe_witness :
    (process_frames (fresh_with_start_callback (AdapterInit.default "v" "a" "s") true)
      (late_key_frames.take 1)).pushed_frames = [] ∧
    (process_frames (fresh_with_start_callback (AdapterInit.default "v" "a" "s") true)
      (late_key_frames.take 1)).stream_events = [] ∧
    (process_frames (fresh_with_start_callback (AdapterInit.default "v" "a" "s") true)
      late_key_frames).pushed_frames = [late_key_first] ∧
    (process_frames (fresh_with_start_callback (AdapterInit.default "v" "a" "s") true)
      late_key_frames).stream_events = [.on_start_stream "v" "a" "s"] ∧
    (process_frames fresh_default late_key_frames).pushed_frames = [late_key_first] ∧
    (process_frames fresh_default late_key_frames).stream_events = [] ∧
    ((process_frames (fresh_with_start_callback (AdapterInit.default "v" "a" "s") true)
          late_key_frames).pushed_frames = [] ∧
        (process_frames (fresh_with_start_callback (AdapterInit.default "v" "a" "s") true)
          late_key_frames).stream_events = [] ∧
        (process_frames (fresh_with_start_callback (AdapterInit.default "v" "a" "s") true)
          late_key_frames).stream_started_ = false ∨
      ∃ f rest,
        (process_frames (fresh_with_start_callback (AdapterInit.default "v" "a" "s") true)
          late_key_frames).pushed_frames = f :: rest ∧
        f.h.keyframe = true ∧
        (process_frames (fresh_with_start_callback (AdapterInit.default "v" "a" "s") true)
          late_key_frames).stream_events =
          (if true = true then
            [.on_start_stream (AdapterInit.default "v" "a" "s").vhost
              (AdapterInit.default "v" "a" "s").app (AdapterInit.default "v" "a" "s").stream]
          else []) ∧
        (process_frames (fresh_with_start_callback (AdapterInit.default "v" "a" "s") true)
          late_key_frames).stream_started_ = true) :=
  ⟨by decide, by decide, by decide, by decide, by decide, by decide,
    no_frame_before_first_keyframe (AdapterInit.default "v" "a" "s") true
      (process_frames (fresh_with_start_callback (AdapterInit.default "v" "a" "s") true)
        late_key_frames)
      rfl (process_frames_reachable_without_timeout _ late_key_frames _
        ReachableWithoutTimeout.refl)⟩

/-- C30. For every H.264 or H.265 frame (header type 0, codec 0 or 1) with a non-empty
payload `P`: the payload normalisation of `createStdFrame` gives `P` itself when `P` begins
with 00 00 00 01 or with 00 00 01, and 00 00 00 01 followed by `P` otherwise; that payload
begins with a start code; and when `createStdFrame` hands the frame downstream, the frame
carries it. -/
theorem video_payload_begins_with_start_code (a : MyProtoAdapter) (now : Int)
    (htype : a.frame_header_.type = 0)
    (hcodec : a.frame_header_.codec = 0 ∨ a.frame_header_.codec = 1)
    (hp : a.payload_buffer_ ≠ []) :
    normalize_payload (frame_codec a.frame_header_) a.payload_buffer_ =
      some (spec_annexb_payload a.payload_buffer_) ∧
    a.built_payload = spec_annexb_payload a.payload_buffer_ ∧
    begins_with_start_code (spec_annexb_payload a.payload_buffer_) ∧
    ((a.createStdFrame now).pushed_frames = a.pushed_frames ∨
      ∃ pre f, (a.createStdFrame now).pushed_frames = a.pushed_frames ++ pre ++ [f] ∧
        f.payload = spec_annexb_payload a.payload_buffer_ ∧
        (f.h.codec = "H264" ∨ f.h.codec = "H265")) := by
  have hc : frame_codec a.frame_header_ = "H264" ∨ frame_codec a.frame_header_ = "H265" := by
    unfold frame_codec
    rw [if_pos htype]
    rcases hcodec with h | h
    · left; rw [if_pos h]
    · right
      rw [h]
      rfl
  have hnorm := normalize_payload_video (frame_codec a.frame_header_) a.payload_buffer_ hc hp
  have hbuilt : a.built_payload = spec_annexb_payload a.payload_buffer_ := by
    unfold built_payload
    rw [hnorm]
    rfl
  refine ⟨hnorm, hbuilt, ?_, ?_⟩
  · unfold spec_annexb_payload
    by_cases hs : begins_with_start_code a.payload_buffer_
    · rw [if_pos hs]
      exact hs
    · rw [if_neg hs]
      left
      rfl
  · obtain ⟨_, _, ccase⟩ := createStdFrame_frame_spec a now
    rcases ccase with ⟨hpf, _⟩ | ⟨pre, f, hpf, hpay, hcod, _⟩
    · exact Or.inl hpf
    · right
      refine ⟨pre, f, hpf, ?_, ?_⟩
      · rw [hpay, hbuilt]
      · rw [hcod]
        exact hc

set_option maxRecDepth 100000 in
/-- C30 (witness). An H.264 key-frame with the payload 65 01 02 03 on a freshly started
adapter with `hot_start` on: the frame handed downstream carries 00 00 00 01 65 01 02 03. -/
theorem video_payload_begins_with_start_code_witness :
    annexb_demo.frame_header_.type = 0 ∧ annexb_demo.payload_buffer_ = [0x65, 0x01, 0x02, 0x03] ∧
    ((annexb_demo.createStdFrame 0).pushed_frames.map fun f => f.payload) =
      [[0x00, 0x00, 0x00, 0x01, 0x65, 0x01, 0x02, 0x03]] ∧
    annexb_demo.built_payload = spec_annexb_payload annexb_demo.payload_buffer_ ∧
    begins_with_start_code (spec_annexb_payload annexb_demo.payload_buffer_) :=
  ⟨by decide, by decide, by decide,
    (video_payload_begins_with_start_code annexb_demo 0 (by decide) (Or.inl (by decide))
      (by decide)).2.1,
    (video_payload_begins_with_start_code annexb_demo 0 (by decide) (Or.inl (by decide))
      (by decide)).2.2.1⟩

end MyProtoAdapter

end SrsAdapter
namespace SrsAdapter

namespace MyProtoAdapter

/-- The codec name is empty exactly for a header whose codec byte is not a known one. -/
theorem frame_codec_eq_empty_iff (hd : MyProtoFrame) :
    frame_codec hd = "" ↔ ¬ codec_known hd := by
  unfold frame_codec codec_known
  by_cases ht : hd.type = 0
  · rw [if_pos ht, if_pos ht]
    by_cases h0 : hd.codec = 0
    · rw [if_pos h0]
      simp [h0]
    · rw [if_neg h0]
      by_cases h1 : hd.codec = 1
      · rw [if_pos h1]
        simp [h1]
      · rw [if_neg h1]
        simp [h0, h1]
  · rw [if_neg ht, if_neg ht]
    by_cases h2 : hd.codec = 2
    · rw [if_pos h2]
      simp [h2]
    · rw [if_neg h2]
      by_cases h3 : hd.codec = 3
      · rw [if_pos h3]
        simp [h3]
      · rw [if_neg h3]
        simp [h2, h3]

/-- The payload normalisation gives an empty payload for an empty payload buffer only. -/
theorem normalize_payload_eq_nil_iff (codec : String) (p : List Nat) :
    (normalize_payload codec p).getD [] = [] ↔ p = [] := by
  constructor
  · intro h
    by_contra hp
    have hne : p.isEmpty = false := by
      cases p with
      | nil => exact absurd rfl hp
      | cons x xs => rfl
    unfold normalize_payload at h
    rw [hne] at h
    simp only [Bool.false_eq_true, if_false] at h
    split_ifs at h
    all_goals simp only [Option.getD_some] at h
    all_goals first
      | exact hp h
      | (rw [List.drop_eq_nil_iff] at h; omega)
      | simp at h
  · intro h
    subst h
    rfl

/-- C31 (code defect). For every adapter state, the frame `createStdFrame` hands downstream
has an empty codec string exactly when the codec byte of the header is not a known one for
its type, and an empty payload exactly when the frame has no payload bytes; `is_valid` is
never consulted. From the wire: a key-frame with the codec byte 9, and a key-frame with the
length field 0, each followed by a further frame in the same `feed` call, are handed
downstream with an empty codec string and with an empty payload. -/
theorem pushed_frame_can_have_empty_codec_or_payload :
    (∀ (a : MyProtoAdapter) (now : Int),
      (a.createStdFrame now).pushed_frames = a.pushed_frames ∨
      ∃ pre f, (a.createStdFrame now).pushed_frames = a.pushed_frames ++ pre ++ [f] ∧
        (f.h.codec = "" ↔ ¬ codec_known a.frame_header_) ∧
        (f.payload = [] ↔ a.payload_buffer_ = [])) ∧
    pushed (feed 48 8 fresh_default (unknown_codec_bytes ++ concat_b_bytes) 0) =
      some [unknown_codec_frame] ∧
    unknown_codec_frame.h.codec = "" ∧ unknown_codec_frame.is_valid = false ∧
    pushed (feed 48 8 fresh_default (empty_payload_bytes ++ concat_b_bytes) 0) =
      some [empty_payload_frame] ∧
    empty_payload_frame.payload = [] ∧ empty_payload_frame.is_valid = false := by
  refine ⟨?_, by decide, by decide, by decide, by decide, by decide, by decide⟩
  intro a now
  obtain ⟨_, _, ccase⟩ := createStdFrame_frame_spec a now
  rcases ccase with ⟨hpf, _⟩ | ⟨pre, f, hpf, hpay, hcod, _⟩
  · exact Or.inl hpf
  · right
    refine ⟨pre, f, hpf, ?_, ?_⟩
    · rw [hcod]
      exact frame_codec_eq_empty_iff _
    · rw [hpay]
      exact normalize_payload_eq_nil_iff _ _

/-- C35 (code defect). In state Header, a `feed` call that leaves at least one byte and
fewer than `sizeof(MyProtoFrame)` bytes in the input buffer does not return: `parseHeader`
returns success without consuming a byte, so the loop `while (left() > 0)` runs for ever. -/
theorem feed_does_not_return_on_partial_header (sizeof_frame : Nat) (a : MyProtoAdapter)
    (data : List Nat) (now_ms : Int) (hs : a.state_ = .STATE_HEADER)
    (h0 : 0 < (a.input_buffer_ ++ data).length)
    (h1 : (a.input_buffer_ ++ data).length < sizeof_frame) :
    ∀ fuel, feed sizeof_frame fuel a data now_ms = none :=
  feed_starved sizeof_frame a data now_ms hs h0 h1

/-- C35 (witness). A freshly started adapter given the 35 wire bytes of a complete header,
with `sizeof(MyProtoFrame) = 48`: the call does not return. -/
theorem feed_does_not_return_on_partial_header_witness :
    fresh_default.state_ = .STATE_HEADER ∧
    0 < (fresh_default.input_buffer_ ++ empty_payload_bytes).length ∧
    (fresh_default.input_buffer_ ++ empty_payload_bytes).length < 48 ∧
    ∀ fuel, feed 48 fuel fresh_default empty_payload_bytes 0 = none :=
  ⟨by decide, by decide, by decide,
    feed_does_not_return_on_partial_header 48 fresh_default empty_payload_bytes 0 (by decide)
      (by decide) (by decide)⟩

set_option maxRecDepth 100000 in
/-- C38 (code defect). A `feed` call that returns a decode error removes nothing from the
input buffer. Frame A followed by a header with a wrong magic, given to a freshly started
adapter: the call hands the frame of A downstream and returns the error, and the next
`feed` call (with no new bytes) parses the bytes of A again and hands the frame of A
downstream a second time. -/
theorem emitted_frame_is_parsed_again_after_error :
    (∀ (sizeof_frame fuel : Nat) (a : MyProtoAdapter) (data : List Nat) (now_ms : Int)
        (e : SrsError) (a1 : MyProtoAdapter),
      feed sizeof_frame fuel a data now_ms = some (some e, a1) →
      a1.input_buffer_ = a.input_buffer_ ++ data) ∧
    (feed 48 8 fresh_default (concat_a_bytes ++ bad_magic_bytes) 0).map
        (fun r => (r.1, r.2.pushed_frames, r.2.input_buffer_)) =
      some (some .invalidMagic, [concat_a_frame], concat_a_bytes ++ bad_magic_bytes) ∧
    (feed_twice 48 8 fresh_default (concat_a_bytes ++ bad_magic_bytes) [] 0).map
        (fun r => (r.1, r.2.pushed_frames)) =
      some (some .invalidMagic, [concat_a_frame, concat_a_frame]) := by
  refine ⟨?_, by decide, by decide⟩
  intro sizeof_frame fuel a data now_ms e a1 h
  exact (feed_error sizeof_frame fuel a data now_ms e a1 h).1

set_option maxRecDepth 100000 in
/-- C38 (witness). The error return of the first call of the scenario leaves the 96 bytes
in the input buffer. -/
theorem emitted_frame_is_parsed_again_after_error_witness :
    (feed 48 8 fresh_default (concat_a_bytes ++ bad_magic_bytes) 0).map
        (fun r => r.2.input_buffer_) =
      some (fresh_default.input_buffer_ ++ (concat_a_bytes ++ bad_magic_bytes)) := by
  have h1 : ((feed 48 8 fresh_default (concat_a_bytes ++ bad_magic_bytes) 0).map
      fun r => r.1) = some (some .invalidMagic) := by decide
  cases h : feed 48 8 fresh_default (concat_a_bytes ++ bad_magic_bytes) 0 with
  | none =>
    rw [h] at h1
    cases h1
  | some r =>
    obtain ⟨e, a1⟩ := r
    rw [h] at h1
    simp only [Option.map_some', Option.some.injEq] at h1
    subst h1
    have := emitted_frame_is_parsed_again_after_error.1 48 8 fresh_default
      (concat_a_bytes ++ bad_magic_bytes) 0 _ a1 h
    simp only [Option.map_some', this]

/-- The scan of `processParameterSets` leaves the record `oob_read` alone. -/
theorem scan_parameter_set_at_oob (data : List Nat) (a : MyProtoAdapter) (i : Nat) :
    (scan_parameter_set_at data a i).oob_read = a.oob_read := by
  unfold scan_parameter_set_at
  simp only []
  split_ifs <;> rfl

theorem scan_fold_oob (data : List Nat) (l : List Nat) :
    ∀ a : MyProtoAdapter, (l.foldl (scan_parameter_set_at data) a).oob_read = a.oob_read := by
  induction l with
  | nil => intro a; rfl
  | cons i rest ih =>
    intro a
    rw [List.foldl_cons, ih, scan_parameter_set_at_oob]

/-- The normalised payload of an H.264 frame is shorter than 4 bytes for the wire payload
`00 00 01` alone. -/
theorem annexb_payload_short_iff (p : List Nat) (hp : p ≠ []) :
    (spec_annexb_payload p).length < 4 ↔ p = [0x00, 0x00, 0x01] := by
  unfold spec_annexb_payload begins_with_start_code
  rcases p with _ | ⟨a, _ | ⟨b, _ | ⟨c, _ | ⟨d, rest⟩⟩⟩⟩
  · exact absurd rfl hp
  · simp
  · simp
  · by_cases h : a = 0 ∧ b = 0 ∧ c = 1
    · obtain ⟨rfl, rfl, rfl⟩ := h
      simp
    · have h2 : ¬ [a, b, c] = [0, 0, 1] := by
        intro hc
        simp only [List.cons.injEq, and_true] at hc
        exact h hc
      simp [h2]
  · simp
    split_ifs <;> simp

/-- C39 (code defect). For every H.264 key-frame with a non-empty wire payload `P`,
`processParameterSets` on the normalised payload reads past its end exactly when `P` is the
three bytes `00 00 01`: the payload then keeps its 3 bytes and the unsigned bound
`size - 4` wraps. For every other `P` the normalised payload has at least 4 bytes and every
position the scan reads lies inside it. The frame `00 00 01` is evaluated through
`createStdFrame` and from the wire through `feed`. -/
theorem processParameterSets_reads_past_short_payload (a : MyProtoAdapter) (frame : StdFrame)
    (P : List Nat) (hk : frame.h.keyframe = true) (hc : frame.h.codec = "H264") (hP : P ≠ [])
    (hpay : frame.payload = (normalize_payload frame.h.codec P).getD []) :
    frame.payload = spec_annexb_payload P ∧
    ((a.processParameterSets frame).oob_read = true ↔
      a.oob_read = true ∨ P = [0x00, 0x00, 0x01]) ∧
    (P ≠ [0x00, 0x00, 0x01] → 4 ≤ frame.payload.length ∧
      ∀ p ∈ scan_positions frame.payload.length, p < frame.payload.length) ∧
    (short_start_code_demo.createStdFrame 0).oob_read = true ∧
    (feed 48 8 fresh_default (short_start_code_bytes ++ concat_b_bytes) 0).map
      (fun r => r.2.oob_read) = some true := by
  have hnorm : frame.payload = spec_annexb_payload P := by
    rw [hpay, hc, normalize_payload_video "H264" P (Or.inl rfl) hP]
    rfl
  have hne : frame.payload ≠ [] := by
    rw [hnorm]
    unfold spec_annexb_payload
    split_ifs
    · exact hP
    · simp
  have hshort := annexb_payload_short_iff P hP
  rw [← hnorm] at hshort
  refine ⟨hnorm, ?_, ?_, by decide, by decide⟩
  · unfold processParameterSets
    have h1 : ¬ (¬ frame.h.keyframe = true ∨ frame.payload.isEmpty = true) := by
      rintro (h | h)
      · exact h hk
      · exact hne (List.isEmpty_iff.mp h)
    rw [if_neg h1, if_pos hc]
    simp only []
    by_cases hlt : frame.payload.length < 4
    · rw [if_pos hlt]
      simp [hshort.mp hlt]
    · rw [if_neg hlt, scan_fold_oob]
      constructor
      · intro h
        exact Or.inl h
      · rintro (h | h)
        · exact h
        · exact absurd (hshort.mpr h) hlt
  · intro hne3
    have hge : 4 ≤ frame.payload.length := by
      by_contra hc2
      exact hne3 (hshort.mp (by omega))
    refine ⟨hge, ?_⟩
    intro p hp
    unfold scan_positions at hp
    rw [List.mem_flatMap] at hp
    obtain ⟨i, hi, hpi⟩ := hp
    have hi2 := List.mem_range.mp hi
    simp only [List.mem_cons, List.mem_singleton, List.not_mem_nil, or_false] at hpi
    omega

set_option maxRecDepth 100000 in
/-- C39 (witness). The key-frame with the wire payload `00 00 01`. -/
theorem processParameterSets_reads_past_short_payload_witness :
    (fresh_default.processParameterSets
      { h := { StdFrame.new.h with codec := "H264", keyframe := true },
        payload := [0x00, 0x00, 0x01] }).oob_read = true :=
  ((processParameterSets_reads_past_short_payload fresh_default
    { h := { StdFrame.new.h with codec := "H264", keyframe := true },
      payload := [0x00, 0x00, 0x01] }
    [0x00, 0x00, 0x01] rfl rfl (by decide) (by decide)).2.1).mpr (Or.inr rfl)

end MyProtoAdapter

end SrsAdapter

namespace SrsAdapter

namespace JitterBuffer

/-- The elements of the queue after `pq_push`. -/
theorem mem_pq_push (w x : FrameWrapper) (l : List FrameWrapper) :
    x ∈ pq_push w l ↔ x = w ∨ x ∈ l := by
  induction l with
  | nil => simp [pq_push]
  | cons y ys ih =>
    unfold pq_push
    split_ifs
    · simp
    · simp only [List.mem_cons, ih]
      tauto

/-- The call `pq_push` keeps the queue in ascending `dts_ms` order. -/
theorem pq_push_sorted (w : FrameWrapper) (l : List FrameWrapper)
    (h : l.Pairwise (fun a b => a.frame.h.dts_ms ≤ b.frame.h.dts_ms)) :
    (pq_push w l).Pairwise (fun a b => a.frame.h.dts_ms ≤ b.frame.h.dts_ms) := by
  induction l with
  | nil => simp [pq_push]
  | cons y ys ih =>
    unfold pq_push
    rw [List.pairwise_cons] at h
    split_ifs with hlt
    · rw [List.pairwise_cons]
      refine ⟨?_, List.pairwise_cons.mpr h⟩
      intro b hb
      rcases List.mem_cons.mp hb with rfl | hb
      · omega
      · have := h.1 b hb
        omega
    · rw [List.pairwise_cons]
      refine ⟨?_, ih h.2⟩
      intro b hb
      rcases (mem_pq_push w b ys).mp hb with rfl | hb
      · omega
      · exact h.1 b hb

/-- What `push` does to the members other than the counters: the queue either stays or
gains the frame, and with `drop_late_frames` it gains only a frame that is not late. -/
theorem push_cases (j : JitterBuffer) (frame : StdFrame) (t : Int) :
    (j.push frame t).2.config_ = j.config_ ∧
    (j.push frame t).2.last_output_dts_ = j.last_output_dts_ ∧
    ((j.push frame t).2.buffer_ = j.buffer_ ∨
      ((j.push frame t).2.buffer_ =
          pq_push { frame := frame, receive_time_ms := t, is_duplicate := false } j.buffer_ ∧
        (j.config_.drop_late_frames = true → j.is_frame_late frame.h.dts_ms = false))) := by
  unfold push update_jitter_stats
  simp only []
  split_ifs <;> simp_all [is_frame_late]

/-- What a successful `pop` does: it takes the head of the queue. -/
theorem pop_ok (j : JitterBuffer) (f : StdFrame) (j1 : JitterBuffer)
    (h : j.pop = (.ok f, j1)) :
    ∃ w rest, j.buffer_ = w :: rest ∧ f = w.frame ∧ j1.buffer_ = rest ∧
      j1.last_output_dts_ = w.frame.h.dts_ms ∧ j1.config_ = j.config_ := by
  unfold pop at h
  cases hb : j.buffer_ with
  | nil =>
    rw [hb] at h
    split_ifs at h <;> simp_all
  | cons w rest =>
    rw [hb] at h
    split_ifs at h
    · simp at h
    · simp at h
    · simp only [Prod.mk.injEq, Except.ok.injEq] at h
      obtain ⟨h1, h2⟩ := h
      subst h2
      exact ⟨w, rest, rfl, h1.symm, rfl, rfl, rfl⟩

/-- A failing `pop` leaves the state as it was. -/
theorem pop_error (j : JitterBuffer) (e : JitterError) (j1 : JitterBuffer)
    (h : j.pop = (.error e, j1)) : j1 = j := by
  unfold pop at h
  cases hb : j.buffer_ with
  | nil =>
    rw [hb] at h
    split_ifs at h <;> simp_all
  | cons w rest =>
    rw [hb] at h
    split_ifs at h <;> simp_all

/-- The queue of every run is in ascending `dts_ms` order. -/
theorem run_sorted (j : JitterBuffer) (ops : List Op)
    (h : j.buffer_.Pairwise (fun a b => a.frame.h.dts_ms ≤ b.frame.h.dts_ms)) :
    (run j ops).1.buffer_.Pairwise (fun a b => a.frame.h.dts_ms ≤ b.frame.h.dts_ms) := by
  unfold run
  suffices hgen : ∀ (ops : List Op) (s : JitterBuffer × List StdFrame),
      s.1.buffer_.Pairwise (fun a b => a.frame.h.dts_ms ≤ b.frame.h.dts_ms) →
      (ops.foldl step s).1.buffer_.Pairwise
        (fun a b => a.frame.h.dts_ms ≤ b.frame.h.dts_ms) from hgen ops (j, []) h
  intro ops
  induction ops with
  | nil => intro s hs; exact hs
  | cons op ops ih =>
    intro s hs
    rw [List.foldl_cons]
    apply ih
    cases op with
    | push frame t =>
      simp only [step]
      rcases (push_cases s.1 frame t).2.2 with hb | ⟨hb, _⟩
      · rw [hb]; exact hs
      · rw [hb]; exact pq_push_sorted _ _ hs
    | pop =>
      simp only [step]
      cases hp : s.1.pop with
      | mk r j1 =>
        cases r with
        | error e =>
          simp only []
          rw [pop_error s.1 e j1 hp]; exact hs
        | ok f =>
          simp only []
          obtain ⟨w, rest, hb, _, hb1, _, _⟩ := pop_ok s.1 f j1 hp
          rw [hb] at hs
          rw [hb1]
          exact (List.pairwise_cons.mp hs).2

/-- C17 (code defect). The method `is_frame_late` takes `last_output_dts_ == 0` for "no
frame popped yet" (its comment: the first frame is not late), so once a frame with
`dts_ms = 0` has been popped no later push is tested for lateness. With the default
configuration: push a frame with `dts_ms = 0`, pop it, push a frame with `dts_ms = -5`,
pop it. After the first pop `last_output_dts_` is 0, the frame -5 is not late, it is
queued and not counted, and the two pops deliver the `dts_ms` 0 and then -5. -/
theorem pops_decrease_after_popping_dts_zero :
    (run (JitterBuffer.new JitterBufferConfig.default) (negative_demo.take 2)).2 =
      [frame_at 0] ∧
    (run (JitterBuffer.new JitterBufferConfig.default) (negative_demo.take 2)).1.last_output_dts_ =
      0 ∧
    (run (JitterBuffer.new JitterBufferConfig.default) (negative_demo.take 2)).1.is_frame_late
      (-5) = false ∧
    ((run (JitterBuffer.new JitterBufferConfig.default) (negative_demo.take 3)).1.buffer_.map
      fun w => w.frame.h.dts_ms) = [-5] ∧
    (run (JitterBuffer.new JitterBufferConfig.default) (negative_demo.take 3)).1.stats_.late_frames =
      0 ∧
    ((run (JitterBuffer.new JitterBufferConfig.default) negative_demo).2.map
      fun f => f.h.dts_ms) = [0, -5] := by decide

/-- C18. The method `is_frame_late` holds exactly when `last_output_dts_` is not 0 and
`dts_ms < last_output_dts_ + max_delay_ms`. With the default configuration, after the
frame with `dts_ms = 1000` has been popped, the push of the frame with `dts_ms = 1033`
(newer than the last popped one) is counted as late and the frame is dropped. -/
theorem push_counts_newer_frame_as_late :
    (∀ (j : JitterBuffer) (dts_ms : Int),
      j.is_frame_late dts_ms = true ↔
        (j.last_output_dts_ ≠ 0 ∧ dts_ms < j.last_output_dts_ + j.config_.max_delay_ms)) ∧
    (run (JitterBuffer.new JitterBufferConfig.default) (newer_frame_demo.take 2)).2 =
      [frame_at 1000] ∧
    (run (JitterBuffer.new JitterBufferConfig.default) (newer_frame_demo.take 2)).1.last_output_dts_ =
      1000 ∧
    (run (JitterBuffer.new JitterBufferConfig.default) newer_frame_demo).1.stats_.late_frames = 1 ∧
    (run (JitterBuffer.new JitterBufferConfig.default) newer_frame_demo).1.stats_.dropped_frames = 1 ∧
    (run (JitterBuffer.new JitterBufferConfig.default) newer_frame_demo).1.buffer_ = [] := by
  refine ⟨?_, by decide, by decide, by decide, by decide, by decide⟩
  intro j dts_ms
  unfold is_frame_late
  by_cases h0 : j.last_output_dts_ = 0
  · simp [h0]
  · simp [h0]

end JitterBuffer

end SrsAdapter
